import Mathlib

/-!
# Echo state network: recurrence, trial partition and ridge regression

A shallow embedding of `src/src/esn.cpp` (`ESN::Run`, `ESN::setOutputWeights`, the
constructors, `ESN::init`, `ESN::saveESN`, `ESN::loadESN` and
`ESN::generateReservoirConnections`), `src/src/esn_train.cpp` (`ESNPrediction`),
`src/src/network.cpp` (`Network`), `src/src/mackey.cpp` (`mackey`) and the matrix inverse of
`src/thd/inv` (`rmatrixlu`, `rmatrixtrinverse`, `rmatrixluinverse`, `rmatrixinverse`), with
the properties of the specification proved about it.

Modelling conventions.

* `WEIGHT_TYPE` (C `float`) and the `double` entries of `ap::real_2d_array` are modelled by
  one arbitrary linearly ordered commutative ring (a field where the code divides or uses
  the constant `0.2`): arithmetic is exact, rounding is outside the model.
* A C array reached through a pointer is a total function `Nat → α`; a store is
  `Function.update`.  The buffers of a trial are separate objects (no aliasing).  In
  `ESN.Run` the assertions at the head of `ESN::Run` (non-null trial and buffers) hold by
  construction; `ESNObj.Run` is the same function on objects whose pointer members can be
  null (`Ptr`), and agrees with `ESN.Run` when they are not (`ESNObj.Run_ofESN`).
* C `int` sizes and indices are natural numbers (the loops of the source run from 0 upwards
  and never execute for a non-positive bound).
* A `for (i = 0; i < n; ++i)` loop is `forLoop n body`, which runs `body 0`, ..., `body (n-1)`
  in that order on an explicit state.
* `rand()` is an explicit stream of draws `Nat → Nat`, consumed in call order.
* A member or array the code reads without having written it is a parameter (`mem`, `wmem`,
  `amem`, `InvMem`, ...); library routines that are not under `src/` are parameters too
  (`Lib`, `Libm`).  `RidgeRegression` takes its inverse collaborator as a parameter, which
  can be any routine or `rmatrixinverse mem`, the embedding of the routine of
  `src/thd/inv`.  The vector helpers of `ap.h` that the routines of `src/thd/inv` call
  (`vlen`, `vmove`, `vsub`, `vmul`, `vdotproduct`, `getcolumn`, `getvector`) are not under
  `src/`; they are modelled in the namespace `ap` by what the code uses them for.
* A `while` loop that need not end is followed for a number of passes (`fuel`); its state
  after them says whether the function has returned (`Generation`).
-/

/-- The loop `for (i = 0; i < n; ++i) s = body i s`. -/
def forLoop {σ : Type} (n : Nat) (body : Nat → σ → σ) (s : σ) : σ :=
  match n with
  | 0 => s
  | k + 1 => body k (forLoop k body s)

/-- The enumeration `SimulationType` of `esn.h`. -/
inductive SimulationType where
  | OFFLINE_SEPARATE_INPUT
  | OFFLINE_SIMULTANEOUS_INPUT
  | ONLINE
  | TEACHER_FORCING
  | TEACHER_TESTING
  | PREDICTION
  deriving DecidableEq, Repr

/-- The struct `Trial` of `esn.h`. -/
structure Trial (α : Type) where
  /-- reservoir states over time, element `t * reservoirSize + n` -/
  neuronVal : Nat → α
  /-- the inputs to the reservoir -/
  inputVal : Nat → α
  /-- the number of neurons in the reservoir -/
  stateSize : Nat
  /-- the number of samples over time -/
  sampleSize : Nat
  /-- the class id -/
  classId : Int
  /-- output values or teacher values -/
  outputVal : Nat → α
  /-- number of teacher values before the network predicts on itself -/
  teacherTestSize : Nat
  /-- the number of input neurons -/
  inputSize : Nat
  /-- debug values -/
  debug : Nat → α

/-- The data members of class `ESN` that `Run` and `setOutputWeights` use.  The members
`resActFunc` and `outActFunc` are the member-function pointers of the class. -/
structure ESN (α : Type) where
  d_inputSize : Nat
  d_outputSize : Nat
  d_reservoirSize : Nat
  d_fbConnectivity : α
  d_inputWeights : Nat → α
  d_outputWeights : Nat → α
  d_feedbackWeights : Nat → α
  d_reservoirWeights : Nat → α
  d_thresholds : Nat → α
  d_timeConstant : α
  d_decayRate : α
  resActFunc : α → α
  outActFunc : α → α

namespace ESN

variable {α : Type} [LinearOrderedCommRing α]

/-- Lines 451-453 of `ESN::Run`: the contribution of the input neurons, `W_in u(t)`. -/
def input2ResVal (net : ESN α) (input : Nat → α) (inputSize t n : Nat) : α :=
  forLoop inputSize
    (fun inputNr acc => acc + input (t * inputSize + inputNr) * net.d_inputWeights (n * inputSize + inputNr))
    0

/-- Lines 456-459 of `ESN::Run`: the contribution of the reservoir neurons, `W x(t-1)`. -/
def res2ResVal (net : ESN α) (states : Nat → α) (t n : Nat) : α :=
  forLoop net.d_reservoirSize
    (fun innerResNr acc =>
      if 0 < t then
        acc + states ((t - 1) * net.d_reservoirSize + innerResNr)
          * net.d_reservoirWeights (n * net.d_reservoirSize + innerResNr)
      else acc)
    0

/-- Lines 462-466 of `ESN::Run`: the contribution of the output neurons, `W_back y(t-1)`. -/
def fb2ResVal (net : ESN α) (output : Nat → α) (t n : Nat) : α :=
  if 0 < net.d_fbConnectivity then
    forLoop net.d_outputSize
      (fun outputNNr acc =>
        if 0 < t then
          acc + output ((t - 1) * net.d_outputSize + outputNNr)
            * net.d_feedbackWeights (n * net.d_outputSize + outputNNr)
        else acc)
      0
  else 0

/-- Lines 474-477 of `ESN::Run` (`DEFAULT_LEFTOVER` is defined): the leak term. -/
def leftOver (net : ESN α) (states : Nat → α) (t n : Nat) : α :=
  if 0 < t then (1 - net.d_timeConstant * net.d_decayRate) * states ((t - 1) * net.d_reservoirSize + n)
  else 0

/-- Lines 478-484 of `ESN::Run` (`ADD_NOISE` is not defined, so `noise` is 0). -/
def total_input (net : ESN α) (input states output : Nat → α) (inputSize t n : Nat) : α :=
  let noise : α := 0
  net.resActFunc
    (input2ResVal net input inputSize t n + res2ResVal net states t n * net.d_timeConstant
      + fb2ResVal net output t n - net.d_thresholds n + noise)

/-- The body of the neuron loop of `ESN::Run` (lines 445-491) for neuron `n` at time `t`. -/
def neuronStep (net : ESN α) (inputSize t n : Nat) (tr : Trial α) : Trial α :=
  let lo := leftOver net tr.neuronVal t n
  let ti := total_input net tr.inputVal tr.neuronVal tr.outputVal inputSize t n
  { tr with
    debug := Function.update tr.debug (t * net.d_reservoirSize + n) ti
    neuronVal := Function.update tr.neuronVal (t * net.d_reservoirSize + n) (lo + ti) }

/-- Lines 494-496 of `ESN::Run`: whether the outputs are computed at time `t`. -/
def setOutput (net : ESN α) (simType : SimulationType) (teacherTestSize t : Nat) : Bool :=
  let s0 : Bool := decide (0 < net.d_fbConnectivity)
  let s1 : Bool := if simType = SimulationType.TEACHER_FORCING then false else s0
  if simType = SimulationType.TEACHER_TESTING ∧ t < teacherTestSize then false else s1

/-- Lines 499-510 of `ESN::Run`: the value stored for output neuron `outputNNr` at time `t`. -/
def outputValue (net : ESN α) (input states : Nat → α) (inputSize t outputNNr : Nat) : α :=
  let res2outputVal : α :=
    forLoop net.d_reservoirSize
      (fun resNNr acc =>
        acc + states (t * net.d_reservoirSize + resNNr)
          * net.d_outputWeights (outputNNr * (net.d_reservoirSize + net.d_inputSize) + resNNr))
      0
  let input2outputVal : α :=
    forLoop net.d_inputSize
      (fun inputNNr acc =>
        acc + input (t * inputSize + inputNNr)
          * net.d_outputWeights
              (outputNNr * (net.d_reservoirSize + net.d_inputSize) + net.d_reservoirSize + inputNNr))
      0
  net.outActFunc (res2outputVal + input2outputVal)

/-- The body of the output loop of `ESN::Run` (lines 498-512). -/
def outputStep (net : ESN α) (inputSize t outputNNr : Nat) (tr : Trial α) : Trial α :=
  { tr with
    outputVal := Function.update tr.outputVal (t * net.d_outputSize + outputNNr)
      (outputValue net tr.inputVal tr.neuronVal inputSize t outputNNr) }

/-- The neuron loop of one time step (lines 445-491). -/
def neuronLoop (net : ESN α) (inputSize reservoirSize t : Nat) (tr : Trial α) : Trial α :=
  forLoop reservoirSize (neuronStep net inputSize t) tr

/-- The body of the time loop of `ESN::Run` (lines 442-515). -/
def timeStep (net : ESN α) (simType : SimulationType) (inputSize reservoirSize t : Nat)
    (tr : Trial α) : Trial α :=
  let tr1 := neuronLoop net inputSize reservoirSize t tr
  if setOutput net simType tr1.teacherTestSize t then
    forLoop net.d_outputSize (outputStep net inputSize t) tr1
  else tr1

/-- The first `k` iterations of the time loop of `ESN::Run`, with the locals `inputSize` and
`reservoirSize` read from the trial before the loop. -/
def runUpTo (net : ESN α) (trial : Trial α) (simType : SimulationType) (k : Nat) : Trial α :=
  forLoop k (timeStep net simType trial.inputSize trial.stateSize) trial

/-- The function `ESN::Run`: the trial after the call. -/
def Run (net : ESN α) (trial : Trial α) (simType : SimulationType) : Trial α :=
  let timespan := trial.sampleSize
  runUpTo net trial simType timespan

end ESN

/-- Two trials agree on everything `ESN::Run` only reads: the input sequence and the scalar
fields. -/
def Trial.sameFrame {α : Type} (a b : Trial α) : Prop :=
  a.inputVal = b.inputVal ∧ a.stateSize = b.stateSize ∧ a.sampleSize = b.sampleSize
    ∧ a.classId = b.classId ∧ a.teacherTestSize = b.teacherTestSize ∧ a.inputSize = b.inputSize

/-- The loop `for (i = 0; i < v.size(); i++) s = body v[i] s` over a vector `v`. -/
def forEach {β σ : Type} (v : List β) (body : β → σ → σ) (s : σ) : σ :=
  forLoop v.length
    (fun i st =>
      match v[i]? with
      | some x => body x st
      | none => st)
    s

/-- The loop `for (i = a; i < b; ++i) s = body i s`. -/
def forRange {σ : Type} (a b : Nat) (body : Nat → σ → σ) (s : σ) : σ :=
  forLoop (b - a) (fun d => body (a + d)) s

/-- The class `ap::real_2d_array` (declared in `ap.h`, which is not under `src/`), as far as
`esn_train.cpp` uses it: a matrix with row indices `0 .. rows-1` and column indices
`0 .. cols-1`, read and written with `operator()(i, j)`. -/
structure real_2d_array (α : Type) where
  /-- `gethighbound(1) - getlowbound(1) + 1` -/
  rows : Nat
  /-- `gethighbound(2) - getlowbound(2) + 1` -/
  cols : Nat
  /-- the element read by `operator()(i, j)` -/
  elem : Nat → Nat → α

namespace real_2d_array

variable {α : Type}

/-- The call `a.setlength(m, n)`: a fresh `m` by `n` array whose elements are whatever the
allocated memory `mem` holds. -/
def setlength (mem : Nat → Nat → α) (m n : Nat) : real_2d_array α :=
  { rows := m, cols := n, elem := mem }

/-- The assignment `a(i, j) = v`. -/
def write (a : real_2d_array α) (i j : Nat) (v : α) : real_2d_array α :=
  { a with elem := fun r c => if r = i ∧ c = j then v else a.elem r c }

end real_2d_array

/-- Modelled from the spec: the library routine `matrixmatrixmultiply` of the `ap` matrix
library (declared in `blas.h`, not under `src/`), called through the size-argument wrapper of
`esn_train.cpp` (lines 234-257).  The spec uses it as `AtA = AᵗA`, `AtB = AᵗB` and
`W = AtA_inv · AtB`: the `cx` by `cy` block of `c` becomes
`alpha * op(a) * op(b) + beta * c`, where `op` transposes when the flag is set and `a`, `b`
have `ax` by `ay` and `bx` by `bylen` elements.  When the inner dimensions of the product
differ, the wrapper catches the error of the library and returns with `c` unchanged. -/
def matrixmatrixmultiply {α : Type} [CommRing α] (a : real_2d_array α) (ax ay : Nat)
    (transa : Bool) (b : real_2d_array α) (bx bylen : Nat) (transb : Bool) (alpha : α)
    (c : real_2d_array α) (cx cy : Nat) (beta : α) : real_2d_array α :=
  let opa : Nat → Nat → α := fun i k => if transa then a.elem k i else a.elem i k
  let opb : Nat → Nat → α := fun k j => if transb then b.elem j k else b.elem k j
  let acols : Nat := if transa then ax else ay
  let brows : Nat := if transb then bylen else bx
  if acols = brows then
    { c with
      elem := fun i j =>
        if i < cx ∧ j < cy then
          alpha * (∑ k ∈ Finset.range acols, opa i k * opb k j) + beta * c.elem i j
        else c.elem i j }
  else c

/-- The array `R` holds the inverse of the `n` by `n` matrix held by `M`:
`R * M = M * R = 1`. -/
def real_2d_array.IsInverseOf {α : Type} [CommRing α] (n : Nat) (R M : real_2d_array α) : Prop :=
  (∀ i, i < n → ∀ j, j < n →
      ∑ k ∈ Finset.range n, R.elem i k * M.elem k j = if i = j then 1 else 0)
  ∧ (∀ i, i < n → ∀ j, j < n →
      ∑ k ∈ Finset.range n, M.elem i k * R.elem k j = if i = j then 1 else 0)

namespace ESN

variable {α : Type} [LinearOrderedCommRing α]

/-- The function `ESN::setOutputWeights` (esn.cpp lines 579-585); `none` is the failed
assertion `nof_output_weights == len`. -/
def setOutputWeights (net : ESN α) (weights : Nat → α) (len : Nat) : Option (ESN α) :=
  let nof_output_weights := net.d_outputSize * net.d_reservoirSize + net.d_outputSize * net.d_inputSize
  if nof_output_weights = len then
    some { net with
      d_outputWeights :=
        forLoop nof_output_weights (fun i w => Function.update w i (weights i)) net.d_outputWeights }
  else none

end ESN

/-- The data members of class `ESNPrediction` (esn_train.h).  A `Trial*` of the vector
`all_trials` is the position of the trial in the list; `set` is `none` for the null pointer. -/
structure ESNPrediction (α : Type) where
  esn : ESN α
  all_trials : List (Trial α)
  set : Option (Nat → Int)

namespace ESNPrediction

variable {α : Type} [LinearOrderedCommRing α]

/-- The function `ESNPrediction::AddTrial` (esn_train.cpp lines 84-96); `neuronMem` and
`debugMem` are the contents of the two freshly allocated buffers. -/
def AddTrial (p : ESNPrediction α) (neuronMem debugMem : Nat → α) (input output : Nat → α)
    (len : Nat) (id : Int) : ESNPrediction α :=
  let t : Trial α :=
    { stateSize := p.esn.d_reservoirSize
      neuronVal := neuronMem
      classId := id
      inputVal := input
      inputSize := 1
      sampleSize := len
      outputVal := output
      teacherTestSize := len / 5
      debug := debugMem }
  { p with all_trials := p.all_trials ++ [t] }

/-- The draw loop of `ESNPrediction::InitSets` (lines 112-120) on the pair `(set, hit)`;
`rand i` is the value of the `i`-th call of `rand()`. -/
def drawLoop (rand : Nat → Nat) (n : Nat) (s : (Nat → Int) × Bool) : (Nat → Int) × Bool :=
  forLoop n
    (fun i st =>
      let r := rand i % 100
      if r < 20 then (Function.update st.1 i 1, true) else st)
    s

/-- The function `ESNPrediction::InitSets` (esn_train.cpp lines 102-135). -/
def InitSets (p : ESNPrediction α) (rand : Nat → Nat) : ESNPrediction α :=
  let n := p.all_trials.length
  if n ≤ 1 then { p with set := none }
  else
    let s := drawLoop rand n (fun _ => 0, false)
    let set1 : Nat → Int := if !s.2 then Function.update s.1 (rand n % n) 1 else s.1
    { p with set := some set1 }

/-- The selection loop shared by `GetTrainingSet` and `GetTestSet`: the positions `i` of
`all_trials` with `set[i] == v`, in order. -/
def selectLoop (set : Nat → Int) (v : Int) (n : Nat) : List Nat :=
  forLoop n (fun i acc => if set i = v then acc ++ [i] else acc) []

/-- The function `ESNPrediction::GetTrainingSet` (lines 137-146): the pointers pushed to the
returned vector; `none` when the loop dereferences a null `set`. -/
def GetTrainingSet (p : ESNPrediction α) : Option (List Nat) :=
  match p.set with
  | some set => some (selectLoop set 0 p.all_trials.length)
  | none => if p.all_trials.length = 0 then some [] else none

/-- The function `ESNPrediction::GetTestSet` (lines 148-157): the pointers pushed to the
returned vector; `none` when the loop dereferences a null `set`. -/
def GetTestSet (p : ESNPrediction α) : Option (List Nat) :=
  match p.set with
  | some set => some (selectLoop set 1 p.all_trials.length)
  | none => if p.all_trials.length = 0 then some [] else none

/-- The function `ESNPrediction::RunTest(int, float*, float*)` (lines 189-202): the predictor
with the test trial run, and the caller's buffers `input` and `result` after the call;
`none` when the index does not select a trial of the test set.  The block guarded by
`test_teacher_forcing = false` is never executed. -/
def RunTest (p : ESNPrediction α) (index : Nat) (input result : Nat → α) :
    Option (ESNPrediction α × (Nat → α) × (Nat → α)) :=
  match GetTestSet p with
  | none => none
  | some testSet =>
    match testSet[index]? with
    | none => none
    | some ptr =>
      match p.all_trials[ptr]? with
      | none => none
      | some trial =>
        let len := trial.sampleSize
        let input1 := forLoop len (fun i buf => Function.update buf i (trial.outputVal i)) input
        let trial1 := ESN.Run p.esn trial SimulationType.TEACHER_TESTING
        let result1 := forLoop len (fun i buf => Function.update buf i (trial1.outputVal i)) result
        some ({ p with all_trials := p.all_trials.set ptr trial1 }, input1, result1)

end ESNPrediction

namespace ESNPrediction

variable {α : Type} [LinearOrderedField α]

/-- Lines 302-309 of `RidgeRegression`: row `i` of `A` receives the reservoir state of
`trial` at time `t` followed by its input at time `t`. -/
def writeRowA (esn : ESN α) (trial : Trial α) (t i : Nat) (A : real_2d_array α) :
    real_2d_array α :=
  let A1 :=
    forLoop esn.d_reservoirSize
      (fun n A => A.write i n (trial.neuronVal (t * esn.d_reservoirSize + n))) A
  forLoop esn.d_inputSize
    (fun n A => A.write i (n + esn.d_reservoirSize) (trial.inputVal (t * esn.d_inputSize + n))) A1

/-- Lines 301-310 of `RidgeRegression`: the body of the loops that fill `A`, for the trial
with index `tr` and the sample `t`. -/
def designStep (esn : ESN α) (trials : List (Trial α)) (trial_len skip_samples tr t : Nat)
    (A : real_2d_array α) : real_2d_array α :=
  let i := tr * (trial_len - skip_samples) + t - skip_samples
  match trials[tr]? with
  | some trial => writeRowA esn trial t i A
  | none => A

/-- Lines 298-312 of `RidgeRegression`: the design matrix `A`, allocated in memory `mem`. -/
def designA (esn : ESN α) (mem : Nat → Nat → α) (trials : List (Trial α))
    (trial_len skip_samples : Nat) : real_2d_array α :=
  let nof_trials := trials.length
  let nof_neurons := esn.d_reservoirSize + esn.d_inputSize
  forLoop trials.length
    (fun tr A =>
      forRange skip_samples trial_len
        (fun t A => designStep esn trials trial_len skip_samples tr t A) A)
    (real_2d_array.setlength mem (nof_trials * (trial_len - skip_samples)) nof_neurons)

/-- Lines 320-323 of `RidgeRegression`: the body of the loops that fill `B`, for the trial
with index `tr` and the sample `t`. -/
def targetStep (trials : List (Trial α)) (nof_out_neurons trial_len skip_samples tr t : Nat)
    (B : real_2d_array α) : real_2d_array α :=
  forLoop nof_out_neurons
    (fun n B =>
      let i := tr * (trial_len - skip_samples) + t - skip_samples
      match trials[tr]? with
      | some trial => B.write i 0 (trial.outputVal (t * nof_out_neurons + n))
      | none => B)
    B

/-- Lines 317-325 of `RidgeRegression`: the target matrix `B`, allocated in memory `mem`. -/
def targetB (esn : ESN α) (mem : Nat → Nat → α) (trials : List (Trial α))
    (trial_len skip_samples : Nat) : real_2d_array α :=
  let nof_trials := trials.length
  let nof_out_neurons := esn.d_outputSize
  forLoop trials.length
    (fun tr B =>
      forRange skip_samples trial_len
        (fun t B => targetStep trials nof_out_neurons trial_len skip_samples tr t B) B)
    (real_2d_array.setlength mem (nof_trials * (trial_len - skip_samples)) nof_out_neurons)

/-- Lines 328-342 of `RidgeRegression`: `AtA = A' * A` with `lambda = 0.2` added to the
diagonal. -/
def regularised (nof_neurons rowsA : Nat) (mem : Nat → Nat → α) (A : real_2d_array α) :
    real_2d_array α :=
  let lambda : α := 0.2
  let AtA :=
    matrixmatrixmultiply A rowsA nof_neurons true A rowsA nof_neurons false 1
      (real_2d_array.setlength mem nof_neurons nof_neurons) nof_neurons nof_neurons 0
  forLoop nof_neurons (fun x M => M.write x x (M.elem x x + lambda)) AtA

/-- The function `ESNPrediction::RidgeRegression` (esn_train.cpp lines 271-363), on the
network of the predictor.  `rmatrixinverse` is the inverse collaborator (it replaces the
matrix in place; its boolean result is not read by the caller), `memA`, `memB`, `memAtA`,
`memAtB` and `memW` are the contents of freshly allocated arrays.  The result is `*W` after
the call; `none` is the failed assertion `esn.getOutputSize() == 1`. -/
def RidgeRegression (esn : ESN α)
    (rmatrixinverse : real_2d_array α → Nat → real_2d_array α × Bool)
    (memA memB memAtA memAtB memW : Nat → Nat → α)
    (trials : List (Trial α)) (W : real_2d_array α) : Option (real_2d_array α) :=
  match trials with
  | [] => some W
  | first :: _ =>
    if esn.d_outputSize = 1 then
      let nof_trials := trials.length
      let trial_len := first.sampleSize
      let nof_neurons := esn.d_reservoirSize + esn.d_inputSize
      let nof_out_neurons := esn.d_outputSize
      let skip_samples := trial_len / 4
      let rowsA := nof_trials * (trial_len - skip_samples)
      let A := designA esn memA trials trial_len skip_samples
      let B := targetB esn memB trials trial_len skip_samples
      let AtA := regularised nof_neurons rowsA memAtA A
      let AtAinv := (rmatrixinverse AtA nof_neurons).1
      let AtB :=
        matrixmatrixmultiply A rowsA nof_neurons true B rowsA nof_out_neurons false 1
          (real_2d_array.setlength memAtB nof_neurons nof_out_neurons) nof_neurons nof_out_neurons 0
      some
        (matrixmatrixmultiply AtAinv nof_neurons nof_neurons false AtB nof_neurons
          nof_out_neurons false 1 (real_2d_array.setlength memW nof_neurons nof_out_neurons)
          nof_neurons nof_out_neurons 0)
    else none

/-- The call `esn.Run(trainSet[i], TEACHER_FORCING)` on the trial object `ptr` points to
(line 167 of `RunTrials`). -/
def trainStep (esn : ESN α) (ptr : Nat) (trials : List (Trial α)) : List (Trial α) :=
  match trials[ptr]? with
  | some trial => trials.set ptr (ESN.Run esn trial SimulationType.TEACHER_FORCING)
  | none => trials

/-- The trial objects after `esn.Run(trainSet[i], TEACHER_FORCING)` for every pointer of
`trainSet` (lines 166-168 of `RunTrials`). -/
def runTraining (esn : ESN α) (trainSet : List Nat) (all_trials : List (Trial α)) :
    List (Trial α) :=
  forEach trainSet (fun ptr trials => trainStep esn ptr trials) all_trials

/-- The trials a vector of pointers refers to. -/
def deref (all_trials : List (Trial α)) (ptrs : List Nat) : List (Trial α) :=
  ptrs.filterMap (fun ptr => all_trials[ptr]?)

/-- The function `ESNPrediction::RunTrials` (esn_train.cpp lines 162-183).  `W0` is the
default-constructed local `W`, `wmem` the contents of the local array `weights`; `none` is a
null dereference or a failed assertion. -/
def RunTrials (p : ESNPrediction α) (rand : Nat → Nat)
    (rmatrixinverse : real_2d_array α → Nat → real_2d_array α × Bool)
    (memA memB memAtA memAtB memW : Nat → Nat → α) (W0 : real_2d_array α) (wmem : Nat → α) :
    Option (ESNPrediction α) :=
  let p1 := InitSets p rand
  match GetTrainingSet p1 with
  | none => none
  | some trainSet =>
    let trials1 := runTraining p1.esn trainSet p1.all_trials
    match RidgeRegression p1.esn rmatrixinverse memA memB memAtA memAtB memW
        (deref trials1 trainSet) W0 with
    | none => none
    | some W =>
      let len := W.rows
      let weights := forLoop len (fun i w => Function.update w i (W.elem i 0)) wmem
      match ESN.setOutputWeights p1.esn weights len with
      | none => none
      | some esn1 => some { p1 with esn := esn1, all_trials := trials1 }

end ESNPrediction

/-- A small network over the integers: one input, one output, two reservoir neurons,
feedback connectivity 1, identity activations. -/
def exampleNet : ESN ℤ where
  d_inputSize := 1
  d_outputSize := 1
  d_reservoirSize := 2
  d_fbConnectivity := 1
  d_inputWeights := fun i => (i : ℤ) + 1
  d_outputWeights := fun i => 2 - (i : ℤ)
  d_feedbackWeights := fun _ => 1
  d_reservoirWeights := fun i => (i : ℤ) - 1
  d_thresholds := fun _ => 0
  d_timeConstant := 1
  d_decayRate := 2
  resActFunc := fun x => x
  outActFunc := fun x => x

/-- A trial of five samples for `exampleNet`, with teacher values 10, 11, ... and a
teacher window of `5 / 5 = 1` sample. -/
def exampleTrial : Trial ℤ where
  neuronVal := fun _ => 7
  inputVal := fun i => (i : ℤ)
  stateSize := 2
  sampleSize := 5
  classId := -1
  outputVal := fun i => 10 + (i : ℤ)
  teacherTestSize := 1
  inputSize := 1
  debug := fun _ => 0

/-- The input sequence of the example trials. -/
def exampleInput : Nat → ℤ := fun i => (i : ℤ)

/-- The teacher sequence of the example trials. -/
def exampleTeacher : Nat → ℤ := fun i => 10 + (i : ℤ)

/-- The trial that `AddTrial` creates for `exampleNet` from `exampleInput` and
`exampleTeacher` with length 20 and id 4. -/
def exampleTrial20 : Trial ℤ where
  neuronVal := fun _ => 7
  inputVal := exampleInput
  stateSize := 2
  sampleSize := 20
  classId := 4
  outputVal := exampleTeacher
  teacherTestSize := 4
  inputSize := 1
  debug := fun _ => 0

/-- A predictor on `exampleNet` with two registered trials of length 20, not yet
partitioned. -/
def examplePred0 : ESNPrediction ℤ :=
  ESNPrediction.AddTrial
    (ESNPrediction.AddTrial { esn := exampleNet, all_trials := [], set := none }
      (fun _ => 7) (fun _ => 0) (fun _ => 1) exampleTeacher 20 3)
    (fun _ => 7) (fun _ => 0) exampleInput exampleTeacher 20 4

/-- A stream of draws whose second value selects a test trial (`5 % 100 < 20`) and whose
other values do not. -/
def exampleDraws : Nat → Nat := fun i => if i = 1 then 5 else 50

/-- The predictor `examplePred0` after `InitSets` with `exampleDraws`: trial 1 is the test
trial. -/
def examplePred : ESNPrediction ℤ := ESNPrediction.InitSets examplePred0 exampleDraws

/-- A network over the rationals: one input, one output, two reservoir neurons. -/
def exampleNetQ : ESN ℚ where
  d_inputSize := 1
  d_outputSize := 1
  d_reservoirSize := 2
  d_fbConnectivity := 1
  d_inputWeights := fun _ => 1
  d_outputWeights := fun _ => 0
  d_feedbackWeights := fun _ => 1
  d_reservoirWeights := fun _ => 0
  d_thresholds := fun _ => 0
  d_timeConstant := 1
  d_decayRate := 1
  resActFunc := fun x => x
  outActFunc := fun x => x

/-- A trial of four samples over the rationals with a silent reservoir (all states 0),
constant input 1 and constant teacher output 2. -/
def exampleTrialQ : Trial ℚ where
  neuronVal := fun _ => 0
  inputVal := fun _ => 1
  stateSize := 2
  sampleSize := 4
  classId := -1
  outputVal := fun _ => 2
  teacherTestSize := 0
  inputSize := 1
  debug := fun _ => 0

/-- An inverse collaborator that is exact on diagonal matrices. -/
def diagInverse (M : real_2d_array ℚ) (_n : Nat) : real_2d_array ℚ × Bool :=
  ({ M with elem := fun i j => if i = j then 1 / M.elem i i else 0 }, true)

/-- A predictor on `exampleNetQ` with two registered trials of length 4 (input 1, teacher
output 2), not yet partitioned. -/
def examplePredQ : ESNPrediction ℚ :=
  ESNPrediction.AddTrial
    (ESNPrediction.AddTrial { esn := exampleNetQ, all_trials := [], set := none }
      (fun _ => 0) (fun _ => 0) (fun _ => 1) (fun _ => 2) 4 0)
    (fun _ => 0) (fun _ => 0) (fun _ => 1) (fun _ => 2) 4 1

/-- The number of elements of each of the two buffers that `ESNPrediction::AddTrial`
allocates (`new WEIGHT_TYPE[esn.getReservoirSize()*len]`, esn_train.cpp lines 87 and 94). -/
def ESNPrediction.AddTrial_bufferSize {α : Type} (p : ESNPrediction α) (len : Nat) : Nat :=
  p.esn.d_reservoirSize * len

/-- A predictor on `exampleNetQ` with a single registered trial. -/
def examplePredQ1 : ESNPrediction ℚ :=
  ESNPrediction.AddTrial { esn := exampleNetQ, all_trials := [], set := none }
    (fun _ => 0) (fun _ => 0) (fun _ => 1) (fun _ => 2) 4 0

/-- An inverse collaborator that reports a singular matrix (result `false`) and leaves the
matrix as it is. -/
def reportsSingular (M : real_2d_array ℚ) (_n : Nat) : real_2d_array ℚ × Bool :=
  (M, false)

/-- The library routines `network.cpp` calls that are not under `src/`: the constant
`RAND_MAX`, `std::random_shuffle(indices, indices + size)` (the shuffled array and the rest
of the random stream, from the array, its length and the stream), `sqrt`, and the eigenvalue
routine `rmatrixevd(a, n, 0, wr, wi, evL, evR)` of `eigenvalues/nsevd.h` (its result flag and
the arrays `wr` and `wi` it fills). -/
structure Lib (α : Type) where
  RAND_MAX : Nat
  random_shuffle : (Nat → Nat) → Nat → (Nat → Nat) → (Nat → Nat) × (Nat → Nat)
  sqrt : α → α
  rmatrixevd : real_2d_array α → Nat → Bool × (Nat → α) × (Nat → α)

namespace aNetwork

/-- The enumeration `Mode` of `network.h`. -/
inductive Mode where
  | CREATE_RANDOM
  | SCALE_FREE
  | NORMALIZE_SPECTRUM
  | CREATE_BALANCED_NETWORK
  deriving DecidableEq, Repr

/-- The enumeration `NetworkParameter` of `network.h`. -/
inductive NetworkParameter where
  | CONNECTIVITY
  | SPECTRAL_RADIUS
  | EXCITATORY_RATIO
  deriving DecidableEq, Repr

/-- The data members of class `Network` (`network.h`). -/
structure Network (α : Type) where
  /-- array with reservoir weights, element `i * width + j` -/
  weights : Nat → α
  mode : Mode
  d_connectivity : α
  d_spectralRadius : α
  d_excitatoryRatio : α
  indices : Nat → Nat
  width : Nat
  height : Nat
  size : Nat

namespace Network

section plain

variable {α : Type}

/-- The function `Network::Init` (network.cpp lines 53-62); `imem` is the memory `new int[size]`
returns. -/
def Init (imem : Nat → Nat) (net : Network α) (weights : Nat → α) (width height : Nat) :
    Network α :=
  let size := width * height
  { net with
    weights := weights, width := width, height := height, size := size,
    indices := forLoop size (fun i ind => Function.update ind i i) imem }

/-- The inline function `Network::SetMode` (network.h line 70). -/
def SetMode (net : Network α) (mode : Mode) : Network α :=
  { net with mode := mode }

/-- The function `Network::SetParameter` (network.cpp lines 77-91); `value` is the number the
pointer argument refers to. -/
def SetParameter (net : Network α) (param : NetworkParameter) (value : α) : Network α :=
  match param with
  | NetworkParameter.CONNECTIVITY => { net with d_connectivity := value }
  | NetworkParameter.SPECTRAL_RADIUS => { net with d_spectralRadius := value }
  | NetworkParameter.EXCITATORY_RATIO => { net with d_excitatoryRatio := value }

end plain

section field

variable {α : Type} [LinearOrderedField α]

/-- The function `Network::uniform` (network.cpp lines 264-267): the value stored and the rest
of the random stream. -/
def uniform (lib : Lib α) (rand : Nat → Nat) (min max : α) : α × (Nat → Nat) :=
  let tmp : α := (rand 0 : α) / ((lib.RAND_MAX : α) + 1)
  (tmp * (max - min) + min, fun k => rand (k + 1))

/-- The body of the loop of lines 102-104 of `Network::fillRandom`. -/
def drawStep (lib : Lib α) (indices : Nat → Nat) (x : Nat) (s : (Nat → α) × (Nat → Nat)) :
    (Nat → α) × (Nat → Nat) :=
  let u := uniform lib s.2 (-1) 1
  (Function.update s.1 (indices x) u.1, u.2)

/-- The function `Network::spectralRadius` (network.cpp lines 125-160): the value stored in
the reference argument and the flag returned; `none` when the assertion fails.  `amem` is the
memory `a.setlength` allocates. -/
def spectralRadius (lib : Lib α) (amem : Nat → Nat → α) (net : Network α) : Option (α × Bool) :=
  if net.width = net.height then
    let nof_nodes := net.width
    let a :=
      forLoop nof_nodes
        (fun i a =>
          forLoop nof_nodes (fun j a => a.write i j (net.weights (i * nof_nodes + j))) a)
        (real_2d_array.setlength amem nof_nodes nof_nodes)
    let r := lib.rmatrixevd a nof_nodes
    let converged := r.1
    let wr := r.2.1
    let wi := r.2.2
    let max : α :=
      forLoop nof_nodes
        (fun i max =>
          let tmp := lib.sqrt (wr i ^ 2 + wi i ^ 2)
          if tmp > max then tmp else max)
        0
    some (max, converged)
  else none

/-- The function `Network::normalizeSpectrum` (network.cpp lines 108-117): the network after
the call and the flag returned; `none` when the assertion of `spectralRadius` fails. -/
def normalizeSpectrum (lib : Lib α) (amem : Nat → Nat → α) (net : Network α) :
    Option (Network α × Bool) :=
  match spectralRadius lib amem net with
  | none => none
  | some (maxEigenValue, converged) =>
    if !converged then some (net, false)
    else if maxEigenValue = 0 then some (net, false)
    else
      some
        ({ net with
            weights :=
              forLoop net.size
                (fun x w => Function.update w x (w x * (net.d_spectralRadius / maxEigenValue)))
                net.weights },
          true)

end field

section floor

variable {α : Type} [LinearOrderedField α] [FloorRing α]

/-- The function `Network::fillRandom` (network.cpp lines 93-106): the network after the call,
the rest of the random stream and the flag returned.  The conversion of `size * d_connectivity`
to `int` is the floor (a negative product gives a loop that does not run). -/
def fillRandom (lib : Lib α) (net : Network α) (rand : Nat → Nat) :
    Network α × (Nat → Nat) × Bool :=
  if net.d_connectivity = 0 then (net, rand, false)
  else
    let w0 := forLoop net.size (fun x w => Function.update w x (0 : α)) net.weights
    let sh := lib.random_shuffle net.indices net.size rand
    let indices := sh.1
    let nof_connections : Nat := Nat.floor ((net.size : α) * net.d_connectivity)
    let s := forLoop nof_connections (drawStep lib indices) (w0, sh.2)
    ({ net with weights := s.1, indices := indices }, s.2, true)

/-- The function `Network::Run` (network.cpp lines 65-75): the network after the call, the rest
of the random stream and the flag returned; `none` when an assertion fails.  The function
`createBalancedNetwork` of the `CREATE_BALANCED_NETWORK` branch is passed in. -/
def Run (lib : Lib α) (amem : Nat → Nat → α)
    (createBalancedNetwork : Network α → (Nat → Nat) → Option (Network α × (Nat → Nat) × Bool))
    (net : Network α) (rand : Nat → Nat) : Option (Network α × (Nat → Nat) × Bool) :=
  match net.mode with
  | Mode.CREATE_RANDOM => some (fillRandom lib net rand)
  | Mode.CREATE_BALANCED_NETWORK => createBalancedNetwork net rand
  | Mode.NORMALIZE_SPECTRUM =>
    match normalizeSpectrum lib amem net with
    | none => none
    | some r => some (r.1, rand, r.2)
  | Mode.SCALE_FREE => some (net, rand, false)

end floor

end Network

end aNetwork

namespace aNetwork

section balanced

variable {α : Type} [LinearOrderedField α]

/-- The function `much_smaller(small, big)` (network.cpp lines 163-166). -/
def much_smaller (small big : α) : Bool :=
  let minimal_ratio : α := 3 / 2
  decide (big / small > minimal_ratio)

/-- The function `much_smaller(small, medium, big)` (network.cpp lines 169-171). -/
def much_smaller3 (small medium big : α) : Bool :=
  much_smaller small medium && much_smaller medium big

namespace Network

/-- The body of each of the four inner loops of `createBalancedNetwork` (lines 216-222,
224-230, 234-240, 242-248) for target `n` and source `i`, on the state (weights, stream of
`drand48()`); `J` is the constant of the block and `N` the size of the source population. -/
def connectStep (lib : Lib α) (J : α) (K N nof_nodes n i : Nat)
    (s : (Nat → α) × (Nat → α)) : (Nat → α) × (Nat → α) :=
  let w0 := Function.update s.1 (n * nof_nodes + i) (0 : α)
  let connect : Bool := decide (s.2 0 ≤ (K : α) / (N : α))
  (if connect then Function.update w0 (n * nof_nodes + i) (J / lib.sqrt (K : α)) else w0,
    fun k => s.2 (k + 1))

/-- The body of each of the two outer loops of `createBalancedNetwork` for target `n`:
excitatory sources with constant `J_E`, then inhibitory sources with constant `J_I`. -/
def balancedRow (lib : Lib α) (J_E J_I : α) (K N_E N_I nof_nodes n : Nat)
    (s : (Nat → α) × (Nat → α)) : (Nat → α) × (Nat → α) :=
  forRange N_E nof_nodes (connectStep lib J_I K N_I nof_nodes n)
    (forLoop N_E (connectStep lib J_E K N_E nof_nodes n) s)

/-- Lines 196-249 of `createBalancedNetwork`: excitatory targets, then inhibitory targets. -/
def balancedLoops (lib : Lib α) (K N_E N_I nof_nodes : Nat) (s : (Nat → α) × (Nat → α)) :
    (Nat → α) × (Nat → α) :=
  let J_EE : α := 1
  let J_IE : α := 1
  let J_EI : α := -2
  let J_II : α := -(9 / 5)
  forRange N_E nof_nodes (balancedRow lib J_IE J_II K N_E N_I nof_nodes)
    (forLoop N_E (balancedRow lib J_EE J_EI K N_E N_I nof_nodes) s)

/-- The array `degree` of `Network::printDegrees` (lines 306-313): the number of non-zero
entries of row `n`. -/
def degree (weights : Nat → α) (nof_nodes n : Nat) : Nat :=
  forLoop nof_nodes (fun i d => if weights (n * nof_nodes + i) ≠ 0 then d + 1 else d) 0

/-- The function `Network::printDegrees` (network.cpp lines 301-336), which only prints:
whether it stays inside its array `degree_cnt[nof_nodes]`, which line 319 indexes with
`degree[n]`. -/
def printDegrees (net : Network α) : Bool :=
  decide (net.width = net.height)
    && forLoop net.width (fun n ok => ok && decide (degree net.weights net.width n < net.width))
        true

end Network

end balanced

section balancedFloor

variable {α : Type} [LinearOrderedField α] [FloorRing α]

namespace Network

/-- The function `Network::createBalancedNetwork` (network.cpp lines 178-259): the network
after the call, the rest of the random stream and the flag returned; `none` when an assertion
fails or `printDegrees` leaves its array.  `drand` is the stream of `drand48()`. -/
def createBalancedNetwork (lib : Lib α) (amem : Nat → Nat → α) (drand : Nat → α)
    (net : Network α) (rand : Nat → Nat) : Option (Network α × (Nat → Nat) × Bool) :=
  if net.width = net.height then
    let nof_nodes := net.width
    let N_E : Nat := Nat.floor (net.d_excitatoryRatio * (nof_nodes : α))
    let N_I : Nat := nof_nodes - N_E
    let sh := lib.random_shuffle net.indices net.size rand
    let K : Nat := Nat.floor (net.d_connectivity * (nof_nodes : α))
    if much_smaller3 1 (K : α) (N_I : α) && much_smaller3 1 (K : α) (N_E : α) then
      let s := balancedLoops lib K N_E N_I nof_nodes (net.weights, drand)
      let net1 : Network α := { net with weights := s.1, indices := sh.1 }
      if printDegrees net1 then
        match spectralRadius lib amem net1 with
        | none => none
        | some _ => some (net1, sh.2, true)
      else none
    else none
  else none

end Network

end balancedFloor

end aNetwork

/-- The state of `ESN::generateReservoirConnections` after a number of passes through its
`while` loop. -/
inductive Generation (α : Type) where
  /-- the loop was left: the function returns with this reservoir -/
  | returned (reservoir : aNetwork.Network α) (rand : Nat → Nat)
  /-- the loop condition still holds: the function has not returned -/
  | running (reservoir : aNetwork.Network α) (rand : Nat → Nat)
  /-- an assertion failed -/
  | aborted

namespace ESN

section generation

variable {α : Type} [LinearOrderedField α] [FloorRing α]

open aNetwork

/-- One pass through the body of the `while` loop of `ESN::generateReservoirConnections`
(lines 313-328; `RESERVOIR_TYPE` is 1): the reservoir and the random stream after the pass and
the value of `okay`; `none` when an assertion fails. -/
def generateAttempt (lib : Lib α) (amem : Nat → Nat → α)
    (createBalancedNetwork : Network α → (Nat → Nat) → Option (Network α × (Nat → Nat) × Bool))
    (s : Network α × (Nat → Nat)) : Option (Network α × (Nat → Nat) × Bool) :=
  match Network.Run lib amem createBalancedNetwork (s.1.SetMode Mode.CREATE_RANDOM) s.2 with
  | none => none
  | some r1 =>
    Network.Run lib amem createBalancedNetwork (r1.1.SetMode Mode.NORMALIZE_SPECTRUM) r1.2.1

/-- The loop `while (!okay)` of `ESN::generateReservoirConnections` (lines 311-329), followed
for at most `fuel` passes. -/
def generateLoop (lib : Lib α) (amem : Nat → Nat → α)
    (createBalancedNetwork : Network α → (Nat → Nat) → Option (Network α × (Nat → Nat) × Bool))
    (fuel : Nat) (s : Network α × (Nat → Nat)) : Generation α :=
  match fuel with
  | 0 => Generation.running s.1 s.2
  | k + 1 =>
    match generateAttempt lib amem createBalancedNetwork s with
    | none => Generation.aborted
    | some r =>
      if r.2.2 then Generation.returned r.1 r.2.1
      else generateLoop lib amem createBalancedNetwork k (r.1, r.2.1)

/-- The function `ESN::generateReservoirConnections` (esn.cpp lines 297-333), followed for at
most `fuel` passes through its loop.  The members `d_reservoirSize`, `d_connectivity`,
`d_spectralRadius`, `d_excitatory` and `reservoir` of the network are arguments; `wmem` is
the memory `new WEIGHT_TYPE[connectionSize]` returns and `imem` the memory of the index array
of `Network::Init`. -/
def generateReservoirConnections (lib : Lib α) (amem : Nat → Nat → α)
    (createBalancedNetwork : Network α → (Nat → Nat) → Option (Network α × (Nat → Nat) × Bool))
    (wmem : Nat → α) (imem : Nat → Nat) (d_reservoirSize : Nat)
    (d_connectivity d_spectralRadius d_excitatory : α) (reservoir : Network α)
    (fuel : Nat) (rand : Nat → Nat) : Generation α :=
  let d_reservoirWeights := wmem
  let r0 := Network.Init imem reservoir d_reservoirWeights d_reservoirSize d_reservoirSize
  let r1 := r0.SetParameter NetworkParameter.CONNECTIVITY d_connectivity
  let r2 := r1.SetParameter NetworkParameter.SPECTRAL_RADIUS d_spectralRadius
  let r3 := r2.SetParameter NetworkParameter.EXCITATORY_RATIO d_excitatory
  generateLoop lib amem createBalancedNetwork fuel (r3, rand)

end generation

end ESN

/-- The `n` by `n` matrix a weight array holds row-wise (`weights[i * n + j]` in row `i`,
column `j`), read over the complex numbers. -/
def aNetwork.complexMatrix (weights : Nat → ℝ) (n : Nat) : Matrix (Fin n) (Fin n) ℂ :=
  Matrix.of (fun i j => ((weights (i.val * n + j.val) : ℝ) : ℂ))

/-- A 2 by 2 network over the reals holding the diagonal matrix with entries 2 and 1, with
spectral radius target 1. -/
def exampleNetworkR : aNetwork.Network ℝ :=
  { weights := fun x => if x = 0 then 2 else if x = 3 then 1 else 0,
    mode := aNetwork.Mode.NORMALIZE_SPECTRUM,
    d_connectivity := 1, d_spectralRadius := 1, d_excitatoryRatio := 1,
    indices := fun i => i, width := 2, height := 2, size := 4 }

/-- Library routines for `exampleNetworkR`: the eigenvalue routine converges and returns the
eigenvalues 2 and 1 (imaginary parts 0), and the shuffle leaves the array as it is. -/
def exampleLibR (sqrt : ℝ → ℝ) : Lib ℝ :=
  { RAND_MAX := 32767,
    random_shuffle := fun ind _ rand => (ind, rand),
    sqrt := sqrt,
    rmatrixevd := fun _ _ => (true, fun i => if i = 0 then 2 else 1, fun _ => 0) }

/-- Library routines whose eigenvalue routine converges and returns eigenvalues that are all
0 (as it does on a zero or nilpotent matrix), and whose shuffle leaves the array as it is. -/
def exampleLibZ {α : Type} [Zero α] (sqrt : α → α) : Lib α :=
  { RAND_MAX := 32767,
    random_shuffle := fun ind _ rand => (ind, rand),
    sqrt := sqrt,
    rmatrixevd := fun _ _ => (true, fun _ => 0, fun _ => 0) }

/-- A 2 by 2 network with connectivity 0 that holds the nilpotent matrix with rows `0 1` and
`0 0`, whose eigenvalues are both 0. -/
def exampleNetworkNil (α : Type) [LinearOrderedField α] : aNetwork.Network α :=
  { weights := fun x => if x = 1 then 1 else 0,
    mode := aNetwork.Mode.NORMALIZE_SPECTRUM,
    d_connectivity := 0, d_spectralRadius := 4 / 5, d_excitatoryRatio := 7 / 10,
    indices := fun i => i, width := 2, height := 2, size := 4 }

/-- A 2 by 2 network with connectivity 1/10 and arbitrary entries, at the head of the
generation loop. -/
def exampleNetworkSparse (α : Type) [LinearOrderedField α] : aNetwork.Network α :=
  { weights := fun x => if x = 1 then 1 else 3,
    mode := aNetwork.Mode.CREATE_RANDOM,
    d_connectivity := 1 / 10, d_spectralRadius := 4 / 5, d_excitatoryRatio := 7 / 10,
    indices := fun i => i, width := 2, height := 2, size := 4 }

/-- The ways a call stops without returning. -/
inductive Fault where
  /-- an `assert` failed -/
  | assertion
  /-- an array was read or written through a null pointer -/
  | nullDereference
  deriving DecidableEq, Repr

/-- The loop `for (i = 0; i < n; ++i) s = body i s` whose body can stop the call. -/
def forLoopM {σ : Type} (n : Nat) (body : Nat → σ → Except Fault σ) (s : σ) : Except Fault σ :=
  match n with
  | 0 => Except.ok s
  | k + 1 =>
    match forLoopM k body s with
    | Except.error e => Except.error e
    | Except.ok s1 => body k s1

/-- A pointer to an array: `none` is `NULL`. -/
abbrev Ptr (α : Type) : Type := Option (Nat → α)

/-- The read `p[i]`. -/
def Ptr.read {α : Type} (p : Ptr α) (i : Nat) : Except Fault α :=
  match p with
  | none => Except.error Fault.nullDereference
  | some a => Except.ok (a i)

/-- The store `p[i] = v`: the array `p` points to after the store. -/
def Ptr.write {α : Type} (p : Ptr α) (i : Nat) (v : α) : Except Fault (Ptr α) :=
  match p with
  | none => Except.error Fault.nullDereference
  | some a => Except.ok (some (Function.update a i v))

/-- The enumeration `ActivationFunction` of `esn.h`. -/
inductive ActivationFunction where
  | IDENTITY_ACTIVATION
  | TANH_ACTIVATION
  | LOGISTIC_ACTIVATION
  | HEAVISIDE_ACTIVATION
  deriving DecidableEq, Repr

/-- The functions of the C mathematics library the activation functions call. -/
structure Libm (α : Type) where
  tanh : α → α
  atanh : α → α
  exp : α → α
  log : α → α

/-- The struct `Trial` of `esn.h` with its pointer members as pointers. -/
structure TrialObj (α : Type) where
  neuronVal : Ptr α
  inputVal : Ptr α
  stateSize : Nat
  sampleSize : Nat
  classId : Int
  outputVal : Ptr α
  teacherTestSize : Nat
  inputSize : Nat
  debug : Ptr α

/-- A trial whose four buffers are allocated. -/
def TrialObj.ofTrial {α : Type} (t : Trial α) : TrialObj α :=
  { neuronVal := some t.neuronVal, inputVal := some t.inputVal, stateSize := t.stateSize,
    sampleSize := t.sampleSize, classId := t.classId, outputVal := some t.outputVal,
    teacherTestSize := t.teacherTestSize, inputSize := t.inputSize, debug := some t.debug }

/-- The data members of class `ESN` (`esn.h`), with the pointer members as pointers. -/
structure ESNObj (α : Type) where
  resActFunc : α → α
  outActFunc : α → α
  outInvActFunc : α → α
  d_inputSize : Nat
  d_outputSize : Nat
  d_reservoirSize : Nat
  d_reservoirActivation : ActivationFunction
  d_outputActivation : ActivationFunction
  d_connectivity : α
  d_inConnectivity : α
  d_fbConnectivity : α
  d_spectralRadius : α
  d_inputScale : α
  d_feedbackScale : α
  d_inputShift : α
  d_feedbackShift : α
  d_inputWeights : Ptr α
  d_outputWeights : Ptr α
  d_feedbackWeights : Ptr α
  d_reservoirWeights : Ptr α
  d_output : Ptr α
  d_thresholds : Ptr α
  d_timeConstant : α
  d_decayRate : α
  d_excitatory : α
  reservoir : aNetwork.Network α

namespace ESNObj

variable {α : Type} [LinearOrderedField α]

/-- An object whose weight and threshold arrays are allocated and hold the arrays of `e`;
the members `ESN::Run` does not read are those of `rest`. -/
def ofESN (e : ESN α) (rest : ESNObj α) : ESNObj α :=
  { rest with
    resActFunc := e.resActFunc, outActFunc := e.outActFunc,
    d_inputSize := e.d_inputSize, d_outputSize := e.d_outputSize,
    d_reservoirSize := e.d_reservoirSize, d_fbConnectivity := e.d_fbConnectivity,
    d_inputWeights := some e.d_inputWeights, d_outputWeights := some e.d_outputWeights,
    d_feedbackWeights := some e.d_feedbackWeights,
    d_reservoirWeights := some e.d_reservoirWeights, d_thresholds := some e.d_thresholds,
    d_timeConstant := e.d_timeConstant, d_decayRate := e.d_decayRate }

/-- The function `ESN::act_heaviside` (esn.cpp lines 345-348). -/
def act_heaviside (value : α) : α := if value > 0 then 1 else 0

/-- The function `ESN::act_logistic` (lines 350-353). -/
def act_logistic (libm : Libm α) (value : α) : α := 1 / (1 + libm.exp value)

/-- The function `ESN::act_invlogistic` (lines 355-358). -/
def act_invlogistic (libm : Libm α) (value : α) : α := libm.log (1 / value - 1)

/-- The function `ESN::act_tanh` (lines 360-363). -/
def act_tanh (libm : Libm α) (value : α) : α := libm.tanh value

/-- The function `ESN::act_invtanh` (lines 365-368). -/
def act_invtanh (libm : Libm α) (value : α) : α := libm.atanh value

/-- The inline function `ESN::act_identity` (esn.h line 308). -/
def act_identity (value : α) : α := value

/-- The inline function `ESN::act_invidentity` (esn.h line 310). -/
def act_invidentity (value : α) : α := value

/-- The function `ESN::setReservoirActivation` (esn.cpp lines 370-391). -/
def setReservoirActivation (libm : Libm α) (net : ESNObj α)
    (reservoirActivation : ActivationFunction) : ESNObj α :=
  let net1 := { net with d_reservoirActivation := reservoirActivation }
  match reservoirActivation with
  | ActivationFunction.IDENTITY_ACTIVATION => { net1 with resActFunc := act_identity }
  | ActivationFunction.LOGISTIC_ACTIVATION => { net1 with resActFunc := act_logistic libm }
  | ActivationFunction.TANH_ACTIVATION => { net1 with resActFunc := act_tanh libm }
  | ActivationFunction.HEAVISIDE_ACTIVATION => { net1 with resActFunc := act_heaviside }

/-- The function `ESN::setOutputActivation` (esn.cpp lines 393-414). -/
def setOutputActivation (libm : Libm α) (net : ESNObj α)
    (outputActivation : ActivationFunction) : ESNObj α :=
  let net1 := { net with d_outputActivation := outputActivation }
  match outputActivation with
  | ActivationFunction.IDENTITY_ACTIVATION =>
    { net1 with outInvActFunc := act_invidentity, outActFunc := act_identity }
  | ActivationFunction.LOGISTIC_ACTIVATION =>
    { net1 with outActFunc := act_logistic libm, outInvActFunc := act_invlogistic libm }
  | ActivationFunction.TANH_ACTIVATION =>
    { net1 with outActFunc := act_tanh libm, outInvActFunc := act_invtanh libm }
  | ActivationFunction.HEAVISIDE_ACTIVATION => net1

/-- The constructor `ESN::ESN(int, int, int, float)` (esn.cpp lines 73-103;
`ACTIVATION_TYPE` is `TANH_ACTIVATION`).  `mem` is the object as the memory it is built in
holds it: the members the constructor does not assign (`d_thresholds` and `reservoir`) keep
the value they have there.  The result is an assertion failure for `reservoirSize <= 1`. -/
def new (libm : Libm α) (mem : ESNObj α) (inputSize outputSize reservoirSize : Nat)
    (connectivity : α) : Except Fault (ESNObj α) :=
  let net0 : ESNObj α :=
    { mem with
      d_inputSize := inputSize, d_outputSize := outputSize, d_reservoirSize := reservoirSize,
      d_reservoirActivation := ActivationFunction.TANH_ACTIVATION,
      d_outputActivation := ActivationFunction.IDENTITY_ACTIVATION,
      d_connectivity := connectivity, d_inConnectivity := 1, d_fbConnectivity := 0,
      d_spectralRadius := 4 / 5, d_inputScale := 1, d_feedbackScale := 1, d_inputShift := 0,
      d_feedbackShift := 0, d_timeConstant := 1, d_decayRate := 1, d_excitatory := 7 / 10 }
  let net1 : ESNObj α :=
    { net0 with
      d_inputWeights := none, d_outputWeights := none, d_feedbackWeights := none,
      d_reservoirWeights := none, d_output := none }
  let net2 := setReservoirActivation libm net1 net1.d_reservoirActivation
  let net3 := setOutputActivation libm net2 net2.d_outputActivation
  if reservoirSize > 1 then Except.ok net3 else Except.error Fault.assertion

/-- Lines 451-453 of `ESN::Run`, every array read through its pointer. -/
def input2ResVal (net : ESNObj α) (tr : TrialObj α) (inputSize t n : Nat) : Except Fault α :=
  forLoopM inputSize
    (fun inputNr acc => do
      let u ← tr.inputVal.read (t * inputSize + inputNr)
      let w ← net.d_inputWeights.read (n * inputSize + inputNr)
      pure (acc + u * w))
    0

/-- Lines 456-459 of `ESN::Run`. -/
def res2ResVal (net : ESNObj α) (tr : TrialObj α) (t n : Nat) : Except Fault α :=
  forLoopM net.d_reservoirSize
    (fun innerResNr acc =>
      if 0 < t then do
        let x ← tr.neuronVal.read ((t - 1) * net.d_reservoirSize + innerResNr)
        let w ← net.d_reservoirWeights.read (n * net.d_reservoirSize + innerResNr)
        pure (acc + x * w)
      else pure acc)
    0

/-- Lines 462-466 of `ESN::Run`. -/
def fb2ResVal (net : ESNObj α) (tr : TrialObj α) (t n : Nat) : Except Fault α :=
  if 0 < net.d_fbConnectivity then
    forLoopM net.d_outputSize
      (fun outputNNr acc =>
        if 0 < t then do
          let y ← tr.outputVal.read ((t - 1) * net.d_outputSize + outputNNr)
          let w ← net.d_feedbackWeights.read (n * net.d_outputSize + outputNNr)
          pure (acc + y * w)
        else pure acc)
      0
  else pure 0

/-- Lines 474-477 of `ESN::Run`. -/
def leftOver (net : ESNObj α) (tr : TrialObj α) (t n : Nat) : Except Fault α :=
  if 0 < t then do
    let x ← tr.neuronVal.read ((t - 1) * net.d_reservoirSize + n)
    pure ((1 - net.d_timeConstant * net.d_decayRate) * x)
  else pure 0

/-- The body of the neuron loop of `ESN::Run` (lines 445-491). -/
def neuronStep (net : ESNObj α) (inputSize t n : Nat) (tr : TrialObj α) :
    Except Fault (TrialObj α) := do
  let i2r ← input2ResVal net tr inputSize t n
  let r2r ← res2ResVal net tr t n
  let f2r ← fb2ResVal net tr t n
  let lo ← leftOver net tr t n
  let noise : α := 0
  let th ← net.d_thresholds.read n
  let ti := net.resActFunc (i2r + r2r * net.d_timeConstant + f2r - th + noise)
  let debug1 ← tr.debug.write (t * net.d_reservoirSize + n) ti
  let states1 ← tr.neuronVal.write (t * net.d_reservoirSize + n) (lo + ti)
  pure { tr with debug := debug1, neuronVal := states1 }

/-- Lines 494-496 of `ESN::Run`. -/
def setOutput (net : ESNObj α) (simType : SimulationType) (teacherTestSize t : Nat) : Bool :=
  let s0 : Bool := decide (0 < net.d_fbConnectivity)
  let s1 : Bool := if simType = SimulationType.TEACHER_FORCING then false else s0
  if simType = SimulationType.TEACHER_TESTING ∧ t < teacherTestSize then false else s1

/-- Lines 499-510 of `ESN::Run`: the value stored for output neuron `outputNNr`. -/
def outputValue (net : ESNObj α) (tr : TrialObj α) (inputSize t outputNNr : Nat) :
    Except Fault α := do
  let res2outputVal ←
    forLoopM net.d_reservoirSize
      (fun resNNr acc => do
        let x ← tr.neuronVal.read (t * net.d_reservoirSize + resNNr)
        let w ← net.d_outputWeights.read
          (outputNNr * (net.d_reservoirSize + net.d_inputSize) + resNNr)
        pure (acc + x * w))
      0
  let input2outputVal ←
    forLoopM net.d_inputSize
      (fun inputNNr acc => do
        let u ← tr.inputVal.read (t * inputSize + inputNNr)
        let w ← net.d_outputWeights.read
          (outputNNr * (net.d_reservoirSize + net.d_inputSize) + net.d_reservoirSize + inputNNr)
        pure (acc + u * w))
      0
  pure (net.outActFunc (res2outputVal + input2outputVal))

/-- The body of the output loop of `ESN::Run` (lines 498-512). -/
def outputStep (net : ESNObj α) (inputSize t outputNNr : Nat) (tr : TrialObj α) :
    Except Fault (TrialObj α) := do
  let v ← outputValue net tr inputSize t outputNNr
  let output1 ← tr.outputVal.write (t * net.d_outputSize + outputNNr) v
  pure { tr with outputVal := output1 }

/-- The body of the time loop of `ESN::Run` (lines 442-515). -/
def timeStep (net : ESNObj α) (simType : SimulationType) (inputSize reservoirSize t : Nat)
    (tr : TrialObj α) : Except Fault (TrialObj α) := do
  let tr1 ← forLoopM reservoirSize (neuronStep net inputSize t) tr
  if setOutput net simType tr1.teacherTestSize t then
    forLoopM net.d_outputSize (outputStep net inputSize t) tr1
  else pure tr1

/-- The function `ESN::Run` (esn.cpp lines 425-516) with its assertions: the trial object
after the call, or the way the call stops. -/
def Run (net : ESNObj α) (trial : Option (TrialObj α)) (simType : SimulationType) :
    Except Fault (TrialObj α) :=
  match trial with
  | none => Except.error Fault.assertion
  | some tr =>
    let input := tr.inputVal
    let inputSize := tr.inputSize
    let timespan := tr.sampleSize
    let reservoirSize := tr.stateSize
    let output := tr.outputVal
    let states := tr.neuronVal
    if input.isNone then Except.error Fault.assertion
    else if output.isNone then Except.error Fault.assertion
    else if states.isNone then Except.error Fault.assertion
    else if net.d_thresholds.isNone then Except.error Fault.assertion
    else forLoopM timespan (timeStep net simType inputSize reservoirSize) tr

end ESNObj

/-- A trial object with one sample, one input and two neurons whose buffers are all
allocated. -/
def exampleTrialObj : TrialObj ℚ :=
  { neuronVal := some (fun _ => 0), inputVal := some (fun _ => 1), stateSize := 2,
    sampleSize := 1, classId := 0, outputVal := some (fun _ => 2), teacherTestSize := 0,
    inputSize := 1, debug := some (fun _ => 0) }

/-- The enumeration `ESNParameter` of `esn.h`. -/
inductive ESNParameter where
  | INPUT_SIZE
  | OUTPUT_SIZE
  | RESERVOIR_SIZE
  | CONNECTIVITY
  | INPUT_CONNECTIVITY
  | OUTPUT_CONNECTIVITY
  | SPECTRAL_RADIUS
  | INPUT_SCALE
  | OUTPUT_SCALE
  | INPUT_SHIFT
  | OUTPUT_SHIFT
  | RESERVOIR_ACTIVATION
  | OUTPUT_ACTIVATION
  deriving DecidableEq, Repr

/-- What a call containing a loop that need not end has done after the number of passes it
is followed for. -/
inductive Outcome (σ : Type) where
  /-- the call returned with this state -/
  | returned (s : σ)
  /-- a loop condition still holds: the call has not returned -/
  | running
  /-- an assertion failed -/
  | aborted
  deriving DecidableEq

/-- The next call, made when the previous one has returned. -/
def Outcome.bind {σ τ : Type} (o : Outcome σ) (f : σ → Outcome τ) : Outcome τ :=
  match o with
  | Outcome.returned s => f s
  | Outcome.running => Outcome.running
  | Outcome.aborted => Outcome.aborted

/-- A view of the state a call returned with. -/
def Outcome.map {σ τ : Type} (f : σ → τ) (o : Outcome σ) : Outcome τ :=
  o.bind (fun s => Outcome.returned (f s))

/-- The memory the allocations of `ESN::init` return, as it is before `init` writes it. -/
structure InitMem (α : Type) where
  inputWeights : Nat → α
  feedbackWeights : Nat → α
  outputWeights : Nat → α
  thresholds : Nat → α
  reservoirWeights : Nat → α
  output : Nat → α
  indices : Nat → Nat
  a : Nat → Nat → α

namespace ESNObj

section setters

variable {α : Type}

/-- The function `ESN::setParameter` (esn.cpp lines 105-151).  The three value arguments are
the object the pointer argument refers to, read as an `int`, as a `WEIGHT_TYPE` and as an
`ActivationFunction`. -/
def setParameter (net : ESNObj α) (param : ESNParameter) (intValue : Nat) (realValue : α)
    (actValue : ActivationFunction) : ESNObj α :=
  match param with
  | ESNParameter.INPUT_SIZE => { net with d_inputSize := intValue }
  | ESNParameter.OUTPUT_SIZE => { net with d_outputSize := intValue }
  | ESNParameter.RESERVOIR_SIZE => { net with d_reservoirSize := intValue }
  | ESNParameter.CONNECTIVITY => { net with d_connectivity := realValue }
  | ESNParameter.INPUT_CONNECTIVITY => { net with d_inConnectivity := realValue }
  | ESNParameter.OUTPUT_CONNECTIVITY => { net with d_fbConnectivity := realValue }
  | ESNParameter.SPECTRAL_RADIUS => { net with d_spectralRadius := realValue }
  | ESNParameter.INPUT_SCALE => { net with d_inputScale := realValue }
  | ESNParameter.OUTPUT_SCALE => { net with d_feedbackScale := realValue }
  | ESNParameter.INPUT_SHIFT => { net with d_inputShift := realValue }
  | ESNParameter.OUTPUT_SHIFT => { net with d_feedbackShift := realValue }
  | ESNParameter.OUTPUT_ACTIVATION => { net with d_outputActivation := actValue }
  | ESNParameter.RESERVOIR_ACTIVATION => { net with d_reservoirActivation := actValue }

/-- The inline function `ESN::setReservoirSize` (esn.h lines 184-187). -/
def setReservoirSize (net : ESNObj α) (d_reservoirSize : Nat) : ESNObj α :=
  { net with d_reservoirSize := d_reservoirSize }

/-- The inline function `ESN::setDecayRate` (esn.h lines 144-147). -/
def setDecayRate (net : ESNObj α) (decayRate : α) : ESNObj α :=
  { net with d_decayRate := decayRate }

/-- The inline function `ESN::setInConnectivity` (esn.h lines 210-213). -/
def setInConnectivity (net : ESNObj α) (d_inConnectivity : α) : ESNObj α :=
  { net with d_inConnectivity := d_inConnectivity }

/-- The function `ESN::destroy` (esn.cpp lines 655-686): the five arrays it deletes are
null afterwards; `d_thresholds` is not among them. -/
def destroy (net : ESNObj α) : ESNObj α :=
  { net with
    d_inputWeights := none, d_outputWeights := none, d_output := none,
    d_feedbackWeights := none, d_reservoirWeights := none }

end setters

section construction

variable {α : Type} [LinearOrderedField α]

/-- The default constructor `ESN::ESN()` (esn.cpp lines 60-63).  Its body constructs a
temporary object (in the memory `tmp`) and destroys it again; the members of the object
under construction are not assigned and keep the values of `mem`. -/
def newDefault (libm : Libm α) (mem tmp : ESNObj α) : Except Fault (ESNObj α) :=
  match ESNObj.new libm tmp 2 2 10 (4 / 5) with
  | Except.error e => Except.error e
  | Except.ok _ => Except.ok mem

/-- The function `ESN::uniform` (esn.cpp lines 335-339): the value stored and the rest of
the random stream. -/
def uniform (lib : Lib α) (rand : Nat → Nat) (min max : α) : α × (Nat → Nat) :=
  let tmp : α := (rand 0 : α) / ((lib.RAND_MAX : α) + 1)
  (tmp * (max - min) + min, fun k => rand (k + 1))

/-- The function `ESN::scaleAndShift` (esn.cpp lines 189-196). -/
def scaleAndShift (weights : Nat → α) (weightSize : Nat) (scale shift : α) : Nat → α :=
  forLoop weightSize (fun x w => Function.update w x (w x * scale + shift)) weights

/-- The loop of `ESN::generateConnections` (esn.cpp lines 170-185), followed for at most
`fuel` passes, on the state `(x, weights, rand)`.  A pass that finds the drawn cell occupied
leaves `x` as it is (`--x; continue;`). -/
def generateConnectionsLoop (lib : Lib α) (connectivity : α) (weightSize connectionSize : Nat)
    (min max : α) (fuel : Nat) (s : Nat × (Nat → α) × (Nat → Nat)) :
    Outcome ((Nat → α) × (Nat → Nat)) :=
  match fuel with
  | 0 => if s.1 < connectionSize then Outcome.running else Outcome.returned s.2
  | k + 1 =>
    if s.1 < connectionSize then
      if connectivity ≠ 1 then
        let conn := s.2.2 0 % weightSize
        let rand1 : Nat → Nat := fun i => s.2.2 (i + 1)
        if s.2.1 conn ≠ 0 then
          generateConnectionsLoop lib connectivity weightSize connectionSize min max k
            (s.1, s.2.1, rand1)
        else
          let u := uniform lib rand1 min max
          generateConnectionsLoop lib connectivity weightSize connectionSize min max k
            (s.1 + 1, Function.update s.2.1 conn u.1, u.2)
      else
        let u := uniform lib s.2.2 min max
        generateConnectionsLoop lib connectivity weightSize connectionSize min max k
          (s.1 + 1, Function.update s.2.1 s.1 u.1, u.2)
    else Outcome.returned s.2

/-- The body of the loop of lines 245-248 of `ESN::init` (`DEFAULT_INPUT_SCALE` is not
defined): with an odd draw the cell is kept, otherwise it becomes `0.14` or `-0.14`
according to a second draw. -/
def jaegerStep (x : Nat) (s : (Nat → α) × (Nat → Nat)) : (Nat → α) × (Nat → Nat) :=
  if s.2 0 % 2 ≠ 0 then (s.1, fun i => s.2 (i + 1))
  else
    (Function.update s.1 x ((7 / 50) * (((s.2 1 % 2 : Nat) : α) * 2 - 1)),
      fun i => s.2 (i + 2))

end construction

section initialisation

variable {α : Type} [LinearOrderedField α] [FloorRing α]

/-- The function `ESN::generateConnections` (esn.cpp lines 155-187), its loop followed for
at most `fuel` passes: the array and the random stream after the call.  `srand seed` is the
stream `rand()` yields after `srand(seed)`, and `now` the value `time(NULL)` returns; the
last argument is the random stream at the time of the call, which line 165 replaces. -/
def generateConnections (lib : Lib α) (srand : Nat → Nat → Nat) (now : Nat) (fuel : Nat)
    (connectivity : α) (weightSize : Nat) (weights : Nat → α) (min max : α)
    (_rand : Nat → Nat) : Outcome ((Nat → α) × (Nat → Nat)) :=
  let rand := srand now
  let connectionSize : Nat := Nat.floor ((weightSize : α) * connectivity)
  generateConnectionsLoop lib connectivity weightSize connectionSize min max fuel
    (0, weights, rand)

/-- Lines 212-249 of `ESN::init`: the input weights and the random stream after them
(`DEFAULT_INPUT_CONN` is defined, `DEFAULT_INPUT_SCALE` is not). -/
def initInputWeights (lib : Lib α) (srand : Nat → Nat → Nat) (now : Nat) (fuel : Nat)
    (mem : Nat → α) (net : ESNObj α) (rand : Nat → Nat) : Outcome ((Nat → α) × (Nat → Nat)) :=
  let connectionSize := net.d_inputSize * net.d_reservoirSize
  let w0 := forLoop connectionSize (fun x w => Function.update w x (0 : α)) mem
  (generateConnections lib srand now fuel net.d_inConnectivity connectionSize w0 (-1) 1
      rand).bind
    (fun s => Outcome.returned (forLoop connectionSize jaegerStep s))

/-- Lines 251-259 of `ESN::init`: the feedback weights and the random stream after them. -/
def initFeedbackWeights (lib : Lib α) (srand : Nat → Nat → Nat) (now : Nat) (fuel : Nat)
    (mem : Nat → α) (net : ESNObj α) (rand : Nat → Nat) : Outcome ((Nat → α) × (Nat → Nat)) :=
  let connectionSize := net.d_outputSize * net.d_reservoirSize
  let w0 := forLoop connectionSize (fun x w => Function.update w x (0 : α)) mem
  (generateConnections lib srand now fuel net.d_fbConnectivity connectionSize w0 (-1) 1
      rand).bind
    (fun s =>
      if net.d_feedbackScale ≠ 1 ∨ net.d_feedbackShift ≠ 0 then
        Outcome.returned
          (scaleAndShift s.1 connectionSize net.d_feedbackScale net.d_feedbackShift, s.2)
      else Outcome.returned s)

/-- Lines 261-266 of `ESN::init`: the output weights and the random stream after them. -/
def initOutputWeights (lib : Lib α) (srand : Nat → Nat → Nat) (now : Nat) (fuel : Nat)
    (mem : Nat → α) (net : ESNObj α) (rand : Nat → Nat) : Outcome ((Nat → α) × (Nat → Nat)) :=
  let connectionSize := net.d_outputSize * net.d_reservoirSize + net.d_outputSize * net.d_inputSize
  let w0 := forLoop connectionSize (fun x w => Function.update w x (0 : α)) mem
  generateConnections lib srand now fuel 1 connectionSize w0 (-1) 1 rand

/-- The function `ESN::generateReservoirConnections` on the object: the object and the
random stream after the call.  The array `d_reservoirWeights` is the one the member
`reservoir` writes. -/
def generateReservoirConnections (lib : Lib α) (mem : InitMem α)
    (createBalancedNetwork : aNetwork.Network α → (Nat → Nat) →
      Option (aNetwork.Network α × (Nat → Nat) × Bool))
    (fuel : Nat) (net : ESNObj α) (rand : Nat → Nat) : Outcome (ESNObj α × (Nat → Nat)) :=
  match ESN.generateReservoirConnections lib mem.a createBalancedNetwork mem.reservoirWeights
      mem.indices net.d_reservoirSize net.d_connectivity net.d_spectralRadius net.d_excitatory
      net.reservoir fuel rand with
  | Generation.returned r rand1 =>
    Outcome.returned ({ net with d_reservoirWeights := some r.weights, reservoir := r }, rand1)
  | Generation.running _ _ => Outcome.running
  | Generation.aborted => Outcome.aborted

/-- The function `ESN::init` (esn.cpp lines 208-287), each of its loops followed for at most
`fuel` passes: the object and the random stream after the call.  `time k` is the value the
call of `time(NULL)` in the `k`-th call of `generateConnections` returns, and `rand` the
random stream at the time of the call (what a seed set by the caller has left). -/
def init (lib : Lib α) (srand : Nat → Nat → Nat) (time : Nat → Nat) (mem : InitMem α)
    (createBalancedNetwork : aNetwork.Network α → (Nat → Nat) →
      Option (aNetwork.Network α × (Nat → Nat) × Bool))
    (fuel : Nat) (net : ESNObj α) (rand : Nat → Nat) : Outcome (ESNObj α × (Nat → Nat)) :=
  let net0 := destroy net
  (initInputWeights lib srand (time 0) fuel mem.inputWeights net0 rand).bind (fun s1 =>
    let net1 := { net0 with d_inputWeights := some s1.1 }
    (initFeedbackWeights lib srand (time 1) fuel mem.feedbackWeights net1 s1.2).bind (fun s2 =>
      let net2 := { net1 with d_feedbackWeights := some s2.1 }
      (initOutputWeights lib srand (time 2) fuel mem.outputWeights net2 s2.2).bind (fun s3 =>
        let net3 := { net2 with d_outputWeights := some s3.1 }
        let net4 :=
          { net3 with
            d_thresholds :=
              some (forLoop net3.d_reservoirSize (fun i th => Function.update th i (0 : α))
                mem.thresholds) }
        (generateReservoirConnections lib mem createBalancedNetwork fuel net4 s3.2).bind
          (fun s5 =>
            Outcome.returned
              ({ s5.1 with
                  d_output :=
                    some (forLoop s5.1.d_outputSize (fun x o => Function.update o x (0 : α))
                      mem.output) },
                s5.2)))))

end initialisation

end ESNObj

/-- The function `f` on states (array, stream) writes a value satisfying `G` to every cell in
`C` and leaves the other cells of the array as they are. -/
def Writes {α β : Type} (f : (Nat → α) × β → (Nat → α) × β) (C : Nat → Prop)
    (G : Nat → α → Prop) : Prop :=
  ∀ s c, (C c → G c ((f s).1 c)) ∧ (¬ C c → (f s).1 c = s.1 c)

/-- The integer square root by 40 Newton steps from `n`: exact when `n` is a square below
`2 ^ 64`. -/
def newtonSqrt (n : Nat) : Nat := forLoop 40 (fun _ x => (x + n / x) / 2) n

/-- A square root on the rationals that is exact on the squares of rationals (with numerator
and denominator below `2 ^ 32`). -/
def exampleSqrtQ (q : ℚ) : ℚ := (newtonSqrt q.num.toNat : ℚ) / (newtonSqrt q.den : ℚ)

/-- Library routines over the rationals: the square root is `exampleSqrtQ`, the eigenvalue
routine converges and returns the diagonal (the eigenvalues of a triangular matrix), and the
shuffle returns the array in the order it has. -/
def exampleLibQ : Lib ℚ :=
  { RAND_MAX := 32767,
    random_shuffle := fun ind _ rand => (ind, rand),
    sqrt := exampleSqrtQ,
    rmatrixevd := fun a _ => (true, fun i => a.elem i i, fun _ => 0) }

/-- A 14 by 14 network with excitatory ratio 1/2 and connectivity 2/7, so that `N_E = 7`,
`N_I = 7` and `K = 4`. -/
def exampleNetworkBalanced : aNetwork.Network ℚ :=
  { weights := fun _ => 5,
    mode := aNetwork.Mode.CREATE_BALANCED_NETWORK,
    d_connectivity := 2 / 7, d_spectralRadius := 4 / 5, d_excitatoryRatio := 1 / 2,
    indices := fun i => i, width := 14, height := 14, size := 196 }

/-- A stream of `drand48()` in which every third value is `1/10` and the others are `9/10`. -/
def exampleDrand : Nat → ℚ := fun k => if k % 3 = 0 then 1 / 10 else 9 / 10

/-- A 2 by 2 network with connectivity 9/10 whose array holds arbitrary values. -/
def exampleNetworkDense : aNetwork.Network ℚ :=
  { weights := fun _ => 5,
    mode := aNetwork.Mode.CREATE_RANDOM,
    d_connectivity := 9 / 10, d_spectralRadius := 4 / 5, d_excitatoryRatio := 7 / 10,
    indices := fun i => i, width := 2, height := 2, size := 4 }

/-- The representation of values in a file of 4-byte words `ω`: how an `int`, an
`ActivationFunction` and a `WEIGHT_TYPE` are written as a word and read back from one. -/
structure Codec (α ω : Type) where
  ofInt : Nat → ω
  toInt : ω → Nat
  ofAct : ActivationFunction → ω
  toAct : ω → ActivationFunction
  ofReal : α → ω
  toReal : ω → α

/-- Writing an object to memory and reading it back gives the object. -/
def Codec.Faithful {α ω : Type} (c : Codec α ω) : Prop :=
  (∀ n, c.toInt (c.ofInt n) = n) ∧ (∀ a, c.toAct (c.ofAct a) = a)
    ∧ (∀ x, c.toReal (c.ofReal x) = x)

namespace ESNObj

section persistence

variable {α ω : Type}

/-- The function `ESN::saveWeights` (esn.cpp lines 587-593): the words appended to the
file. -/
def saveWeights (c : Codec α ω) (outputFile : List ω) (matrixSize : Nat) (matrix : Ptr α) :
    Except Fault (List ω) :=
  forLoopM matrixSize
    (fun x file => do
      let v ← matrix.read x
      pure (file ++ [c.ofReal v]))
    outputFile

/-- The function `ESN::saveESN` (esn.cpp lines 540-577) when the file can be opened: the
words of the file it writes. -/
def saveESN (c : Codec α ω) (net : ESNObj α) : Except Fault (List ω) := do
  let header : List ω :=
    [c.ofInt net.d_inputSize, c.ofInt net.d_outputSize, c.ofInt net.d_reservoirSize,
      c.ofAct net.d_reservoirActivation, c.ofAct net.d_outputActivation,
      c.ofReal net.d_connectivity, c.ofReal net.d_inConnectivity,
      c.ofReal net.d_fbConnectivity, c.ofReal net.d_spectralRadius,
      c.ofReal net.d_inputScale, c.ofReal net.d_feedbackScale, c.ofReal net.d_inputShift,
      c.ofReal net.d_feedbackShift, c.ofReal net.d_timeConstant,
      c.ofReal net.d_feedbackScale]
  let f1 ← saveWeights c header (net.d_inputSize * net.d_reservoirSize) net.d_inputWeights
  let f2 ← saveWeights c f1 (net.d_outputSize * net.d_reservoirSize) net.d_feedbackWeights
  let f3 ← saveWeights c f2
    (net.d_outputSize * net.d_reservoirSize + net.d_outputSize * net.d_inputSize)
    net.d_outputWeights
  saveWeights c f3 (net.d_reservoirSize * net.d_reservoirSize) net.d_reservoirWeights

/-- One call `inputFile.read((char *) &v, 4)`: the value of `v` after it and the rest of the
stream.  At the end of the stream nothing is read and `v` keeps its value. -/
def readWord {β : Type} (decode : ω → β) (old : β) (stream : List ω) : β × List ω :=
  match stream with
  | [] => (old, [])
  | w :: rest => (decode w, rest)

/-- The function `ESN::loadWeights` (esn.cpp lines 647-653): the array and the rest of the
stream. -/
def loadWeights (c : Codec α ω) (inputFile : List ω) (matrixSize : Nat) (matrix : Nat → α) :
    (Nat → α) × List ω :=
  forLoop matrixSize
    (fun x s =>
      let r := readWord c.toReal (s.1 x) s.2
      (Function.update s.1 x r.1, r.2))
    (matrix, inputFile)

/-- The function `ESN::loadESN` (esn.cpp lines 598-645).  `file` is the content of the file,
`none` when it cannot be opened; `mem` holds the memory the four allocations return (its
fields `inputWeights`, `feedbackWeights`, `outputWeights` and `reservoirWeights`). -/
def loadESN (c : Codec α ω) (mem : InitMem α) (file : Option (List ω)) (net : ESNObj α) :
    ESNObj α :=
  let net0 := destroy net
  match file with
  | none => net0
  | some f0 =>
    let r1 := readWord c.toInt net0.d_inputSize f0
    let r2 := readWord c.toInt net0.d_outputSize r1.2
    let r3 := readWord c.toInt net0.d_reservoirSize r2.2
    let r4 := readWord c.toAct net0.d_reservoirActivation r3.2
    let r5 := readWord c.toAct net0.d_outputActivation r4.2
    let r6 := readWord c.toReal net0.d_connectivity r5.2
    let r7 := readWord c.toReal net0.d_inConnectivity r6.2
    let r8 := readWord c.toReal net0.d_fbConnectivity r7.2
    let r9 := readWord c.toReal net0.d_spectralRadius r8.2
    let r10 := readWord c.toReal net0.d_inputScale r9.2
    let r11 := readWord c.toReal net0.d_feedbackScale r10.2
    let r12 := readWord c.toReal net0.d_inputShift r11.2
    let r13 := readWord c.toReal net0.d_feedbackShift r12.2
    let r14 := readWord c.toReal net0.d_timeConstant r13.2
    let r15 := readWord c.toReal r11.1 r14.2
    let d_inputSize := r1.1
    let d_outputSize := r2.1
    let d_reservoirSize := r3.1
    let w1 := loadWeights c r15.2 (d_inputSize * d_reservoirSize) mem.inputWeights
    let w2 := loadWeights c w1.2 (d_outputSize * d_reservoirSize) mem.feedbackWeights
    let w3 := loadWeights c w2.2
      (d_outputSize * d_reservoirSize + d_outputSize * d_inputSize) mem.outputWeights
    let w4 := loadWeights c w3.2 (d_reservoirSize * d_reservoirSize) mem.reservoirWeights
    { net0 with
      d_inputSize := d_inputSize, d_outputSize := d_outputSize,
      d_reservoirSize := d_reservoirSize, d_reservoirActivation := r4.1,
      d_outputActivation := r5.1, d_connectivity := r6.1, d_inConnectivity := r7.1,
      d_fbConnectivity := r8.1, d_spectralRadius := r9.1, d_inputScale := r10.1,
      d_feedbackScale := r15.1, d_inputShift := r12.1, d_feedbackShift := r13.1,
      d_timeConstant := r14.1,
      d_inputWeights := some w1.1, d_feedbackWeights := some w2.1,
      d_outputWeights := some w3.1, d_reservoirWeights := some w4.1 }

end persistence

end ESNObj

/-- Rational stand-ins for the functions of the mathematics library, to build objects over
the rationals: none of them is the identity. -/
def exampleLibmQ : Libm ℚ :=
  { tanh := fun x => x / (1 + |x|),
    atanh := fun y => y / (1 - |y|),
    exp := fun x => 1 + x + x * x / 2,
    log := fun x => x - 1 }

/-- An object as uninitialised memory holds it: sizes 7, all pointers non-null. -/
def exampleObjMem : ESNObj ℚ :=
  { resActFunc := fun x => x + 100, outActFunc := fun x => x + 100,
    outInvActFunc := fun x => x + 100,
    d_inputSize := 7, d_outputSize := 7, d_reservoirSize := 7,
    d_reservoirActivation := ActivationFunction.HEAVISIDE_ACTIVATION,
    d_outputActivation := ActivationFunction.HEAVISIDE_ACTIVATION,
    d_connectivity := 7, d_inConnectivity := 7, d_fbConnectivity := 7, d_spectralRadius := 7,
    d_inputScale := 7, d_feedbackScale := 7, d_inputShift := 7, d_feedbackShift := 7,
    d_inputWeights := some (fun _ => 7), d_outputWeights := some (fun _ => 7),
    d_feedbackWeights := some (fun _ => 7), d_reservoirWeights := some (fun _ => 7),
    d_output := some (fun _ => 7), d_thresholds := some (fun _ => 7),
    d_timeConstant := 7, d_decayRate := 7, d_excitatory := 7,
    reservoir := exampleNetworkDense }

/-- Memory for the allocations of `init`, every cell holding 9. -/
def exampleInitMem : InitMem ℚ :=
  { inputWeights := fun _ => 9, feedbackWeights := fun _ => 9, outputWeights := fun _ => 9,
    thresholds := fun _ => 9, reservoirWeights := fun _ => 9, output := fun _ => 9,
    indices := fun _ => 9, a := fun _ _ => 9 }

/-- A stand-in for the generator of the C library: after `srand(seed)` the `k`-th call of
`rand()` returns `seed + 3 * k + 1`. -/
def exampleSrand : Nat → Nat → Nat := fun seed k => seed + 3 * k + 1

/-- The object `ESN(1, 1, 2, 0.5)` constructed in the memory `exampleObjMem`. -/
def exampleObj : ESNObj ℚ :=
  match ESNObj.new exampleLibmQ exampleObjMem 1 1 2 (1 / 2) with
  | Except.ok net => net
  | Except.error _ => exampleObjMem

/-- The two objects agree on the members `ESN::init` reads: the three sizes, the three
connectivities, the spectral radius target, the feedback scale and shift and the excitatory
ratio. -/
def ESNObj.sameConfiguration {α : Type} (a b : ESNObj α) : Prop :=
  a.d_inputSize = b.d_inputSize ∧ a.d_outputSize = b.d_outputSize
    ∧ a.d_reservoirSize = b.d_reservoirSize ∧ a.d_connectivity = b.d_connectivity
    ∧ a.d_inConnectivity = b.d_inConnectivity ∧ a.d_fbConnectivity = b.d_fbConnectivity
    ∧ a.d_spectralRadius = b.d_spectralRadius ∧ a.d_feedbackScale = b.d_feedbackScale
    ∧ a.d_feedbackShift = b.d_feedbackShift ∧ a.d_excitatory = b.d_excitatory

/-- The four weight arrays of an object. -/
def ESNObj.weightArrays {α : Type} (net : ESNObj α) : Ptr α × Ptr α × Ptr α × Ptr α :=
  (net.d_inputWeights, net.d_feedbackWeights, net.d_outputWeights, net.d_reservoirWeights)

/-- A 4-byte word of a file, tagged with the type of the value it was written from. -/
inductive Word where
  | int (n : Nat)
  | act (a : ActivationFunction)
  | real (x : ℚ)
  deriving DecidableEq

/-- The representation of values as tagged words; a word read at another type than it was
written from gives a fixed value. -/
def exampleCodec : Codec ℚ Word :=
  { ofInt := Word.int,
    toInt := fun w => match w with
      | Word.int n => n
      | _ => 0,
    ofAct := Word.act,
    toAct := fun w => match w with
      | Word.act a => a
      | _ => ActivationFunction.IDENTITY_ACTIVATION,
    ofReal := Word.real,
    toReal := fun w => match w with
      | Word.real x => x
      | _ => 0 }

/-! ## The Mackey-Glass generator (`mackey.cpp`) -/

/-- The local array `x_history` of `mackey` with a record of the indices it has been read or
written at, in the order of the accesses. -/
structure History (α : Type) where
  /-- the memory at `x_history[i]` -/
  cells : Nat → α
  /-- the indices used so far -/
  accesses : List Nat

/-- The read `x_history[i]`. -/
def History.read {α : Type} (h : History α) (i : Nat) : α × History α :=
  (h.cells i, { h with accesses := h.accesses ++ [i] })

/-- The store `x_history[i] = v`. -/
def History.write {α : Type} (h : History α) (i : Nat) (v : α) : History α :=
  { cells := Function.update h.cells i v, accesses := h.accesses ++ [i] }

/-- The locals of `mackey` that its loop changes, with the arrays `X` and `T`. -/
structure MackeyState (α : Type) where
  X : Nat → α
  T : Nat → α
  time : α
  index : Nat
  x_history : History α
  x_t : α

namespace Mackey

section generator

variable {α : Type} [LinearOrderedField α]

/-- The function `mackeyglass_eq` (mackey.cpp lines 31-34). -/
def mackeyglass_eq (x_t x_t_minus_tau a b : α) : α :=
  let x_dot := -b * x_t + a * x_t_minus_tau / (1 + x_t_minus_tau ^ 10)
  x_dot

/-- The function `mackeyglass_rk4` (mackey.cpp lines 36-43). -/
def mackeyglass_rk4 (x_t x_t_minus_tau deltat a b : α) : α :=
  let k1 := deltat * mackeyglass_eq x_t x_t_minus_tau a b
  let k2 := deltat * mackeyglass_eq (x_t + 0.5 * k1) x_t_minus_tau a b
  let k3 := deltat * mackeyglass_eq (x_t + 0.5 * k2) x_t_minus_tau a b
  let k4 := deltat * mackeyglass_eq (x_t + k3) x_t_minus_tau a b
  let x_t_plus_deltat := x_t + k1 / 6 + k2 / 3 + k3 / 3 + k4 / 6
  x_t_plus_deltat

/-- The loop of line 61, `for (int i = 0; i < x_history[i]; ++i) x_history[i] = 0.0;`,
followed for at most `fuel` passes from the counter `i`: its condition reads `x_history[i]`. -/
def zeroHistory (fuel : Nat) (i : Nat) (h : History α) : Outcome (History α) :=
  match fuel with
  | 0 => if (i : α) < (h.read i).1 then Outcome.running else Outcome.returned (h.read i).2
  | k + 1 =>
    if (i : α) < (h.read i).1 then zeroHistory k (i + 1) ((h.read i).2.write i 0)
    else Outcome.returned (h.read i).2

/-- The body of the loop of `mackey` (lines 66-89). -/
def mackeyStep (tau history_length : Nat) (deltat a b : α) (i : Nat) (s : MackeyState α) :
    MackeyState α :=
  let X1 := Function.update s.X i s.x_t
  let r : α × History α := if tau = 0 then (0, s.x_history) else s.x_history.read s.index
  let x_t_minus_tau := r.1
  let x_t_plus_deltat := mackeyglass_rk4 s.x_t x_t_minus_tau deltat a b
  let h1 := if tau ≠ 0 then r.2.write s.index x_t_plus_deltat else r.2
  let index1 := if tau ≠ 0 then (s.index % history_length) + 1 else s.index
  let time1 := s.time + deltat
  { X := X1, T := Function.update s.T i time1, time := time1, index := index1,
    x_history := h1, x_t := x_t_plus_deltat }

end generator

section generatorFloor

variable {α : Type} [LinearOrderedField α] [FloorRing α]

/-- The function `mackey` (mackey.cpp lines 48-90; `MACKEY_GLASS_DIFFICULTY` is
`SOFT_MACKEY_GLASS`, 17).  `mem` is the memory the array `x_history` is allocated in, as it is
before line 61; the loop of line 61 is followed for at most `fuel` passes. -/
def mackey (mem : Nat → α) (fuel : Nat) (X T : Nat → α) (sample_n : Nat) :
    Outcome (MackeyState α) :=
  let a : α := 0.2
  let b : α := 0.1
  let tau : Nat := 17
  let x0 : α := 1.2
  let deltat : α := 0.1
  let time : α := 0
  let index : Nat := 1
  let history_length : Nat := Nat.floor ((tau : α) / deltat)
  (zeroHistory fuel 0 { cells := mem, accesses := [] }).bind (fun x_history =>
    Outcome.returned
      (forLoop sample_n (mackeyStep tau history_length deltat a b)
        { X := X, T := T, time := time, index := index, x_history := x_history, x_t := x0 }))

end generatorFloor

end Mackey


/-- The arrays `ESN::Run` reads or writes. -/
inductive RunBuffer where
  /-- `trial->inputVal` -/
  | input
  /-- `trial->neuronVal` -/
  | states
  /-- `trial->outputVal` -/
  | output
  /-- `trial->debug` -/
  | debug
  | d_inputWeights
  | d_reservoirWeights
  | d_feedbackWeights
  | d_outputWeights
  | d_thresholds
  deriving DecidableEq, Repr

/-- The number of elements of each array of `ESN::Run` under the sizing precondition: the
weight arrays and the thresholds as `ESN::init` allocates them for the sizes `I`, `O`, `R`
(esn.cpp lines 213-214, 252-253, 262-263, 269 and 302-303), the state and debug buffers as
`AddTrial` allocates them for `T` samples (esn_train.cpp lines 87 and 94), the input buffer
with `I * T` and the output buffer with `O * T` elements. -/
def RunBuffer.length (I O R T : Nat) : RunBuffer → Nat
  | RunBuffer.input => I * T
  | RunBuffer.states => R * T
  | RunBuffer.output => O * T
  | RunBuffer.debug => R * T
  | RunBuffer.d_inputWeights => I * R
  | RunBuffer.d_reservoirWeights => R * R
  | RunBuffer.d_feedbackWeights => O * R
  | RunBuffer.d_outputWeights => O * R + O * I
  | RunBuffer.d_thresholds => R

namespace ESN

section accesses

variable {α : Type} [LinearOrderedCommRing α]

/-- The array accesses of the body of the neuron loop of `ESN::Run` (lines 445-491) for
neuron `n` at time `t`, appended to the record `log` in the order of the source: every
subscript expression of these lines with the array it indexes. -/
def neuronAccesses (net : ESN α) (inputSize t n : Nat) (log : List (RunBuffer × Nat)) :
    List (RunBuffer × Nat) :=
  let log1 :=
    forLoop inputSize
      (fun inputNr log =>
        log ++ [(RunBuffer.input, t * inputSize + inputNr),
          (RunBuffer.d_inputWeights, n * inputSize + inputNr)])
      log
  let log2 :=
    forLoop net.d_reservoirSize
      (fun innerResNr log =>
        if 0 < t then
          log ++ [(RunBuffer.states, (t - 1) * net.d_reservoirSize + innerResNr),
            (RunBuffer.d_reservoirWeights, n * net.d_reservoirSize + innerResNr)]
        else log)
      log1
  let log3 :=
    if 0 < net.d_fbConnectivity then
      forLoop net.d_outputSize
        (fun outputNNr log =>
          if 0 < t then
            log ++ [(RunBuffer.output, (t - 1) * net.d_outputSize + outputNNr),
              (RunBuffer.d_feedbackWeights, n * net.d_outputSize + outputNNr)]
          else log)
        log2
    else log2
  let log4 :=
    if 0 < t then log3 ++ [(RunBuffer.states, (t - 1) * net.d_reservoirSize + n)] else log3
  log4 ++ [(RunBuffer.d_thresholds, n), (RunBuffer.debug, t * net.d_reservoirSize + n),
    (RunBuffer.states, t * net.d_reservoirSize + n)]

/-- The array accesses of the body of the output loop of `ESN::Run` (lines 498-512). -/
def outputAccesses (net : ESN α) (inputSize t outputNNr : Nat) (log : List (RunBuffer × Nat)) :
    List (RunBuffer × Nat) :=
  let log1 :=
    forLoop net.d_reservoirSize
      (fun resNNr log =>
        log ++ [(RunBuffer.states, t * net.d_reservoirSize + resNNr),
          (RunBuffer.d_outputWeights,
            outputNNr * (net.d_reservoirSize + net.d_inputSize) + resNNr)])
      log
  let log2 :=
    forLoop net.d_inputSize
      (fun inputNNr log =>
        log ++ [(RunBuffer.input, t * inputSize + inputNNr),
          (RunBuffer.d_outputWeights,
            outputNNr * (net.d_reservoirSize + net.d_inputSize) + net.d_reservoirSize
              + inputNNr)])
      log1
  log2 ++ [(RunBuffer.output, t * net.d_outputSize + outputNNr)]

/-- The array accesses of the body of the time loop of `ESN::Run` (lines 442-515). -/
def timeStepAccesses (net : ESN α) (simType : SimulationType)
    (teacherTestSize inputSize reservoirSize t : Nat) (log : List (RunBuffer × Nat)) :
    List (RunBuffer × Nat) :=
  let log1 := forLoop reservoirSize (neuronAccesses net inputSize t) log
  if setOutput net simType teacherTestSize t then
    forLoop net.d_outputSize (outputAccesses net inputSize t) log1
  else log1

/-- The array accesses of `ESN::Run` (lines 425-516), in the order they are made. -/
def RunAccesses (net : ESN α) (trial : Trial α) (simType : SimulationType) :
    List (RunBuffer × Nat) :=
  let inputSize := trial.inputSize
  let timespan := trial.sampleSize
  let reservoirSize := trial.stateSize
  forLoop timespan
    (timeStepAccesses net simType trial.teacherTestSize inputSize reservoirSize) []

end accesses

end ESN


/-- Every recorded access lies inside its array. -/
def ESN.InBounds (I O R T : Nat) (log : List (RunBuffer × Nat)) : Prop :=
  ∀ acc, acc ∈ log → acc.2 < RunBuffer.length I O R T acc.1


/-- A network with one input, one output and two reservoir neurons, feedback connectivity 1,
time constant 1 and decay rate 1 (the defaults of the constructor), with the reservoir
activation `f`. -/
def exampleNetAct {α : Type} [LinearOrderedField α] (f : α → α) : ESN α where
  d_inputSize := 1
  d_outputSize := 1
  d_reservoirSize := 2
  d_fbConnectivity := 1
  d_inputWeights := fun _ => 1
  d_outputWeights := fun _ => 1
  d_feedbackWeights := fun _ => 1
  d_reservoirWeights := fun _ => 2
  d_thresholds := fun _ => 0
  d_timeConstant := 1
  d_decayRate := 1
  resActFunc := f
  outActFunc := fun x => x

/-- A trial of three samples for `exampleNetAct`. -/
def exampleTrialOf (α : Type) [LinearOrderedField α] : Trial α where
  neuronVal := fun _ => 7
  inputVal := fun _ => 1
  stateSize := 2
  sampleSize := 3
  classId := 0
  outputVal := fun _ => 1
  teacherTestSize := 0
  inputSize := 1
  debug := fun _ => 0


/-- The cell `c` of the state buffer (and of the debug buffer) has been written when
`ESN::Run` is about to compute neuron `m` of time step `k`: it is the cell `t * R + n` of a
neuron `n < S` at a time `t < k`, or at time `k` with `n < m` (`R` is the reservoir size of
the network, `S` the `stateSize` of the trial). -/
def ESN.Written (R S k m c : Nat) : Prop :=
  ∃ t n, n < S ∧ (t < k ∨ (t = k ∧ n < m)) ∧ c = t * R + n


/-- A trial object with two samples, one input and two neurons whose buffers are all
allocated. -/
def exampleTrialObj2 : TrialObj ℚ :=
  { neuronVal := some (fun _ => 0), inputVal := some (fun _ => 1), stateSize := 2,
    sampleSize := 2, classId := 0, outputVal := some (fun _ => 2), teacherTestSize := 0,
    inputSize := 1, debug := some (fun _ => 0) }

/-- The states of neuron 1 at the times 0 and 1 (elements 1 and 3 of the state buffer) after
a call of `Run` on a trial with two neurons, when the call returns. -/
def exampleStates (r : Except Fault (TrialObj ℚ)) : Option (ℚ × ℚ) :=
  match r with
  | Except.ok t => t.neuronVal.map (fun v => (v 1, v 3))
  | Except.error _ => none

/-- The way a call of `Run` stops, when it does not return. -/
def exampleFault (r : Except Fault (TrialObj ℚ)) : Option Fault :=
  match r with
  | Except.ok _ => none
  | Except.error e => some e


/-! ## The matrix inverse of the `ap` library (`src/thd/inv`) -/

namespace ap

section helpers

variable {α : Type} [LinearOrderedField α]

/-- The helper `ap::vlen(n1, n2)` of `ap.h` (not under `src/`): the number of indices
`n1, ..., n2`.  The code calls it with `n2 + 1 >= n1` only. -/
def vlen (n1 n2 : Nat) : Nat := n2 + 1 - n1

/-- The helper `ap::vdotproduct(v1, v2, N)` of `ap.h`: the dot product of the first `N`
elements of two vectors. -/
def vdotproduct (v1 v2 : Nat → α) (N : Nat) : α :=
  forLoop N (fun k acc => acc + v1 k * v2 k) 0

/-- The helper `ap::vmove(vdst, vsrc, N)` of `ap.h`: the destination after the first `N`
elements of the source were copied to it. -/
def vmove (vdst vsrc : Nat → α) (N : Nat) : Nat → α :=
  fun k => if k < N then vsrc k else vdst k

/-- The helper `ap::vsub(vdst, vsrc, N, alpha)` of `ap.h`: `vdst[k] -= alpha * vsrc[k]` for
the first `N` elements. -/
def vsub (vdst vsrc : Nat → α) (N : Nat) (alpha : α) : Nat → α :=
  fun k => if k < N then vdst k - alpha * vsrc k else vdst k

/-- The helper `ap::vmul(vdst, N, alpha)` of `ap.h`: `vdst[k] *= alpha` for the first `N`
elements. -/
def vmul (vdst : Nat → α) (N : Nat) (alpha : α) : Nat → α :=
  fun k => if k < N then vdst k * alpha else vdst k

/-- The elements a pointer `&a(i, c)` gives access to: row `i` of `a` from column `c` on. -/
def rowFrom (a : Nat → Nat → α) (i c : Nat) : Nat → α := fun k => a i (c + k)

/-- The matrix after the elements at `&a(i, c)` were replaced by `v`. -/
def setRowFrom (a : Nat → Nat → α) (i c : Nat) (v : Nat → α) : Nat → Nat → α :=
  fun r cc => if r = i ∧ c ≤ cc then v (cc - c) else a r cc

/-- The elements of `a.getcolumn(c, r, ...)`: column `c` of `a` from row `r` on. -/
def colFrom (a : Nat → Nat → α) (c r : Nat) : Nat → α := fun k => a (r + k) c

/-- The matrix after the elements of `a.getcolumn(c, r, ...)` were replaced by `v`. -/
def setColFrom (a : Nat → Nat → α) (c r : Nat) (v : Nat → α) : Nat → Nat → α :=
  fun rr cc => if cc = c ∧ r ≤ rr then v (rr - r) else a rr cc

/-- The elements a pointer `&t(k0)` (or `t.getvector(k0, ...)`) gives access to. -/
def vecFrom (t : Nat → α) (k0 : Nat) : Nat → α := fun k => t (k0 + k)

/-- The vector after the elements at `&t(k0)` were replaced by `v`. -/
def setVecFrom (t : Nat → α) (k0 : Nat) (v : Nat → α) : Nat → α :=
  fun k => if k0 ≤ k then v (k - k0) else t k

/-- The assignment `a(i, j) = v` on the elements of a matrix. -/
def set (a : Nat → Nat → α) (i j : Nat) (v : α) : Nat → Nat → α :=
  fun r c => if r = i ∧ c = j then v else a r c

end helpers

end ap

/-- The loop `for (j = n - 1; j >= 0; j--) s = body j s`. -/
def forDown {σ : Type} (n : Nat) (body : Nat → σ → σ) (s : σ) : σ :=
  forLoop n (fun d => body (n - 1 - d)) s

/-- The arrays the routines of `src/thd/inv` allocate with `setbounds`, as the memory holds
them before they are written. -/
structure InvMem (α : Type) where
  pivots : Nat → Nat
  t1 : Nat → α
  b : Nat → Nat → α
  t : Nat → α
  bp : Nat → Nat
  work : Nat → α

/-- The variables of `rmatrixlu2` its loop changes: the matrix `a`, the array `pivots` and
the work row `t1`. -/
structure LuState (α : Type) where
  a : Nat → Nat → α
  pivots : Nat → Nat
  t1 : Nat → α

/-- The variables of `rmatrixlu` its main cycle changes. -/
structure LuBlockState (α : Type) where
  a : Nat → Nat → α
  pivots : Nat → Nat
  b : Nat → Nat → α
  t : Nat → α
  bp : Nat → Nat
  j1 : Nat
  j2 : Nat

/-- The variables of `rmatrixtrinverse` its loop changes, with the flag `returned` set when
the loop has executed `return result`. -/
structure TrState (α : Type) where
  a : Nat → Nat → α
  t : Nat → α
  result : Bool
  returned : Bool

section inverse

variable {α : Type} [LinearOrderedField α]

/-- Lines 415-422 of `rmatrixlu2`: the row of the pivot of column `j`. -/
def rmatrixlu2_pivot (a : Nat → Nat → α) (m j : Nat) : Nat :=
  forRange (j + 1) m (fun i jp => if |a i j| > |a jp j| then i else jp) j

/-- Lines 454-458 of `rmatrixlu2`: the update of the trailing submatrix for column `j`. -/
def rmatrixlu2_trailing (a : Nat → Nat → α) (m n j : Nat) : Nat → Nat → α :=
  let jp := j + 1
  forRange (j + 1) m
    (fun i a =>
      let s : α := a i j
      ap.setRowFrom a i jp
        (ap.vsub (ap.rowFrom a i jp) (ap.rowFrom a j jp) (ap.vlen jp (n - 1)) s))
    a

/-- The body of the loop of `rmatrixlu2` (lu.cpp lines 411-459) for column `j`. -/
def rmatrixlu2_step (m n j : Nat) (s : LuState α) : LuState α :=
  let jp := rmatrixlu2_pivot s.a m j
  let pivots := Function.update s.pivots j jp
  let s1 : LuState α :=
    if s.a jp j ≠ 0 then
      let s2 : LuState α :=
        if jp ≠ j then
          let t1 := ap.vmove s.t1 (ap.rowFrom s.a j 0) (ap.vlen 0 (n - 1))
          let a1 := ap.setRowFrom s.a j 0
            (ap.vmove (ap.rowFrom s.a j 0) (ap.rowFrom s.a jp 0) (ap.vlen 0 (n - 1)))
          let a2 := ap.setRowFrom a1 jp 0
            (ap.vmove (ap.rowFrom a1 jp 0) t1 (ap.vlen 0 (n - 1)))
          { a := a2, pivots := pivots, t1 := t1 }
        else { s with pivots := pivots }
      if j < m then
        let jp := j + 1
        let sc : α := 1 / s2.a j j
        { s2 with
          a := ap.setColFrom s2.a j jp (ap.vmul (ap.colFrom s2.a j jp) (ap.vlen jp (m - 1)) sc) }
      else s2
    else { s with pivots := pivots }
  if j + 1 < min m n then { s1 with a := rmatrixlu2_trailing s1.a m n j } else s1

/-- The function `rmatrixlu2` (lu.cpp lines 385-461): the matrix and the pivots after the
call.  `pivots` and `t1` are the arrays as `setbounds` allocates them; the loop runs over
`j = 0, ..., minint(m-1, n-1)`. -/
def rmatrixlu2 (a : Nat → Nat → α) (m n : Nat) (pivots : Nat → Nat) (t1 : Nat → α) :
    LuState α :=
  if m = 0 ∨ n = 0 then { a := a, pivots := pivots, t1 := t1 }
  else
    forLoop (min (m - 1) (n - 1) + 1) (rmatrixlu2_step m n)
      { a := a, pivots := pivots, t1 := t1 }

/-- Lines 165-192 of `rmatrixlu`: the pivot `bp(i)` of the block is recorded and the rows
`j1 + i` and `j1 + bp(i)` are interchanged outside the block. -/
def rmatrixlu_interchange (n : Nat) (i : Nat) (s : LuBlockState α) : LuBlockState α :=
  let ip := s.bp i
  let s1 := { s with pivots := Function.update s.pivots (s.j1 + i) (s.j1 + ip) }
  if s1.bp i ≠ i then
    let s2 : LuBlockState α :=
      if s1.j1 ≠ 0 then
        let t := ap.setVecFrom s1.t 0
          (ap.vmove (ap.vecFrom s1.t 0) (ap.rowFrom s1.a (s1.j1 + i) 0) (ap.vlen 0 (s1.j1 - 1)))
        let a1 := ap.setRowFrom s1.a (s1.j1 + i) 0
          (ap.vmove (ap.rowFrom s1.a (s1.j1 + i) 0) (ap.rowFrom s1.a (s1.j1 + ip) 0)
            (ap.vlen 0 (s1.j1 - 1)))
        let a2 := ap.setRowFrom a1 (s1.j1 + ip) 0
          (ap.vmove (ap.rowFrom a1 (s1.j1 + ip) 0) (ap.vecFrom t 0) (ap.vlen 0 (s1.j1 - 1)))
        { s1 with a := a2, t := t }
      else s1
    if s2.j2 + 1 < n then
      let t := ap.setVecFrom s2.t (s2.j2 + 1)
        (ap.vmove (ap.vecFrom s2.t (s2.j2 + 1)) (ap.rowFrom s2.a (s2.j1 + i) (s2.j2 + 1))
          (ap.vlen (s2.j2 + 1) (n - 1)))
      let a1 := ap.setRowFrom s2.a (s2.j1 + i) (s2.j2 + 1)
        (ap.vmove (ap.rowFrom s2.a (s2.j1 + i) (s2.j2 + 1))
          (ap.rowFrom s2.a (s2.j1 + ip) (s2.j2 + 1)) (ap.vlen (s2.j2 + 1) (n - 1)))
      let a2 := ap.setRowFrom a1 (s2.j1 + ip) (s2.j2 + 1)
        (ap.vmove (ap.rowFrom a1 (s2.j1 + ip) (s2.j2 + 1)) (ap.vecFrom t (s2.j2 + 1))
          (ap.vlen (s2.j2 + 1) (n - 1)))
      { s2 with a := a2, t := t }
    else s2
  else s1

/-- The statement `ap::vsub(&a(i, j2+1), &a(j, j2+1), ap::vlen(j2+1,n-1), v)` with
`v = a(i,j)` of lines 203-204 and 218-219 of `rmatrixlu`. -/
def rmatrixlu_eliminate (n j2 i j : Nat) (a : Nat → Nat → α) : Nat → Nat → α :=
  let v : α := a i j
  ap.setRowFrom a i (j2 + 1)
    (ap.vsub (ap.rowFrom a i (j2 + 1)) (ap.rowFrom a j (j2 + 1)) (ap.vlen (j2 + 1) (n - 1)) v)

/-- One pass of the main cycle of `rmatrixlu` (lu.cpp lines 147-228). -/
def rmatrixlu_block (m n nb : Nat) (mem : InvMem α) (s : LuBlockState α) : LuBlockState α :=
  let minmn := min m n
  let cb := s.j2 - s.j1 + 1
  let b1 :=
    forRange s.j1 m
      (fun i b =>
        ap.setRowFrom b (i - s.j1) 0
          (ap.vmove (ap.rowFrom b (i - s.j1) 0) (ap.rowFrom s.a i s.j1) (ap.vlen 0 (cb - 1))))
      s.b
  let lu := rmatrixlu2 b1 (m - s.j1) cb mem.bp mem.t1
  let a1 :=
    forRange s.j1 m
      (fun i a =>
        ap.setRowFrom a i s.j1
          (ap.vmove (ap.rowFrom a i s.j1) (ap.rowFrom lu.a (i - s.j1) 0) (ap.vlen s.j1 s.j2)))
      s.a
  let s1 : LuBlockState α := { s with a := a1, b := lu.a, bp := lu.pivots }
  let s2 := forLoop cb (rmatrixlu_interchange n) s1
  let a3 :=
    if s2.j2 + 1 < n then
      forRange (s2.j1 + 1) (s2.j2 + 1)
        (fun i a => forRange s2.j1 i (fun j a => rmatrixlu_eliminate n s2.j2 i j a) a) s2.a
    else s2.a
  let a4 :=
    if s2.j2 + 1 < n then
      forRange (s2.j2 + 1) m
        (fun i a => forRange s2.j1 (s2.j2 + 1) (fun j a => rmatrixlu_eliminate n s2.j2 i j a) a)
        a3
    else a3
  let j1 := s2.j2 + 1
  { s2 with a := a4, j1 := j1, j2 := min minmn (j1 + nb) - 1 }

/-- The main cycle `while (j1 < minmn)` of `rmatrixlu`, followed for at most `fuel` passes. -/
def rmatrixlu_cycle (m n nb : Nat) (mem : InvMem α) (fuel : Nat) (s : LuBlockState α) :
    LuBlockState α :=
  match fuel with
  | 0 => s
  | k + 1 =>
    if s.j1 < min m n then rmatrixlu_cycle m n nb mem k (rmatrixlu_block m n nb mem s) else s

/-- The constant `lunb` of lu.cpp. -/
def lunb : Nat := 8

/-- The function `rmatrixlu` (lu.cpp lines 96-231): the matrix and the pivots after the
call.  Every pass of the main cycle increases `j1`, so `min m n` passes end it. -/
def rmatrixlu (mem : InvMem α) (a : Nat → Nat → α) (m n : Nat) :
    (Nat → Nat → α) × (Nat → Nat) :=
  let nb := lunb
  if n ≤ 1 ∨ min m n ≤ nb ∨ nb = 1 then
    let lu := rmatrixlu2 a m n mem.pivots mem.t1
    (lu.a, lu.pivots)
  else
    let minmn := min m n
    let s := rmatrixlu_cycle m n nb mem minmn
      { a := a, pivots := mem.pivots, b := mem.b, t := mem.t, bp := mem.bp, j1 := 0,
        j2 := min minmn nb - 1 }
    (s.a, s.pivots)

/-- Lines 107-147 of `rmatrixtrinverse`: column `j` of the inverse of an upper triangular
matrix. -/
def rmatrixtrinverse_upper (nounit : Bool) (j : Nat) (s : TrState α) : TrState α :=
  if s.returned then s
  else if nounit ∧ s.a j j = 0 then { s with result := false, returned := true }
  else
    let a1 := if nounit then ap.set s.a j j (1 / s.a j j) else s.a
    let ajj : α := if nounit then -a1 j j else -1
    if j > 0 then
      let t := ap.setVecFrom s.t 0
        (ap.vmove (ap.vecFrom s.t 0) (ap.colFrom a1 j 0) (ap.vlen 0 (j - 1)))
      let a2 :=
        forLoop j
          (fun i a =>
            let v : α :=
              if i + 1 < j then
                ap.vdotproduct (ap.rowFrom a i (i + 1)) (ap.vecFrom t (i + 1))
                  (ap.vlen (i + 1) (j - 1))
              else 0
            if nounit then ap.set a i j (v + a i i * t i) else ap.set a i j (v + t i))
          a1
      let a3 := ap.setColFrom a2 j 0 (ap.vmul (ap.colFrom a2 j 0) (ap.vlen 0 (j - 1)) ajj)
      { s with a := a3, t := t }
    else { s with a := a1 }

/-- Lines 159-200 of `rmatrixtrinverse`: column `j` of the inverse of a lower triangular
matrix. -/
def rmatrixtrinverse_lower (n : Nat) (nounit : Bool) (j : Nat) (s : TrState α) : TrState α :=
  if s.returned then s
  else if nounit ∧ s.a j j = 0 then { s with result := false, returned := true }
  else
    let a1 := if nounit then ap.set s.a j j (1 / s.a j j) else s.a
    let ajj : α := if nounit then -a1 j j else -1
    if j + 1 < n then
      let t := ap.setVecFrom s.t (j + 1)
        (ap.vmove (ap.vecFrom s.t (j + 1)) (ap.colFrom a1 j (j + 1)) (ap.vlen (j + 1) (n - 1)))
      let a2 :=
        forRange (j + 1) n
          (fun i a =>
            let v : α :=
              if i > j + 1 then
                ap.vdotproduct (ap.rowFrom a i (j + 1)) (ap.vecFrom t (j + 1))
                  (ap.vlen (j + 1) (i - 1))
              else 0
            if nounit then ap.set a i j (v + a i i * t i) else ap.set a i j (v + t i))
          a1
      let a3 := ap.setColFrom a2 j (j + 1)
        (ap.vmul (ap.colFrom a2 j (j + 1)) (ap.vlen (j + 1) (n - 1)) ajj)
      { s with a := a3, t := t }
    else { s with a := a1 }

/-- The function `rmatrixtrinverse` (trinverse.cpp lines 79-204): the matrix after the call
and the result.  `t` is the work vector as `setbounds` allocates it. -/
def rmatrixtrinverse (t : Nat → α) (a : Nat → Nat → α) (n : Nat) (isupper : Bool)
    (isunittriangular : Bool) : (Nat → Nat → α) × Bool :=
  let s0 : TrState α := { a := a, t := t, result := true, returned := false }
  let nounit : Bool := !isunittriangular
  let s :=
    if isupper then forLoop n (rmatrixtrinverse_upper nounit) s0
    else forDown n (rmatrixtrinverse_lower n nounit) s0
  (s.a, s.result)

/-- Lines 103-123 of `rmatrixluinverse`: column `j` of `inv(A)` from `inv(A) * L = inv(U)`. -/
def rmatrixluinverse_column (n j : Nat) (s : (Nat → Nat → α) × (Nat → α)) :
    (Nat → Nat → α) × (Nat → α) :=
  let s1 :=
    forRange (j + 1) n
      (fun i s => (ap.set s.1 i j 0, Function.update s.2 i (s.1 i j))) s
  if j + 1 < n then
    (forLoop n
        (fun i a =>
          let v : α :=
            ap.vdotproduct (ap.rowFrom a i (j + 1)) (ap.vecFrom s1.2 (j + 1))
              (ap.vlen (j + 1) (n - 1))
          ap.set a i j (a i j - v))
        s1.1,
      s1.2)
  else s1

/-- Lines 131-137 of `rmatrixluinverse`: the interchange of the columns `j` and
`pivots(j)`. -/
def rmatrixluinverse_interchange (pivots : Nat → Nat) (n j : Nat)
    (s : (Nat → Nat → α) × (Nat → α)) : (Nat → Nat → α) × (Nat → α) :=
  let jp := pivots j
  if jp ≠ j then
    let work := ap.setVecFrom s.2 0 (ap.vmove (ap.vecFrom s.2 0) (ap.colFrom s.1 j 0) n)
    let a1 := ap.setColFrom s.1 j 0 (ap.vmove (ap.colFrom s.1 j 0) (ap.colFrom s.1 jp 0) n)
    let a2 := ap.setColFrom a1 jp 0 (ap.vmove (ap.colFrom a1 jp 0) (ap.vecFrom work 0) n)
    (a2, work)
  else s

/-- The function `rmatrixluinverse` (inv.cpp lines 64-140): the matrix after the call and
the result. -/
def rmatrixluinverse (mem : InvMem α) (a : Nat → Nat → α) (pivots : Nat → Nat) (n : Nat) :
    (Nat → Nat → α) × Bool :=
  if n = 0 then (a, true)
  else
    let tr := rmatrixtrinverse mem.t a n true false
    if ¬ tr.2 then (tr.1, false)
    else
      let s1 := forDown n (rmatrixluinverse_column n) (tr.1, mem.work)
      let s2 := forDown (n - 1) (rmatrixluinverse_interchange pivots n) s1
      (s2.1, true)

/-- The function `rmatrixinverse` (inv.cpp lines 161-169) on the elements of the array. -/
def rmatrixinverse_elem (mem : InvMem α) (a : Nat → Nat → α) (n : Nat) :
    (Nat → Nat → α) × Bool :=
  let lu := rmatrixlu mem a n n
  rmatrixluinverse mem lu.1 lu.2 n

/-- The function `rmatrixinverse` (inv.cpp lines 161-169): the array after the call and the
result. -/
def rmatrixinverse (mem : InvMem α) (a : real_2d_array α) (n : Nat) :
    real_2d_array α × Bool :=
  ({ a with elem := (rmatrixinverse_elem mem a.elem n).1 }, (rmatrixinverse_elem mem a.elem n).2)

end inverse

/-- The row permutation the first `J` pivots of an LU decomposition stand for: the
interchange of the rows `0` and `pivots 0`, then of `1` and `pivots 1`, and so on. -/
def luPerm (pivots : Nat → Nat) : Nat → Equiv.Perm Nat
  | 0 => 1
  | J + 1 => luPerm pivots J * Equiv.swap J (pivots J)

/-- The state of an LU decomposition of the `m` by `n` matrix `A0` after `J` columns: in the
rows permuted by `σ`, `A0 = L * W`, where `L` is the unit lower triangular matrix of the
multipliers stored below the diagonal in the first `J` columns of `a`, and `W` holds the
first `J` rows of `U` and the part of the matrix not eliminated yet. -/
def LuInv {α : Type} [LinearOrderedField α] (m n J : Nat) (A0 a : Nat → Nat → α)
    (σ : Equiv.Perm Nat) : Prop :=
  ∀ i, i < m → ∀ k, k < n →
    A0 (σ i) k
      = (∑ l ∈ Finset.range J, if l < i ∧ l ≤ k then a i l * a l k else 0)
        + (if min i J ≤ k then a i k else 0)

/-- The matrix `a` with the rows `j` and `jp` interchanged in the columns below `n`. -/
def luSwapped {α : Type} (a : Nat → Nat → α) (n j jp : Nat) : Nat → Nat → α :=
  fun r c => if c < n then a (Equiv.swap j jp r) c else a r c


/-- The `n` by `n` matrix of the elements `f i j` with `i, j < n`. -/
def ap.toMatrix {α : Type} (n : Nat) (f : Nat → Nat → α) : Matrix (Fin n) (Fin n) α :=
  Matrix.of fun i j => f i j

/-- The `n` by `n` matrix an array holds in its first `n` rows and columns. -/
def real_2d_array.toMatrix {α : Type} (a : real_2d_array α) (n : Nat) :
    Matrix (Fin n) (Fin n) α :=
  ap.toMatrix n a.elem


/-- Work arrays of the inverse routines filled with zeros. -/
def exampleInvMem : InvMem ℚ :=
  { pivots := fun _ => 0, t1 := fun _ => 0, b := fun _ _ => 0, t := fun _ => 0,
    bp := fun _ => 0, work := fun _ => 0 }

/-- The 2 by 2 matrix with the rows `(0, 2)` and `(1, 1)`, whose decomposition interchanges
the rows. -/
def exampleSquare : real_2d_array ℚ :=
  { rows := 2, cols := 2,
    elem := fun i j => if i = 0 ∧ j = 0 then 0 else if i = 0 ∧ j = 1 then 2
      else if i = 1 ∧ j = 0 then 1 else if i = 1 ∧ j = 1 then 1 else 0 }

/-- The 2 by 1 design matrix with the rows `(3)` and `(4)`. -/
def exampleDesign : real_2d_array ℚ :=
  { rows := 2, cols := 1, elem := fun i _ => if i = 0 then 3 else 4 }

/-- A `tanh` as `act_tanh` returns it in `float`: for an argument of 10 or more the value of
the C library, rounded to `float`, is exactly 1 (there `1 - tanh x < 2^-25`), and exactly
-1 for an argument of -10 or less.  Between the two the examples do not depend on the
value; the odd function `x / (1 + |x|)`, whose values lie in `(-1, 1)`, stands in. -/
def exampleLibmFloat : Libm ℚ :=
  { tanh := fun x => if 10 ≤ x then 1 else if x ≤ -10 then -1 else x / (1 + |x|),
    atanh := exampleLibmQ.atanh,
    exp := exampleLibmQ.exp,
    log := exampleLibmQ.log }

/-- A network with one input, two reservoir neurons, the `tanh` activation of
`exampleLibmFloat`, the input weights 0.14 that `init` writes, and the default
`timeConstant = decayRate = 1`. -/
def exampleNetTanh : ESN ℚ :=
  { exampleNetAct (ESNObj.act_tanh exampleLibmFloat) with d_inputWeights := fun _ => 7 / 50 }

/-- A trial of three samples whose input is 100 at every time step. -/
def exampleTrialLarge : Trial ℚ :=
  { exampleTrialOf ℚ with inputVal := fun _ => 100 }

/-! # Properties -/

/-! ## Loops -/

section LoopLemmas

variable {α : Type} [LinearOrderedCommRing α]

theorem forLoop_succ {σ : Type} (k : Nat) (body : Nat → σ → σ) (s : σ) :
    forLoop (k + 1) body s = body k (forLoop k body s) := rfl

theorem forLoop_zero {σ : Type} (body : Nat → σ → σ) (s : σ) : forLoop 0 body s = s := rfl

theorem forLoop_congr {σ : Type} (n : Nat) (b1 b2 : Nat → σ → σ) (s : σ)
    (h : ∀ i, i < n → ∀ x, b1 i x = b2 i x) : forLoop n b1 s = forLoop n b2 s := by
  induction n with
  | zero => rfl
  | succ k ih =>
    rw [forLoop_succ, forLoop_succ, ih (fun i hi x => h i (Nat.lt_succ_of_lt hi) x)]
    exact h k (Nat.lt_succ_self k) _

/-- An accumulation loop started at 0 computes the finite sum of its terms. -/
theorem forLoop_add_sum (n : Nat) (f : Nat → α) :
    forLoop n (fun i acc => acc + f i) 0 = ∑ i ∈ Finset.range n, f i := by
  induction n with
  | zero => simp [forLoop]
  | succ k ih => rw [forLoop_succ, ih, Finset.sum_range_succ]

theorem forLoop_id {σ : Type} (n : Nat) (s : σ) : forLoop n (fun _ acc => acc) s = s := by
  induction n with
  | zero => rfl
  | succ k ih => rw [forLoop_succ, ih]

theorem Trial.sameFrame_refl {β : Type} (a : Trial β) : a.sameFrame a :=
  ⟨rfl, rfl, rfl, rfl, rfl, rfl⟩

theorem Trial.sameFrame_trans {β : Type} {a b c : Trial β} (h1 : a.sameFrame b)
    (h2 : b.sameFrame c) :
    a.sameFrame c := by
  obtain ⟨a1, a2, a3, a4, a5, a6⟩ := h1
  obtain ⟨b1, b2, b3, b4, b5, b6⟩ := h2
  exact ⟨a1.trans b1, a2.trans b2, a3.trans b3, a4.trans b4, a5.trans b5, a6.trans b6⟩

end LoopLemmas

namespace ESN

variable {α : Type} [LinearOrderedCommRing α]

/-! ## The neuron loop -/

theorem neuronLoop_sameFrame (net : ESN α) (I t m : Nat) (tr : Trial α) :
    (neuronLoop net I m t tr).sameFrame tr := by
  induction m with
  | zero => exact Trial.sameFrame_refl tr
  | succ k ih =>
    have h : (neuronLoop net I (k + 1) t tr).sameFrame (neuronLoop net I k t tr) :=
      ⟨rfl, rfl, rfl, rfl, rfl, rfl⟩
    exact Trial.sameFrame_trans h ih

theorem neuronLoop_outputVal (net : ESN α) (I t m : Nat) (tr : Trial α) :
    (neuronLoop net I m t tr).outputVal = tr.outputVal := by
  induction m with
  | zero => rfl
  | succ k ih => exact ih

theorem neuronLoop_neuronVal_other (net : ESN α) (I t m : Nat) (tr : Trial α) (idx : Nat)
    (h : ∀ n, n < m → idx ≠ t * net.d_reservoirSize + n) :
    (neuronLoop net I m t tr).neuronVal idx = tr.neuronVal idx := by
  induction m with
  | zero => rfl
  | succ k ih =>
    have hk : idx ≠ t * net.d_reservoirSize + k := h k (Nat.lt_succ_self k)
    have e : (neuronLoop net I (k + 1) t tr).neuronVal idx
        = (neuronLoop net I k t tr).neuronVal idx := by
      show Function.update _ _ _ idx = _
      exact Function.update_noteq hk _ _
    rw [e]
    exact ih (fun n hn => h n (Nat.lt_succ_of_lt hn))

theorem neuronLoop_neuronVal_below (net : ESN α) (I t m : Nat) (tr : Trial α) (idx : Nat)
    (h : idx < t * net.d_reservoirSize) :
    (neuronLoop net I m t tr).neuronVal idx = tr.neuronVal idx :=
  neuronLoop_neuronVal_other net I t m tr idx (fun n _ => by omega)

theorem res2ResVal_congr (net : ESN α) (s1 s2 : Nat → α) (t n : Nat)
    (h : ∀ idx, idx < t * net.d_reservoirSize → s1 idx = s2 idx) :
    res2ResVal net s1 t n = res2ResVal net s2 t n := by
  unfold res2ResVal
  apply forLoop_congr
  intro i hi x
  by_cases ht : 0 < t
  · have hlt : (t - 1) * net.d_reservoirSize + i < t * net.d_reservoirSize := by
      obtain ⟨u, rfl⟩ : ∃ u, t = u + 1 := ⟨t - 1, by omega⟩
      simp only [Nat.add_sub_cancel, Nat.succ_mul]
      omega
    simp only [ht, if_true, h _ hlt]
  · simp only [ht, if_false]

theorem leftOver_congr (net : ESN α) (s1 s2 : Nat → α) (t n : Nat)
    (h : ∀ idx, idx < t * net.d_reservoirSize → s1 idx = s2 idx)
    (hn : n < net.d_reservoirSize ∨ t = 0) :
    leftOver net s1 t n = leftOver net s2 t n := by
  unfold leftOver
  by_cases ht : 0 < t
  · have hn1 : n < net.d_reservoirSize := by
      rcases hn with hn | hn
      · exact hn
      · omega
    have hlt : (t - 1) * net.d_reservoirSize + n < t * net.d_reservoirSize := by
      obtain ⟨u, rfl⟩ : ∃ u, t = u + 1 := ⟨t - 1, by omega⟩
      simp only [Nat.add_sub_cancel, Nat.succ_mul]
      omega
    simp only [ht, if_true, h _ hlt]
  · simp only [ht, if_false]

/-- The value the neuron loop stores for neuron `n` at time `t`, as a function of the trial
at the start of the time step. -/
theorem neuronLoop_neuronVal_at (net : ESN α) (I t m : Nat) (tr : Trial α) (n : Nat)
    (hn : n < m) (hm : m ≤ net.d_reservoirSize ∨ t = 0) :
    (neuronLoop net I m t tr).neuronVal (t * net.d_reservoirSize + n)
      = leftOver net tr.neuronVal t n
        + total_input net tr.inputVal tr.neuronVal tr.outputVal I t n := by
  induction m with
  | zero => omega
  | succ k ih =>
    have hk : k ≤ net.d_reservoirSize ∨ t = 0 := by
      rcases hm with hm | hm
      · exact Or.inl (by omega)
      · exact Or.inr hm
    by_cases hnk : n = k
    · subst hnk
      have hbelow : ∀ idx, idx < t * net.d_reservoirSize →
          (neuronLoop net I n t tr).neuronVal idx = tr.neuronVal idx :=
        fun idx hidx => neuronLoop_neuronVal_below net I t n tr idx hidx
      have e : (neuronLoop net I (n + 1) t tr).neuronVal (t * net.d_reservoirSize + n)
          = leftOver net (neuronLoop net I n t tr).neuronVal t n
            + total_input net (neuronLoop net I n t tr).inputVal
                (neuronLoop net I n t tr).neuronVal (neuronLoop net I n t tr).outputVal I t n := by
        show Function.update _ _ _ _ = _
        exact Function.update_same _ _ _
      rw [e, leftOver_congr net _ _ t n hbelow
        (by rcases hm with hm | hm
            · exact Or.inl (by omega)
            · exact Or.inr hm)]
      unfold total_input
      rw [res2ResVal_congr net _ _ t n hbelow, neuronLoop_outputVal,
        (neuronLoop_sameFrame net I t n tr).1]
    · have hne : t * net.d_reservoirSize + n ≠ t * net.d_reservoirSize + k := by omega
      have e : (neuronLoop net I (k + 1) t tr).neuronVal (t * net.d_reservoirSize + n)
          = (neuronLoop net I k t tr).neuronVal (t * net.d_reservoirSize + n) := by
        show Function.update _ _ _ _ = _
        exact Function.update_noteq hne _ _
      rw [e]
      exact ih (by omega) hk

end ESN

namespace ESN

variable {α : Type} [LinearOrderedCommRing α]

/-! ## The output loop -/

/-- The output loop of time step `t`, run for the first `m` output neurons. -/
theorem outputLoop_sameFrame (net : ESN α) (I t m : Nat) (tr : Trial α) :
    (forLoop m (outputStep net I t) tr).sameFrame tr := by
  induction m with
  | zero => exact Trial.sameFrame_refl tr
  | succ k ih =>
    have h : (forLoop (k + 1) (outputStep net I t) tr).sameFrame
        (forLoop k (outputStep net I t) tr) := ⟨rfl, rfl, rfl, rfl, rfl, rfl⟩
    exact Trial.sameFrame_trans h ih

theorem outputLoop_neuronVal (net : ESN α) (I t m : Nat) (tr : Trial α) :
    (forLoop m (outputStep net I t) tr).neuronVal = tr.neuronVal := by
  induction m with
  | zero => rfl
  | succ k ih => exact ih

theorem outputLoop_outputVal_other (net : ESN α) (I t m : Nat) (tr : Trial α) (idx : Nat)
    (h : ∀ o, o < m → idx ≠ t * net.d_outputSize + o) :
    (forLoop m (outputStep net I t) tr).outputVal idx = tr.outputVal idx := by
  induction m with
  | zero => rfl
  | succ k ih =>
    have hk : idx ≠ t * net.d_outputSize + k := h k (Nat.lt_succ_self k)
    have e : (forLoop (k + 1) (outputStep net I t) tr).outputVal idx
        = (forLoop k (outputStep net I t) tr).outputVal idx := by
      show Function.update _ _ _ idx = _
      exact Function.update_noteq hk _ _
    rw [e]
    exact ih (fun o ho => h o (Nat.lt_succ_of_lt ho))

theorem outputLoop_outputVal_at (net : ESN α) (I t m : Nat) (tr : Trial α) (o : Nat)
    (ho : o < m) :
    (forLoop m (outputStep net I t) tr).outputVal (t * net.d_outputSize + o)
      = outputValue net tr.inputVal tr.neuronVal I t o := by
  induction m with
  | zero => omega
  | succ k ih =>
    by_cases hok : o = k
    · subst hok
      have e : (forLoop (o + 1) (outputStep net I t) tr).outputVal (t * net.d_outputSize + o)
          = outputValue net (forLoop o (outputStep net I t) tr).inputVal
              (forLoop o (outputStep net I t) tr).neuronVal I t o := by
        show Function.update _ _ _ _ = _
        exact Function.update_same _ _ _
      rw [e, outputLoop_neuronVal, (outputLoop_sameFrame net I t o tr).1]
    · have hne : t * net.d_outputSize + o ≠ t * net.d_outputSize + k := by omega
      have e : (forLoop (k + 1) (outputStep net I t) tr).outputVal (t * net.d_outputSize + o)
          = (forLoop k (outputStep net I t) tr).outputVal (t * net.d_outputSize + o) := by
        show Function.update _ _ _ _ = _
        exact Function.update_noteq hne _ _
      rw [e]
      exact ih (by omega)

/-! ## One time step -/

theorem timeStep_eq (net : ESN α) (sim : SimulationType) (I R t : Nat) (tr : Trial α) :
    timeStep net sim I R t tr
      = if setOutput net sim tr.teacherTestSize t = true then
          forLoop net.d_outputSize (outputStep net I t) (neuronLoop net I R t tr)
        else neuronLoop net I R t tr := by
  have e : (neuronLoop net I R t tr).teacherTestSize = tr.teacherTestSize :=
    (neuronLoop_sameFrame net I t R tr).2.2.2.2.1
  simp only [timeStep, e]

theorem timeStep_sameFrame (net : ESN α) (sim : SimulationType) (I R t : Nat) (tr : Trial α) :
    (timeStep net sim I R t tr).sameFrame tr := by
  unfold timeStep
  by_cases h : setOutput net sim (neuronLoop net I R t tr).teacherTestSize t = true
  · simp only [h, if_true]
    exact Trial.sameFrame_trans (outputLoop_sameFrame net I t _ _) (neuronLoop_sameFrame net I t R tr)
  · simp only [h]
    exact neuronLoop_sameFrame net I t R tr

theorem timeStep_neuronVal (net : ESN α) (sim : SimulationType) (I R t : Nat) (tr : Trial α) :
    (timeStep net sim I R t tr).neuronVal = (neuronLoop net I R t tr).neuronVal := by
  unfold timeStep
  by_cases h : setOutput net sim (neuronLoop net I R t tr).teacherTestSize t = true
  · simp only [h, if_true]
    exact outputLoop_neuronVal net I t _ _
  · simp only [h]
    rfl

theorem timeStep_outputVal_other (net : ESN α) (sim : SimulationType) (I R t : Nat)
    (tr : Trial α) (idx : Nat) (h : ∀ o, o < net.d_outputSize → idx ≠ t * net.d_outputSize + o) :
    (timeStep net sim I R t tr).outputVal idx = tr.outputVal idx := by
  unfold timeStep
  by_cases hs : setOutput net sim (neuronLoop net I R t tr).teacherTestSize t = true
  · simp only [hs, if_true]
    rw [outputLoop_outputVal_other net I t _ _ idx h, neuronLoop_outputVal]
  · simp only [hs]
    show (neuronLoop net I R t tr).outputVal idx = _
    rw [neuronLoop_outputVal]

theorem timeStep_outputVal_noset (net : ESN α) (sim : SimulationType) (I R t : Nat)
    (tr : Trial α) (hs : setOutput net sim tr.teacherTestSize t = false) :
    (timeStep net sim I R t tr).outputVal = tr.outputVal := by
  rw [timeStep_eq, hs]
  show (neuronLoop net I R t tr).outputVal = _
  rw [neuronLoop_outputVal]

theorem timeStep_outputVal_at (net : ESN α) (sim : SimulationType) (I R t : Nat)
    (tr : Trial α) (o : Nat) (hs : setOutput net sim tr.teacherTestSize t = true)
    (ho : o < net.d_outputSize) :
    (timeStep net sim I R t tr).outputVal (t * net.d_outputSize + o)
      = outputValue net tr.inputVal (neuronLoop net I R t tr).neuronVal I t o := by
  rw [timeStep_eq, hs]
  simp only [if_true]
  rw [outputLoop_outputVal_at net I t _ _ o ho, (neuronLoop_sameFrame net I t R tr).1]

/-! ## The time loop -/

theorem runUpTo_succ (net : ESN α) (trial : Trial α) (sim : SimulationType) (k : Nat) :
    runUpTo net trial sim (k + 1)
      = timeStep net sim trial.inputSize trial.stateSize k (runUpTo net trial sim k) := rfl

theorem runUpTo_sameFrame (net : ESN α) (trial : Trial α) (sim : SimulationType) (k : Nat) :
    (runUpTo net trial sim k).sameFrame trial := by
  induction k with
  | zero => exact Trial.sameFrame_refl trial
  | succ k ih =>
    rw [runUpTo_succ]
    exact Trial.sameFrame_trans (timeStep_sameFrame net sim _ _ k _) ih

/-- Rows of the state buffer below row `k` are final once `k` time steps have run. -/
theorem runUpTo_neuronVal_frozen (net : ESN α) (trial : Trial α) (sim : SimulationType)
    (k j idx : Nat) (hkj : k ≤ j) (h : idx < k * net.d_reservoirSize) :
    (runUpTo net trial sim j).neuronVal idx = (runUpTo net trial sim k).neuronVal idx := by
  induction j with
  | zero =>
    have : k = 0 := by omega
    subst this
    rfl
  | succ j ih =>
    by_cases hk : k = j + 1
    · subst hk
      rfl
    · have hkj2 : k ≤ j := by omega
      rw [runUpTo_succ, timeStep_neuronVal, neuronLoop_neuronVal_below, ih hkj2]
      calc idx < k * net.d_reservoirSize := h
        _ ≤ j * net.d_reservoirSize := Nat.mul_le_mul_right _ hkj2

/-- Rows of the output buffer below row `k` are final once `k` time steps have run. -/
theorem runUpTo_outputVal_frozen (net : ESN α) (trial : Trial α) (sim : SimulationType)
    (k j idx : Nat) (hkj : k ≤ j) (h : idx < k * net.d_outputSize) :
    (runUpTo net trial sim j).outputVal idx = (runUpTo net trial sim k).outputVal idx := by
  induction j with
  | zero =>
    have : k = 0 := by omega
    subst this
    rfl
  | succ j ih =>
    by_cases hk : k = j + 1
    · subst hk
      rfl
    · have hkj2 : k ≤ j := by omega
      have hle : k * net.d_outputSize ≤ j * net.d_outputSize := Nat.mul_le_mul_right _ hkj2
      rw [runUpTo_succ, timeStep_outputVal_other, ih hkj2]
      intro o _
      omega

/-- Entries of the output buffer at or above row `k` are untouched by the first `k` steps. -/
theorem runUpTo_outputVal_above (net : ESN α) (trial : Trial α) (sim : SimulationType)
    (k idx : Nat) (h : k * net.d_outputSize ≤ idx) :
    (runUpTo net trial sim k).outputVal idx = trial.outputVal idx := by
  induction k with
  | zero => rfl
  | succ k ih =>
    have hle : k * net.d_outputSize + net.d_outputSize ≤ idx := by
      rw [Nat.succ_mul] at h
      exact h
    rw [runUpTo_succ, timeStep_outputVal_other, ih (by omega)]
    intro o ho
    omega

end ESN

namespace ESN

variable {α : Type} [LinearOrderedCommRing α]

/-! ## The accumulation loops as finite sums -/

theorem input2ResVal_eq (net : ESN α) (input : Nat → α) (I t n : Nat) :
    input2ResVal net input I t n
      = ∑ i ∈ Finset.range I, net.d_inputWeights (n * I + i) * input (t * I + i) := by
  unfold input2ResVal
  rw [forLoop_add_sum]
  exact Finset.sum_congr rfl (fun i _ => mul_comm _ _)

theorem res2ResVal_eq (net : ESN α) (states : Nat → α) (t n : Nat) (ht : 0 < t) :
    res2ResVal net states t n
      = ∑ j ∈ Finset.range net.d_reservoirSize,
          net.d_reservoirWeights (n * net.d_reservoirSize + j)
            * states ((t - 1) * net.d_reservoirSize + j) := by
  unfold res2ResVal
  simp only [ht, if_true]
  rw [forLoop_add_sum]
  exact Finset.sum_congr rfl (fun i _ => mul_comm _ _)

theorem res2ResVal_zero (net : ESN α) (states : Nat → α) (n : Nat) :
    res2ResVal net states 0 n = 0 := by
  unfold res2ResVal
  simp only [Nat.lt_irrefl, if_false]
  exact forLoop_id _ _

theorem fb2ResVal_eq (net : ESN α) (output : Nat → α) (t n : Nat) (ht : 0 < t) :
    fb2ResVal net output t n
      = if 0 < net.d_fbConnectivity then
          ∑ k ∈ Finset.range net.d_outputSize,
            net.d_feedbackWeights (n * net.d_outputSize + k)
              * output ((t - 1) * net.d_outputSize + k)
        else 0 := by
  unfold fb2ResVal
  simp only [ht, if_true]
  rw [forLoop_add_sum]
  by_cases h : 0 < net.d_fbConnectivity
  · simp only [h, if_true]
    exact Finset.sum_congr rfl (fun i _ => mul_comm _ _)
  · simp only [h, if_false]

theorem fb2ResVal_zero (net : ESN α) (output : Nat → α) (n : Nat) :
    fb2ResVal net output 0 n = 0 := by
  unfold fb2ResVal
  simp only [Nat.lt_irrefl, if_false]
  rw [forLoop_id]
  simp

theorem outputValue_eq (net : ESN α) (input states : Nat → α) (I t o : Nat) :
    outputValue net input states I t o
      = net.outActFunc
          (∑ r ∈ Finset.range net.d_reservoirSize,
              net.d_outputWeights (o * (net.d_reservoirSize + net.d_inputSize) + r)
                * states (t * net.d_reservoirSize + r)
            + ∑ i ∈ Finset.range net.d_inputSize,
              net.d_outputWeights
                  (o * (net.d_reservoirSize + net.d_inputSize) + net.d_reservoirSize + i)
                * input (t * I + i)) := by
  unfold outputValue
  simp only []
  rw [forLoop_add_sum, forLoop_add_sum]
  congr 2
  · exact Finset.sum_congr rfl (fun i _ => mul_comm _ _)
  · exact Finset.sum_congr rfl (fun i _ => mul_comm _ _)

/-- The decision of lines 494-496 in the words of the specification. -/
theorem setOutput_eq_true_iff (net : ESN α) (sim : SimulationType) (tts t : Nat) :
    setOutput net sim tts t = true
      ↔ (0 < net.d_fbConnectivity ∧ sim ≠ SimulationType.TEACHER_FORCING
          ∧ ¬ (sim = SimulationType.TEACHER_TESTING ∧ t < tts)) := by
  unfold setOutput
  by_cases h1 : sim = SimulationType.TEACHER_TESTING ∧ t < tts
  · simp [h1]
  · by_cases h2 : sim = SimulationType.TEACHER_FORCING
    · simp [h1, h2]
    · simp [h1, h2]

/-- While no time step computes outputs, the output buffer is the one before the call. -/
theorem runUpTo_outputVal_noset (net : ESN α) (trial : Trial α) (sim : SimulationType) (k : Nat)
    (h : ∀ t, t < k → setOutput net sim trial.teacherTestSize t = false) :
    (runUpTo net trial sim k).outputVal = trial.outputVal := by
  induction k with
  | zero => rfl
  | succ k ih =>
    rw [runUpTo_succ, timeStep_outputVal_noset, ih (fun t ht => h t (Nat.lt_succ_of_lt ht))]
    rw [(runUpTo_sameFrame net trial sim k).2.2.2.2.1]
    exact h k (Nat.lt_succ_self k)

/-- The state written for neuron `n` at time `t`, in terms of the trial before that step. -/
theorem Run_neuronVal_step (net : ESN α) (trial : Trial α) (sim : SimulationType) (t n : Nat)
    (ht : t < trial.sampleSize) (hn : n < trial.stateSize) (hnR : n < net.d_reservoirSize)
    (hm : trial.stateSize ≤ net.d_reservoirSize ∨ t = 0) :
    (Run net trial sim).neuronVal (t * net.d_reservoirSize + n)
      = leftOver net (runUpTo net trial sim t).neuronVal t n
        + total_input net trial.inputVal (runUpTo net trial sim t).neuronVal
            (runUpTo net trial sim t).outputVal trial.inputSize t n := by
  have hidx : t * net.d_reservoirSize + n < (t + 1) * net.d_reservoirSize := by
    rw [Nat.succ_mul]
    omega
  show (runUpTo net trial sim trial.sampleSize).neuronVal _ = _
  rw [runUpTo_neuronVal_frozen net trial sim (t + 1) trial.sampleSize _ ht hidx, runUpTo_succ,
    timeStep_neuronVal, neuronLoop_neuronVal_at net _ t _ _ n hn hm,
    (runUpTo_sameFrame net trial sim t).1]

end ESN

namespace ESN

variable {α : Type} [LinearOrderedCommRing α]

/-- C1: for a trial whose `stateSize` equals the reservoir size, every time step `t > 0` and
every reservoir neuron `n`, `ESN::Run` stores
`state(t)[n] = (1 - timeConstant * decayRate) * state(t-1)[n] + f(pre)` with
`pre = Σ_i inputWeights[n,i] * input(t)[i] + timeConstant * Σ_j reservoirWeights[n,j] * state(t-1)[j]
 + (Σ_k feedbackWeights[n,k] * output(t-1)[k] if feedbackConnectivity > 0, else 0) - threshold[n]`,
where `state` and `output` are the buffers after the call, `f` is the reservoir activation,
`input(t)[i]` is element `t * inputSize + i` of the trial's input and `inputWeights[n,i]` is
element `n * inputSize + i` (`inputSize` the trial's, as `Run` reads it). -/
theorem Run_state_recurrence (net : ESN α) (trial : Trial α) (simType : SimulationType)
    (t n : Nat) (hsize : trial.stateSize = net.d_reservoirSize) (ht0 : 0 < t)
    (ht : t < trial.sampleSize) (hn : n < net.d_reservoirSize) :
    (Run net trial simType).neuronVal (t * net.d_reservoirSize + n)
      = (1 - net.d_timeConstant * net.d_decayRate)
          * (Run net trial simType).neuronVal ((t - 1) * net.d_reservoirSize + n)
        + net.resActFunc
            (∑ i ∈ Finset.range trial.inputSize,
                net.d_inputWeights (n * trial.inputSize + i)
                  * trial.inputVal (t * trial.inputSize + i)
              + net.d_timeConstant
                * ∑ j ∈ Finset.range net.d_reservoirSize,
                    net.d_reservoirWeights (n * net.d_reservoirSize + j)
                      * (Run net trial simType).neuronVal ((t - 1) * net.d_reservoirSize + j)
              + (if 0 < net.d_fbConnectivity then
                  ∑ k ∈ Finset.range net.d_outputSize,
                    net.d_feedbackWeights (n * net.d_outputSize + k)
                      * (Run net trial simType).outputVal ((t - 1) * net.d_outputSize + k)
                 else 0)
              - net.d_thresholds n) := by
  have hst : ∀ idx, idx < t * net.d_reservoirSize →
      (runUpTo net trial simType t).neuronVal idx = (Run net trial simType).neuronVal idx :=
    fun idx hidx =>
      (runUpTo_neuronVal_frozen net trial simType t trial.sampleSize idx (Nat.le_of_lt ht) hidx).symm
  have hout : ∀ idx, idx < t * net.d_outputSize →
      (runUpTo net trial simType t).outputVal idx = (Run net trial simType).outputVal idx :=
    fun idx hidx =>
      (runUpTo_outputVal_frozen net trial simType t trial.sampleSize idx (Nat.le_of_lt ht) hidx).symm
  have hrow : ∀ (w i : Nat), i < w → (t - 1) * w + i < t * w := by
    intro w i hi
    obtain ⟨u, rfl⟩ : ∃ u, t = u + 1 := ⟨t - 1, by omega⟩
    simp only [Nat.add_sub_cancel, Nat.succ_mul]
    omega
  rw [Run_neuronVal_step net trial simType t n ht (by omega) hn (Or.inl (Nat.le_of_eq hsize))]
  unfold leftOver total_input
  rw [input2ResVal_eq, res2ResVal_eq net _ t n ht0, fb2ResVal_eq net _ t n ht0]
  simp only [ht0, if_true]
  rw [hst _ (hrow _ n hn)]
  have e1 : ∑ j ∈ Finset.range net.d_reservoirSize,
        net.d_reservoirWeights (n * net.d_reservoirSize + j)
          * (runUpTo net trial simType t).neuronVal ((t - 1) * net.d_reservoirSize + j)
      = ∑ j ∈ Finset.range net.d_reservoirSize,
        net.d_reservoirWeights (n * net.d_reservoirSize + j)
          * (Run net trial simType).neuronVal ((t - 1) * net.d_reservoirSize + j) :=
    Finset.sum_congr rfl (fun j hj => by rw [hst _ (hrow _ j (Finset.mem_range.mp hj))])
  have e2 : ∑ k ∈ Finset.range net.d_outputSize,
        net.d_feedbackWeights (n * net.d_outputSize + k)
          * (runUpTo net trial simType t).outputVal ((t - 1) * net.d_outputSize + k)
      = ∑ k ∈ Finset.range net.d_outputSize,
        net.d_feedbackWeights (n * net.d_outputSize + k)
          * (Run net trial simType).outputVal ((t - 1) * net.d_outputSize + k) :=
    Finset.sum_congr rfl (fun k hk => by rw [hout _ (hrow _ k (Finset.mem_range.mp hk))])
  rw [e1, e2]
  congr 2
  ring

end ESN

namespace ESN

variable {α : Type} [LinearOrderedCommRing α]

/-- Witness of C1 on `exampleNet` and `exampleTrial` at `t = 1`, `n = 0`, where the
stored state is 11. -/
theorem Run_state_recurrence_witness :
    (exampleTrial.stateSize = exampleNet.d_reservoirSize ∧ 0 < 1 ∧ 1 < exampleTrial.sampleSize
      ∧ 0 < exampleNet.d_reservoirSize)
    ∧ (Run exampleNet exampleTrial SimulationType.TEACHER_TESTING).neuronVal 2 = 11
    ∧ (Run exampleNet exampleTrial SimulationType.TEACHER_TESTING).neuronVal
          (1 * exampleNet.d_reservoirSize + 0)
        = (1 - exampleNet.d_timeConstant * exampleNet.d_decayRate)
            * (Run exampleNet exampleTrial SimulationType.TEACHER_TESTING).neuronVal
                ((1 - 1) * exampleNet.d_reservoirSize + 0)
          + exampleNet.resActFunc
              (∑ i ∈ Finset.range exampleTrial.inputSize,
                  exampleNet.d_inputWeights (0 * exampleTrial.inputSize + i)
                    * exampleTrial.inputVal (1 * exampleTrial.inputSize + i)
                + exampleNet.d_timeConstant
                  * ∑ j ∈ Finset.range exampleNet.d_reservoirSize,
                      exampleNet.d_reservoirWeights (0 * exampleNet.d_reservoirSize + j)
                        * (Run exampleNet exampleTrial SimulationType.TEACHER_TESTING).neuronVal
                            ((1 - 1) * exampleNet.d_reservoirSize + j)
                + (if 0 < exampleNet.d_fbConnectivity then
                    ∑ k ∈ Finset.range exampleNet.d_outputSize,
                      exampleNet.d_feedbackWeights (0 * exampleNet.d_outputSize + k)
                        * (Run exampleNet exampleTrial SimulationType.TEACHER_TESTING).outputVal
                            ((1 - 1) * exampleNet.d_outputSize + k)
                   else 0)
                - exampleNet.d_thresholds 0) :=
  ⟨⟨by decide, by decide, by decide, by decide⟩, by decide,
    Run_state_recurrence exampleNet exampleTrial SimulationType.TEACHER_TESTING 1 0
      (by decide) (by decide) (by decide) (by decide)⟩

/-- C2: the first reservoir state written by `ESN::Run` is
`state(0)[n] = f(Σ_i inputWeights[n,i] * input(0)[i] - threshold[n])` for every neuron `n`
the trial holds, whatever the simulation type, the reservoir and feedback weights and the
previous contents of the trial's state and output buffers (none of them occurs in the
right-hand side); with all-zero input and zero threshold it is `f(0)`. -/
theorem Run_first_state (net : ESN α) (trial : Trial α) (simType : SimulationType) (n : Nat)
    (hT : 0 < trial.sampleSize) (hn : n < trial.stateSize) (hnR : n < net.d_reservoirSize) :
    (Run net trial simType).neuronVal (0 * net.d_reservoirSize + n)
        = net.resActFunc
            (∑ i ∈ Finset.range trial.inputSize,
                net.d_inputWeights (n * trial.inputSize + i)
                  * trial.inputVal (0 * trial.inputSize + i)
              - net.d_thresholds n)
    ∧ ((∀ i, i < trial.inputSize → trial.inputVal (0 * trial.inputSize + i) = 0) →
        net.d_thresholds n = 0 →
        (Run net trial simType).neuronVal (0 * net.d_reservoirSize + n) = net.resActFunc 0) := by
  have key : (Run net trial simType).neuronVal (0 * net.d_reservoirSize + n)
        = net.resActFunc
            (∑ i ∈ Finset.range trial.inputSize,
                net.d_inputWeights (n * trial.inputSize + i)
                  * trial.inputVal (0 * trial.inputSize + i)
              - net.d_thresholds n) := by
    rw [Run_neuronVal_step net trial simType 0 n hT hn hnR (Or.inr rfl)]
    unfold leftOver total_input
    rw [input2ResVal_eq, res2ResVal_zero, fb2ResVal_zero]
    simp only [Nat.lt_irrefl, if_false]
    rw [zero_add]
    congr 1
    ring
  refine ⟨key, ?_⟩
  intro hin hthr
  rw [key, hthr, Finset.sum_eq_zero (fun i hi => by rw [hin i (Finset.mem_range.mp hi), mul_zero]),
    sub_zero]

/-- Witness of C2 on `exampleNet` and `exampleTrial` (input 0 at time 0, zero thresholds):
the first state of neuron 1 is `f(0) = 0`, although the state buffer held 7 before. -/
theorem Run_first_state_witness :
    (0 < exampleTrial.sampleSize ∧ 1 < exampleTrial.stateSize ∧ 1 < exampleNet.d_reservoirSize)
    ∧ exampleTrial.neuronVal 1 = 7
    ∧ (Run exampleNet exampleTrial SimulationType.PREDICTION).neuronVal
          (0 * exampleNet.d_reservoirSize + 1) = exampleNet.resActFunc 0 :=
  ⟨⟨by decide, by decide, by decide⟩, by decide,
    (Run_first_state exampleNet exampleTrial SimulationType.PREDICTION 1
      (by decide) (by decide) (by decide)).2 (by decide) (by decide)⟩

end ESN

namespace ESN

variable {α : Type} [LinearOrderedCommRing α]

/-- C3: at every time step `t` at which `ESN::Run` computes outputs (feedback connectivity
positive, not `TEACHER_FORCING`, and not `TEACHER_TESTING` with `t < teacherTestSize`) and for
every output neuron `o`, the stored value is
`output(t)[o] = g(Σ_{r < reservoirSize} outputWeights[o*(reservoirSize+inputSize) + r] * state(t)[r]
 + Σ_{i < inputSize} outputWeights[o*(reservoirSize+inputSize) + reservoirSize + i] * input(t)[i])`
with `g` the output activation and `state(t)` the state of the same time step, as it is in
the state buffer after the call. -/
theorem Run_output_value (net : ESN α) (trial : Trial α) (simType : SimulationType)
    (t o : Nat) (ht : t < trial.sampleSize) (ho : o < net.d_outputSize)
    (hfb : 0 < net.d_fbConnectivity) (hsim : simType ≠ SimulationType.TEACHER_FORCING)
    (hwin : ¬ (simType = SimulationType.TEACHER_TESTING ∧ t < trial.teacherTestSize)) :
    (Run net trial simType).outputVal (t * net.d_outputSize + o)
      = net.outActFunc
          (∑ r ∈ Finset.range net.d_reservoirSize,
              net.d_outputWeights (o * (net.d_reservoirSize + net.d_inputSize) + r)
                * (Run net trial simType).neuronVal (t * net.d_reservoirSize + r)
            + ∑ i ∈ Finset.range net.d_inputSize,
              net.d_outputWeights
                  (o * (net.d_reservoirSize + net.d_inputSize) + net.d_reservoirSize + i)
                * trial.inputVal (t * trial.inputSize + i)) := by
  have hset : setOutput net simType (runUpTo net trial simType t).teacherTestSize t = true := by
    rw [(runUpTo_sameFrame net trial simType t).2.2.2.2.1]
    exact (setOutput_eq_true_iff net simType _ t).mpr ⟨hfb, hsim, hwin⟩
  have hidx : t * net.d_outputSize + o < (t + 1) * net.d_outputSize := by
    rw [Nat.succ_mul]
    omega
  have hst : ∀ r, r < net.d_reservoirSize →
      (neuronLoop net trial.inputSize trial.stateSize t (runUpTo net trial simType t)).neuronVal
          (t * net.d_reservoirSize + r)
        = (Run net trial simType).neuronVal (t * net.d_reservoirSize + r) := by
    intro r hr
    have hr2 : t * net.d_reservoirSize + r < (t + 1) * net.d_reservoirSize := by
      rw [Nat.succ_mul]
      omega
    show _ = (runUpTo net trial simType trial.sampleSize).neuronVal _
    rw [runUpTo_neuronVal_frozen net trial simType (t + 1) trial.sampleSize _ ht hr2,
      runUpTo_succ, timeStep_neuronVal]
  show (runUpTo net trial simType trial.sampleSize).outputVal _ = _
  rw [runUpTo_outputVal_frozen net trial simType (t + 1) trial.sampleSize _ ht hidx, runUpTo_succ,
    timeStep_outputVal_at net simType _ _ t _ o hset ho, outputValue_eq,
    (runUpTo_sameFrame net trial simType t).1]
  congr 2
  exact Finset.sum_congr rfl (fun r hr => by rw [hst r (Finset.mem_range.mp hr)])

/-- Witness of C3 on `exampleNet` and `exampleTrial` at `t = 1` (the first step after the
teacher window), where the stored output is 34. -/
theorem Run_output_value_witness :
    (1 < exampleTrial.sampleSize ∧ 0 < exampleNet.d_outputSize ∧ 0 < exampleNet.d_fbConnectivity
      ∧ SimulationType.TEACHER_TESTING ≠ SimulationType.TEACHER_FORCING
      ∧ ¬ (SimulationType.TEACHER_TESTING = SimulationType.TEACHER_TESTING
            ∧ 1 < exampleTrial.teacherTestSize))
    ∧ (Run exampleNet exampleTrial SimulationType.TEACHER_TESTING).outputVal 1 = 34
    ∧ (Run exampleNet exampleTrial SimulationType.TEACHER_TESTING).outputVal
          (1 * exampleNet.d_outputSize + 0)
        = exampleNet.outActFunc
            (∑ r ∈ Finset.range exampleNet.d_reservoirSize,
                exampleNet.d_outputWeights
                    (0 * (exampleNet.d_reservoirSize + exampleNet.d_inputSize) + r)
                  * (Run exampleNet exampleTrial SimulationType.TEACHER_TESTING).neuronVal
                      (1 * exampleNet.d_reservoirSize + r)
              + ∑ i ∈ Finset.range exampleNet.d_inputSize,
                exampleNet.d_outputWeights
                    (0 * (exampleNet.d_reservoirSize + exampleNet.d_inputSize)
                      + exampleNet.d_reservoirSize + i)
                  * exampleTrial.inputVal (1 * exampleTrial.inputSize + i)) :=
  ⟨⟨by decide, by decide, by decide, by decide, by decide⟩, by decide,
    Run_output_value exampleNet exampleTrial SimulationType.TEACHER_TESTING 1 0
      (by decide) (by decide) (by decide) (by decide) (by decide)⟩

/-- The decision of lines 494-496 is negative in each of the three cases of the
specification. -/
theorem setOutput_eq_false_of (net : ESN α) (simType : SimulationType) (tts t : Nat)
    (h : net.d_fbConnectivity ≤ 0 ∨ simType = SimulationType.TEACHER_FORCING
      ∨ (simType = SimulationType.TEACHER_TESTING ∧ t < tts)) :
    setOutput net simType tts t = false := by
  cases hs : setOutput net simType tts t with
  | false => rfl
  | true =>
    obtain ⟨h1, h2, h3⟩ := (setOutput_eq_true_iff net simType _ t).mp hs
    rcases h with h | h | h
    · exact absurd h1 (not_lt.mpr h)
    · exact absurd h h2
    · exact absurd h h3

/-- A row of the output buffer whose time step computes no outputs is the one before the
call. -/
theorem Run_outputVal_row_noset (net : ESN α) (trial : Trial α) (simType : SimulationType)
    (t o : Nat) (ho : o < net.d_outputSize)
    (hs : setOutput net simType trial.teacherTestSize t = false) :
    (Run net trial simType).outputVal (t * net.d_outputSize + o)
      = trial.outputVal (t * net.d_outputSize + o) := by
  show (runUpTo net trial simType trial.sampleSize).outputVal _ = _
  by_cases ht : t < trial.sampleSize
  · have hidx : t * net.d_outputSize + o < (t + 1) * net.d_outputSize := by
      rw [Nat.succ_mul]
      omega
    rw [runUpTo_outputVal_frozen net trial simType (t + 1) trial.sampleSize _ ht hidx,
      runUpTo_succ, timeStep_outputVal_noset, runUpTo_outputVal_above net trial simType t _
        (Nat.le_add_right _ _)]
    rw [(runUpTo_sameFrame net trial simType t).2.2.2.2.1]
    exact hs
  · have hle : trial.sampleSize * net.d_outputSize ≤ t * net.d_outputSize :=
      Nat.mul_le_mul_right _ (Nat.le_of_not_lt ht)
    exact runUpTo_outputVal_above net trial simType trial.sampleSize _ (by omega)

/-- C4: `ESN::Run` leaves `output(t)` as it was before the call whenever the feedback
connectivity is not positive, or the simulation type is `TEACHER_FORCING`, or it is
`TEACHER_TESTING` and `t < teacherTestSize`; hence under `TEACHER_FORCING` no element of the
output buffer changes, and a network with feedback connectivity 0 (or below) writes no output
in any simulation mode. -/
theorem Run_output_frame (net : ESN α) (trial : Trial α) :
    (∀ (simType : SimulationType) (t o : Nat), o < net.d_outputSize →
        (net.d_fbConnectivity ≤ 0 ∨ simType = SimulationType.TEACHER_FORCING
          ∨ (simType = SimulationType.TEACHER_TESTING ∧ t < trial.teacherTestSize)) →
        (Run net trial simType).outputVal (t * net.d_outputSize + o)
          = trial.outputVal (t * net.d_outputSize + o))
    ∧ (Run net trial SimulationType.TEACHER_FORCING).outputVal = trial.outputVal
    ∧ (net.d_fbConnectivity ≤ 0 →
        ∀ simType : SimulationType, (Run net trial simType).outputVal = trial.outputVal) := by
  refine ⟨?_, ?_, ?_⟩
  · intro simType t o ho hc
    exact Run_outputVal_row_noset net trial simType t o ho
      (setOutput_eq_false_of net simType _ t hc)
  · exact runUpTo_outputVal_noset net trial _ _
      (fun t _ => setOutput_eq_false_of net _ _ t (Or.inr (Or.inl rfl)))
  · intro hfb simType
    exact runUpTo_outputVal_noset net trial _ _
      (fun t _ => setOutput_eq_false_of net _ _ t (Or.inl hfb))

end ESN

namespace ESN

variable {α : Type} [LinearOrderedCommRing α]

/-- Witness of C4 on `exampleNet` and `exampleTrial`: the teacher value 10 at time 0 (inside
the teacher window) survives a run under `TEACHER_TESTING`. -/
theorem Run_output_frame_witness :
    exampleTrial.outputVal 0 = 10
    ∧ (Run exampleNet exampleTrial SimulationType.TEACHER_TESTING).outputVal
          (0 * exampleNet.d_outputSize + 0)
        = exampleTrial.outputVal (0 * exampleNet.d_outputSize + 0)
    ∧ (Run exampleNet exampleTrial SimulationType.TEACHER_FORCING).outputVal
        = exampleTrial.outputVal :=
  ⟨by decide,
    (Run_output_frame exampleNet exampleTrial).1 SimulationType.TEACHER_TESTING 0 0 (by decide)
      (Or.inr (Or.inr ⟨rfl, by decide⟩)),
    (Run_output_frame exampleNet exampleTrial).2.1⟩

/-- Under `TEACHER_TESTING` the first `teacherTestSize` elements of the output buffer keep
their values, whatever the number of output neurons. -/
theorem Run_teacher_window (net : ESN α) (trial : Trial α) (idx : Nat)
    (h : idx < trial.teacherTestSize) :
    (Run net trial SimulationType.TEACHER_TESTING).outputVal idx = trial.outputVal idx := by
  by_cases hO : net.d_outputSize = 0
  · show (runUpTo net trial _ trial.sampleSize).outputVal idx = _
    exact runUpTo_outputVal_above net trial _ _ idx (by rw [hO]; omega)
  · have hpos : 0 < net.d_outputSize := Nat.pos_of_ne_zero hO
    have hdiv : idx / net.d_outputSize ≤ idx := Nat.div_le_self _ _
    have hsplit : idx / net.d_outputSize * net.d_outputSize + idx % net.d_outputSize = idx := by
      rw [Nat.mul_comm]
      exact Nat.div_add_mod idx net.d_outputSize
    have key := Run_outputVal_row_noset net trial SimulationType.TEACHER_TESTING
      (idx / net.d_outputSize) (idx % net.d_outputSize) (Nat.mod_lt _ hpos)
      (setOutput_eq_false_of net _ _ _ (Or.inr (Or.inr ⟨rfl, by omega⟩)))
    rw [hsplit] at key
    exact key

end ESN

/-- A copy loop `for (i = 0; i < len; i++) dst[i] = src[i]`. -/
theorem copyLoop_apply {β : Type} (len : Nat) (src dst : Nat → β) (j : Nat) :
    forLoop len (fun i buf => Function.update buf i (src i)) dst j
      = if j < len then src j else dst j := by
  induction len with
  | zero => simp [forLoop]
  | succ k ih =>
    rw [forLoop_succ]
    by_cases hj : j = k
    · subst hj
      simp
    · rw [Function.update_noteq hj, ih]
      by_cases hlt : j < k
      · simp [hlt, Nat.lt_succ_of_lt hlt]
      · have : ¬ j < k + 1 := by omega
        simp [hlt, this]

namespace ESNPrediction

variable {α : Type} [LinearOrderedCommRing α]

/-- C5: for the test trial selected by `index`, of length `len` and with the teacher window
`len / 5` that `AddTrial` gives it, `RunTest` returns in `input` the trial's output buffer
as it was before the run, in `result` the output buffer after running the trial under
`TEACHER_TESTING`, and `result[i] = input[i]` for every `i < len / 5`. -/
theorem RunTest_teacher_window (p : ESNPrediction α) (index : Nat) (input result : Nat → α)
    (testSet : List Nat) (ptr : Nat) (trial : Trial α)
    (hset : GetTestSet p = some testSet) (hidx : testSet[index]? = some ptr)
    (htrial : p.all_trials[ptr]? = some trial)
    (hteach : trial.teacherTestSize = trial.sampleSize / 5) :
    ∃ (p1 : ESNPrediction α) (input1 result1 : Nat → α),
      RunTest p index input result = some (p1, input1, result1)
      ∧ (∀ i, i < trial.sampleSize → input1 i = trial.outputVal i)
      ∧ (∀ i, i < trial.sampleSize →
          result1 i = (ESN.Run p.esn trial SimulationType.TEACHER_TESTING).outputVal i)
      ∧ (∀ i, i < trial.sampleSize / 5 → result1 i = input1 i) := by
  refine ⟨{ p with
      all_trials := p.all_trials.set ptr (ESN.Run p.esn trial SimulationType.TEACHER_TESTING) },
    forLoop trial.sampleSize (fun i buf => Function.update buf i (trial.outputVal i)) input,
    forLoop trial.sampleSize
      (fun i buf => Function.update buf i
        ((ESN.Run p.esn trial SimulationType.TEACHER_TESTING).outputVal i)) result,
    ?_, ?_, ?_, ?_⟩
  · simp only [RunTest, hset, hidx, htrial]
  · intro i hi
    rw [copyLoop_apply, if_pos hi]
  · intro i hi
    rw [copyLoop_apply, if_pos hi]
  · intro i hi
    have hlen : i < trial.sampleSize :=
      Nat.lt_of_lt_of_le hi (Nat.div_le_self _ _)
    rw [copyLoop_apply, if_pos hlen, copyLoop_apply, if_pos hlen]
    exact ESN.Run_teacher_window p.esn trial i (by rw [hteach]; exact hi)

end ESNPrediction

namespace ESNPrediction

variable {α : Type} [LinearOrderedCommRing α]

/-- Witness of C5 on `examplePred`: its test trial has length 20 and teacher window 4. -/
theorem RunTest_teacher_window_witness :
    (GetTestSet examplePred = some [1] ∧ ([1] : List Nat)[0]? = some 1
      ∧ examplePred.all_trials[1]? = some exampleTrial20
      ∧ exampleTrial20.teacherTestSize = exampleTrial20.sampleSize / 5
      ∧ exampleTrial20.sampleSize / 5 = 4)
    ∧ ∃ (p1 : ESNPrediction ℤ) (input1 result1 : Nat → ℤ),
      RunTest examplePred 0 (fun _ => 0) (fun _ => 0) = some (p1, input1, result1)
      ∧ (∀ i, i < exampleTrial20.sampleSize → input1 i = exampleTrial20.outputVal i)
      ∧ (∀ i, i < exampleTrial20.sampleSize →
          result1 i
            = (ESN.Run examplePred.esn exampleTrial20 SimulationType.TEACHER_TESTING).outputVal i)
      ∧ (∀ i, i < exampleTrial20.sampleSize / 5 → result1 i = input1 i) :=
  ⟨⟨by decide, by decide, rfl, by decide, by decide⟩,
    RunTest_teacher_window examplePred 0 (fun _ => 0) (fun _ => 0) [1] 1 exampleTrial20
      (by decide) (by decide) rfl (by decide)⟩

/-! ## The partition -/

theorem drawLoop_succ (rand : Nat → Nat) (k : Nat) (s : (Nat → Int) × Bool) :
    drawLoop rand (k + 1) s
      = if rand k % 100 < 20 then (Function.update (drawLoop rand k s).1 k 1, true)
        else drawLoop rand k s := rfl

/-- The array `set` after the draw loop: 1 exactly at the positions whose draw is below 20. -/
theorem drawLoop_fst (rand : Nat → Nat) (k i : Nat) :
    (drawLoop rand k (fun _ => 0, false)).1 i = if i < k ∧ rand i % 100 < 20 then 1 else 0 := by
  induction k with
  | zero => simp [drawLoop, forLoop]
  | succ k ih =>
    rw [drawLoop_succ]
    by_cases hr : rand k % 100 < 20
    · rw [if_pos hr]
      by_cases hik : i = k
      · subst hik
        simp [hr]
      · simp only [Function.update_noteq hik, ih]
        have : (i < k + 1 ∧ rand i % 100 < 20) ↔ (i < k ∧ rand i % 100 < 20) := by
          constructor
          · rintro ⟨h1, h2⟩
            exact ⟨by omega, h2⟩
          · rintro ⟨h1, h2⟩
            exact ⟨by omega, h2⟩
        simp only [this]
    · rw [if_neg hr, ih]
      have : (i < k + 1 ∧ rand i % 100 < 20) ↔ (i < k ∧ rand i % 100 < 20) := by
        constructor
        · rintro ⟨h1, h2⟩
          refine ⟨?_, h2⟩
          rcases Nat.lt_succ_iff_lt_or_eq.mp h1 with h | h
          · exact h
          · subst h
            exact absurd h2 hr
        · rintro ⟨h1, h2⟩
          exact ⟨by omega, h2⟩
      simp only [this]

/-- The flag `hit` after the draw loop. -/
theorem drawLoop_snd (rand : Nat → Nat) (k : Nat) :
    (drawLoop rand k (fun _ => 0, false)).2 = true ↔ ∃ i, i < k ∧ rand i % 100 < 20 := by
  induction k with
  | zero => simp [drawLoop, forLoop]
  | succ k ih =>
    rw [drawLoop_succ]
    by_cases hr : rand k % 100 < 20
    · rw [if_pos hr]
      simp only [true_iff]
      exact ⟨k, Nat.lt_succ_self k, hr⟩
    · rw [if_neg hr, ih]
      constructor
      · rintro ⟨i, h1, h2⟩
        exact ⟨i, by omega, h2⟩
      · rintro ⟨i, h1, h2⟩
        refine ⟨i, ?_, h2⟩
        rcases Nat.lt_succ_iff_lt_or_eq.mp h1 with h | h
        · exact h
        · subst h
          exact absurd h2 hr

theorem selectLoop_succ (set : Nat → Int) (v : Int) (k : Nat) :
    selectLoop set v (k + 1)
      = if set k = v then selectLoop set v k ++ [k] else selectLoop set v k := rfl

theorem selectLoop_length_mono (set : Nat → Int) (v : Int) (k : Nat) :
    (selectLoop set v k).length ≤ (selectLoop set v (k + 1)).length := by
  rw [selectLoop_succ]
  by_cases h : set k = v
  · rw [if_pos h, List.length_append]
    omega
  · rw [if_neg h]

theorem selectLoop_length_pos (set : Nat → Int) (v : Int) (n i : Nat) (hi : i < n)
    (h : set i = v) : 1 ≤ (selectLoop set v n).length := by
  induction n with
  | zero => omega
  | succ k ih =>
    by_cases hik : i = k
    · subst hik
      rw [selectLoop_succ, if_pos h, List.length_append]
      simp
    · exact Nat.le_trans (ih (by omega)) (selectLoop_length_mono set v k)

/-- With a single position `r` marked 1, the test selection has one element. -/
theorem selectLoop_single (r n : Nat) :
    (selectLoop (Function.update (fun _ => (0 : Int)) r 1) 1 n).length
      = if r < n then 1 else 0 := by
  induction n with
  | zero => rfl
  | succ k ih =>
    rw [selectLoop_succ]
    by_cases hrk : k = r
    · subst hrk
      simp only [Function.update_same, if_true, List.length_append, ih]
      simp
    · have h0 : Function.update (fun _ => (0 : Int)) r 1 k ≠ 1 := by
        rw [Function.update_noteq hrk]
        decide
      rw [if_neg h0, ih]
      by_cases hlt : r < k
      · simp [hlt, Nat.lt_succ_of_lt hlt]
      · have : ¬ r < k + 1 := by omega
        simp [hlt, this]

/-- With a single position `r` marked 1, the training selection has all other positions. -/
theorem selectLoop_rest (r n : Nat) :
    (selectLoop (Function.update (fun _ => (0 : Int)) r 1) 0 n).length
      = if r < n then n - 1 else n := by
  induction n with
  | zero => rfl
  | succ k ih =>
    rw [selectLoop_succ]
    by_cases hrk : k = r
    · subst hrk
      have h1 : Function.update (fun _ => (0 : Int)) k 1 k ≠ 0 := by
        rw [Function.update_same]
        decide
      rw [if_neg h1, ih]
      simp
    · have h0 : Function.update (fun _ => (0 : Int)) r 1 k = 0 := by
        rw [Function.update_noteq hrk]
      rw [if_pos h0, List.length_append, ih]
      by_cases hlt : r < k
      · simp only [hlt, if_true, Nat.lt_succ_of_lt hlt, List.length_singleton]
        omega
      · have : ¬ r < k + 1 := by omega
        simp [hlt, this]

end ESNPrediction

namespace ESNPrediction

variable {α : Type}

/-- C9: for `n >= 2` registered trials and every stream of draws, after `InitSets` at
least one trial is in the test set; when none of the `n` per-trial draws selects a test
trial, exactly one trial is in the test set and the other `n - 1` are in the training set. -/
theorem InitSets_test_nonempty (p : ESNPrediction α) (rand : Nat → Nat)
    (hn : 2 ≤ p.all_trials.length) :
    ∃ testSet trainSet : List Nat,
      GetTestSet (InitSets p rand) = some testSet
      ∧ GetTrainingSet (InitSets p rand) = some trainSet
      ∧ 1 ≤ testSet.length
      ∧ ((∀ i, i < p.all_trials.length → ¬ rand i % 100 < 20) →
          testSet.length = 1 ∧ trainSet.length = p.all_trials.length - 1) := by
  have hn1 : ¬ p.all_trials.length ≤ 1 := by omega
  have hmod : rand p.all_trials.length % p.all_trials.length < p.all_trials.length :=
    Nat.mod_lt _ (by omega)
  by_cases hhit : (drawLoop rand p.all_trials.length (fun _ => 0, false)).2 = true
  · have hset : (InitSets p rand).set
        = some (drawLoop rand p.all_trials.length (fun _ => 0, false)).1 := by
      simp [InitSets, hn1, hhit]
    have hlen : (InitSets p rand).all_trials = p.all_trials := by
      simp [InitSets, hn1]
    refine ⟨selectLoop (drawLoop rand p.all_trials.length (fun _ => 0, false)).1 1
        p.all_trials.length,
      selectLoop (drawLoop rand p.all_trials.length (fun _ => 0, false)).1 0
        p.all_trials.length, ?_, ?_, ?_, ?_⟩
    · simp only [GetTestSet, hset, hlen]
    · simp only [GetTrainingSet, hset, hlen]
    · obtain ⟨i, hi, hr⟩ := (drawLoop_snd rand _).mp hhit
      exact selectLoop_length_pos _ 1 _ i hi (by rw [drawLoop_fst]; simp [hi, hr])
    · intro hno
      obtain ⟨i, hi, hr⟩ := (drawLoop_snd rand _).mp hhit
      exact absurd hr (hno i hi)
  · have hzero : (drawLoop rand p.all_trials.length (fun _ => 0, false)).1 = fun _ => 0 := by
      funext i
      rw [drawLoop_fst]
      have : ¬ (i < p.all_trials.length ∧ rand i % 100 < 20) := by
        rintro ⟨h1, h2⟩
        exact hhit ((drawLoop_snd rand _).mpr ⟨i, h1, h2⟩)
      rw [if_neg this]
    have hset : (InitSets p rand).set
        = some (Function.update (fun _ => (0 : Int))
            (rand p.all_trials.length % p.all_trials.length) 1) := by
      simp [InitSets, hn1, hhit, hzero]
    have hlen : (InitSets p rand).all_trials = p.all_trials := by
      simp [InitSets, hn1]
    refine ⟨selectLoop (Function.update (fun _ => (0 : Int))
          (rand p.all_trials.length % p.all_trials.length) 1) 1 p.all_trials.length,
      selectLoop (Function.update (fun _ => (0 : Int))
          (rand p.all_trials.length % p.all_trials.length) 1) 0 p.all_trials.length,
      ?_, ?_, ?_, ?_⟩
    · simp only [GetTestSet, hset, hlen]
    · simp only [GetTrainingSet, hset, hlen]
    · rw [selectLoop_single, if_pos hmod]
    · intro _
      rw [selectLoop_single, if_pos hmod, selectLoop_rest, if_pos hmod]
      exact ⟨rfl, rfl⟩

/-- Witness of C9 on `examplePred0` (two registered trials) with the draws `exampleDraws`. -/
theorem InitSets_test_nonempty_witness :
    2 ≤ examplePred0.all_trials.length
    ∧ ∃ testSet trainSet : List Nat,
      GetTestSet (InitSets examplePred0 exampleDraws) = some testSet
      ∧ GetTrainingSet (InitSets examplePred0 exampleDraws) = some trainSet
      ∧ 1 ≤ testSet.length
      ∧ ((∀ i, i < examplePred0.all_trials.length → ¬ exampleDraws i % 100 < 20) →
          testSet.length = 1 ∧ trainSet.length = examplePred0.all_trials.length - 1) :=
  ⟨by decide, InitSets_test_nonempty examplePred0 exampleDraws (by decide)⟩

/-- When every per-trial draw is below 20, `InitSets` leaves no trial for training. -/
theorem InitSets_all_hit_train_empty (p : ESNPrediction α) (rand : Nat → Nat)
    (hn : 2 ≤ p.all_trials.length) (hall : ∀ i, i < p.all_trials.length → rand i % 100 < 20) :
    GetTrainingSet (InitSets p rand) = some [] := by
  have hn1 : ¬ p.all_trials.length ≤ 1 := by omega
  have hhit : (drawLoop rand p.all_trials.length (fun _ => 0, false)).2 = true :=
    (drawLoop_snd rand _).mpr ⟨0, by omega, hall 0 (by omega)⟩
  have hset : (InitSets p rand).set
      = some (drawLoop rand p.all_trials.length (fun _ => 0, false)).1 := by
    simp [InitSets, hn1, hhit]
  have hlen : (InitSets p rand).all_trials = p.all_trials := by
    simp [InitSets, hn1]
  have hnone : ∀ k, k ≤ p.all_trials.length →
      selectLoop (drawLoop rand p.all_trials.length (fun _ => 0, false)).1 0 k = [] := by
    intro k
    induction k with
    | zero => intro _; rfl
    | succ j ih =>
      intro hj
      have hne : (drawLoop rand p.all_trials.length (fun _ => 0, false)).1 j ≠ 0 := by
        rw [drawLoop_fst, if_pos ⟨by omega, hall j (by omega)⟩]
        decide
      rw [selectLoop_succ, if_neg hne]
      exact ih (by omega)
  simp only [GetTrainingSet, hset, hlen, hnone _ (Nat.le_refl _)]

/-- C10 (the code at a failing input): with two registered trials and both per-trial draws
below 20, `InitSets` assigns both trials to the test set; the training set is empty and the
test set has two trials. -/
theorem InitSets_all_draws_hit :
    GetTrainingSet (InitSets examplePred0 (fun _ => 0)) = some []
    ∧ GetTestSet (InitSets examplePred0 (fun _ => 0)) = some [0, 1] :=
  ⟨by decide, by decide⟩

end ESNPrediction

/-! ## Matrix assembly -/

namespace real_2d_array

variable {α : Type}

theorem write_elem (a : real_2d_array α) (i j : Nat) (v : α) (r c : Nat) :
    (a.write i j v).elem r c = if r = i ∧ c = j then v else a.elem r c := rfl

/-- A loop that writes the columns `col 0, ..., col (m-1)` of row `i` keeps the bounds. -/
theorem colLoop_bounds (m i : Nat) (col : Nat → Nat) (v : Nat → α) (a : real_2d_array α) :
    (forLoop m (fun n A => write A i (col n) (v n)) a).rows = a.rows
    ∧ (forLoop m (fun n A => write A i (col n) (v n)) a).cols = a.cols := by
  induction m with
  | zero => exact ⟨rfl, rfl⟩
  | succ k ih => exact ih

theorem colLoop_other (m i : Nat) (col : Nat → Nat) (v : Nat → α) (a : real_2d_array α)
    (r c : Nat) (h : r ≠ i ∨ ∀ n, n < m → col n ≠ c) :
    (forLoop m (fun n A => write A i (col n) (v n)) a).elem r c = a.elem r c := by
  induction m with
  | zero => rfl
  | succ k ih =>
    rw [forLoop_succ, write_elem]
    have hne : ¬ (r = i ∧ c = col k) := by
      rintro ⟨h1, h2⟩
      rcases h with h | h
      · exact h h1
      · exact h k (Nat.lt_succ_self k) h2.symm
    rw [if_neg hne]
    apply ih
    rcases h with h | h
    · exact Or.inl h
    · exact Or.inr (fun n hn => h n (Nat.lt_succ_of_lt hn))

theorem colLoop_at (m i : Nat) (col : Nat → Nat) (v : Nat → α) (a : real_2d_array α)
    (n : Nat) (hn : n < m) (hinj : ∀ n1, n1 < m → col n1 = col n → n1 = n) :
    (forLoop m (fun n A => write A i (col n) (v n)) a).elem i (col n) = v n := by
  induction m with
  | zero => omega
  | succ k ih =>
    rw [forLoop_succ, write_elem]
    by_cases hnk : n = k
    · subst hnk
      simp
    · have hne : ¬ (i = i ∧ col n = col k) := by
        rintro ⟨_, h2⟩
        exact hnk (hinj k (Nat.lt_succ_self k) h2.symm).symm
      rw [if_neg hne]
      exact ih (by omega) (fun n1 h1 h2 => hinj n1 (Nat.lt_succ_of_lt h1) h2)

/-- Two nested loops over blocks `tr < k` and offsets `d < w`, whose body `g tr d` rewrites
row `tr * w + d` only and gives its first `C` columns the values `val tr d`: afterwards every
such row holds its values. -/
theorem blockLoop_elem (k w C : Nat) (g : Nat → Nat → real_2d_array α → real_2d_array α)
    (val : Nat → Nat → Nat → α)
    (hother : ∀ tr d A r c, tr < k → r ≠ tr * w + d → (g tr d A).elem r c = A.elem r c)
    (hrow : ∀ tr d A c, tr < k → c < C → (g tr d A).elem (tr * w + d) c = val tr d c)
    (a : real_2d_array α) (tr d c : Nat) (htr : tr < k) (hd : d < w) (hc : c < C) :
    (forLoop k (fun tr A => forLoop w (fun d A => g tr d A) A) a).elem (tr * w + d) c
      = val tr d c := by
  have inner_other : ∀ (t m : Nat) (A : real_2d_array α) (r c : Nat), t < k →
      (∀ e, e < m → r ≠ t * w + e) →
      (forLoop m (fun d A => g t d A) A).elem r c = A.elem r c := by
    intro t m A r c ht
    induction m with
    | zero => intro _; rfl
    | succ j ih =>
      intro h
      rw [forLoop_succ, hother t j _ r c ht (h j (Nat.lt_succ_self j))]
      exact ih (fun e he => h e (Nat.lt_succ_of_lt he))
  have inner_at : ∀ (t m : Nat) (A : real_2d_array α) (e c : Nat), t < k → e < m → c < C →
      (forLoop m (fun d A => g t d A) A).elem (t * w + e) c = val t e c := by
    intro t m A e c ht
    induction m with
    | zero => intro he; omega
    | succ j ih =>
      intro he hc
      rw [forLoop_succ]
      by_cases hej : e = j
      · subst hej
        exact hrow t e _ c ht hc
      · rw [hother t j _ _ c ht (by omega)]
        exact ih (by omega) hc
  induction k with
  | zero => omega
  | succ j ih =>
    rw [forLoop_succ]
    by_cases htj : tr = j
    · subst htj
      exact inner_at tr w _ d c htr hd hc
    · have hlt : tr < j := by omega
      have hle : (tr + 1) * w ≤ j * w := Nat.mul_le_mul_right w hlt
      rw [Nat.succ_mul] at hle
      rw [inner_other j w _ _ c (Nat.lt_succ_self j) (fun e _ => by omega)]
      exact ih (fun t e A r c ht hr => hother t e A r c (Nat.lt_succ_of_lt ht) hr)
        (fun t e A c ht hc => hrow t e A c (Nat.lt_succ_of_lt ht) hc) hlt
        (fun t m A r c ht => inner_other t m A r c (Nat.lt_succ_of_lt ht))
        (fun t m A e c ht => inner_at t m A e c (Nat.lt_succ_of_lt ht))

/-- The nested loops keep the bounds of the array when their body does. -/
theorem blockLoop_bounds (k w : Nat) (g : Nat → Nat → real_2d_array α → real_2d_array α)
    (hb : ∀ tr d A, (g tr d A).rows = A.rows ∧ (g tr d A).cols = A.cols)
    (a : real_2d_array α) :
    (forLoop k (fun tr A => forLoop w (fun d A => g tr d A) A) a).rows = a.rows
    ∧ (forLoop k (fun tr A => forLoop w (fun d A => g tr d A) A) a).cols = a.cols := by
  have inner : ∀ (t m : Nat) (A : real_2d_array α),
      (forLoop m (fun d A => g t d A) A).rows = A.rows
      ∧ (forLoop m (fun d A => g t d A) A).cols = A.cols := by
    intro t m A
    induction m with
    | zero => exact ⟨rfl, rfl⟩
    | succ j ih =>
      rw [forLoop_succ]
      exact ⟨(hb t j _).1.trans ih.1, (hb t j _).2.trans ih.2⟩
  induction k with
  | zero => exact ⟨rfl, rfl⟩
  | succ j ih =>
    rw [forLoop_succ]
    exact ⟨(inner j w _).1.trans ih.1, (inner j w _).2.trans ih.2⟩

end real_2d_array

namespace ESNPrediction

variable {α : Type}

theorem writeRowA_bounds (esn : ESN α) (trial : Trial α) (t i : Nat) (A : real_2d_array α) :
    (writeRowA esn trial t i A).rows = A.rows ∧ (writeRowA esn trial t i A).cols = A.cols := by
  unfold writeRowA
  have h1 := real_2d_array.colLoop_bounds esn.d_reservoirSize i (fun n => n)
    (fun n => trial.neuronVal (t * esn.d_reservoirSize + n)) A
  have h2 := real_2d_array.colLoop_bounds esn.d_inputSize i (fun n => n + esn.d_reservoirSize)
    (fun n => trial.inputVal (t * esn.d_inputSize + n))
    (forLoop esn.d_reservoirSize
      (fun n A => A.write i n (trial.neuronVal (t * esn.d_reservoirSize + n))) A)
  exact ⟨h2.1.trans h1.1, h2.2.trans h1.2⟩

theorem writeRowA_other (esn : ESN α) (trial : Trial α) (t i : Nat) (A : real_2d_array α)
    (r c : Nat) (h : r ≠ i) : (writeRowA esn trial t i A).elem r c = A.elem r c := by
  unfold writeRowA
  have h1 := real_2d_array.colLoop_other esn.d_reservoirSize i (fun n => n)
    (fun n => trial.neuronVal (t * esn.d_reservoirSize + n)) A r c (Or.inl h)
  have h2 := real_2d_array.colLoop_other esn.d_inputSize i (fun n => n + esn.d_reservoirSize)
    (fun n => trial.inputVal (t * esn.d_inputSize + n))
    (forLoop esn.d_reservoirSize
      (fun n A => A.write i n (trial.neuronVal (t * esn.d_reservoirSize + n))) A) r c (Or.inl h)
  exact h2.trans h1

theorem writeRowA_state (esn : ESN α) (trial : Trial α) (t i : Nat) (A : real_2d_array α)
    (n : Nat) (hn : n < esn.d_reservoirSize) :
    (writeRowA esn trial t i A).elem i n = trial.neuronVal (t * esn.d_reservoirSize + n) := by
  unfold writeRowA
  have h1 := real_2d_array.colLoop_at esn.d_reservoirSize i (fun n => n)
    (fun n => trial.neuronVal (t * esn.d_reservoirSize + n)) A n hn (fun _ _ h => h)
  have h2 := real_2d_array.colLoop_other esn.d_inputSize i (fun n => n + esn.d_reservoirSize)
    (fun n => trial.inputVal (t * esn.d_inputSize + n))
    (forLoop esn.d_reservoirSize
      (fun n A => A.write i n (trial.neuronVal (t * esn.d_reservoirSize + n))) A) i n
    (Or.inr (fun m _ => by show m + esn.d_reservoirSize ≠ n; omega))
  exact h2.trans h1

theorem writeRowA_input (esn : ESN α) (trial : Trial α) (t i : Nat) (A : real_2d_array α)
    (n : Nat) (hn : n < esn.d_inputSize) :
    (writeRowA esn trial t i A).elem i (esn.d_reservoirSize + n)
      = trial.inputVal (t * esn.d_inputSize + n) := by
  unfold writeRowA
  have h2 := real_2d_array.colLoop_at esn.d_inputSize i (fun n => n + esn.d_reservoirSize)
    (fun n => trial.inputVal (t * esn.d_inputSize + n))
    (forLoop esn.d_reservoirSize
      (fun n A => A.write i n (trial.neuronVal (t * esn.d_reservoirSize + n))) A) n hn
    (fun n1 _ h => by simpa using h)
  rw [Nat.add_comm esn.d_reservoirSize n]
  exact h2

theorem designStep_bounds (esn : ESN α) (trials : List (Trial α)) (L skip tr t : Nat)
    (A : real_2d_array α) :
    (designStep esn trials L skip tr t A).rows = A.rows
    ∧ (designStep esn trials L skip tr t A).cols = A.cols := by
  unfold designStep
  cases trials[tr]? with
  | none => exact ⟨rfl, rfl⟩
  | some trial => exact writeRowA_bounds esn trial _ _ A

theorem designStep_other (esn : ESN α) (trials : List (Trial α)) (L skip tr t : Nat)
    (A : real_2d_array α) (r c : Nat) (h : r ≠ tr * (L - skip) + t - skip) :
    (designStep esn trials L skip tr t A).elem r c = A.elem r c := by
  unfold designStep
  cases trials[tr]? with
  | none => rfl
  | some trial => exact writeRowA_other esn trial _ _ A r c h

theorem designStep_state (esn : ESN α) (trials : List (Trial α)) (L skip tr t : Nat)
    (A : real_2d_array α) (trial : Trial α) (hget : trials[tr]? = some trial) (n : Nat)
    (hn : n < esn.d_reservoirSize) :
    (designStep esn trials L skip tr t A).elem (tr * (L - skip) + t - skip) n
      = trial.neuronVal (t * esn.d_reservoirSize + n) := by
  unfold designStep
  rw [hget]
  exact writeRowA_state esn trial _ _ A n hn

theorem designStep_input (esn : ESN α) (trials : List (Trial α)) (L skip tr t : Nat)
    (A : real_2d_array α) (trial : Trial α) (hget : trials[tr]? = some trial) (n : Nat)
    (hn : n < esn.d_inputSize) :
    (designStep esn trials L skip tr t A).elem (tr * (L - skip) + t - skip)
        (esn.d_reservoirSize + n)
      = trial.inputVal (t * esn.d_inputSize + n) := by
  unfold designStep
  rw [hget]
  exact writeRowA_input esn trial _ _ A n hn

/-- The loops of the design matrix in the form of `blockLoop_elem`. -/
theorem designA_eq (esn : ESN α) (mem : Nat → Nat → α) (trials : List (Trial α))
    (L skip : Nat) :
    designA esn mem trials L skip
      = forLoop trials.length
          (fun tr A => forLoop (L - skip)
            (fun d A => designStep esn trials L skip tr (skip + d) A) A)
          (real_2d_array.setlength mem (trials.length * (L - skip))
            (esn.d_reservoirSize + esn.d_inputSize)) := rfl

theorem designA_bounds (esn : ESN α) (mem : Nat → Nat → α) (trials : List (Trial α))
    (L skip : Nat) :
    (designA esn mem trials L skip).rows = trials.length * (L - skip)
    ∧ (designA esn mem trials L skip).cols = esn.d_reservoirSize + esn.d_inputSize := by
  rw [designA_eq]
  exact real_2d_array.blockLoop_bounds trials.length (L - skip)
    (fun tr d A => designStep esn trials L skip tr (skip + d) A)
    (fun tr d A => designStep_bounds esn trials L skip tr (skip + d) A) _

theorem getElem?_some_lt {β : Type} (l : List β) (i : Nat) (x : β) (h : l[i]? = some x) :
    i < l.length := by
  rcases Nat.lt_or_ge i l.length with hlt | hge
  · exact hlt
  · rw [List.getElem?_eq_none hge] at h
    exact absurd h (by simp)

/-- Row `tr * (L - skip) + d` of the design matrix: the state of trial `tr` at time
`skip + d` followed by its input at that time. -/
theorem designA_elem (esn : ESN α) (mem : Nat → Nat → α) (trials : List (Trial α))
    (L skip tr d : Nat) (trial : Trial α) (hget : trials[tr]? = some trial) (hd : d < L - skip) :
    (∀ n, n < esn.d_reservoirSize →
        (designA esn mem trials L skip).elem (tr * (L - skip) + d) n
          = trial.neuronVal ((skip + d) * esn.d_reservoirSize + n))
    ∧ (∀ n, n < esn.d_inputSize →
        (designA esn mem trials L skip).elem (tr * (L - skip) + d) (esn.d_reservoirSize + n)
          = trial.inputVal ((skip + d) * esn.d_inputSize + n)) := by
  have htr : tr < trials.length := getElem?_some_lt trials tr trial hget
  have hrowidx : ∀ t e : Nat, t * (L - skip) + (skip + e) - skip = t * (L - skip) + e := by
    intro t e
    omega
  have key : ∀ c, c < esn.d_reservoirSize + esn.d_inputSize →
      (designA esn mem trials L skip).elem (tr * (L - skip) + d) c
        = (designStep esn trials L skip tr (skip + d)
            (real_2d_array.setlength mem 0 0)).elem (tr * (L - skip) + d) c := by
    intro c hc
    rw [designA_eq]
    refine real_2d_array.blockLoop_elem trials.length (L - skip)
      (esn.d_reservoirSize + esn.d_inputSize)
      (fun tr d A => designStep esn trials L skip tr (skip + d) A)
      (fun t e c => (designStep esn trials L skip t (skip + e)
            (real_2d_array.setlength mem 0 0)).elem (t * (L - skip) + e) c)
      ?_ ?_ _ tr d c htr hd hc
    · intro t e A r c _ hr
      exact designStep_other esn trials L skip t (skip + e) A r c (by rw [hrowidx]; exact hr)
    · intro t e A c ht hc
      obtain ⟨tl, htl⟩ : ∃ tl, trials[t]? = some tl := ⟨trials[t], List.getElem?_eq_getElem ht⟩
      show (designStep esn trials L skip t (skip + e) A).elem (t * (L - skip) + e) c
        = (designStep esn trials L skip t (skip + e)
            (real_2d_array.setlength mem 0 0)).elem (t * (L - skip) + e) c
      by_cases hcR : c < esn.d_reservoirSize
      · have h1 := designStep_state esn trials L skip t (skip + e) A tl htl c hcR
        have h2 := designStep_state esn trials L skip t (skip + e)
          (real_2d_array.setlength mem 0 0) tl htl c hcR
        rw [hrowidx] at h1 h2
        rw [h1, h2]
      · have hsplit : c = esn.d_reservoirSize + (c - esn.d_reservoirSize) := by omega
        have hlt : c - esn.d_reservoirSize < esn.d_inputSize := by omega
        have h1 := designStep_input esn trials L skip t (skip + e) A tl htl _ hlt
        have h2 := designStep_input esn trials L skip t (skip + e)
          (real_2d_array.setlength mem 0 0) tl htl _ hlt
        rw [hrowidx, ← hsplit] at h1 h2
        rw [h1, h2]
  constructor
  · intro n hn
    rw [key n (by omega)]
    have h := designStep_state esn trials L skip tr (skip + d)
      (real_2d_array.setlength mem 0 0) trial hget n hn
    rw [hrowidx] at h
    exact h
  · intro n hn
    rw [key _ (by omega)]
    have h := designStep_input esn trials L skip tr (skip + d)
      (real_2d_array.setlength mem 0 0) trial hget n hn
    rw [hrowidx] at h
    exact h

end ESNPrediction

namespace ESNPrediction

variable {α : Type}

theorem targetStep_bounds (trials : List (Trial α)) (nof L skip tr t : Nat)
    (B : real_2d_array α) :
    (targetStep trials nof L skip tr t B).rows = B.rows
    ∧ (targetStep trials nof L skip tr t B).cols = B.cols := by
  unfold targetStep
  cases trials[tr]? with
  | none =>
    show (forLoop nof (fun _ B => B) B).rows = B.rows ∧ (forLoop nof (fun _ B => B) B).cols = B.cols
    rw [forLoop_id]
    exact ⟨rfl, rfl⟩
  | some trial =>
    exact real_2d_array.colLoop_bounds nof (tr * (L - skip) + t - skip) (fun _ => 0)
      (fun n => trial.outputVal (t * nof + n)) B

theorem targetStep_other (trials : List (Trial α)) (nof L skip tr t : Nat)
    (B : real_2d_array α) (r c : Nat) (h : r ≠ tr * (L - skip) + t - skip) :
    (targetStep trials nof L skip tr t B).elem r c = B.elem r c := by
  unfold targetStep
  cases trials[tr]? with
  | none =>
    show (forLoop nof (fun _ B => B) B).elem r c = B.elem r c
    rw [forLoop_id]
  | some trial =>
    exact real_2d_array.colLoop_other nof (tr * (L - skip) + t - skip) (fun _ => 0)
      (fun n => trial.outputVal (t * nof + n)) B r c (Or.inl h)

theorem targetStep_at (trials : List (Trial α)) (L skip tr t : Nat) (B : real_2d_array α)
    (trial : Trial α) (hget : trials[tr]? = some trial) :
    (targetStep trials 1 L skip tr t B).elem (tr * (L - skip) + t - skip) 0
      = trial.outputVal t := by
  unfold targetStep
  rw [forLoop_succ, hget]
  show (real_2d_array.write _ _ _ _).elem _ _ = _
  rw [real_2d_array.write_elem]
  simp

theorem targetB_eq (esn : ESN α) (mem : Nat → Nat → α) (trials : List (Trial α))
    (L skip : Nat) :
    targetB esn mem trials L skip
      = forLoop trials.length
          (fun tr B => forLoop (L - skip)
            (fun d B => targetStep trials esn.d_outputSize L skip tr (skip + d) B) B)
          (real_2d_array.setlength mem (trials.length * (L - skip)) esn.d_outputSize) := rfl

theorem targetB_bounds (esn : ESN α) (mem : Nat → Nat → α) (trials : List (Trial α))
    (L skip : Nat) :
    (targetB esn mem trials L skip).rows = trials.length * (L - skip)
    ∧ (targetB esn mem trials L skip).cols = esn.d_outputSize := by
  rw [targetB_eq]
  exact real_2d_array.blockLoop_bounds trials.length (L - skip)
    (fun tr d B => targetStep trials esn.d_outputSize L skip tr (skip + d) B)
    (fun tr d B => targetStep_bounds trials esn.d_outputSize L skip tr (skip + d) B) _

/-- Row `tr * (L - skip) + d` of the target matrix (one output neuron): the teacher output
of trial `tr` at time `skip + d`. -/
theorem targetB_elem (esn : ESN α) (mem : Nat → Nat → α) (trials : List (Trial α))
    (L skip tr d : Nat) (trial : Trial α) (hout : esn.d_outputSize = 1)
    (hget : trials[tr]? = some trial) (hd : d < L - skip) :
    (targetB esn mem trials L skip).elem (tr * (L - skip) + d) 0 = trial.outputVal (skip + d) := by
  have htr : tr < trials.length := getElem?_some_lt trials tr trial hget
  have hrowidx : ∀ t e : Nat, t * (L - skip) + (skip + e) - skip = t * (L - skip) + e := by
    intro t e
    omega
  have key : (targetB esn mem trials L skip).elem (tr * (L - skip) + d) 0
      = (targetStep trials 1 L skip tr (skip + d)
          (real_2d_array.setlength mem 0 0)).elem (tr * (L - skip) + d) 0 := by
    rw [targetB_eq, hout]
    refine real_2d_array.blockLoop_elem trials.length (L - skip) 1
      (fun tr d B => targetStep trials 1 L skip tr (skip + d) B)
      (fun t e c => (targetStep trials 1 L skip t (skip + e)
          (real_2d_array.setlength mem 0 0)).elem (t * (L - skip) + e) c)
      ?_ ?_ _ tr d 0 htr hd (by omega)
    · intro t e B r c _ hr
      exact targetStep_other trials 1 L skip t (skip + e) B r c (by rw [hrowidx]; exact hr)
    · intro t e B c ht hc
      obtain ⟨tl, htl⟩ : ∃ tl, trials[t]? = some tl := ⟨trials[t], List.getElem?_eq_getElem ht⟩
      have hc0 : c = 0 := by omega
      subst hc0
      show (targetStep trials 1 L skip t (skip + e) B).elem (t * (L - skip) + e) 0
        = (targetStep trials 1 L skip t (skip + e)
            (real_2d_array.setlength mem 0 0)).elem (t * (L - skip) + e) 0
      have h1 := targetStep_at trials L skip t (skip + e) B tl htl
      have h2 := targetStep_at trials L skip t (skip + e) (real_2d_array.setlength mem 0 0) tl htl
      rw [hrowidx] at h1 h2
      rw [h1, h2]
  rw [key]
  have h := targetStep_at trials L skip tr (skip + d) (real_2d_array.setlength mem 0 0) trial hget
  rw [hrowidx] at h
  exact h

/-- C7: for `k >= 1` training trials `first :: rest` that all have length `L`, with
`skip = L / 4`, `RidgeRegression` builds `A` with `k * (L - skip)` rows and
`reservoirSize + inputSize` columns and `B` with as many rows and one column; for every
trial index `tr` and every `t` with `skip <= t < L`, row `tr * (L - skip) + (t - skip)` of
`A` is the trial's reservoir state at `t` followed by its input at `t`, and the same row of
`B` is its teacher output at `t`; every row belongs to exactly one pair `(tr, t)` with
`t >= skip`, so each row is written once and samples `t < skip` contribute nothing. -/
theorem RidgeRegression_design (esn : ESN α) (memA memB : Nat → Nat → α) (first : Trial α)
    (rest : List (Trial α)) (L : Nat)
    (hL : ∀ trial, trial ∈ first :: rest → trial.sampleSize = L)
    (hout : esn.d_outputSize = 1) :
    (designA esn memA (first :: rest) first.sampleSize (first.sampleSize / 4)).rows
        = (first :: rest).length * (L - L / 4)
    ∧ (designA esn memA (first :: rest) first.sampleSize (first.sampleSize / 4)).cols
        = esn.d_reservoirSize + esn.d_inputSize
    ∧ (targetB esn memB (first :: rest) first.sampleSize (first.sampleSize / 4)).rows
        = (first :: rest).length * (L - L / 4)
    ∧ (targetB esn memB (first :: rest) first.sampleSize (first.sampleSize / 4)).cols = 1
    ∧ (∀ (tr t : Nat) (trial : Trial α), (first :: rest)[tr]? = some trial →
        L / 4 ≤ t → t < L →
        (∀ n, n < esn.d_reservoirSize →
          (designA esn memA (first :: rest) first.sampleSize (first.sampleSize / 4)).elem
              (tr * (L - L / 4) + (t - L / 4)) n
            = trial.neuronVal (t * esn.d_reservoirSize + n))
        ∧ (∀ n, n < esn.d_inputSize →
          (designA esn memA (first :: rest) first.sampleSize (first.sampleSize / 4)).elem
              (tr * (L - L / 4) + (t - L / 4)) (esn.d_reservoirSize + n)
            = trial.inputVal (t * esn.d_inputSize + n))
        ∧ (targetB esn memB (first :: rest) first.sampleSize (first.sampleSize / 4)).elem
              (tr * (L - L / 4) + (t - L / 4)) 0
            = trial.outputVal t)
    ∧ (∀ i, i < (first :: rest).length * (L - L / 4) →
        ∃! pr : Nat × Nat, pr.1 < (first :: rest).length ∧ L / 4 ≤ pr.2 ∧ pr.2 < L
          ∧ i = pr.1 * (L - L / 4) + (pr.2 - L / 4)) := by
  have hfirst : first.sampleSize = L := hL first (List.mem_cons_self _ _)
  rw [hfirst]
  refine ⟨(designA_bounds esn memA _ _ _).1, (designA_bounds esn memA _ _ _).2,
    (targetB_bounds esn memB _ _ _).1, ?_, ?_, ?_⟩
  · rw [(targetB_bounds esn memB _ _ _).2, hout]
  · intro tr t trial hget hlo hhi
    have hd : t - L / 4 < L - L / 4 := by omega
    have ht : L / 4 + (t - L / 4) = t := by omega
    have hA := designA_elem esn memA (first :: rest) L (L / 4) tr (t - L / 4) trial hget hd
    have hB := targetB_elem esn memB (first :: rest) L (L / 4) tr (t - L / 4) trial hout hget hd
    rw [ht] at hA hB
    exact ⟨hA.1, hA.2, hB⟩
  · intro i hi
    have hw : 0 < L - L / 4 := by
      rcases Nat.eq_zero_or_pos (L - L / 4) with h | h
      · rw [h, Nat.mul_zero] at hi
        omega
      · exact h
    have hdiv : i / (L - L / 4) < (first :: rest).length :=
      (Nat.div_lt_iff_lt_mul hw).mpr hi
    have hmod : i % (L - L / 4) < L - L / 4 := Nat.mod_lt _ hw
    have hsplit : i = i / (L - L / 4) * (L - L / 4) + i % (L - L / 4) := by
      rw [Nat.mul_comm]
      exact (Nat.div_add_mod i (L - L / 4)).symm
    refine ⟨(i / (L - L / 4), L / 4 + i % (L - L / 4)), ⟨hdiv, by omega, by omega, ?_⟩, ?_⟩
    · show i = i / (L - L / 4) * (L - L / 4) + (L / 4 + i % (L - L / 4) - L / 4)
      rw [Nat.add_sub_cancel_left]
      exact hsplit
    · rintro ⟨a, b⟩ ⟨_, h2, h3, h4⟩
      simp only at h2 h3 h4
      have hb : b - L / 4 < L - L / 4 := by omega
      have hdm := (Nat.div_mod_unique hw).mpr
        ⟨(by rw [h4, Nat.mul_comm, Nat.add_comm] : b - L / 4 + (L - L / 4) * a = i), hb⟩
      ext
      · exact hdm.1.symm
      · show b = L / 4 + i % (L - L / 4)
        rw [hdm.2]
        omega

end ESNPrediction

/-! ## Ridge regression -/

theorem matrixmatrixmultiply_bounds {α : Type} [CommRing α] (a : real_2d_array α) (ax ay : Nat)
    (transa : Bool) (b : real_2d_array α) (bx bylen : Nat) (transb : Bool) (alpha : α)
    (c : real_2d_array α) (cx cy : Nat) (beta : α) :
    (matrixmatrixmultiply a ax ay transa b bx bylen transb alpha c cx cy beta).rows = c.rows
    ∧ (matrixmatrixmultiply a ax ay transa b bx bylen transb alpha c cx cy beta).cols
        = c.cols := by
  unfold matrixmatrixmultiply
  by_cases h : (if transa = true then ax else ay) = (if transb = true then bylen else bx)
  · simp [h]
  · simp [h]

/-- The product `A' * B` written into a fresh array: element `(i, j)` of the result. -/
theorem matrixmatrixmultiply_transpose_elem {α : Type} [CommRing α] (a b : real_2d_array α)
    (ax ay bylen : Nat) (mem : Nat → Nat → α) (m n cx cy i j : Nat) (hi : i < cx)
    (hj : j < cy) :
    (matrixmatrixmultiply a ax ay true b ax bylen false 1 (real_2d_array.setlength mem m n)
        cx cy 0).elem i j
      = ∑ k ∈ Finset.range ax, a.elem k i * b.elem k j := by
  unfold matrixmatrixmultiply
  simp [hi, hj]

/-- The product `A * B` written into a fresh array: element `(i, j)` of the result. -/
theorem matrixmatrixmultiply_plain_elem {α : Type} [CommRing α] (a b : real_2d_array α)
    (ax ay bylen : Nat) (mem : Nat → Nat → α) (m n cx cy i j : Nat) (hi : i < cx)
    (hj : j < cy) :
    (matrixmatrixmultiply a ax ay false b ay bylen false 1 (real_2d_array.setlength mem m n)
        cx cy 0).elem i j
      = ∑ k ∈ Finset.range ay, a.elem i k * b.elem k j := by
  unfold matrixmatrixmultiply
  simp [hi, hj]

namespace ESNPrediction

variable {α : Type} [LinearOrderedField α]

/-- The loop that adds `lambda` to the diagonal (line 342). -/
theorem diagLoop_elem (m : Nat) (lambda : α) (M : real_2d_array α) (i j : Nat) :
    (forLoop m (fun x M => M.write x x (M.elem x x + lambda)) M).elem i j
      = if i = j ∧ i < m then M.elem i j + lambda else M.elem i j := by
  induction m with
  | zero => simp [forLoop]
  | succ k ih =>
    rw [forLoop_succ, real_2d_array.write_elem]
    by_cases h : i = k ∧ j = k
    · obtain ⟨h1, h2⟩ := h
      subst h1
      subst h2
      simp [ih]
    · rw [if_neg h, ih]
      by_cases hij : i = j
      · subst hij
        have hik : i ≠ k := fun hh => h ⟨hh, hh⟩
        by_cases hlt : i < k
        · simp [hlt, Nat.lt_succ_of_lt hlt]
        · have : ¬ i < k + 1 := by omega
          simp [hlt, this]
      · simp [hij]

/-- The regularised correlation matrix `A' * A + 0.2 * I`. -/
theorem regularised_elem (n rowsA : Nat) (mem : Nat → Nat → α) (A : real_2d_array α)
    (i j : Nat) (hi : i < n) (hj : j < n) :
    (regularised n rowsA mem A).elem i j
      = ∑ r ∈ Finset.range rowsA, A.elem r i * A.elem r j + if i = j then 0.2 else 0 := by
  unfold regularised
  simp only []
  rw [diagLoop_elem, matrixmatrixmultiply_transpose_elem A A rowsA n n mem n n n n i j hi hj]
  by_cases hij : i = j
  · simp [hij, hj]
  · simp [hij]

/-- C6: for a non-empty list of training trials and an inverse collaborator that returns
the inverse of the matrix it is given, the matrix `W` produced by `RidgeRegression` has
`reservoirSize + inputSize` rows and one column and is the ridge solution with
`lambda = 0.2`: `(A' * A + 0.2 * I) * W = A' * B`, with `A` and `B` the assembled design and
target matrices. -/
theorem RidgeRegression_solution (esn : ESN α)
    (rmatrixinverse : real_2d_array α → Nat → real_2d_array α × Bool)
    (memA memB memAtA memAtB memW : Nat → Nat → α) (first : Trial α) (rest : List (Trial α))
    (W0 : real_2d_array α) (hout : esn.d_outputSize = 1)
    (hinv : real_2d_array.IsInverseOf (esn.d_reservoirSize + esn.d_inputSize)
      (rmatrixinverse
        (regularised (esn.d_reservoirSize + esn.d_inputSize)
          ((first :: rest).length * (first.sampleSize - first.sampleSize / 4)) memAtA
          (designA esn memA (first :: rest) first.sampleSize (first.sampleSize / 4)))
        (esn.d_reservoirSize + esn.d_inputSize)).1
      (regularised (esn.d_reservoirSize + esn.d_inputSize)
        ((first :: rest).length * (first.sampleSize - first.sampleSize / 4)) memAtA
        (designA esn memA (first :: rest) first.sampleSize (first.sampleSize / 4)))) :
    ∃ W : real_2d_array α,
      RidgeRegression esn rmatrixinverse memA memB memAtA memAtB memW (first :: rest) W0 = some W
      ∧ W.rows = esn.d_reservoirSize + esn.d_inputSize ∧ W.cols = 1
      ∧ ∀ i, i < esn.d_reservoirSize + esn.d_inputSize →
          ∑ k ∈ Finset.range (esn.d_reservoirSize + esn.d_inputSize),
              (∑ r ∈ Finset.range ((first :: rest).length
                    * (first.sampleSize - first.sampleSize / 4)),
                  (designA esn memA (first :: rest) first.sampleSize
                      (first.sampleSize / 4)).elem r i
                    * (designA esn memA (first :: rest) first.sampleSize
                      (first.sampleSize / 4)).elem r k
                + if i = k then 0.2 else 0)
              * W.elem k 0
            = ∑ r ∈ Finset.range ((first :: rest).length
                  * (first.sampleSize - first.sampleSize / 4)),
                (designA esn memA (first :: rest) first.sampleSize
                    (first.sampleSize / 4)).elem r i
                  * (targetB esn memB (first :: rest) first.sampleSize
                    (first.sampleSize / 4)).elem r 0 := by
  cases hres : RidgeRegression esn rmatrixinverse memA memB memAtA memAtB memW (first :: rest)
      W0 with
  | none => simp [RidgeRegression, hout] at hres
  | some W =>
    simp only [RidgeRegression, hout, if_true, Option.some.injEq] at hres
    subst hres
    refine ⟨_, rfl, (matrixmatrixmultiply_bounds _ _ _ _ _ _ _ _ _ _ _ _ _).1,
      (matrixmatrixmultiply_bounds _ _ _ _ _ _ _ _ _ _ _ _ _).2, ?_⟩
    intro i hi
    have hW : ∀ k, k < esn.d_reservoirSize + esn.d_inputSize → _ :=
      fun k hk => matrixmatrixmultiply_plain_elem
        (rmatrixinverse
          (regularised (esn.d_reservoirSize + esn.d_inputSize)
            ((first :: rest).length * (first.sampleSize - first.sampleSize / 4)) memAtA
            (designA esn memA (first :: rest) first.sampleSize (first.sampleSize / 4)))
          (esn.d_reservoirSize + esn.d_inputSize)).1
        (matrixmatrixmultiply
          (designA esn memA (first :: rest) first.sampleSize (first.sampleSize / 4))
          ((first :: rest).length * (first.sampleSize - first.sampleSize / 4))
          (esn.d_reservoirSize + esn.d_inputSize) true
          (targetB esn memB (first :: rest) first.sampleSize (first.sampleSize / 4))
          ((first :: rest).length * (first.sampleSize - first.sampleSize / 4)) 1 false 1
          (real_2d_array.setlength memAtB (esn.d_reservoirSize + esn.d_inputSize) 1)
          (esn.d_reservoirSize + esn.d_inputSize) 1 0)
        (esn.d_reservoirSize + esn.d_inputSize) (esn.d_reservoirSize + esn.d_inputSize)
        1 memW
        (esn.d_reservoirSize + esn.d_inputSize) 1
        (esn.d_reservoirSize + esn.d_inputSize) 1 k 0 hk (by omega)
    have hAtB : ∀ k, k < esn.d_reservoirSize + esn.d_inputSize → _ :=
      fun k hk => matrixmatrixmultiply_transpose_elem
        (designA esn memA (first :: rest) first.sampleSize (first.sampleSize / 4))
        (targetB esn memB (first :: rest) first.sampleSize (first.sampleSize / 4))
        ((first :: rest).length * (first.sampleSize - first.sampleSize / 4))
        (esn.d_reservoirSize + esn.d_inputSize) 1 memAtB
        (esn.d_reservoirSize + esn.d_inputSize) 1
        (esn.d_reservoirSize + esn.d_inputSize) 1 k 0 hk (by omega)
    rw [← hAtB i hi]
    have step1 : ∀ k, k ∈ Finset.range (esn.d_reservoirSize + esn.d_inputSize) → _ = _ :=
      fun k hk => congrArg₂ (· * ·)
        (regularised_elem (esn.d_reservoirSize + esn.d_inputSize)
          ((first :: rest).length * (first.sampleSize - first.sampleSize / 4)) memAtA
          (designA esn memA (first :: rest) first.sampleSize (first.sampleSize / 4))
          i k hi (Finset.mem_range.mp hk)).symm
        (hW k (Finset.mem_range.mp hk))
    rw [Finset.sum_congr rfl step1]
    simp only [Finset.mul_sum, ← mul_assoc]
    rw [Finset.sum_comm]
    simp only [← Finset.sum_mul]
    rw [Finset.sum_congr rfl (fun j hj => by rw [hinv.2 i hi j (Finset.mem_range.mp hj)])]
    simp [Finset.sum_ite_eq, hi]

end ESNPrediction

namespace ESNPrediction

/-- Witness of C7 on two trials of length 20 (`skip = 5`): `A` has 30 rows, and row
`1 * 15 + (7 - 5)` of `B` is the teacher output of the second trial at time 7. -/
theorem RidgeRegression_design_witness :
    ((∀ trial, trial ∈ exampleTrial20 :: [exampleTrial20] → trial.sampleSize = 20)
      ∧ exampleNet.d_outputSize = 1)
    ∧ (designA exampleNet (fun _ _ => 0) (exampleTrial20 :: [exampleTrial20])
          exampleTrial20.sampleSize (exampleTrial20.sampleSize / 4)).rows
        = (exampleTrial20 :: [exampleTrial20]).length * (20 - 20 / 4)
    ∧ (targetB exampleNet (fun _ _ => 0) (exampleTrial20 :: [exampleTrial20])
          exampleTrial20.sampleSize (exampleTrial20.sampleSize / 4)).elem
            (1 * (20 - 20 / 4) + (7 - 20 / 4)) 0
        = exampleTrial20.outputVal 7 :=
  ⟨⟨fun trial h => by
      rcases List.mem_cons.mp h with h | h
      · rw [h]
        rfl
      · rw [List.mem_singleton.mp h]
        rfl, rfl⟩,
    (RidgeRegression_design exampleNet (fun _ _ => 0) (fun _ _ => 0) exampleTrial20
      [exampleTrial20] 20
      (fun trial h => by
        rcases List.mem_cons.mp h with h | h
        · rw [h]
          rfl
        · rw [List.mem_singleton.mp h]
          rfl) rfl).1,
    ((RidgeRegression_design exampleNet (fun _ _ => 0) (fun _ _ => 0) exampleTrial20
      [exampleTrial20] 20
      (fun trial h => by
        rcases List.mem_cons.mp h with h | h
        · rw [h]
          rfl
        · rw [List.mem_singleton.mp h]
          rfl) rfl).2.2.2.2.1 1 7 exampleTrial20 rfl (by decide) (by decide)).2.2⟩

/-- Witness of C6 on `exampleNetQ` and one trial with a silent reservoir, where
`A' * A + 0.2 * I` is diagonal and `diagInverse` returns its inverse. -/
theorem RidgeRegression_solution_witness :
    (exampleNetQ.d_outputSize = 1
      ∧ real_2d_array.IsInverseOf (exampleNetQ.d_reservoirSize + exampleNetQ.d_inputSize)
        (diagInverse
          (regularised (exampleNetQ.d_reservoirSize + exampleNetQ.d_inputSize)
            ((exampleTrialQ :: []).length
              * (exampleTrialQ.sampleSize - exampleTrialQ.sampleSize / 4)) (fun _ _ => 7)
            (designA exampleNetQ (fun _ _ => 9) (exampleTrialQ :: []) exampleTrialQ.sampleSize
              (exampleTrialQ.sampleSize / 4)))
          (exampleNetQ.d_reservoirSize + exampleNetQ.d_inputSize)).1
        (regularised (exampleNetQ.d_reservoirSize + exampleNetQ.d_inputSize)
          ((exampleTrialQ :: []).length
            * (exampleTrialQ.sampleSize - exampleTrialQ.sampleSize / 4)) (fun _ _ => 7)
          (designA exampleNetQ (fun _ _ => 9) (exampleTrialQ :: []) exampleTrialQ.sampleSize
            (exampleTrialQ.sampleSize / 4))))
    ∧ ∃ W : real_2d_array ℚ,
      RidgeRegression exampleNetQ diagInverse (fun _ _ => 9) (fun _ _ => 8) (fun _ _ => 7)
          (fun _ _ => 6) (fun _ _ => 5) (exampleTrialQ :: [])
          { rows := 0, cols := 0, elem := fun _ _ => 0 } = some W
      ∧ W.rows = 3 ∧ W.cols = 1 ∧ W.elem 2 0 = 15 / 8 :=
  ⟨⟨rfl, by unfold real_2d_array.IsInverseOf; decide!⟩,
    (RidgeRegression_solution exampleNetQ diagInverse (fun _ _ => 9) (fun _ _ => 8)
      (fun _ _ => 7) (fun _ _ => 6) (fun _ _ => 5) exampleTrialQ []
      { rows := 0, cols := 0, elem := fun _ _ => 0 } rfl
      (by unfold real_2d_array.IsInverseOf; decide!)).imp
      (fun W h => ⟨h.1, h.2.1, h.2.2.1, by
        have hW := h.1
        simp only [RidgeRegression] at hW
        have hW2 := (Option.some.inj hW).symm
        rw [hW2]
        decide!⟩)⟩

end ESNPrediction

/-! ## Training -/

/-- A loop over the elements of a vector is a left fold. -/
theorem forEach_eq_foldl {β σ : Type} (l : List β) (g : β → σ → σ) (s : σ) :
    forEach l g s = l.foldl (fun st x => g x st) s := by
  induction l using List.reverseRecOn with
  | nil => rfl
  | append_singleton l a ih =>
    unfold forEach at ih ⊢
    rw [List.length_append, List.length_singleton, forLoop_succ, List.foldl_append,
      List.getElem?_concat_length]
    show g a _ = g a _
    congr 1
    rw [← ih]
    apply forLoop_congr
    intro i hi st
    rw [List.getElem?_append_left hi]

namespace ESNPrediction

variable {α : Type}

theorem selectLoop_eq_filter (set : Nat → Int) (v : Int) (n : Nat) :
    selectLoop set v n = (List.range n).filter (fun i => decide (set i = v)) := by
  induction n with
  | zero => rfl
  | succ k ih =>
    rw [selectLoop_succ, List.range_succ, List.filter_append, ← ih]
    by_cases h : set k = v
    · simp [h]
    · simp [h]

theorem selectLoop_nodup (set : Nat → Int) (v : Int) (n : Nat) : (selectLoop set v n).Nodup := by
  rw [selectLoop_eq_filter]
  exact (List.nodup_range n).filter _

theorem selectLoop_lt (set : Nat → Int) (v : Int) (n x : Nat) (h : x ∈ selectLoop set v n) :
    x < n := by
  rw [selectLoop_eq_filter] at h
  exact List.mem_range.mp (List.mem_filter.mp h).1

theorem InitSets_esn (p : ESNPrediction α) (rand : Nat → Nat) : (InitSets p rand).esn = p.esn := by
  unfold InitSets
  by_cases h : p.all_trials.length ≤ 1
  · simp [h]
  · simp [h]

theorem InitSets_all_trials (p : ESNPrediction α) (rand : Nat → Nat) :
    (InitSets p rand).all_trials = p.all_trials := by
  unfold InitSets
  by_cases h : p.all_trials.length ≤ 1
  · simp [h]
  · simp [h]

/-- Every pointer of a non-empty training set is the position of a registered trial, and no
pointer occurs twice. -/
theorem GetTrainingSet_valid (p : ESNPrediction α) (trainSet : List Nat)
    (h : GetTrainingSet p = some trainSet) :
    trainSet.Nodup ∧ ∀ x, x ∈ trainSet → x < p.all_trials.length := by
  unfold GetTrainingSet at h
  cases hs : p.set with
  | none =>
    rw [hs] at h
    by_cases h0 : p.all_trials.length = 0
    · simp only [h0, if_true, Option.some.injEq] at h
      subst h
      exact ⟨List.nodup_nil, fun x hx => absurd hx (List.not_mem_nil x)⟩
    · simp [h0] at h
  | some set =>
    rw [hs] at h
    simp only [Option.some.injEq] at h
    subst h
    exact ⟨selectLoop_nodup set 0 _, fun x hx => selectLoop_lt set 0 _ x hx⟩

end ESNPrediction

namespace ESNPrediction

variable {α : Type} [LinearOrderedField α]

theorem trainStep_getElem? (esn : ESN α) (ptr : Nat) (trials : List (Trial α)) (q : Nat) :
    (trainStep esn ptr trials)[q]?
      = if q = ptr then
          (trials[q]?).map (fun trial => ESN.Run esn trial SimulationType.TEACHER_FORCING)
        else trials[q]? := by
  unfold trainStep
  cases hp : trials[ptr]? with
  | none =>
    by_cases hq : q = ptr
    · subst hq
      simp [hp]
    · simp [hq]
  | some trial =>
    have hlt : ptr < trials.length := getElem?_some_lt trials ptr trial hp
    show (trials.set ptr _)[q]? = _
    rw [List.getElem?_set]
    by_cases hq : q = ptr
    · subst hq
      simp [hp, hlt]
    · have hq2 : ¬ ptr = q := fun hh => hq hh.symm
      simp [hq, hq2]

/-- Running the training trials: the trial object at a pointer of the training set has been
run once under `TEACHER_FORCING`, every other trial object is unchanged. -/
theorem runTraining_getElem? (esn : ESN α) (trainSet : List Nat) (hnd : trainSet.Nodup)
    (trials : List (Trial α)) (q : Nat) :
    (runTraining esn trainSet trials)[q]?
      = if q ∈ trainSet then
          (trials[q]?).map (fun trial => ESN.Run esn trial SimulationType.TEACHER_FORCING)
        else trials[q]? := by
  unfold runTraining
  rw [forEach_eq_foldl]
  induction trainSet generalizing trials with
  | nil => simp
  | cons ptr rest ih =>
    rw [List.foldl_cons, ih (List.nodup_cons.mp hnd).2]
    have hnot : ptr ∉ rest := (List.nodup_cons.mp hnd).1
    by_cases hq : q = ptr
    · subst hq
      simp [hnot, trainStep_getElem?]
    · by_cases hr : q ∈ rest
      · simp [hq, hr, trainStep_getElem?]
      · simp [hq, hr, trainStep_getElem?]

/-- The trials handed to the regression are the training trials after one run under
`TEACHER_FORCING`, in the order of the training set. -/
theorem deref_runTraining (esn : ESN α) (trainSet : List Nat) (hnd : trainSet.Nodup)
    (trials : List (Trial α)) :
    deref (runTraining esn trainSet trials) trainSet
      = trainSet.filterMap (fun ptr =>
          (trials[ptr]?).map (fun trial => ESN.Run esn trial SimulationType.TEACHER_FORCING)) := by
  unfold deref
  apply List.filterMap_congr
  intro ptr hptr
  rw [runTraining_getElem? esn trainSet hnd trials ptr, if_pos hptr]

end ESNPrediction

namespace ESNPrediction

variable {α : Type} [LinearOrderedField α]

/-- On a non-empty list of trials and a network with one output neuron, `RidgeRegression`
returns a matrix with `reservoirSize + inputSize` rows. -/
theorem RidgeRegression_some (esn : ESN α)
    (rmatrixinverse : real_2d_array α → Nat → real_2d_array α × Bool)
    (memA memB memAtA memAtB memW : Nat → Nat → α) (trials : List (Trial α))
    (W0 : real_2d_array α) (hne : trials ≠ []) (hout : esn.d_outputSize = 1) :
    ∃ W : real_2d_array α,
      RidgeRegression esn rmatrixinverse memA memB memAtA memAtB memW trials W0 = some W
      ∧ W.rows = esn.d_reservoirSize + esn.d_inputSize := by
  cases trials with
  | nil => exact absurd rfl hne
  | cons first rest =>
    cases hres : RidgeRegression esn rmatrixinverse memA memB memAtA memAtB memW (first :: rest)
        W0 with
    | none => simp [RidgeRegression, hout] at hres
    | some W =>
      simp only [RidgeRegression, hout, if_true, Option.some.injEq] at hres
      subst hres
      exact ⟨_, rfl, (matrixmatrixmultiply_bounds _ _ _ _ _ _ _ _ _ _ _ _ _).1⟩

/-- C8: when `RunTrials` obtains a non-empty training set (on a network with one output
neuron, as `RidgeRegression` asserts), it returns, and afterwards the output weights of the
network are the ridge-regression result `W` computed from the training trials after their run
under `TEACHER_FORCING`: `outputWeights[i] = W(i, 0)` for every `i < reservoirSize + inputSize`
(rows `0 .. reservoirSize-1` of `W` belong to the reservoir, the following ones to the input). -/
theorem RunTrials_installs_weights (p : ESNPrediction α) (rand : Nat → Nat)
    (rmatrixinverse : real_2d_array α → Nat → real_2d_array α × Bool)
    (memA memB memAtA memAtB memW : Nat → Nat → α) (W0 : real_2d_array α) (wmem : Nat → α)
    (trainSet : List Nat) (htrain : GetTrainingSet (InitSets p rand) = some trainSet)
    (hne : trainSet ≠ []) (hout : p.esn.d_outputSize = 1) :
    ∃ (p1 : ESNPrediction α) (W : real_2d_array α),
      RunTrials p rand rmatrixinverse memA memB memAtA memAtB memW W0 wmem = some p1
      ∧ RidgeRegression p.esn rmatrixinverse memA memB memAtA memAtB memW
          (trainSet.filterMap (fun ptr =>
            (p.all_trials[ptr]?).map
              (fun trial => ESN.Run p.esn trial SimulationType.TEACHER_FORCING))) W0 = some W
      ∧ ∀ i, i < p.esn.d_reservoirSize + p.esn.d_inputSize →
          p1.esn.d_outputWeights i = W.elem i 0 := by
  obtain ⟨hnd, hlt⟩ := GetTrainingSet_valid (InitSets p rand) trainSet htrain
  rw [InitSets_all_trials] at hlt
  have hlist : trainSet.filterMap (fun ptr =>
      (p.all_trials[ptr]?).map
        (fun trial => ESN.Run p.esn trial SimulationType.TEACHER_FORCING)) ≠ [] := by
    cases trainSet with
    | nil => exact absurd rfl hne
    | cons x xs =>
      have hx : x < p.all_trials.length := hlt x (List.mem_cons_self _ _)
      rw [List.filterMap_cons, List.getElem?_eq_getElem hx]
      simp
  obtain ⟨W, hW, hrows⟩ := RidgeRegression_some p.esn rmatrixinverse memA memB memAtA memAtB memW
    _ W0 hlist hout
  have hnof : p.esn.d_outputSize * p.esn.d_reservoirSize + p.esn.d_outputSize * p.esn.d_inputSize
      = W.rows := by
    rw [hout, hrows, Nat.one_mul, Nat.one_mul]
  refine ⟨{ InitSets p rand with
      esn := { p.esn with
        d_outputWeights :=
          forLoop (p.esn.d_outputSize * p.esn.d_reservoirSize
              + p.esn.d_outputSize * p.esn.d_inputSize)
            (fun i w => Function.update w i
              (forLoop W.rows (fun i w => Function.update w i (W.elem i 0)) wmem i))
            p.esn.d_outputWeights }
      all_trials := runTraining p.esn trainSet p.all_trials }, W, ?_, hW, ?_⟩
  · simp only [RunTrials, htrain, InitSets_esn, InitSets_all_trials,
      deref_runTraining p.esn trainSet hnd, hW, ESN.setOutputWeights, hnof, if_true]
  · intro i hi
    show (forLoop _ _ p.esn.d_outputWeights : Nat → α) i = _
    have hi1 : i < p.esn.d_outputSize * p.esn.d_reservoirSize
        + p.esn.d_outputSize * p.esn.d_inputSize := by
      rw [hnof, hrows]
      exact hi
    have hi2 : i < W.rows := by
      rw [hrows]
      exact hi
    rw [copyLoop_apply, if_pos hi1, copyLoop_apply, if_pos hi2]

end ESNPrediction

namespace ESNPrediction

/-- Witness of C8 on `examplePredQ` with the draws `exampleDraws`: trial 0 is the training
set. -/
theorem RunTrials_installs_weights_witness :
    (GetTrainingSet (InitSets examplePredQ exampleDraws) = some [0] ∧ ([0] : List Nat) ≠ []
      ∧ examplePredQ.esn.d_outputSize = 1)
    ∧ ∃ (p1 : ESNPrediction ℚ) (W : real_2d_array ℚ),
      RunTrials examplePredQ exampleDraws diagInverse (fun _ _ => 9) (fun _ _ => 8)
          (fun _ _ => 7) (fun _ _ => 6) (fun _ _ => 5)
          { rows := 0, cols := 0, elem := fun _ _ => 0 } (fun _ => 4) = some p1
      ∧ RidgeRegression examplePredQ.esn diagInverse (fun _ _ => 9) (fun _ _ => 8)
          (fun _ _ => 7) (fun _ _ => 6) (fun _ _ => 5)
          (([0] : List Nat).filterMap (fun ptr =>
            (examplePredQ.all_trials[ptr]?).map
              (fun trial => ESN.Run examplePredQ.esn trial SimulationType.TEACHER_FORCING)))
          { rows := 0, cols := 0, elem := fun _ _ => 0 } = some W
      ∧ ∀ i, i < examplePredQ.esn.d_reservoirSize + examplePredQ.esn.d_inputSize →
          p1.esn.d_outputWeights i = W.elem i 0 :=
  ⟨⟨by decide, by decide, rfl⟩,
    RunTrials_installs_weights examplePredQ exampleDraws diagInverse (fun _ _ => 9)
      (fun _ _ => 8) (fun _ _ => 7) (fun _ _ => 6) (fun _ _ => 5)
      { rows := 0, cols := 0, elem := fun _ _ => 0 } (fun _ => 4) [0] (by decide) (by decide)
      rfl⟩

end ESNPrediction

/-! ## Registration of trials and installation of weights -/

namespace ESNPrediction

variable {α : Type}

/-- C14: `AddTrial` appends exactly one trial to the end of the trial collection and leaves
the registered trials (and the network and the partition) as they are; the new trial has
`stateSize` equal to the reservoir size of the network, state and debug buffers of
`reservoirSize * len` elements, `sampleSize = len`, `classId = id`,
`teacherTestSize = len / 5`, `inputSize = 1`, and its input and output pointers are the
arrays given by the caller. -/
theorem AddTrial_appends (p : ESNPrediction α) (neuronMem debugMem input output : Nat → α)
    (len : Nat) (id : Int) :
    ∃ t : Trial α,
      (AddTrial p neuronMem debugMem input output len id).all_trials = p.all_trials ++ [t]
      ∧ (AddTrial p neuronMem debugMem input output len id).all_trials.length
          = p.all_trials.length + 1
      ∧ (∀ i, i < p.all_trials.length →
          (AddTrial p neuronMem debugMem input output len id).all_trials[i]? = p.all_trials[i]?)
      ∧ (AddTrial p neuronMem debugMem input output len id).all_trials[p.all_trials.length]?
          = some t
      ∧ (AddTrial p neuronMem debugMem input output len id).esn = p.esn
      ∧ (AddTrial p neuronMem debugMem input output len id).set = p.set
      ∧ t.stateSize = p.esn.d_reservoirSize
      ∧ AddTrial_bufferSize p len = p.esn.d_reservoirSize * len
      ∧ t.neuronVal = neuronMem ∧ t.debug = debugMem
      ∧ t.sampleSize = len ∧ t.classId = id ∧ t.teacherTestSize = len / 5
      ∧ t.inputSize = 1 ∧ t.inputVal = input ∧ t.outputVal = output := by
  refine ⟨Trial.mk neuronMem input p.esn.d_reservoirSize len id output (len / 5) 1 debugMem,
    rfl, ?_, ?_, ?_, rfl, rfl, rfl, rfl, rfl, rfl, rfl, rfl, rfl, rfl, rfl, rfl⟩
  · show (p.all_trials ++ [_]).length = _
    rw [List.length_append, List.length_singleton]
  · intro i hi
    show (p.all_trials ++ [_])[i]? = _
    exact List.getElem?_append_left hi
  · show (p.all_trials ++ [_])[p.all_trials.length]? = _
    exact List.getElem?_concat_length _ _

end ESNPrediction

namespace ESN

variable {α : Type}

/-- C15: `ESN::setOutputWeights` fails (assertion, no network is returned) exactly when
`len` differs from `outputSize * (reservoirSize + inputSize)`; otherwise output weight `i`
equals `weights[i]` for every `i < len`, and every other member of the network (the other
weight matrices, the thresholds and the parameters) is as before. -/
theorem setOutputWeights_spec (net : ESN α) (weights : Nat → α) (len : Nat) :
    (setOutputWeights net weights len = none
        ↔ len ≠ net.d_outputSize * (net.d_reservoirSize + net.d_inputSize))
    ∧ (len = net.d_outputSize * (net.d_reservoirSize + net.d_inputSize) →
        ∃ net1 : ESN α,
          setOutputWeights net weights len = some net1
          ∧ (∀ i, i < len → net1.d_outputWeights i = weights i)
          ∧ (∀ i, len ≤ i → net1.d_outputWeights i = net.d_outputWeights i)
          ∧ net1 = { net with d_outputWeights := net1.d_outputWeights }) := by
  have hnof : net.d_outputSize * net.d_reservoirSize + net.d_outputSize * net.d_inputSize
      = net.d_outputSize * (net.d_reservoirSize + net.d_inputSize) := (Nat.mul_add _ _ _).symm
  constructor
  · unfold setOutputWeights
    rw [hnof]
    by_cases h : net.d_outputSize * (net.d_reservoirSize + net.d_inputSize) = len
    · simp [h]
    · simp only [h, if_false, true_iff]
      exact fun hh => h hh.symm
  · intro hlen
    refine ⟨{ net with
        d_outputWeights := forLoop len (fun i w => Function.update w i (weights i))
          net.d_outputWeights }, ?_, ?_, ?_, rfl⟩
    · unfold setOutputWeights
      rw [hnof, ← hlen]
      simp
    · intro i hi
      show (forLoop len (fun i w => Function.update w i (weights i)) net.d_outputWeights) i = _
      rw [copyLoop_apply, if_pos hi]
    · intro i hi
      show (forLoop len (fun i w => Function.update w i (weights i)) net.d_outputWeights) i = _
      rw [copyLoop_apply, if_neg (by omega)]

/-- Witness of C15 on `exampleNet` (`1 * (2 + 1) = 3` output weights). -/
theorem setOutputWeights_spec_witness :
    3 = exampleNet.d_outputSize * (exampleNet.d_reservoirSize + exampleNet.d_inputSize)
    ∧ ∃ net1 : ESN ℤ,
        setOutputWeights exampleNet (fun i => 5 * (i : ℤ)) 3 = some net1
        ∧ (∀ i, i < 3 → net1.d_outputWeights i = (fun i => 5 * (i : ℤ)) i)
        ∧ (∀ i, 3 ≤ i → net1.d_outputWeights i = exampleNet.d_outputWeights i)
        ∧ net1 = { exampleNet with d_outputWeights := net1.d_outputWeights } :=
  ⟨by decide, (setOutputWeights_spec exampleNet (fun i => 5 * (i : ℤ)) 3).2 (by decide)⟩

end ESN

namespace ESN

variable {α : Type} [LinearOrderedCommRing α]

/-- C16: `ESN::Run` changes only the state, debug and output buffers of the trial: the
input sequence, `sampleSize`, `stateSize`, `teacherTestSize`, `classId` and `inputSize` of
the trial after the call are those before it.  (The network is not part of what `Run`
returns: the function assigns no member of the network.) -/
theorem Run_frame (net : ESN α) (trial : Trial α) (simType : SimulationType) :
    (Run net trial simType).inputVal = trial.inputVal
    ∧ (Run net trial simType).sampleSize = trial.sampleSize
    ∧ (Run net trial simType).stateSize = trial.stateSize
    ∧ (Run net trial simType).teacherTestSize = trial.teacherTestSize
    ∧ (Run net trial simType).classId = trial.classId
    ∧ (Run net trial simType).inputSize = trial.inputSize := by
  obtain ⟨h1, h2, h3, h4, h5, h6⟩ := runUpTo_sameFrame net trial simType trial.sampleSize
  exact ⟨h1, h3, h2, h5, h4, h6⟩

end ESN

/-! ## The partition views -/

/-- Reading every position of a list in order gives the list back. -/
theorem range_filterMap_getElem? {β : Type} (l : List β) :
    (List.range l.length).filterMap (fun i => l[i]?) = l := by
  induction l using List.reverseRecOn with
  | nil => rfl
  | append_singleton l a ih =>
    rw [List.length_append, List.length_singleton, List.range_succ, List.filterMap_append]
    have h1 : (List.range l.length).filterMap (fun i => (l ++ [a])[i]?)
        = (List.range l.length).filterMap (fun i => l[i]?) :=
      List.filterMap_congr (fun i hi => List.getElem?_append_left (List.mem_range.mp hi))
    rw [h1, ih]
    simp

namespace ESNPrediction

variable {α : Type}

theorem mem_selectLoop (set : Nat → Int) (v : Int) (n i : Nat) :
    i ∈ selectLoop set v n ↔ i < n ∧ set i = v := by
  rw [selectLoop_eq_filter, List.mem_filter, List.mem_range]
  simp

theorem selectLoop_sublist (set : Nat → Int) (v : Int) (n : Nat) :
    (selectLoop set v n).Sublist (List.range n) := by
  rw [selectLoop_eq_filter]
  exact List.filter_sublist _

/-- When every stored assignment is 0 or 1, the two selections share the positions among
them. -/
theorem selectLoop_length_add (set : Nat → Int) (n : Nat)
    (h : ∀ i, i < n → set i = 0 ∨ set i = 1) :
    (selectLoop set 0 n).length + (selectLoop set 1 n).length = n := by
  induction n with
  | zero => rfl
  | succ k ih =>
    have ihk := ih (fun i hi => h i (Nat.lt_succ_of_lt hi))
    rw [selectLoop_succ, selectLoop_succ]
    rcases h k (Nat.lt_succ_self k) with h0 | h1
    · have hne : ¬ set k = 1 := by rw [h0]; decide
      rw [if_pos h0, if_neg hne, List.length_append, List.length_singleton]
      omega
    · have hne : ¬ set k = 0 := by rw [h1]; decide
      rw [if_neg hne, if_pos h1, List.length_append, List.length_singleton]
      omega

/-- After `InitSets` on at least two trials the stored assignment exists and holds only the
values 0 and 1. -/
theorem InitSets_set (p : ESNPrediction α) (rand : Nat → Nat) (hn : 2 ≤ p.all_trials.length) :
    ∃ set : Nat → Int, (InitSets p rand).set = some set ∧ ∀ i, set i = 0 ∨ set i = 1 := by
  have hn1 : ¬ p.all_trials.length ≤ 1 := by omega
  have hdraw : ∀ i, (drawLoop rand p.all_trials.length (fun _ => 0, false)).1 i = 0
      ∨ (drawLoop rand p.all_trials.length (fun _ => 0, false)).1 i = 1 := by
    intro i
    rw [drawLoop_fst]
    by_cases h : i < p.all_trials.length ∧ rand i % 100 < 20
    · exact Or.inr (if_pos h)
    · exact Or.inl (if_neg h)
  by_cases hhit : (drawLoop rand p.all_trials.length (fun _ => 0, false)).2 = true
  · refine ⟨(drawLoop rand p.all_trials.length (fun _ => 0, false)).1, ?_, hdraw⟩
    simp [InitSets, hn1, hhit]
  · refine ⟨Function.update (drawLoop rand p.all_trials.length (fun _ => 0, false)).1
        (rand p.all_trials.length % p.all_trials.length) 1, ?_, ?_⟩
    · simp [InitSets, hn1, hhit]
    · intro i
      by_cases hi : i = rand p.all_trials.length % p.all_trials.length
      · subst hi
        exact Or.inr (Function.update_same _ _ _)
      · rw [Function.update_noteq hi]
        exact hdraw i

/-- C13: after `InitSets` on `n >= 2` trials, `GetTrainingSet` and `GetTestSet` return
order-preserving sub-sequences of the registered trials (of their positions `0 .. n-1`, and
of the trials themselves) that are disjoint and together hold every registered trial exactly
once: trial `i` is in the test set iff its stored assignment is 1, otherwise it is in the
training set.  Both functions only read the predictor (they return the vector and assign no
member), so the trial collection and the assignment are unchanged and a repeated call
returns the same sequence. -/
theorem InitSets_partition (p : ESNPrediction α) (rand : Nat → Nat)
    (hn : 2 ≤ p.all_trials.length) :
    ∃ (set : Nat → Int) (train test : List Nat),
      (InitSets p rand).set = some set
      ∧ (InitSets p rand).all_trials = p.all_trials
      ∧ GetTrainingSet (InitSets p rand) = some train
      ∧ GetTestSet (InitSets p rand) = some test
      ∧ train.Sublist (List.range p.all_trials.length)
      ∧ test.Sublist (List.range p.all_trials.length)
      ∧ (train.filterMap (fun ptr => p.all_trials[ptr]?)).Sublist p.all_trials
      ∧ (test.filterMap (fun ptr => p.all_trials[ptr]?)).Sublist p.all_trials
      ∧ (∀ i, i < p.all_trials.length → (i ∈ test ↔ set i = 1) ∧ (i ∈ train ↔ set i ≠ 1))
      ∧ train.Nodup ∧ test.Nodup
      ∧ (∀ i, i ∈ train → i ∉ test)
      ∧ train.length + test.length = p.all_trials.length := by
  obtain ⟨set, hset, hval⟩ := InitSets_set p rand hn
  have hlen : (InitSets p rand).all_trials = p.all_trials := InitSets_all_trials p rand
  have hsub : ∀ l : List Nat, l.Sublist (List.range p.all_trials.length) →
      (l.filterMap (fun ptr => p.all_trials[ptr]?)).Sublist p.all_trials := by
    intro l hl
    have h := hl.filterMap (fun ptr => p.all_trials[ptr]?)
    rw [range_filterMap_getElem?] at h
    exact h
  refine ⟨set, selectLoop set 0 p.all_trials.length, selectLoop set 1 p.all_trials.length,
    hset, hlen, ?_, ?_, selectLoop_sublist set 0 _, selectLoop_sublist set 1 _,
    hsub _ (selectLoop_sublist set 0 _), hsub _ (selectLoop_sublist set 1 _), ?_,
    selectLoop_nodup set 0 _, selectLoop_nodup set 1 _, ?_,
    selectLoop_length_add set _ (fun i _ => hval i)⟩
  · simp only [GetTrainingSet, hset, hlen]
  · simp only [GetTestSet, hset, hlen]
  · intro i hi
    rw [mem_selectLoop, mem_selectLoop]
    constructor
    · exact ⟨fun h => h.2, fun h => ⟨hi, h⟩⟩
    · constructor
      · intro h h1
        rw [h.2] at h1
        exact absurd h1 (by decide)
      · intro h
        rcases hval i with h0 | h1
        · exact ⟨hi, h0⟩
        · exact absurd h1 h
  · intro i h0 h1
    rw [mem_selectLoop] at h0 h1
    rw [h0.2] at h1
    exact absurd h1.2 (by decide)

/-- Witness of C13 on `examplePred0` (two registered trials) with the draws
`exampleDraws`. -/
theorem InitSets_partition_witness :
    2 ≤ examplePred0.all_trials.length
    ∧ GetTrainingSet (InitSets examplePred0 exampleDraws) = some [0]
    ∧ GetTestSet (InitSets examplePred0 exampleDraws) = some [1]
    ∧ ∃ (set : Nat → Int) (train test : List Nat),
      (InitSets examplePred0 exampleDraws).set = some set
      ∧ (InitSets examplePred0 exampleDraws).all_trials = examplePred0.all_trials
      ∧ GetTrainingSet (InitSets examplePred0 exampleDraws) = some train
      ∧ GetTestSet (InitSets examplePred0 exampleDraws) = some test
      ∧ train.Sublist (List.range examplePred0.all_trials.length)
      ∧ test.Sublist (List.range examplePred0.all_trials.length)
      ∧ (train.filterMap (fun ptr => examplePred0.all_trials[ptr]?)).Sublist
          examplePred0.all_trials
      ∧ (test.filterMap (fun ptr => examplePred0.all_trials[ptr]?)).Sublist
          examplePred0.all_trials
      ∧ (∀ i, i < examplePred0.all_trials.length →
          (i ∈ test ↔ set i = 1) ∧ (i ∈ train ↔ set i ≠ 1))
      ∧ train.Nodup ∧ test.Nodup
      ∧ (∀ i, i ∈ train → i ∉ test)
      ∧ train.length + test.length = examplePred0.all_trials.length :=
  ⟨by decide, by decide, by decide, InitSets_partition examplePred0 exampleDraws (by decide)⟩

end ESNPrediction

/-! ## Training failures -/

namespace ESNPrediction

variable {α : Type} [LinearOrderedField α]

/-- With a single registered trial `InitSets` leaves `set` null and `RunTrials` goes on to
`GetTrainingSet`, whose loop reads `set[0]`. -/
theorem RunTrials_one_trial (p : ESNPrediction α) (rand : Nat → Nat)
    (rmatrixinverse : real_2d_array α → Nat → real_2d_array α × Bool)
    (memA memB memAtA memAtB memW : Nat → Nat → α) (W0 : real_2d_array α) (wmem : Nat → α)
    (h1 : p.all_trials.length = 1) :
    (InitSets p rand).set = none
    ∧ GetTrainingSet (InitSets p rand) = none
    ∧ RunTrials p rand rmatrixinverse memA memB memAtA memAtB memW W0 wmem = none := by
  have hset : (InitSets p rand).set = none := by
    simp [InitSets, h1]
  have hlen : (InitSets p rand).all_trials.length = 1 := by
    rw [InitSets_all_trials, h1]
  have htrain : GetTrainingSet (InitSets p rand) = none := by
    simp [GetTrainingSet, hset, hlen]
  refine ⟨hset, htrain, ?_⟩
  simp only [RunTrials, htrain]

/-- With no registered trial `RunTrials` runs no trial and no regression, but goes on to
`setOutputWeights` with the bounds of the default-constructed `W`. -/
theorem RunTrials_no_trial (p : ESNPrediction α) (rand : Nat → Nat)
    (rmatrixinverse : real_2d_array α → Nat → real_2d_array α × Bool)
    (memA memB memAtA memAtB memW : Nat → Nat → α) (W0 : real_2d_array α) (wmem : Nat → α)
    (h0 : p.all_trials = []) :
    RunTrials p rand rmatrixinverse memA memB memAtA memAtB memW W0 wmem
      = (ESN.setOutputWeights p.esn
          (forLoop W0.rows (fun i w => Function.update w i (W0.elem i 0)) wmem) W0.rows).map
          (fun esn1 => { esn := esn1, all_trials := [], set := none }) := by
  obtain ⟨esn, trials, set⟩ := p
  simp only at h0
  subst h0
  have hinit : InitSets (⟨esn, [], set⟩ : ESNPrediction α) rand = ⟨esn, [], none⟩ := rfl
  have htrain : GetTrainingSet (⟨esn, [], none⟩ : ESNPrediction α) = some [] := rfl
  have hrun : runTraining esn [] ([] : List (Trial α)) = [] := rfl
  have hderef : deref ([] : List (Trial α)) [] = [] := rfl
  simp only [RunTrials, hinit, htrain, hrun, hderef, RidgeRegression]
  cases ESN.setOutputWeights esn
      (forLoop W0.rows (fun i w => Function.update w i (W0.elem i 0)) wmem) W0.rows with
  | none => rfl
  | some e => rfl

/-- C11 (the code at a failing input): with one registered trial, `InitSets` reports the
error and leaves `set` null; `RunTrials` does not stop there, it calls `GetTrainingSet`,
whose loop dereferences the null `set`: the call does not return. -/
theorem RunTrials_single_trial (rand : Nat → Nat)
    (rmatrixinverse : real_2d_array ℚ → Nat → real_2d_array ℚ × Bool)
    (memA memB memAtA memAtB memW : Nat → Nat → ℚ) (W0 : real_2d_array ℚ) (wmem : Nat → ℚ) :
    examplePredQ1.all_trials.length = 1
    ∧ (InitSets examplePredQ1 rand).set = none
    ∧ GetTrainingSet (InitSets examplePredQ1 rand) = none
    ∧ RunTrials examplePredQ1 rand rmatrixinverse memA memB memAtA memAtB memW W0 wmem
        = none :=
  ⟨rfl, RunTrials_one_trial examplePredQ1 rand rmatrixinverse memA memB memAtA memAtB memW W0
    wmem rfl⟩

/-- C12 (counterexample): the collaborator `reportsSingular` reports a singular matrix on
every call, and yet `RunTrials` on `examplePredQ` returns and has replaced the output weight
at index 2 (0 before the call) by `1716 / 5`. -/
theorem RunTrials_installs_after_singular_report :
    (∀ (M : real_2d_array ℚ) (n : Nat), (reportsSingular M n).2 = false)
    ∧ examplePredQ.esn.d_outputWeights 2 = 0
    ∧ (RunTrials examplePredQ exampleDraws reportsSingular (fun _ _ => 9) (fun _ _ => 8)
          (fun _ _ => 7) (fun _ _ => 6) (fun _ _ => 5)
          { rows := 0, cols := 0, elem := fun _ _ => 0 } (fun _ => 4)).map
        (fun p1 => p1.esn.d_outputWeights 2) = some (1716 / 5)
    ∧ (1716 / 5 : ℚ) ≠ 0 :=
  ⟨fun _ _ => rfl, rfl, by decide!, by decide!⟩

/-- C12 (amended): `RidgeRegression` never reads the flag returned by the inverse
collaborator and reports nothing to its caller: `RidgeRegression` and `RunTrials` give the
same result as with a collaborator that leaves the same matrix and reports success.  So when
the collaborator reports a singular matrix, `RunTrials` still installs the weights computed
from the matrix the collaborator left. -/
theorem RunTrials_ignores_inverse_flag (p : ESNPrediction α) (rand : Nat → Nat)
    (rmatrixinverse : real_2d_array α → Nat → real_2d_array α × Bool)
    (memA memB memAtA memAtB memW : Nat → Nat → α) (W0 : real_2d_array α) (wmem : Nat → α) :
    (∀ (trials : List (Trial α)) (W : real_2d_array α),
      RidgeRegression p.esn rmatrixinverse memA memB memAtA memAtB memW trials W
        = RidgeRegression p.esn (fun M n => ((rmatrixinverse M n).1, true)) memA memB memAtA
            memAtB memW trials W)
    ∧ RunTrials p rand rmatrixinverse memA memB memAtA memAtB memW W0 wmem
        = RunTrials p rand (fun M n => ((rmatrixinverse M n).1, true)) memA memB memAtA memAtB
            memW W0 wmem := by
  have hRR : ∀ (esn : ESN α) (trials : List (Trial α)) (W : real_2d_array α),
      RidgeRegression esn rmatrixinverse memA memB memAtA memAtB memW trials W
        = RidgeRegression esn (fun M n => ((rmatrixinverse M n).1, true)) memA memB memAtA
            memAtB memW trials W := by
    intro esn trials W
    cases trials with
    | nil => rfl
    | cons first rest => rfl
  refine ⟨hRR p.esn, ?_⟩
  simp only [RunTrials, hRR]

end ESNPrediction

/-! ## Spectral normalisation -/

namespace aNetwork

namespace Network

/-- The copy loops of `spectralRadius`: the array passed to the eigenvalue routine holds
`f i j` at row `i`, column `j`. -/
theorem copyRow_elem {α : Type} (f : Nat → α) (i n : Nat) (a0 : real_2d_array α) :
    (forLoop n (fun j a => a.write i j (f j)) a0).rows = a0.rows
    ∧ (forLoop n (fun j a => a.write i j (f j)) a0).cols = a0.cols
    ∧ ∀ r c, (forLoop n (fun j a => a.write i j (f j)) a0).elem r c
        = if r = i ∧ c < n then f c else a0.elem r c := by
  induction n with
  | zero => simp [forLoop]
  | succ k ih =>
    obtain ⟨h1, h2, h3⟩ := ih
    refine ⟨?_, ?_, ?_⟩
    · simpa [forLoop, real_2d_array.write] using h1
    · simpa [forLoop, real_2d_array.write] using h2
    · intro r c
      have hstep : (forLoop (k + 1) (fun j a => a.write i j (f j)) a0).elem r c
          = if r = i ∧ c = k then f k
            else (forLoop k (fun j a => a.write i j (f j)) a0).elem r c := rfl
      rw [hstep, h3]
      by_cases hr : r = i
      · by_cases hc : c = k
        · simp [hr, hc]
        · by_cases hlt : c < k
          · have : c < k + 1 := by omega
            simp [hr, hc, hlt, this]
          · have : ¬ c < k + 1 := by omega
            simp [hr, hc, hlt, this]
      · simp [hr]

theorem copyMatrix_elem {α : Type} (f : Nat → Nat → α) (m n : Nat) (a0 : real_2d_array α) :
    ∀ r c, (forLoop m (fun i a => forLoop n (fun j a => a.write i j (f i j)) a) a0).elem r c
        = if r < m ∧ c < n then f r c else a0.elem r c := by
  induction m with
  | zero => simp [forLoop]
  | succ k ih =>
    intro r c
    have h := (copyRow_elem (f k) k n
      (forLoop k (fun i a => forLoop n (fun j a => a.write i j (f i j)) a) a0)).2.2 r c
    simp only [forLoop] at h ⊢
    rw [h, ih]
    by_cases hr : r = k
    · by_cases hc : c < n
      · simp [hr, hc]
      · simp [hr, hc]
    · by_cases hlt : r < k
      · have : r < k + 1 := by omega
        simp [hr, hlt, this]
      · have : ¬ r < k + 1 := by omega
        simp [hr, hlt, this]

/-- The maximum loop of `spectralRadius` (lines 150-155). -/
theorem maxLoop_spec {α : Type} [LinearOrderedField α] (f : Nat → α) (n : Nat) :
    (∀ i, i < n → f i ≤ forLoop n (fun i max => if f i > max then f i else max) 0)
    ∧ 0 ≤ forLoop n (fun i max => if f i > max then f i else max) 0
    ∧ (forLoop n (fun i max => if f i > max then f i else max) 0 = 0
        ∨ ∃ i, i < n ∧ forLoop n (fun i max => if f i > max then f i else max) 0 = f i) := by
  induction n with
  | zero => simp [forLoop]
  | succ k ih =>
    obtain ⟨h1, h2, h3⟩ := ih
    simp only [forLoop]
    by_cases hgt : f k > forLoop k (fun i max => if f i > max then f i else max) 0
    · simp only [hgt, if_true]
      refine ⟨?_, ?_, ?_⟩
      · intro i hi
        rcases Nat.lt_succ_iff_lt_or_eq.mp hi with h | h
        · exact le_trans (h1 i h) (le_of_lt hgt)
        · rw [h]
      · exact le_trans h2 (le_of_lt hgt)
      · exact Or.inr ⟨k, Nat.lt_succ_self k, rfl⟩
    · simp only [hgt, if_false]
      refine ⟨?_, h2, ?_⟩
      · intro i hi
        rcases Nat.lt_succ_iff_lt_or_eq.mp hi with h | h
        · exact h1 i h
        · rw [h]; exact not_lt.mp hgt
      · rcases h3 with h | ⟨i, hi, h⟩
        · exact Or.inl h
        · exact Or.inr ⟨i, Nat.lt_succ_of_lt hi, h⟩

/-- The scaling loop of `normalizeSpectrum` (lines 113-114). -/
theorem scaleLoop_apply {α : Type} [LinearOrderedField α] (c : α) (w : Nat → α) (n x : Nat) :
    forLoop n (fun x w => Function.update w x (w x * c)) w x
      = if x < n then w x * c else w x := by
  induction n with
  | zero => simp [forLoop]
  | succ k ih =>
    simp only [forLoop]
    by_cases hx : x = k
    · subst hx
      rw [Function.update_same, ih]
      simp
    · rw [Function.update_noteq hx, ih]
      by_cases hlt : x < k
      · have : x < k + 1 := by omega
        simp [hlt, this]
      · have : ¬ x < k + 1 := by omega
        simp [hlt, this]

end Network

end aNetwork

namespace aNetwork

namespace Network

theorem abs_mk_eq (x y : ℝ) : Complex.abs ⟨x, y⟩ = Real.sqrt (x ^ 2 + y ^ 2) := by
  rw [Complex.abs_apply, Complex.normSq_mk, sq, sq]

theorem index_lt_sq (n : Nat) (i j : Fin n) : i.val * n + j.val < n * n := by
  have hi := i.isLt
  have hj := j.isLt
  calc i.val * n + j.val < i.val * n + n := by omega
    _ = (i.val + 1) * n := by ring
    _ ≤ n * n := Nat.mul_le_mul_right n hi

theorem spectralRadius_eq (lib : Lib ℝ) (amem : Nat → Nat → ℝ) (net : Network ℝ) (n : Nat)
    (rho : ℝ) (hsqrt : lib.sqrt = Real.sqrt) (hw : net.width = n) (hh : net.height = n)
    (hevd : ∀ a : real_2d_array ℝ,
      (∀ i, i < n → ∀ j, j < n → a.elem i j = net.weights (i * n + j)) →
        (lib.rmatrixevd a n).1 = true
        ∧ ∀ z : ℂ, z ∈ spectrum ℂ (complexMatrix net.weights n)
            ↔ ∃ i, i < n ∧ z = ⟨(lib.rmatrixevd a n).2.1 i, (lib.rmatrixevd a n).2.2 i⟩)
    (hrho : IsGreatest (Set.image Complex.abs (spectrum ℂ (complexMatrix net.weights n))) rho)
    (hpos : 0 < rho) :
    spectralRadius lib amem net = some (rho, true) := by
  have hwh : net.width = net.height := hw.trans hh.symm
  unfold spectralRadius
  rw [if_pos hwh]
  simp only [hw]
  obtain ⟨hc, hs⟩ := hevd
    (forLoop n (fun i a =>
        forLoop n (fun j a => a.write i j (net.weights (i * n + j))) a)
      (real_2d_array.setlength amem n n))
    (by
      intro i hi j hj
      rw [copyMatrix_elem (fun i j => net.weights (i * n + j))]
      simp [hi, hj])
  generalize (lib.rmatrixevd
    (forLoop n (fun i a =>
        forLoop n (fun j a => a.write i j (net.weights (i * n + j))) a)
      (real_2d_array.setlength amem n n)) n) = r at hc hs ⊢
  obtain ⟨h1, h2, h3⟩ := maxLoop_spec (fun i => lib.sqrt (r.2.1 i ^ 2 + r.2.2 i ^ 2)) n
  have hf : ∀ i, lib.sqrt (r.2.1 i ^ 2 + r.2.2 i ^ 2) = Complex.abs ⟨r.2.1 i, r.2.2 i⟩ := by
    intro i
    rw [abs_mk_eq, hsqrt]
  have hle : ∀ i, i < n → lib.sqrt (r.2.1 i ^ 2 + r.2.2 i ^ 2) ≤ rho := by
    intro i hi
    rw [hf]
    exact hrho.2 ⟨_, (hs _).2 ⟨i, hi, rfl⟩, rfl⟩
  obtain ⟨z, hz, hzr⟩ := hrho.1
  obtain ⟨i0, hi0, hz0⟩ := (hs z).1 hz
  have hge : rho ≤ forLoop n
      (fun i max => if lib.sqrt (r.2.1 i ^ 2 + r.2.2 i ^ 2) > max
        then lib.sqrt (r.2.1 i ^ 2 + r.2.2 i ^ 2) else max) 0 := by
    rw [← hzr, hz0, ← hf]
    exact h1 i0 hi0
  have hmax : forLoop n
      (fun i max => if lib.sqrt (r.2.1 i ^ 2 + r.2.2 i ^ 2) > max
        then lib.sqrt (r.2.1 i ^ 2 + r.2.2 i ^ 2) else max) 0 = rho := by
    rcases h3 with h | ⟨i, hi, h⟩
    · rw [h] at hge
      exact absurd hge (not_le.mpr hpos)
    · exact le_antisymm (h ▸ hle i hi) hge
  show some (forLoop n
      (fun i max => if lib.sqrt (r.2.1 i ^ 2 + r.2.2 i ^ 2) > max
        then lib.sqrt (r.2.1 i ^ 2 + r.2.2 i ^ 2) else max) 0, r.1) = some (rho, true)
  rw [hmax, hc]

theorem complexMatrix_scaled (w w1 : Nat → ℝ) (n : Nat) (c : ℝ)
    (h : ∀ x, x < n * n → w1 x = w x * c) :
    complexMatrix w1 n = (c : ℂ) • complexMatrix w n := by
  ext i j
  simp only [complexMatrix, Matrix.of_apply, Matrix.smul_apply, smul_eq_mul]
  rw [h _ (index_lt_sq n i j)]
  push_cast
  ring

theorem isGreatest_abs_smul {n : Nat} (M : Matrix (Fin n) (Fin n) ℂ) (c rho : ℝ)
    (hc : 0 ≤ c) (hrho : IsGreatest (Set.image Complex.abs (spectrum ℂ M)) rho) :
    IsGreatest (Set.image Complex.abs (spectrum ℂ ((c : ℂ) • M))) (c * rho) := by
  have hne : (spectrum ℂ M).Nonempty := by
    obtain ⟨z, hz, _⟩ := hrho.1
    exact ⟨z, hz⟩
  cases n with
  | zero =>
    exfalso
    rw [spectrum.of_subsingleton] at hne
    exact Set.not_nonempty_empty hne
  | succ m =>
    rw [spectrum.smul_eq_smul (c : ℂ) M hne]
    constructor
    · obtain ⟨z, hz, hzr⟩ := hrho.1
      refine ⟨(c : ℂ) • z, Set.smul_mem_smul_set hz, ?_⟩
      rw [smul_eq_mul, map_mul, Complex.abs_ofReal, abs_of_nonneg hc, hzr]
    · rintro r ⟨z1, hz1, rfl⟩
      obtain ⟨z, hz, rfl⟩ := Set.mem_smul_set.mp hz1
      rw [smul_eq_mul, map_mul, Complex.abs_ofReal, abs_of_nonneg hc]
      exact mul_le_mul_of_nonneg_left (hrho.2 ⟨z, hz, rfl⟩) hc

/-- C18: for a square weight matrix (`width = height = n`, `size = n * n`) on which the
eigenvalue routine converges and returns the eigenvalues, with largest eigenvalue modulus
`rho > 0`, `normalizeSpectrum` returns true, multiplies each of the `size` entries by
`d_spectralRadius / rho` and changes nothing else; for a non-negative target
`d_spectralRadius` the largest eigenvalue modulus of the resulting matrix is the target. -/
theorem normalizeSpectrum_scales (lib : Lib ℝ) (amem : Nat → Nat → ℝ) (net : Network ℝ)
    (n : Nat) (rho : ℝ) (hsqrt : lib.sqrt = Real.sqrt) (hw : net.width = n)
    (hh : net.height = n) (hsize : net.size = n * n)
    (hevd : ∀ a : real_2d_array ℝ,
      (∀ i, i < n → ∀ j, j < n → a.elem i j = net.weights (i * n + j)) →
        (lib.rmatrixevd a n).1 = true
        ∧ ∀ z : ℂ, z ∈ spectrum ℂ (complexMatrix net.weights n)
            ↔ ∃ i, i < n ∧ z = ⟨(lib.rmatrixevd a n).2.1 i, (lib.rmatrixevd a n).2.2 i⟩)
    (hrho : IsGreatest (Set.image Complex.abs (spectrum ℂ (complexMatrix net.weights n))) rho)
    (hpos : 0 < rho) :
    ∃ net1 : Network ℝ,
      normalizeSpectrum lib amem net = some (net1, true)
      ∧ (∀ x, x < net.size → net1.weights x = net.weights x * (net.d_spectralRadius / rho))
      ∧ (∀ x, net.size ≤ x → net1.weights x = net.weights x)
      ∧ net1 = { net with weights := net1.weights }
      ∧ (0 ≤ net.d_spectralRadius →
          IsGreatest (Set.image Complex.abs (spectrum ℂ (complexMatrix net1.weights n)))
            net.d_spectralRadius) := by
  have hsr := spectralRadius_eq lib amem net n rho hsqrt hw hh hevd hrho hpos
  have hne : rho ≠ 0 := ne_of_gt hpos
  have hlow : ∀ x, x < net.size →
      forLoop net.size (fun x w => Function.update w x (w x * (net.d_spectralRadius / rho)))
        net.weights x = net.weights x * (net.d_spectralRadius / rho) := by
    intro x hx
    rw [scaleLoop_apply, if_pos hx]
  refine ⟨{ net with
      weights := forLoop net.size
        (fun x w => Function.update w x (w x * (net.d_spectralRadius / rho))) net.weights },
    ?_, hlow, ?_, rfl, ?_⟩
  · simp [normalizeSpectrum, hsr, hne]
  · intro x hx
    show forLoop net.size (fun x w => Function.update w x (w x * (net.d_spectralRadius / rho)))
        net.weights x = net.weights x
    rw [scaleLoop_apply, if_neg (not_lt.mpr hx)]
  · intro htarget
    have hc : 0 ≤ net.d_spectralRadius / rho := div_nonneg htarget (le_of_lt hpos)
    have hM := complexMatrix_scaled net.weights
      (forLoop net.size (fun x w => Function.update w x (w x * (net.d_spectralRadius / rho)))
        net.weights) n (net.d_spectralRadius / rho) (by
          intro x hx
          exact hlow x (hsize ▸ hx))
    show IsGreatest (Set.image Complex.abs (spectrum ℂ (complexMatrix
      (forLoop net.size (fun x w => Function.update w x (w x * (net.d_spectralRadius / rho)))
        net.weights) n))) net.d_spectralRadius
    rw [hM]
    have h := isGreatest_abs_smul (complexMatrix net.weights n) _ rho hc hrho
    rwa [div_mul_cancel₀ _ hne] at h

theorem exampleNetworkR_spectrum :
    spectrum ℂ (complexMatrix exampleNetworkR.weights 2)
      = Set.range (fun i : Fin 2 => if i = 0 then (2 : ℂ) else 1) := by
  have hdiag : complexMatrix exampleNetworkR.weights 2
      = Matrix.diagonal (fun i : Fin 2 => if i = 0 then (2 : ℂ) else 1) := by
    ext i j
    fin_cases i <;> fin_cases j <;> simp [complexMatrix, exampleNetworkR, Matrix.diagonal]
  rw [hdiag, spectrum_diagonal]

theorem exampleNetworkR_rho :
    IsGreatest (Set.image Complex.abs (spectrum ℂ (complexMatrix exampleNetworkR.weights 2)))
      2 := by
  rw [exampleNetworkR_spectrum]
  constructor
  · exact ⟨2, ⟨0, by simp⟩, by simp⟩
  · rintro r ⟨z, ⟨i, rfl⟩, rfl⟩
    fin_cases i <;> simp

/-- Witness of C18 on `exampleNetworkR`: the eigenvalues are 2 and 1, so `rho = 2`, and the
entries 2 and 1 become 1 and 1/2. -/
theorem normalizeSpectrum_scales_witness :
    ((exampleLibR Real.sqrt).sqrt = Real.sqrt
      ∧ exampleNetworkR.width = 2 ∧ exampleNetworkR.height = 2 ∧ exampleNetworkR.size = 2 * 2
      ∧ IsGreatest
          (Set.image Complex.abs (spectrum ℂ (complexMatrix exampleNetworkR.weights 2))) 2
      ∧ (0 : ℝ) < 2)
    ∧ ∃ net1 : Network ℝ,
      normalizeSpectrum (exampleLibR Real.sqrt) (fun _ _ => 0) exampleNetworkR
        = some (net1, true)
      ∧ net1.weights 0 = 1 ∧ net1.weights 3 = 1 / 2
      ∧ IsGreatest (Set.image Complex.abs (spectrum ℂ (complexMatrix net1.weights 2))) 1 :=
  ⟨⟨rfl, rfl, rfl, rfl, exampleNetworkR_rho, by norm_num⟩,
    (normalizeSpectrum_scales (exampleLibR Real.sqrt) (fun _ _ => 0) exampleNetworkR 2 2 rfl
      rfl rfl rfl
      (by
        intro a _
        refine ⟨rfl, ?_⟩
        intro z
        rw [exampleNetworkR_spectrum]
        constructor
        · rintro ⟨i, rfl⟩
          fin_cases i
          · exact ⟨0, by norm_num, by apply Complex.ext <;> simp [exampleLibR]⟩
          · exact ⟨1, by norm_num, by apply Complex.ext <;> simp [exampleLibR]⟩
        · rintro ⟨i, hi, rfl⟩
          interval_cases i
          · exact ⟨0, by apply Complex.ext <;> simp [exampleLibR]⟩
          · exact ⟨1, by apply Complex.ext <;> simp [exampleLibR]⟩)
      exampleNetworkR_rho (by norm_num)).imp
      (fun net1 h =>
        ⟨h.1,
          by
            rw [h.2.1 0 (by decide)]
            simp [exampleNetworkR],
          by
            rw [h.2.1 3 (by decide)]
            simp [exampleNetworkR],
          h.2.2.2.2 (by simp [exampleNetworkR])⟩)⟩

end Network

end aNetwork

/-! ## Rejected matrices and the generation loop -/

namespace aNetwork

namespace Network

section field

variable {α : Type} [LinearOrderedField α]

/-- The zeroing loop of `fillRandom` (line 96). -/
theorem zeroLoop_apply (w : Nat → α) (n x : Nat) :
    forLoop n (fun x w => Function.update w x (0 : α)) w x = if x < n then 0 else w x := by
  induction n with
  | zero => simp [forLoop]
  | succ k ih =>
    simp only [forLoop]
    by_cases hx : x = k
    · subst hx
      rw [Function.update_same]
      simp
    · rw [Function.update_noteq hx, ih]
      by_cases hlt : x < k
      · have : x < k + 1 := by omega
        simp [hlt, this]
      · have : ¬ x < k + 1 := by omega
        simp [hlt, this]

/-- The drawing loop of `fillRandom` consumes the random stream in the same way whatever the
array holds, and its result at a cell depends on the array only through that cell. -/
theorem drawLoop_congr (lib : Lib α) (indices : Nat → Nat) (k : Nat) (w w2 : Nat → α)
    (rand : Nat → Nat) :
    (forLoop k (drawStep lib indices) (w, rand)).2
        = (forLoop k (drawStep lib indices) (w2, rand)).2
    ∧ ∀ x, w x = w2 x →
        (forLoop k (drawStep lib indices) (w, rand)).1 x
          = (forLoop k (drawStep lib indices) (w2, rand)).1 x := by
  induction k with
  | zero => exact ⟨rfl, fun x h => h⟩
  | succ k ih =>
    obtain ⟨h1, h2⟩ := ih
    have hstep : ∀ s : (Nat → α) × (Nat → Nat),
        drawStep lib indices k s
          = (Function.update s.1 (indices k) (uniform lib s.2 (-1) 1).1,
              (uniform lib s.2 (-1) 1).2) := fun _ => rfl
    simp only [forLoop, hstep]
    refine ⟨by rw [h1], ?_⟩
    intro x hx
    by_cases hxi : x = indices k
    · subst hxi
      rw [Function.update_same, Function.update_same, h1]
    · rw [Function.update_noteq hxi, Function.update_noteq hxi]
      exact h2 x hx

/-- When every eigenvalue the routine returns is 0, `spectralRadius` stores 0. -/
theorem spectralRadius_eq_zero (lib : Lib α) (amem : Nat → Nat → α) (net : Network α) (n : Nat)
    (hw : net.width = n) (hh : net.height = n) (hsqrt : lib.sqrt 0 = 0)
    (hev : ∀ a : real_2d_array α,
      (∀ i, i < n → ∀ j, j < n → a.elem i j = net.weights (i * n + j)) →
        ∀ i, i < n → (lib.rmatrixevd a n).2.1 i = 0 ∧ (lib.rmatrixevd a n).2.2 i = 0) :
    ∃ converged : Bool, spectralRadius lib amem net = some (0, converged) := by
  have hwh : net.width = net.height := hw.trans hh.symm
  unfold spectralRadius
  rw [if_pos hwh]
  simp only [hw]
  have hr := hev
    (forLoop n (fun i a =>
        forLoop n (fun j a => a.write i j (net.weights (i * n + j))) a)
      (real_2d_array.setlength amem n n))
    (by
      intro i hi j hj
      rw [copyMatrix_elem (fun i j => net.weights (i * n + j))]
      simp [hi, hj])
  generalize (lib.rmatrixevd
    (forLoop n (fun i a =>
        forLoop n (fun j a => a.write i j (net.weights (i * n + j))) a)
      (real_2d_array.setlength amem n n)) n) = r at hr ⊢
  obtain ⟨_, _, h3⟩ := maxLoop_spec (fun i => lib.sqrt (r.2.1 i ^ 2 + r.2.2 i ^ 2)) n
  have hmax : forLoop n
      (fun i max => if lib.sqrt (r.2.1 i ^ 2 + r.2.2 i ^ 2) > max
        then lib.sqrt (r.2.1 i ^ 2 + r.2.2 i ^ 2) else max) 0 = 0 := by
    rcases h3 with h | ⟨i, hi, h⟩
    · exact h
    · rw [h, (hr i hi).1, (hr i hi).2]
      simpa using hsqrt
  exact ⟨r.1, by
    show some (forLoop n
      (fun i max => if lib.sqrt (r.2.1 i ^ 2 + r.2.2 i ^ 2) > max
        then lib.sqrt (r.2.1 i ^ 2 + r.2.2 i ^ 2) else max) 0, r.1) = some (0, r.1)
    rw [hmax]⟩

/-- The two ways `normalizeSpectrum` fails: the network is returned as it was. -/
theorem normalizeSpectrum_rejects (lib : Lib α) (amem : Nat → Nat → α) (net : Network α)
    (maxEigenValue : α) (converged : Bool)
    (hsr : spectralRadius lib amem net = some (maxEigenValue, converged))
    (h : converged = false ∨ maxEigenValue = 0) :
    normalizeSpectrum lib amem net = some (net, false) := by
  unfold normalizeSpectrum
  rw [hsr]
  rcases h with h | h
  · simp [h]
  · cases converged <;> simp [h]

end field

end Network

end aNetwork

namespace aNetwork

namespace Network

section floor

variable {α : Type} [LinearOrderedField α] [FloorRing α]

/-- The result of `fillRandom` for a connectivity other than 0. -/
theorem fillRandom_of_ne (lib : Lib α) (net : Network α) (rand : Nat → Nat)
    (hc : net.d_connectivity ≠ 0) :
    fillRandom lib net rand
      = ({ net with
            weights :=
              (forLoop (Nat.floor ((net.size : α) * net.d_connectivity))
                (drawStep lib (lib.random_shuffle net.indices net.size rand).1)
                (forLoop net.size (fun x w => Function.update w x (0 : α)) net.weights,
                  (lib.random_shuffle net.indices net.size rand).2)).1,
            indices := (lib.random_shuffle net.indices net.size rand).1 },
          (forLoop (Nat.floor ((net.size : α) * net.d_connectivity))
            (drawStep lib (lib.random_shuffle net.indices net.size rand).1)
            (forLoop net.size (fun x w => Function.update w x (0 : α)) net.weights,
              (lib.random_shuffle net.indices net.size rand).2)).2,
          true) := by
  unfold fillRandom
  rw [if_neg hc]

/-- The result of `fillRandom` for connectivity 0: nothing is written, nothing is drawn. -/
theorem fillRandom_of_eq (lib : Lib α) (net : Network α) (rand : Nat → Nat)
    (hc : net.d_connectivity = 0) : fillRandom lib net rand = (net, rand, false) := by
  unfold fillRandom
  rw [if_pos hc]

/-- For a connectivity other than 0 the matrix `fillRandom` leaves does not depend on the
matrix it finds. -/
theorem fillRandom_fresh (lib : Lib α) (net : Network α) (rand : Nat → Nat) (w2 : Nat → α)
    (hc : net.d_connectivity ≠ 0) :
    (fillRandom lib net rand).2.2 = true
    ∧ (fillRandom lib { net with weights := w2 } rand).2 = (fillRandom lib net rand).2
    ∧ (fillRandom lib { net with weights := w2 } rand).1.indices
        = (fillRandom lib net rand).1.indices
    ∧ ∀ x, x < net.size →
        (fillRandom lib { net with weights := w2 } rand).1.weights x
          = (fillRandom lib net rand).1.weights x := by
  have hc2 : ({ net with weights := w2 } : Network α).d_connectivity ≠ 0 := hc
  rw [fillRandom_of_ne lib net rand hc, fillRandom_of_ne lib _ rand hc2]
  obtain ⟨h1, h2⟩ := drawLoop_congr lib (lib.random_shuffle net.indices net.size rand).1
    (Nat.floor ((net.size : α) * net.d_connectivity))
    (forLoop net.size (fun x w => Function.update w x (0 : α)) w2)
    (forLoop net.size (fun x w => Function.update w x (0 : α)) net.weights)
    (lib.random_shuffle net.indices net.size rand).2
  refine ⟨rfl, ?_, rfl, ?_⟩
  · show (_, true) = (_, true)
    rw [h1]
  · intro x hx
    exact h2 x (by rw [zeroLoop_apply, zeroLoop_apply, if_pos hx, if_pos hx])

end floor

end Network

end aNetwork

namespace ESN

section generation

variable {α : Type} [LinearOrderedField α] [FloorRing α]

open aNetwork

/-- One pass of the generation loop is `fillRandom` followed by `normalizeSpectrum`; the
flag `fillRandom` returns is not used. -/
theorem generateAttempt_eq (lib : Lib α) (amem : Nat → Nat → α)
    (createBalancedNetwork : Network α → (Nat → Nat) → Option (Network α × (Nat → Nat) × Bool))
    (s : Network α × (Nat → Nat)) :
    generateAttempt lib amem createBalancedNetwork s
      = match Network.normalizeSpectrum lib amem
          ((Network.fillRandom lib (s.1.SetMode Mode.CREATE_RANDOM) s.2).1.SetMode
            Mode.NORMALIZE_SPECTRUM) with
        | none => none
        | some r => some (r.1, (Network.fillRandom lib (s.1.SetMode Mode.CREATE_RANDOM) s.2).2.1,
            r.2) := rfl

/-- A pass whose normalisation is rejected leaves the loop running. -/
theorem generateLoop_succ_of_rejected (lib : Lib α) (amem : Nat → Nat → α)
    (createBalancedNetwork : Network α → (Nat → Nat) → Option (Network α × (Nat → Nat) × Bool))
    (s : Network α × (Nat → Nat)) (fuel : Nat) (net : Network α) (rand1 : Nat → Nat)
    (h : generateAttempt lib amem createBalancedNetwork s = some (net, rand1, false)) :
    generateLoop lib amem createBalancedNetwork (fuel + 1) s
      = generateLoop lib amem createBalancedNetwork fuel (net, rand1) := by
  rw [generateLoop, h]
  simp

/-- When `fillRandom` leaves a matrix whose eigenvalues are all reported as 0, the pass is
rejected. -/
theorem generateAttempt_of_zero_eigenvalues (lib : Lib α) (amem : Nat → Nat → α)
    (createBalancedNetwork : Network α → (Nat → Nat) → Option (Network α × (Nat → Nat) × Bool))
    (s : Network α × (Nat → Nat)) (n : Nat)
    (hw : s.1.width = n) (hh : s.1.height = n) (hsqrt : lib.sqrt 0 = 0)
    (hev : ∀ a : real_2d_array α,
      (∀ i, i < n → ∀ j, j < n →
        a.elem i j
          = (Network.fillRandom lib (s.1.SetMode Mode.CREATE_RANDOM) s.2).1.weights (i * n + j)) →
        ∀ i, i < n → (lib.rmatrixevd a n).2.1 i = 0 ∧ (lib.rmatrixevd a n).2.2 i = 0) :
    generateAttempt lib amem createBalancedNetwork s
      = some ((Network.fillRandom lib (s.1.SetMode Mode.CREATE_RANDOM) s.2).1.SetMode
            Mode.NORMALIZE_SPECTRUM,
          (Network.fillRandom lib (s.1.SetMode Mode.CREATE_RANDOM) s.2).2.1, false) := by
  have hw1 : ((Network.fillRandom lib (s.1.SetMode Mode.CREATE_RANDOM) s.2).1.SetMode
      Mode.NORMALIZE_SPECTRUM).width = n := by
    by_cases hc : (s.1.SetMode Mode.CREATE_RANDOM).d_connectivity = 0
    · rw [Network.fillRandom_of_eq lib _ _ hc]; exact hw
    · rw [Network.fillRandom_of_ne lib _ _ hc]; exact hw
  have hh1 : ((Network.fillRandom lib (s.1.SetMode Mode.CREATE_RANDOM) s.2).1.SetMode
      Mode.NORMALIZE_SPECTRUM).height = n := by
    by_cases hc : (s.1.SetMode Mode.CREATE_RANDOM).d_connectivity = 0
    · rw [Network.fillRandom_of_eq lib _ _ hc]; exact hh
    · rw [Network.fillRandom_of_ne lib _ _ hc]; exact hh
  obtain ⟨c, hc⟩ := Network.spectralRadius_eq_zero lib amem _ n hw1 hh1 hsqrt hev
  rw [generateAttempt_eq, Network.normalizeSpectrum_rejects lib amem _ 0 c hc (Or.inr rfl)]

/-- With a connectivity `c` other than 0 and `size * c < 1`, `fillRandom` draws nothing: it
leaves the zero matrix. -/
theorem fillRandom_sparse (lib : Lib α) (net : Network α) (rand : Nat → Nat)
    (hc : net.d_connectivity ≠ 0) (hlt : (net.size : α) * net.d_connectivity < 1) :
    Network.fillRandom lib net rand
      = ({ net with
            weights := forLoop net.size (fun x w => Function.update w x (0 : α)) net.weights,
            indices := (lib.random_shuffle net.indices net.size rand).1 },
          (lib.random_shuffle net.indices net.size rand).2, true) := by
  rw [Network.fillRandom_of_ne lib net rand hc, Nat.floor_eq_zero.mpr hlt]
  rfl

/-- With a connectivity `c` other than 0 and `size * c < 1`, and an eigenvalue routine that
reports the eigenvalues 0 of the zero matrix, no pass of the generation loop ends it. -/
theorem generateLoop_sparse_running (lib : Lib α) (amem : Nat → Nat → α)
    (createBalancedNetwork : Network α → (Nat → Nat) → Option (Network α × (Nat → Nat) × Bool))
    (n : Nat) (hsqrt : lib.sqrt 0 = 0)
    (hev : ∀ a : real_2d_array α, (∀ i, i < n → ∀ j, j < n → a.elem i j = 0) →
        ∀ i, i < n → (lib.rmatrixevd a n).2.1 i = 0 ∧ (lib.rmatrixevd a n).2.2 i = 0)
    (fuel : Nat) :
    ∀ s : Network α × (Nat → Nat), s.1.width = n → s.1.height = n → s.1.size = n * n →
      s.1.d_connectivity ≠ 0 → (s.1.size : α) * s.1.d_connectivity < 1 →
      ∃ r rand1, generateLoop lib amem createBalancedNetwork fuel s = Generation.running r rand1
        ∧ r.d_connectivity = s.1.d_connectivity ∧ r.size = s.1.size := by
  induction fuel with
  | zero =>
    intro s _ _ _ _ _
    exact ⟨s.1, s.2, rfl, rfl, rfl⟩
  | succ k ih =>
    intro s hw hh hsize hc hlt
    have hfill := fillRandom_sparse lib (s.1.SetMode Mode.CREATE_RANDOM) s.2 hc hlt
    have hatt := generateAttempt_of_zero_eigenvalues lib amem createBalancedNetwork s n hw hh
      hsqrt (by
        intro a ha
        apply hev a
        intro i hi j hj
        rw [ha i hi j hj, hfill]
        show forLoop s.1.size (fun x w => Function.update w x (0 : α)) s.1.weights (i * n + j)
          = 0
        rw [Network.zeroLoop_apply, if_pos]
        rw [hsize]
        exact Network.index_lt_sq n ⟨i, hi⟩ ⟨j, hj⟩)
    rw [generateLoop_succ_of_rejected lib amem createBalancedNetwork s k _ _ hatt]
    rw [hfill]
    exact ih _ hw hh hsize hc hlt

/-- What a rejected pass of the generation loop does: `normalizeSpectrum` returns false and
leaves the network as it was whenever the eigenvalue routine does not converge or the
modulus `spectralRadius` computes is 0; the pass of `generateReservoirConnections` in which
that happens does not end the loop, and the next pass starts with `fillRandom` on the
rejected network.  For a connectivity other than 0 that call returns true and the matrix it
leaves (and the random numbers it consumes) do not depend on the rejected matrix; for
connectivity 0 it returns false and writes and draws nothing. -/
theorem generateLoop_rejected_pass (lib : Lib α) (amem : Nat → Nat → α)
    (createBalancedNetwork : Network α → (Nat → Nat) → Option (Network α × (Nat → Nat) × Bool))
    (s : Network α × (Nat → Nat)) (fuel : Nat) (net0 : Network α) (rand1 : Nat → Nat)
    (okay0 : Bool) (maxEigenValue : α) (converged : Bool)
    (hfill : Network.fillRandom lib (s.1.SetMode Mode.CREATE_RANDOM) s.2 = (net0, rand1, okay0))
    (hsr : Network.spectralRadius lib amem (net0.SetMode Mode.NORMALIZE_SPECTRUM)
      = some (maxEigenValue, converged))
    (hfail : converged = false ∨ maxEigenValue = 0) :
    Network.normalizeSpectrum lib amem (net0.SetMode Mode.NORMALIZE_SPECTRUM)
        = some (net0.SetMode Mode.NORMALIZE_SPECTRUM, false)
    ∧ generateLoop lib amem createBalancedNetwork (fuel + 1) s
        = generateLoop lib amem createBalancedNetwork fuel
            (net0.SetMode Mode.NORMALIZE_SPECTRUM, rand1)
    ∧ generateAttempt lib amem createBalancedNetwork
          (net0.SetMode Mode.NORMALIZE_SPECTRUM, rand1)
        = Network.Run lib amem createBalancedNetwork
            ((Network.fillRandom lib (net0.SetMode Mode.CREATE_RANDOM) rand1).1.SetMode
              Mode.NORMALIZE_SPECTRUM)
            (Network.fillRandom lib (net0.SetMode Mode.CREATE_RANDOM) rand1).2.1
    ∧ (net0.d_connectivity ≠ 0 →
        (Network.fillRandom lib (net0.SetMode Mode.CREATE_RANDOM) rand1).2.2 = true
        ∧ ∀ w2 : Nat → α,
            (Network.fillRandom lib { net0.SetMode Mode.CREATE_RANDOM with weights := w2 }
                rand1).2
              = (Network.fillRandom lib (net0.SetMode Mode.CREATE_RANDOM) rand1).2
            ∧ ∀ x, x < net0.size →
                (Network.fillRandom lib { net0.SetMode Mode.CREATE_RANDOM with weights := w2 }
                    rand1).1.weights x
                  = (Network.fillRandom lib (net0.SetMode Mode.CREATE_RANDOM) rand1).1.weights
                      x)
    ∧ (net0.d_connectivity = 0 →
        Network.fillRandom lib (net0.SetMode Mode.CREATE_RANDOM) rand1
          = (net0.SetMode Mode.CREATE_RANDOM, rand1, false)) := by
  have hnorm := Network.normalizeSpectrum_rejects lib amem _ maxEigenValue converged hsr hfail
  have hatt : generateAttempt lib amem createBalancedNetwork s
      = some (net0.SetMode Mode.NORMALIZE_SPECTRUM, rand1, false) := by
    rw [generateAttempt_eq, hfill]
    show (match Network.normalizeSpectrum lib amem (net0.SetMode Mode.NORMALIZE_SPECTRUM) with
      | none => none
      | some r => some (r.1, rand1, r.2)) = _
    rw [hnorm]
  refine ⟨hnorm, generateLoop_succ_of_rejected lib amem createBalancedNetwork s fuel _ _ hatt,
    rfl, ?_, ?_⟩
  · intro hc
    have hc1 : (net0.SetMode Mode.CREATE_RANDOM).d_connectivity ≠ 0 := hc
    refine ⟨(Network.fillRandom_fresh lib _ rand1 net0.weights hc1).1, ?_⟩
    intro w2
    have h := Network.fillRandom_fresh lib (net0.SetMode Mode.CREATE_RANDOM) rand1 w2 hc1
    exact ⟨h.2.1, h.2.2.2⟩
  · intro hc
    exact Network.fillRandom_of_eq lib _ rand1 hc

/-- C20 (the code at a failing input): with reservoir size 2 and connectivity 1/10,
`fillRandom` draws `int(4 * 0.1) = 0` entries, so every pass normalises the zero matrix and
is rejected: whatever the random stream and however many passes are made, the loop of
`generateReservoirConnections` is still running; it neither returns nor raises an error. -/
theorem generateReservoirConnections_never_returns (lib : Lib α) (amem : Nat → Nat → α)
    (createBalancedNetwork : Network α → (Nat → Nat) → Option (Network α × (Nat → Nat) × Bool))
    (wmem : Nat → α) (imem : Nat → Nat) (d_spectralRadius d_excitatory : α)
    (reservoir : Network α) (fuel : Nat) (rand : Nat → Nat)
    (hsqrt : lib.sqrt 0 = 0)
    (hev : ∀ a : real_2d_array α, (∀ i, i < 2 → ∀ j, j < 2 → a.elem i j = 0) →
        ∀ i, i < 2 → (lib.rmatrixevd a 2).2.1 i = 0 ∧ (lib.rmatrixevd a 2).2.2 i = 0) :
    ∃ r rand1,
      generateReservoirConnections lib amem createBalancedNetwork wmem imem 2 (1 / 10)
        d_spectralRadius d_excitatory reservoir fuel rand = Generation.running r rand1 := by
  obtain ⟨r, rand1, h, _⟩ := generateLoop_sparse_running lib amem createBalancedNetwork 2 hsqrt
    hev fuel
    ((((Network.Init imem reservoir wmem 2 2).SetParameter NetworkParameter.CONNECTIVITY
        (1 / 10)).SetParameter NetworkParameter.SPECTRAL_RADIUS d_spectralRadius).SetParameter
        NetworkParameter.EXCITATORY_RATIO d_excitatory, rand)
    rfl rfl rfl
    (by
      show (1 / 10 : α) ≠ 0
      norm_num)
    (by
      show (((2 * 2 : Nat) : α)) * (1 / 10) < 1
      push_cast
      norm_num)
  exact ⟨r, rand1, h⟩

end generation

open aNetwork

/-- With the routines `exampleLibZ`, `spectralRadius` stores 0 and reports convergence. -/
theorem spectralRadius_exampleLibZ (sqrt : ℝ → ℝ) (hsqrt : sqrt 0 = 0) (amem : Nat → Nat → ℝ)
    (net : aNetwork.Network ℝ) (hwh : net.width = net.height) :
    aNetwork.Network.spectralRadius (exampleLibZ sqrt) amem net = some (0, true) := by
  obtain ⟨c, hc⟩ := aNetwork.Network.spectralRadius_eq_zero (exampleLibZ sqrt) amem net
    net.width rfl hwh.symm hsqrt (fun _ _ _ _ => ⟨rfl, rfl⟩)
  have hm : ∃ m, aNetwork.Network.spectralRadius (exampleLibZ sqrt) amem net = some (m, true) := by
    unfold aNetwork.Network.spectralRadius
    rw [if_pos hwh]
    exact ⟨_, rfl⟩
  obtain ⟨m, hm⟩ := hm
  rw [hm] at hc
  rw [hm]
  simp only [Option.some.injEq, Prod.mk.injEq] at hc
  rw [hc.1]

/-- The rejected pass on `exampleNetworkSparse`: `fillRandom` leaves the zero matrix, the
eigenvalues are 0 and the pass is rejected. -/
theorem generateLoop_rejected_pass_witness :
    Network.spectralRadius (exampleLibZ Real.sqrt) (fun _ _ => 0)
        ((Network.fillRandom (exampleLibZ Real.sqrt)
          ((exampleNetworkSparse ℝ).SetMode Mode.CREATE_RANDOM) (fun i => i)).1.SetMode
            Mode.NORMALIZE_SPECTRUM) = some (0, true)
    ∧ Network.normalizeSpectrum (exampleLibZ Real.sqrt) (fun _ _ => 0)
        ((Network.fillRandom (exampleLibZ Real.sqrt)
          ((exampleNetworkSparse ℝ).SetMode Mode.CREATE_RANDOM) (fun i => i)).1.SetMode
            Mode.NORMALIZE_SPECTRUM)
        = some ((Network.fillRandom (exampleLibZ Real.sqrt)
          ((exampleNetworkSparse ℝ).SetMode Mode.CREATE_RANDOM) (fun i => i)).1.SetMode
            Mode.NORMALIZE_SPECTRUM, false)
    ∧ generateLoop (exampleLibZ Real.sqrt) (fun _ _ => 0) (fun _ _ => none) 3
          (exampleNetworkSparse ℝ, fun i => i)
        = generateLoop (exampleLibZ Real.sqrt) (fun _ _ => 0) (fun _ _ => none) 2
            ((Network.fillRandom (exampleLibZ Real.sqrt)
              ((exampleNetworkSparse ℝ).SetMode Mode.CREATE_RANDOM) (fun i => i)).1.SetMode
                Mode.NORMALIZE_SPECTRUM,
              (Network.fillRandom (exampleLibZ Real.sqrt)
                ((exampleNetworkSparse ℝ).SetMode Mode.CREATE_RANDOM) (fun i => i)).2.1) :=
  have hwh : ((Network.fillRandom (exampleLibZ Real.sqrt)
      ((exampleNetworkSparse ℝ).SetMode Mode.CREATE_RANDOM) (fun i => i)).1.SetMode
        Mode.NORMALIZE_SPECTRUM).width
      = ((Network.fillRandom (exampleLibZ Real.sqrt)
      ((exampleNetworkSparse ℝ).SetMode Mode.CREATE_RANDOM) (fun i => i)).1.SetMode
        Mode.NORMALIZE_SPECTRUM).height := by
    rw [Network.fillRandom_of_ne _ _ _ (by
      show (1 / 10 : ℝ) ≠ 0
      norm_num)]
    rfl
  have hsr := spectralRadius_exampleLibZ Real.sqrt Real.sqrt_zero (fun _ _ => 0) _ hwh
  ⟨hsr,
    (generateLoop_rejected_pass (exampleLibZ Real.sqrt) (fun _ _ => 0) (fun _ _ => none)
      (exampleNetworkSparse ℝ, fun i => i) 2 _ _ _ 0 true rfl hsr (Or.inr rfl)).1,
    (generateLoop_rejected_pass (exampleLibZ Real.sqrt) (fun _ _ => 0) (fun _ _ => none)
      (exampleNetworkSparse ℝ, fun i => i) 2 _ _ _ 0 true rfl hsr (Or.inr rfl)).2.1⟩

/-- C19 (defect of the code): after a rejection the generation loop has to draw a fresh
matrix, and for connectivity 0 it does not.  The network `exampleNetworkNil` has
connectivity 0 and holds a matrix whose eigenvalues are 0.  `normalizeSpectrum` rejects it
and leaves it unchanged, and the next pass of the generation loop draws nothing:
`fillRandom` returns false at once (network.cpp line 94), `generateReservoirConnections`
does not read that result (esn.cpp line 324), the random stream is not read, and the pass
ends with the very same rejected matrix (entry 1 is still 1). -/
theorem generateAttempt_keeps_rejected_matrix :
    (exampleNetworkNil ℝ).d_connectivity = 0
    ∧ (exampleNetworkNil ℝ).weights 1 = 1
    ∧ Network.normalizeSpectrum (exampleLibZ Real.sqrt) (fun _ _ => 0) (exampleNetworkNil ℝ)
        = some (exampleNetworkNil ℝ, false)
    ∧ Network.fillRandom (exampleLibZ Real.sqrt)
          ((exampleNetworkNil ℝ).SetMode Mode.CREATE_RANDOM) (fun i => i)
        = ((exampleNetworkNil ℝ).SetMode Mode.CREATE_RANDOM, fun i => i, false)
    ∧ generateAttempt (exampleLibZ Real.sqrt) (fun _ _ => 0) (fun _ _ => none)
          (exampleNetworkNil ℝ, fun i => i)
        = some (exampleNetworkNil ℝ, fun i => i, false) := by
  have hsr := spectralRadius_exampleLibZ Real.sqrt Real.sqrt_zero (fun _ _ => 0)
    (exampleNetworkNil ℝ) rfl
  have hnorm := Network.normalizeSpectrum_rejects (exampleLibZ Real.sqrt) (fun _ _ => 0)
    (exampleNetworkNil ℝ) 0 true hsr (Or.inr rfl)
  have hfill := Network.fillRandom_of_eq (exampleLibZ Real.sqrt)
    ((exampleNetworkNil ℝ).SetMode Mode.CREATE_RANDOM) (fun i => i) rfl
  have hnet : ((exampleNetworkNil ℝ).SetMode Mode.CREATE_RANDOM).SetMode
      Mode.NORMALIZE_SPECTRUM = exampleNetworkNil ℝ := rfl
  refine ⟨rfl, by simp [exampleNetworkNil], hnorm, hfill, ?_⟩
  rw [generateAttempt_eq, hfill]
  simp only [hnet, hnorm]

/-- Witness of C20's failing input with the routines `exampleLibZ` over the reals: after 1000
passes the loop is still running. -/
theorem generateReservoirConnections_never_returns_witness :
    (exampleLibZ Real.sqrt).sqrt 0 = 0
    ∧ ∃ r rand1,
      generateReservoirConnections (exampleLibZ Real.sqrt) (fun _ _ => 0) (fun _ _ => none)
        (fun _ => 0) (fun _ => 0) 2 (1 / 10) (4 / 5) (7 / 10) (exampleNetworkNil ℝ) 1000
        (fun i => i) = Generation.running r rand1 :=
  ⟨Real.sqrt_zero,
    generateReservoirConnections_never_returns (exampleLibZ Real.sqrt) (fun _ _ => 0)
      (fun _ _ => none) (fun _ => 0) (fun _ => 0) (4 / 5) (7 / 10) (exampleNetworkNil ℝ) 1000
      (fun i => i) Real.sqrt_zero (fun _ _ _ _ => ⟨rfl, rfl⟩)⟩

end ESN


/-! ## The assertions of `ESN::Run` -/

theorem forLoopM_ok {σ : Type} (n : Nat) (f : Nat → σ → σ) (s : σ) :
    forLoopM n (fun i s => Except.ok (f i s)) s = Except.ok (forLoop n f s) := by
  induction n with
  | zero => rfl
  | succ k ih => simp only [forLoopM, forLoop, ih]

theorem forLoopM_map {σ τ : Type} (g : σ → τ) (n : Nat) (f : Nat → σ → σ)
    (body : Nat → τ → Except Fault τ) (h : ∀ i s, body i (g s) = Except.ok (g (f i s)))
    (s : σ) : forLoopM n body (g s) = Except.ok (g (forLoop n f s)) := by
  induction n with
  | zero => rfl
  | succ k ih => simp only [forLoopM, forLoop, ih, h]

theorem forLoopM_error {σ : Type} (n : Nat) (body : Nat → σ → Except Fault σ) (s : σ)
    (e : Fault) (h : body 0 s = Except.error e) :
    forLoopM (n + 1) body s = Except.error e := by
  induction n with
  | zero => simpa [forLoopM] using h
  | succ k ih =>
    rw [forLoopM, ih]

namespace ESNObj

variable {α : Type} [LinearOrderedField α]

/-- The assertions at the head of `ESN::Run`: a null trial, a null input, output or state
buffer, or a null `d_thresholds` stops the call with an assertion failure. -/
theorem Run_assertion (net : ESNObj α) (trial : Option (TrialObj α)) (simType : SimulationType)
    (h : trial = none ∨ ∃ tr, trial = some tr
      ∧ (tr.inputVal = none ∨ tr.outputVal = none ∨ tr.neuronVal = none
          ∨ net.d_thresholds = none)) :
    Run net trial simType = Except.error Fault.assertion := by
  rcases h with h | ⟨tr, h, hb⟩
  · subst h; rfl
  · subst h
    unfold Run
    simp only []
    rcases hb with hb | hb | hb | hb
    · simp [hb]
    · by_cases h1 : tr.inputVal.isNone <;> simp [hb, h1]
    · by_cases h1 : tr.inputVal.isNone <;> by_cases h2 : tr.outputVal.isNone <;>
        simp [hb, h1, h2]
    · by_cases h1 : tr.inputVal.isNone <;> by_cases h2 : tr.outputVal.isNone <;>
        by_cases h3 : tr.neuronVal.isNone <;> simp [hb, h1, h2, h3]

/-- When the assertions of `ESN::Run` pass, the input weights are not allocated and the loops
run at least once, the call reads through the null pointer `d_inputWeights`. -/
theorem Run_null_inputWeights (net : ESNObj α) (tr : TrialObj α) (simType : SimulationType)
    (input output states thresholds : Nat → α)
    (hin : tr.inputVal = some input) (hout : tr.outputVal = some output)
    (hst : tr.neuronVal = some states) (hth : net.d_thresholds = some thresholds)
    (hw : net.d_inputWeights = none)
    (ht : 0 < tr.sampleSize) (hn : 0 < tr.stateSize) (hi : 0 < tr.inputSize) :
    Run net (some tr) simType = Except.error Fault.nullDereference := by
  obtain ⟨T, hT⟩ := Nat.exists_eq_succ_of_ne_zero (Nat.pos_iff_ne_zero.mp ht)
  obtain ⟨N, hN⟩ := Nat.exists_eq_succ_of_ne_zero (Nat.pos_iff_ne_zero.mp hn)
  obtain ⟨I, hI⟩ := Nat.exists_eq_succ_of_ne_zero (Nat.pos_iff_ne_zero.mp hi)
  have h1 : input2ResVal net tr tr.inputSize 0 0 = Except.error Fault.nullDereference := by
    unfold input2ResVal
    rw [hI]
    apply forLoopM_error
    rw [hin, hw]
    rfl
  have h2 : neuronStep net tr.inputSize 0 0 tr = Except.error Fault.nullDereference := by
    unfold neuronStep
    rw [h1]
    rfl
  have h3 : timeStep net simType tr.inputSize tr.stateSize 0 tr
      = Except.error Fault.nullDereference := by
    unfold timeStep
    rw [hN, forLoopM_error N _ tr _ h2]
    rfl
  unfold Run
  simp only [hin, hout, hst, hth, Option.isNone_some, Bool.false_eq_true, if_false]
  rw [hT]
  exact forLoopM_error T _ tr _ h3

theorem input2ResVal_ofESN (e : ESN α) (rest : ESNObj α) (t : Trial α) (inputSize tt n : Nat) :
    input2ResVal (ofESN e rest) (TrialObj.ofTrial t) inputSize tt n
      = Except.ok (ESN.input2ResVal e t.inputVal inputSize tt n) :=
  forLoopM_ok _ _ _

theorem res2ResVal_ofESN (e : ESN α) (rest : ESNObj α) (t : Trial α) (tt n : Nat) :
    res2ResVal (ofESN e rest) (TrialObj.ofTrial t) tt n
      = Except.ok (ESN.res2ResVal e t.neuronVal tt n) := by
  unfold res2ResVal ESN.res2ResVal
  by_cases ht : 0 < tt
  · simp only [ht, if_true]
    exact forLoopM_ok _ _ _
  · simp only [ht, if_false]
    exact forLoopM_ok _ (fun _ acc => acc) _

theorem fb2ResVal_ofESN (e : ESN α) (rest : ESNObj α) (t : Trial α) (tt n : Nat) :
    fb2ResVal (ofESN e rest) (TrialObj.ofTrial t) tt n
      = Except.ok (ESN.fb2ResVal e t.outputVal tt n) := by
  unfold fb2ResVal ESN.fb2ResVal
  have hfb : (ofESN e rest).d_fbConnectivity = e.d_fbConnectivity := rfl
  rw [hfb]
  by_cases hc : 0 < e.d_fbConnectivity
  · rw [if_pos hc, if_pos hc]
    by_cases ht : 0 < tt
    · simp only [ht, if_true]
      exact forLoopM_ok _ _ _
    · simp only [ht, if_false]
      exact forLoopM_ok _ (fun _ acc => acc) _
  · rw [if_neg hc, if_neg hc]
    rfl

theorem leftOver_ofESN (e : ESN α) (rest : ESNObj α) (t : Trial α) (tt n : Nat) :
    leftOver (ofESN e rest) (TrialObj.ofTrial t) tt n
      = Except.ok (ESN.leftOver e t.neuronVal tt n) := by
  unfold leftOver ESN.leftOver
  by_cases ht : 0 < tt
  · rw [if_pos ht, if_pos ht]
    rfl
  · rw [if_neg ht, if_neg ht]
    rfl

theorem neuronStep_ofESN (e : ESN α) (rest : ESNObj α) (inputSize tt n : Nat) (t : Trial α) :
    neuronStep (ofESN e rest) inputSize tt n (TrialObj.ofTrial t)
      = Except.ok (TrialObj.ofTrial (ESN.neuronStep e inputSize tt n t)) := by
  unfold neuronStep
  rw [input2ResVal_ofESN, res2ResVal_ofESN, fb2ResVal_ofESN, leftOver_ofESN]
  rfl

theorem outputStep_ofESN (e : ESN α) (rest : ESNObj α) (inputSize tt o : Nat) (t : Trial α) :
    outputStep (ofESN e rest) inputSize tt o (TrialObj.ofTrial t)
      = Except.ok (TrialObj.ofTrial (ESN.outputStep e inputSize tt o t)) := by
  have hv : outputValue (ofESN e rest) (TrialObj.ofTrial t) inputSize tt o
      = Except.ok (ESN.outputValue e t.inputVal t.neuronVal inputSize tt o) := by
    unfold outputValue ESN.outputValue
    have h1 := forLoopM_ok e.d_reservoirSize
      (fun resNNr (acc : α) =>
        acc + t.neuronVal (tt * e.d_reservoirSize + resNNr)
          * e.d_outputWeights (o * (e.d_reservoirSize + e.d_inputSize) + resNNr)) 0
    have h2 := forLoopM_ok e.d_inputSize
      (fun inputNNr (acc : α) =>
        acc + t.inputVal (tt * inputSize + inputNNr)
          * e.d_outputWeights
              (o * (e.d_reservoirSize + e.d_inputSize) + e.d_reservoirSize + inputNNr)) 0
    show (do
      let a ← forLoopM e.d_reservoirSize
        (fun resNNr (acc : α) =>
          Except.ok (acc + t.neuronVal (tt * e.d_reservoirSize + resNNr)
            * e.d_outputWeights (o * (e.d_reservoirSize + e.d_inputSize) + resNNr))) 0
      let b ← forLoopM e.d_inputSize
        (fun inputNNr (acc : α) =>
          Except.ok (acc + t.inputVal (tt * inputSize + inputNNr)
            * e.d_outputWeights
                (o * (e.d_reservoirSize + e.d_inputSize) + e.d_reservoirSize + inputNNr))) 0
      pure (e.outActFunc (a + b)) : Except Fault α) = _
    rw [h1, h2]
    rfl
  unfold outputStep
  rw [hv]
  rfl

theorem timeStep_ofESN (e : ESN α) (rest : ESNObj α) (simType : SimulationType)
    (inputSize reservoirSize tt : Nat) (t : Trial α) :
    timeStep (ofESN e rest) simType inputSize reservoirSize tt (TrialObj.ofTrial t)
      = Except.ok (TrialObj.ofTrial (ESN.timeStep e simType inputSize reservoirSize tt t)) := by
  unfold timeStep ESN.timeStep ESN.neuronLoop
  rw [forLoopM_map TrialObj.ofTrial reservoirSize (ESN.neuronStep e inputSize tt) _
    (neuronStep_ofESN e rest inputSize tt)]
  show (if setOutput (ofESN e rest) simType
        (forLoop reservoirSize (ESN.neuronStep e inputSize tt) t).teacherTestSize tt = true
      then forLoopM (ofESN e rest).d_outputSize (outputStep (ofESN e rest) inputSize tt)
        (TrialObj.ofTrial (forLoop reservoirSize (ESN.neuronStep e inputSize tt) t))
      else Except.ok (TrialObj.ofTrial (forLoop reservoirSize (ESN.neuronStep e inputSize tt) t)))
    = _
  have hs : setOutput (ofESN e rest) simType
      (forLoop reservoirSize (ESN.neuronStep e inputSize tt) t).teacherTestSize tt
      = ESN.setOutput e simType
        (forLoop reservoirSize (ESN.neuronStep e inputSize tt) t).teacherTestSize tt := rfl
  rw [hs]
  by_cases h : ESN.setOutput e simType
      (forLoop reservoirSize (ESN.neuronStep e inputSize tt) t).teacherTestSize tt = true
  · simp only [h, if_true]
    exact forLoopM_map TrialObj.ofTrial _ (ESN.outputStep e inputSize tt) _
      (outputStep_ofESN e rest inputSize tt) _
  · simp only [h, if_false]
    rfl

/-- On an allocated network and an allocated trial the checked `Run` returns, and returns
the trial `ESN.Run` computes. -/
theorem Run_ofESN (e : ESN α) (rest : ESNObj α) (t : Trial α) (simType : SimulationType) :
    Run (ofESN e rest) (some (TrialObj.ofTrial t)) simType
      = Except.ok (TrialObj.ofTrial (ESN.Run e t simType)) := by
  unfold Run ESN.Run ESN.runUpTo
  exact forLoopM_map TrialObj.ofTrial _ (ESN.timeStep e simType t.inputSize t.stateSize) _
    (timeStep_ofESN e rest simType t.inputSize t.stateSize) t

/-- C17 (the code at a failing input): the constructor does not assign `d_thresholds`, the
only member `Run` asserts on.  When the memory the object is built in holds a non-null value
there, `Run` on a network that was never initialised passes all its assertions and then reads
through the null pointer `d_inputWeights`: it does not stop with an assertion. -/
theorem Run_before_init (libm : Libm ℚ) (mem : ESNObj ℚ) (garbage : Nat → ℚ)
    (simType : SimulationType) :
    ∃ net : ESNObj ℚ,
      ESNObj.new libm { mem with d_thresholds := some garbage } 1 1 2 (1 / 2) = Except.ok net
      ∧ net.d_thresholds = some garbage
      ∧ net.d_inputWeights = none ∧ net.d_reservoirWeights = none
      ∧ Run net (some exampleTrialObj) simType = Except.error Fault.nullDereference
      ∧ Run net (some exampleTrialObj) simType ≠ Except.error Fault.assertion := by
  refine ⟨_, rfl, rfl, rfl, rfl, rfl, ?_⟩
  intro h
  have h2 : (Except.error Fault.nullDereference : Except Fault (TrialObj ℚ))
      = Except.error Fault.assertion := h
  exact Fault.noConfusion (Except.error.inj h2)

end ESNObj

/-! ## Activation functions and their inverses -/

namespace ESNObj

/-- The logarithmic form of the inverse hyperbolic tangent undoes `Real.tanh`. -/
theorem log_div_two_tanh (x : ℝ) :
    Real.log ((1 + Real.tanh x) / (1 - Real.tanh x)) / 2 = x := by
  have hc : Real.cosh x ≠ 0 := ne_of_gt (Real.cosh_pos x)
  have h1 : 1 + Real.tanh x = Real.exp x / Real.cosh x := by
    rw [Real.tanh_eq_sinh_div_cosh, ← Real.cosh_add_sinh]
    field_simp
  have h2 : 1 - Real.tanh x = Real.exp (-x) / Real.cosh x := by
    rw [Real.tanh_eq_sinh_div_cosh, ← Real.cosh_sub_sinh]
    field_simp
  have h3 : (1 + Real.tanh x) / (1 - Real.tanh x) = Real.exp (2 * x) := by
    rw [h1, h2, div_div_div_cancel_right₀ hc, ← Real.exp_sub]
    congr 1
    ring
  rw [h3, Real.log_exp]
  ring

/-- C24: over the reals, with `exp`, `log` and `tanh` the real functions and `atanh` the
real inverse hyperbolic tangent `atanh y = ln((1 + y) / (1 - y)) / 2`, each inverse
activation undoes its forward activation at every real `x`; the logistic function is
`1 / (1 + e^x)` and its inverse `ln(1 / y - 1)`. -/
theorem act_inverse_forward (x : ℝ) :
    act_invidentity (act_identity x) = x
    ∧ act_invtanh (Libm.mk Real.tanh (fun y => Real.log ((1 + y) / (1 - y)) / 2) Real.exp
          Real.log)
        (act_tanh (Libm.mk Real.tanh (fun y => Real.log ((1 + y) / (1 - y)) / 2) Real.exp
          Real.log) x) = x
    ∧ act_invlogistic (Libm.mk Real.tanh (fun y => Real.log ((1 + y) / (1 - y)) / 2) Real.exp
          Real.log)
        (act_logistic (Libm.mk Real.tanh (fun y => Real.log ((1 + y) / (1 - y)) / 2) Real.exp
          Real.log) x) = x
    ∧ act_logistic (Libm.mk Real.tanh (fun y => Real.log ((1 + y) / (1 - y)) / 2) Real.exp
          Real.log) x = 1 / (1 + Real.exp x)
    ∧ (∀ y : ℝ, act_invlogistic (Libm.mk Real.tanh (fun y => Real.log ((1 + y) / (1 - y)) / 2)
          Real.exp Real.log) y = Real.log (1 / y - 1))
    ∧ StrictAnti (act_logistic (Libm.mk Real.tanh
          (fun y => Real.log ((1 + y) / (1 - y)) / 2) Real.exp Real.log)) := by
  refine ⟨rfl, log_div_two_tanh x, ?_, rfl, fun _ => rfl, ?_⟩
  · show Real.log (1 / (1 / (1 + Real.exp x)) - 1) = x
    rw [one_div_one_div, add_sub_cancel_left, Real.log_exp]
  · intro a b hab
    show 1 / (1 + Real.exp b) < 1 / (1 + Real.exp a)
    have ha : 0 < 1 + Real.exp a := by positivity
    exact one_div_lt_one_div_of_lt ha (by linarith [Real.exp_lt_exp.mpr hab])

end ESNObj

/-! ## The balanced network -/

theorem Writes.comp {α β : Type} (f g : (Nat → α) × β → (Nat → α) × β) {C1 C2 : Nat → Prop}
    {G : Nat → α → Prop} (hf : Writes f C1 G) (hg : Writes g C2 G) :
    Writes (fun s => g (f s)) (fun c => C1 c ∨ C2 c) G := by
  intro s c
  constructor
  · intro h
    by_cases h2 : C2 c
    · exact (hg (f s) c).1 h2
    · rw [(hg (f s) c).2 h2]
      exact (hf s c).1 (h.resolve_right h2)
  · intro h
    rw [(hg (f s) c).2 (fun h2 => h (Or.inr h2)), (hf s c).2 (fun h1 => h (Or.inl h1))]

theorem Writes.mono {α β : Type} {f : (Nat → α) × β → (Nat → α) × β} {C1 C2 : Nat → Prop}
    {G : Nat → α → Prop} (hf : Writes f C1 G) (h : ∀ c, C1 c ↔ C2 c) : Writes f C2 G := by
  intro s c
  exact ⟨fun hc => (hf s c).1 ((h c).2 hc), fun hc => (hf s c).2 (fun h1 => hc ((h c).1 h1))⟩

theorem Writes.loop {α β : Type} (body : Nat → (Nat → α) × β → (Nat → α) × β)
    (C : Nat → Nat → Prop) (G : Nat → α → Prop) (m : Nat)
    (h : ∀ k, k < m → Writes (body k) (C k) G) :
    Writes (forLoop m body) (fun c => ∃ k, k < m ∧ C k c) G := by
  induction m with
  | zero =>
    intro s c
    exact ⟨fun ⟨k, hk, _⟩ => absurd hk (Nat.not_lt_zero k), fun _ => rfl⟩
  | succ m ih =>
    have h1 := ih (fun k hk => h k (Nat.lt_succ_of_lt hk))
    have h2 := Writes.comp _ _ h1 (h m (Nat.lt_succ_self m))
    refine Writes.mono h2 ?_
    intro c
    constructor
    · rintro (⟨k, hk, hc⟩ | hc)
      · exact ⟨k, Nat.lt_succ_of_lt hk, hc⟩
      · exact ⟨m, Nat.lt_succ_self m, hc⟩
    · rintro ⟨k, hk, hc⟩
      rcases Nat.lt_succ_iff_lt_or_eq.mp hk with h3 | h3
      · exact Or.inl ⟨k, h3, hc⟩
      · exact Or.inr (h3 ▸ hc)

theorem Writes.range {α β : Type} (body : Nat → (Nat → α) × β → (Nat → α) × β)
    (C : Nat → Nat → Prop) (G : Nat → α → Prop) (a b : Nat)
    (h : ∀ k, a ≤ k → k < b → Writes (body k) (C k) G) :
    Writes (forRange a b body) (fun c => ∃ k, a ≤ k ∧ k < b ∧ C k c) G := by
  have h1 := Writes.loop (fun d => body (a + d)) (fun d => C (a + d)) G (b - a)
    (fun d hd => h (a + d) (Nat.le_add_right a d) (by omega))
  refine Writes.mono h1 ?_
  intro c
  constructor
  · rintro ⟨d, hd, hc⟩
    exact ⟨a + d, Nat.le_add_right a d, by omega, hc⟩
  · rintro ⟨k, hak, hkb, hc⟩
    refine ⟨k - a, by omega, ?_⟩
    have : a + (k - a) = k := by omega
    show C (a + (k - a)) c
    rw [this]
    exact hc

namespace aNetwork

namespace Network

section balanced

variable {α : Type} [LinearOrderedField α]

theorem connectStep_writes (lib : Lib α) (J : α) (K N nof_nodes n i : Nat)
    (G : Nat → α → Prop) (h0 : G (n * nof_nodes + i) 0)
    (hJ : G (n * nof_nodes + i) (J / lib.sqrt (K : α))) :
    Writes (connectStep lib J K N nof_nodes n i) (fun c => c = n * nof_nodes + i) G := by
  intro s c
  unfold connectStep
  constructor
  · intro hc
    subst hc
    by_cases hconn : s.2 0 ≤ (K : α) / (N : α)
    · simpa [hconn] using hJ
    · simpa [hconn] using h0
  · intro hc
    by_cases hconn : s.2 0 ≤ (K : α) / (N : α)
    · simp [hconn, Function.update_noteq hc]
    · simp [hconn, Function.update_noteq hc]

theorem cell_div_mod (nof_nodes n i : Nat) (hi : i < nof_nodes) :
    (n * nof_nodes + i) / nof_nodes = n ∧ (n * nof_nodes + i) % nof_nodes = i := by
  have hpos : 0 < nof_nodes := Nat.lt_of_le_of_lt (Nat.zero_le i) hi
  refine (Nat.div_mod_unique hpos).2 ⟨?_, hi⟩
  rw [Nat.mul_comm nof_nodes n, Nat.add_comm]

theorem balancedRow_writes (lib : Lib α) (J_E J_I : α) (K N_E N_I nof_nodes n : Nat)
    (G : Nat → α → Prop) (h0 : ∀ i, i < nof_nodes → G (n * nof_nodes + i) 0)
    (hE : ∀ i, i < N_E → i < nof_nodes → G (n * nof_nodes + i) (J_E / lib.sqrt (K : α)))
    (hI : ∀ i, N_E ≤ i → i < nof_nodes → G (n * nof_nodes + i) (J_I / lib.sqrt (K : α)))
    (hle : N_E ≤ nof_nodes) :
    Writes (balancedRow lib J_E J_I K N_E N_I nof_nodes n)
      (fun c => ∃ i, i < nof_nodes ∧ c = n * nof_nodes + i) G := by
  have h1 := Writes.loop (connectStep lib J_E K N_E nof_nodes n)
    (fun i c => c = n * nof_nodes + i) G N_E
    (fun i hi => connectStep_writes lib J_E K N_E nof_nodes n i G
      (h0 i (Nat.lt_of_lt_of_le hi hle)) (hE i hi (Nat.lt_of_lt_of_le hi hle)))
  have h2 := Writes.range (connectStep lib J_I K N_I nof_nodes n)
    (fun i c => c = n * nof_nodes + i) G N_E nof_nodes
    (fun i hi1 hi2 => connectStep_writes lib J_I K N_I nof_nodes n i G (h0 i hi2) (hI i hi1 hi2))
  have h12 := Writes.comp (forLoop N_E (connectStep lib J_E K N_E nof_nodes n))
    (forRange N_E nof_nodes (connectStep lib J_I K N_I nof_nodes n)) h1 h2
  show Writes (fun s => forRange N_E nof_nodes (connectStep lib J_I K N_I nof_nodes n)
    (forLoop N_E (connectStep lib J_E K N_E nof_nodes n) s)) _ G
  refine Writes.mono h12 ?_
  intro c
  constructor
  · rintro (⟨i, hi, hc⟩ | ⟨i, _, hi, hc⟩)
    · exact ⟨i, Nat.lt_of_lt_of_le hi hle, hc⟩
    · exact ⟨i, hi, hc⟩
  · rintro ⟨i, hi, hc⟩
    by_cases h : i < N_E
    · exact Or.inl ⟨i, h, hc⟩
    · exact Or.inr ⟨i, not_lt.mp h, hi, hc⟩

/-- The loops of `createBalancedNetwork` write 0 or the block constant over `sqrt(K)` to
every cell of the matrix. -/
theorem balancedLoops_cell (lib : Lib α) (K N_E N_I nof_nodes : Nat)
    (s : (Nat → α) × (Nat → α)) (hle : N_E ≤ nof_nodes) (n i : Nat) (hn : n < nof_nodes)
    (hi : i < nof_nodes) :
    (balancedLoops lib K N_E N_I nof_nodes s).1 (n * nof_nodes + i) = 0
    ∨ (balancedLoops lib K N_E N_I nof_nodes s).1 (n * nof_nodes + i)
        = (if n < N_E then (if i < N_E then 1 else -2)
            else (if i < N_E then 1 else -(9 / 5))) / lib.sqrt (K : α) := by
  have hG : ∀ (J_E J_I : α) (m : Nat), (m < N_E → J_E = 1 ∧ J_I = -2) →
      (N_E ≤ m → J_E = 1 ∧ J_I = -(9 / 5)) →
      Writes (balancedRow lib J_E J_I K N_E N_I nof_nodes m)
        (fun c => ∃ i, i < nof_nodes ∧ c = m * nof_nodes + i)
        (fun c v => v = 0 ∨ v = (if c / nof_nodes < N_E
              then (if c % nof_nodes < N_E then 1 else -2)
              else (if c % nof_nodes < N_E then 1 else -(9 / 5))) / lib.sqrt (K : α)) := by
    intro J_E J_I m h1 h2
    apply balancedRow_writes lib J_E J_I K N_E N_I nof_nodes m _ _ _ _ hle
    · intro i _
      exact Or.inl rfl
    · intro i hiE hi
      obtain ⟨hd, hm⟩ := cell_div_mod nof_nodes m i hi
      right
      simp only [hd, hm, hiE, if_true]
      by_cases hmE : m < N_E
      · rw [if_pos hmE, (h1 hmE).1]
      · rw [if_neg hmE, (h2 (not_lt.mp hmE)).1]
    · intro i hiE hi
      obtain ⟨hd, hm⟩ := cell_div_mod nof_nodes m i hi
      right
      simp only [hd, hm, not_lt.mpr hiE, if_false]
      by_cases hmE : m < N_E
      · rw [if_pos hmE, (h1 hmE).2]
      · rw [if_neg hmE, (h2 (not_lt.mp hmE)).2]
  have h1 := Writes.loop (balancedRow lib 1 (-2) K N_E N_I nof_nodes)
    (fun m c => ∃ i, i < nof_nodes ∧ c = m * nof_nodes + i) _ N_E
    (fun m hm => hG 1 (-2) m (fun _ => ⟨rfl, rfl⟩) (fun h => absurd hm (not_lt.mpr h)))
  have h2 := Writes.range (balancedRow lib 1 (-(9 / 5)) K N_E N_I nof_nodes)
    (fun m c => ∃ i, i < nof_nodes ∧ c = m * nof_nodes + i) _ N_E nof_nodes
    (fun m hm _ => hG 1 (-(9 / 5)) m (fun h => absurd hm (not_le.mpr h)) (fun _ => ⟨rfl, rfl⟩))
  have h3 := (Writes.comp (forLoop N_E (balancedRow lib 1 (-2) K N_E N_I nof_nodes))
    (forRange N_E nof_nodes (balancedRow lib 1 (-(9 / 5)) K N_E N_I nof_nodes)) h1 h2 s
      (n * nof_nodes + i)).1 (by
    by_cases h : n < N_E
    · exact Or.inl ⟨n, h, i, hi, rfl⟩
    · exact Or.inr ⟨n, not_lt.mp h, hn, i, hi, rfl⟩)
  obtain ⟨hd, hm⟩ := cell_div_mod nof_nodes n i hi
  rw [hd, hm] at h3
  exact h3

end balanced

section balancedFloor

variable {α : Type} [LinearOrderedField α] [FloorRing α]

/-- When `createBalancedNetwork` returns, its assertions held and the network it leaves
holds the array written by its loops. -/
theorem createBalancedNetwork_some (lib : Lib α) (amem : Nat → Nat → α) (drand : Nat → α)
    (net : Network α) (rand : Nat → Nat) (net1 : Network α) (rand1 : Nat → Nat) (b : Bool)
    (h : createBalancedNetwork lib amem drand net rand = some (net1, rand1, b)) :
    net.width = net.height
    ∧ much_smaller3 1 ((Nat.floor (net.d_connectivity * (net.width : α)) : Nat) : α)
        ((net.width - Nat.floor (net.d_excitatoryRatio * (net.width : α)) : Nat) : α) = true
    ∧ net1.weights
        = (balancedLoops lib (Nat.floor (net.d_connectivity * (net.width : α)))
            (Nat.floor (net.d_excitatoryRatio * (net.width : α)))
            (net.width - Nat.floor (net.d_excitatoryRatio * (net.width : α))) net.width
            (net.weights, drand)).1
    ∧ b = true := by
  unfold createBalancedNetwork at h
  by_cases hwh : net.width = net.height
  · rw [if_pos hwh] at h
    simp only [] at h
    split at h
    · rename_i hms
      split at h
      · split at h
        · exact absurd h (by simp)
        · simp only [Option.some.injEq, Prod.mk.injEq] at h
          obtain ⟨h1, _, h3⟩ := h
          refine ⟨hwh, ?_, ?_, h3.symm⟩
          · simp only [Bool.and_eq_true] at hms
            exact hms.1
          · rw [← h1]
      · exact absurd h (by simp)
    · exact absurd h (by simp)
  · rw [if_neg hwh] at h
    exact absurd h (by simp)

/-- C23: in every matrix `createBalancedNetwork` produces, with `K = int(connectivity * n)`
and `N_E = int(excitatoryRatio * n)` for `n` by `n` nodes, the weight of target `n` and
source `i` is 0 or `J / sqrt(K)`, where `J` is 1 for an excitatory source (`i < N_E`), `-2`
for an inhibitory source and an excitatory target, and `-1.8` for an inhibitory source and
an inhibitory target; so, `sqrt(K)` being non-negative, every weight from an excitatory
source is `>= 0` and every weight from an inhibitory source is `<= 0`. -/
theorem createBalancedNetwork_entries (lib : Lib α) (amem : Nat → Nat → α) (drand : Nat → α)
    (net : Network α) (rand : Nat → Nat) (net1 : Network α) (rand1 : Nat → Nat) (b : Bool)
    (K N_E : Nat) (hK : K = Nat.floor (net.d_connectivity * (net.width : α)))
    (hN : N_E = Nat.floor (net.d_excitatoryRatio * (net.width : α)))
    (h : createBalancedNetwork lib amem drand net rand = some (net1, rand1, b))
    (n i : Nat) (hn : n < net.width) (hi : i < net.width) :
    (n < N_E → i < N_E →
        net1.weights (n * net.width + i) = 0
        ∨ net1.weights (n * net.width + i) = 1 / lib.sqrt (K : α))
    ∧ (n < N_E → N_E ≤ i →
        net1.weights (n * net.width + i) = 0
        ∨ net1.weights (n * net.width + i) = -2 / lib.sqrt (K : α))
    ∧ (N_E ≤ n → i < N_E →
        net1.weights (n * net.width + i) = 0
        ∨ net1.weights (n * net.width + i) = 1 / lib.sqrt (K : α))
    ∧ (N_E ≤ n → N_E ≤ i →
        net1.weights (n * net.width + i) = 0
        ∨ net1.weights (n * net.width + i) = -(9 / 5) / lib.sqrt (K : α))
    ∧ (0 ≤ lib.sqrt (K : α) →
        (i < N_E → 0 ≤ net1.weights (n * net.width + i))
        ∧ (N_E ≤ i → net1.weights (n * net.width + i) ≤ 0)) := by
  obtain ⟨_, hms, hw, _⟩ := createBalancedNetwork_some lib amem drand net rand net1 rand1 b h
  have hle : N_E ≤ net.width := by
    by_contra hlt
    have h0 : net.width - N_E = 0 := by omega
    rw [← hN, h0] at hms
    simp [much_smaller3, much_smaller] at hms
    have h1 := hms.2
    have h2 : (0 : α) < 3 / 2 := by norm_num
    exact absurd (lt_trans h2 h1) (lt_irrefl _)
  have hcell := balancedLoops_cell lib K N_E (net.width - N_E) net.width (net.weights, drand)
    hle n i hn hi
  rw [← hK, ← hN] at hw
  rw [← hw] at hcell
  have hEE : n < N_E → i < N_E →
      net1.weights (n * net.width + i) = 0
      ∨ net1.weights (n * net.width + i) = 1 / lib.sqrt (K : α) := by
    intro h1 h2
    simpa [h1, h2] using hcell
  have hEI : n < N_E → N_E ≤ i →
      net1.weights (n * net.width + i) = 0
      ∨ net1.weights (n * net.width + i) = -2 / lib.sqrt (K : α) := by
    intro h1 h2
    simpa [h1, not_lt.mpr h2] using hcell
  have hIE : N_E ≤ n → i < N_E →
      net1.weights (n * net.width + i) = 0
      ∨ net1.weights (n * net.width + i) = 1 / lib.sqrt (K : α) := by
    intro h1 h2
    simpa [not_lt.mpr h1, h2] using hcell
  have hII : N_E ≤ n → N_E ≤ i →
      net1.weights (n * net.width + i) = 0
      ∨ net1.weights (n * net.width + i) = -(9 / 5) / lib.sqrt (K : α) := by
    intro h1 h2
    simpa [not_lt.mpr h1, not_lt.mpr h2] using hcell
  refine ⟨hEE, hEI, hIE, hII, ?_⟩
  intro hs
  constructor
  · intro hiE
    have h1 : net1.weights (n * net.width + i) = 0
        ∨ net1.weights (n * net.width + i) = 1 / lib.sqrt (K : α) := by
      by_cases hnE : n < N_E
      · exact hEE hnE hiE
      · exact hIE (not_lt.mp hnE) hiE
    rcases h1 with h1 | h1
    · rw [h1]
    · rw [h1]
      exact div_nonneg zero_le_one hs
  · intro hiE
    by_cases hnE : n < N_E
    · rcases hEI hnE hiE with h1 | h1
      · rw [h1]
      · rw [h1]
        exact div_nonpos_of_nonpos_of_nonneg (by norm_num) hs
    · rcases hII (not_lt.mp hnE) hiE with h1 | h1
      · rw [h1]
      · rw [h1]
        exact div_nonpos_of_nonpos_of_nonneg (by norm_num) hs

end balancedFloor

/-- Witness of C23 on `exampleNetworkBalanced` (`N_E = 7`, `K = 4`, `sqrt(K) = 2`): the call
returns, and the weight of target 0 and source 9 is 0 or `-2 / 2`. -/
theorem createBalancedNetwork_entries_witness :
    (createBalancedNetwork exampleLibQ (fun _ _ => 0) exampleDrand exampleNetworkBalanced
        (fun k => k)).isSome = true
    ∧ ∀ (net1 : Network ℚ) (rand1 : Nat → Nat) (b : Bool),
        createBalancedNetwork exampleLibQ (fun _ _ => 0) exampleDrand exampleNetworkBalanced
            (fun k => k) = some (net1, rand1, b) →
          (net1.weights (0 * 14 + 9) = 0
            ∨ net1.weights (0 * 14 + 9) = -2 / exampleLibQ.sqrt ((4 : Nat) : ℚ))
          ∧ net1.weights (0 * 14 + 9) ≤ 0 :=
  ⟨by decide!, fun net1 rand1 b h =>
    ⟨(createBalancedNetwork_entries exampleLibQ (fun _ _ => 0) exampleDrand
        exampleNetworkBalanced (fun k => k) net1 rand1 b 4 7 (by decide!) (by decide!) h 0 9
        (by decide) (by decide)).2.1 (by decide) (by decide),
      ((createBalancedNetwork_entries exampleLibQ (fun _ _ => 0) exampleDrand
        exampleNetworkBalanced (fun k => k) net1 rand1 b 4 7 (by decide!) (by decide!) h 0 9
        (by decide) (by decide)).2.2.2.2 (by decide!)).2 (by decide)⟩⟩

end Network

end aNetwork

/-! ## The cells `fillRandom` draws -/

namespace aNetwork

namespace Network

section draws

variable {α : Type} [LinearOrderedField α]

/-- The drawing loop of `fillRandom` (lines 102-104) on distinct cells: cell `indices[x]`
holds the `x`-th draw, the other cells are as before, and `k` random numbers are consumed. -/
theorem drawLoop_spec (lib : Lib α) (indices : Nat → Nat) (k : Nat) (w0 : Nat → α)
    (r : Nat → Nat) (hinj : ∀ x, x < k → ∀ y, y < k → indices x = indices y → x = y) :
    (forLoop k (drawStep lib indices) (w0, r)).2 = (fun i => r (i + k))
    ∧ (∀ x, x < k →
        (forLoop k (drawStep lib indices) (w0, r)).1 (indices x)
          = (r x : α) / ((lib.RAND_MAX : α) + 1) * (1 - -1) + -1)
    ∧ (∀ y, (∀ x, x < k → y ≠ indices x) →
        (forLoop k (drawStep lib indices) (w0, r)).1 y = w0 y) := by
  induction k with
  | zero =>
    exact ⟨rfl, fun x hx => absurd hx (Nat.not_lt_zero x), fun _ _ => rfl⟩
  | succ k ih =>
    obtain ⟨h1, h2, h3⟩ := ih (fun x hx y hy => hinj x (Nat.lt_succ_of_lt hx) y
      (Nat.lt_succ_of_lt hy))
    have hstep : forLoop (k + 1) (drawStep lib indices) (w0, r)
        = (Function.update (forLoop k (drawStep lib indices) (w0, r)).1 (indices k)
            (((forLoop k (drawStep lib indices) (w0, r)).2 0 : α) / ((lib.RAND_MAX : α) + 1)
              * (1 - -1) + -1),
          fun i => (forLoop k (drawStep lib indices) (w0, r)).2 (i + 1)) := rfl
    rw [hstep, h1]
    refine ⟨?_, ?_, ?_⟩
    · funext i
      show r (i + 1 + k) = r (i + (k + 1))
      rw [Nat.add_assoc, Nat.add_comm 1 k]
    · intro x hx
      rcases Nat.lt_succ_iff_lt_or_eq.mp hx with hlt | heq
      · have hne : indices x ≠ indices k := by
          intro h
          have := hinj x hx k (Nat.lt_succ_self k) h
          omega
        show Function.update _ _ _ _ = _
        rw [Function.update_noteq hne]
        exact h2 x hlt
      · subst heq
        show Function.update _ _ _ _ = _
        rw [Function.update_same]
        simp
    · intro y hy
      show Function.update _ _ _ _ = _
      rw [Function.update_noteq (hy k (Nat.lt_succ_self k))]
      exact h3 y (fun x hx => hy x (Nat.lt_succ_of_lt hx))

end draws

section drawsFloor

variable {α : Type} [LinearOrderedField α] [FloorRing α]

/-- C21 (amended): for a connectivity `c` other than 0 with `c <= 1`, and a shuffle that
returns a permutation of the `size` cells, `fillRandom` returns true and draws
`int(size * c)` values (the product is truncated, not rounded): the `x`-th draw is stored in
cell `indices[x]`, these cells are distinct, every other cell of the matrix is 0, and
`int(size * c)` random numbers are consumed.  A draw lies in `[-1, 1)` and can be 0, so the
number of non-zero entries is the number of non-zero draws, at most `int(size * c)`. -/
theorem fillRandom_cells (lib : Lib α) (net : Network α) (rand : Nat → Nat)
    (hc : net.d_connectivity ≠ 0) (hc1 : net.d_connectivity ≤ 1)
    (hlt : ∀ x, x < net.size → (lib.random_shuffle net.indices net.size rand).1 x < net.size)
    (hinj : ∀ x, x < net.size → ∀ y, y < net.size →
      (lib.random_shuffle net.indices net.size rand).1 x
        = (lib.random_shuffle net.indices net.size rand).1 y → x = y) :
    (fillRandom lib net rand).2.2 = true
    ∧ Nat.floor ((net.size : α) * net.d_connectivity) ≤ net.size
    ∧ (∀ x, x < Nat.floor ((net.size : α) * net.d_connectivity) →
        (fillRandom lib net rand).1.weights
            ((lib.random_shuffle net.indices net.size rand).1 x)
          = ((lib.random_shuffle net.indices net.size rand).2 x : α)
              / ((lib.RAND_MAX : α) + 1) * (1 - -1) + -1)
    ∧ (∀ y, y < net.size →
        (∀ x, x < Nat.floor ((net.size : α) * net.d_connectivity) →
          y ≠ (lib.random_shuffle net.indices net.size rand).1 x) →
        (fillRandom lib net rand).1.weights y = 0)
    ∧ (fillRandom lib net rand).2.1
        = (fun i => (lib.random_shuffle net.indices net.size rand).2
            (i + Nat.floor ((net.size : α) * net.d_connectivity)))
    ∧ ((Finset.range net.size).filter
          (fun y => (fillRandom lib net rand).1.weights y ≠ 0)).card
        = ((Finset.range (Nat.floor ((net.size : α) * net.d_connectivity))).filter
            (fun x => ((lib.random_shuffle net.indices net.size rand).2 x : α)
              / ((lib.RAND_MAX : α) + 1) * (1 - -1) + -1 ≠ 0)).card
    ∧ ((Finset.range net.size).filter
          (fun y => (fillRandom lib net rand).1.weights y ≠ 0)).card
        ≤ Nat.floor ((net.size : α) * net.d_connectivity)
    ∧ (∀ x, (lib.random_shuffle net.indices net.size rand).2 x ≤ lib.RAND_MAX →
        -1 ≤ ((lib.random_shuffle net.indices net.size rand).2 x : α)
              / ((lib.RAND_MAX : α) + 1) * (1 - -1) + -1
        ∧ ((lib.random_shuffle net.indices net.size rand).2 x : α)
              / ((lib.RAND_MAX : α) + 1) * (1 - -1) + -1 < 1) := by
  have hk : Nat.floor ((net.size : α) * net.d_connectivity) ≤ net.size := by
    apply Nat.floor_le_of_le
    calc (net.size : α) * net.d_connectivity ≤ (net.size : α) * 1 :=
          mul_le_mul_of_nonneg_left hc1 (Nat.cast_nonneg _)
      _ = (net.size : α) := mul_one _
  obtain ⟨h1, h2, h3⟩ := drawLoop_spec lib (lib.random_shuffle net.indices net.size rand).1
    (Nat.floor ((net.size : α) * net.d_connectivity))
    (forLoop net.size (fun x w => Function.update w x (0 : α)) net.weights)
    (lib.random_shuffle net.indices net.size rand).2
    (fun x hx y hy => hinj x (Nat.lt_of_lt_of_le hx hk) y (Nat.lt_of_lt_of_le hy hk))
  have hzero : ∀ y, y < net.size →
      (∀ x, x < Nat.floor ((net.size : α) * net.d_connectivity) →
        y ≠ (lib.random_shuffle net.indices net.size rand).1 x) →
      (fillRandom lib net rand).1.weights y = 0 := by
    intro y hy hne
    rw [fillRandom_of_ne lib net rand hc]
    exact (h3 y hne).trans (by rw [zeroLoop_apply, if_pos hy])
  have hdraw : ∀ x, x < Nat.floor ((net.size : α) * net.d_connectivity) →
      (fillRandom lib net rand).1.weights
          ((lib.random_shuffle net.indices net.size rand).1 x)
        = ((lib.random_shuffle net.indices net.size rand).2 x : α)
            / ((lib.RAND_MAX : α) + 1) * (1 - -1) + -1 := by
    intro x hx
    rw [fillRandom_of_ne lib net rand hc]
    exact h2 x hx
  have hcard : ((Finset.range net.size).filter
        (fun y => (fillRandom lib net rand).1.weights y ≠ 0)).card
      = ((Finset.range (Nat.floor ((net.size : α) * net.d_connectivity))).filter
          (fun x => ((lib.random_shuffle net.indices net.size rand).2 x : α)
            / ((lib.RAND_MAX : α) + 1) * (1 - -1) + -1 ≠ 0)).card := by
    symm
    apply Finset.card_bij (fun x _ => (lib.random_shuffle net.indices net.size rand).1 x)
    · intro x hx
      rw [Finset.mem_filter, Finset.mem_range] at hx ⊢
      exact ⟨hlt x (Nat.lt_of_lt_of_le hx.1 hk), by rw [hdraw x hx.1]; exact hx.2⟩
    · intro x hx y hy hxy
      rw [Finset.mem_filter, Finset.mem_range] at hx hy
      exact hinj x (Nat.lt_of_lt_of_le hx.1 hk) y (Nat.lt_of_lt_of_le hy.1 hk) hxy
    · intro y hy
      rw [Finset.mem_filter, Finset.mem_range] at hy
      by_contra hno
      apply hy.2
      apply hzero y hy.1
      intro x hx hyx
      apply hno
      refine ⟨x, ?_, hyx.symm⟩
      rw [Finset.mem_filter, Finset.mem_range]
      refine ⟨hx, ?_⟩
      rw [← hdraw x hx, ← hyx]
      exact hy.2
  refine ⟨?_, hk, hdraw, hzero, ?_, hcard, ?_, ?_⟩
  · rw [fillRandom_of_ne lib net rand hc]
  · rw [fillRandom_of_ne lib net rand hc]
    exact h1
  · rw [hcard]
    calc _ ≤ (Finset.range (Nat.floor ((net.size : α) * net.d_connectivity))).card :=
          Finset.card_filter_le _ _
      _ = _ := Finset.card_range _
  · intro x hx
    have hpos : (0 : α) < (lib.RAND_MAX : α) + 1 := by positivity
    have h0 : (0 : α) ≤ ((lib.random_shuffle net.indices net.size rand).2 x : α)
        / ((lib.RAND_MAX : α) + 1) := div_nonneg (Nat.cast_nonneg _) (le_of_lt hpos)
    have h1 : ((lib.random_shuffle net.indices net.size rand).2 x : α)
        / ((lib.RAND_MAX : α) + 1) < 1 := by
      rw [div_lt_one hpos]
      have : ((lib.random_shuffle net.indices net.size rand).2 x : α) ≤ (lib.RAND_MAX : α) :=
        Nat.cast_le.mpr hx
      linarith
    constructor <;> linarith

end drawsFloor

/-- Witness of C21 on `exampleNetworkDense`: 3 of the 4 cells are drawn. -/
theorem fillRandom_cells_witness :
    (exampleNetworkDense.d_connectivity ≠ 0 ∧ exampleNetworkDense.d_connectivity ≤ 1)
    ∧ (fillRandom exampleLibQ exampleNetworkDense (fun k => k + 1)).2.2 = true
    ∧ ((Finset.range exampleNetworkDense.size).filter
          (fun y => (fillRandom exampleLibQ exampleNetworkDense
            (fun k => k + 1)).1.weights y ≠ 0)).card
        ≤ Nat.floor ((exampleNetworkDense.size : ℚ) * exampleNetworkDense.d_connectivity) :=
  ⟨⟨by decide!, by decide!⟩,
    (fillRandom_cells exampleLibQ exampleNetworkDense (fun k => k + 1) (by decide!)
      (by decide!) (fun _ hx => hx) (fun _ _ _ _ h => h)).1,
    (fillRandom_cells exampleLibQ exampleNetworkDense (fun k => k + 1) (by decide!)
      (by decide!) (fun _ hx => hx) (fun _ _ _ _ h => h)).2.2.2.2.2.2.1⟩

/-- C21 (counterexample): with 4 cells and connectivity 9/10, `round(4 * 0.9) = 4`, but
`fillRandom` draws `int(3.6) = 3` cells: with a stream of non-zero draws the matrix has 3
non-zero entries and the cell 3 is 0. -/
theorem fillRandom_truncates :
    exampleNetworkDense.size = 4
    ∧ exampleNetworkDense.d_connectivity = 9 / 10
    ∧ round ((exampleNetworkDense.size : ℚ) * exampleNetworkDense.d_connectivity) = 4
    ∧ (fillRandom exampleLibQ exampleNetworkDense (fun k => k + 1)).2.2 = true
    ∧ ((Finset.range exampleNetworkDense.size).filter
          (fun y => (fillRandom exampleLibQ exampleNetworkDense
            (fun k => k + 1)).1.weights y ≠ 0)).card = 3
    ∧ (fillRandom exampleLibQ exampleNetworkDense (fun k => k + 1)).1.weights 3 = 0 := by
  refine ⟨rfl, rfl, by decide!, by decide!, by decide!, by decide!⟩

end Network

end aNetwork

/-! ## Construction and initialisation of the network object -/

theorem Outcome.bind_eq_returned {σ τ : Type} (o : Outcome σ) (f : σ → Outcome τ) (y : τ)
    (h : o.bind f = Outcome.returned y) : ∃ x, o = Outcome.returned x ∧ f x = Outcome.returned y := by
  cases o with
  | returned x => exact ⟨x, rfl, h⟩
  | running => exact absurd h (by simp [Outcome.bind])
  | aborted => exact absurd h (by simp [Outcome.bind])

namespace ESNObj

section construction

variable {α : Type} [LinearOrderedField α]

/-- The constructor stops at its assertion exactly for a reservoir size of 1 or less. -/
theorem new_assertion (libm : Libm α) (mem : ESNObj α) (inputSize outputSize reservoirSize : Nat)
    (connectivity : α) :
    (reservoirSize ≤ 1 →
      ESNObj.new libm mem inputSize outputSize reservoirSize connectivity
        = Except.error Fault.assertion)
    ∧ (1 < reservoirSize →
      ∃ net, ESNObj.new libm mem inputSize outputSize reservoirSize connectivity = Except.ok net
        ∧ net.d_inputSize = inputSize ∧ net.d_outputSize = outputSize
        ∧ net.d_reservoirSize = reservoirSize ∧ net.d_connectivity = connectivity
        ∧ net.d_fbConnectivity = 0 ∧ net.d_spectralRadius = 4 / 5
        ∧ net.d_reservoirActivation = ActivationFunction.TANH_ACTIVATION
        ∧ net.d_outputActivation = ActivationFunction.IDENTITY_ACTIVATION
        ∧ net.resActFunc = act_tanh libm ∧ net.outActFunc = act_identity
        ∧ net.d_inputWeights = none ∧ net.d_outputWeights = none
        ∧ net.d_feedbackWeights = none ∧ net.d_reservoirWeights = none) := by
  constructor
  · intro h
    unfold ESNObj.new
    simp only []
    rw [if_neg (by omega)]
  · intro h
    unfold ESNObj.new
    simp only []
    rw [if_pos h]
    exact ⟨_, rfl, rfl, rfl, rfl, rfl, rfl, rfl, rfl, rfl, rfl, rfl, rfl, rfl, rfl, rfl⟩

/-- C30 (the code at a failing input): the body of `ESN::ESN()` constructs and destroys a
temporary object.  The temporary has the documented defaults (sizes 2, 2, 10, connectivity
0.8), but the object under construction is returned with every member as the memory held
it: nothing is assigned. -/
theorem newDefault_assigns_nothing (libm : Libm α) (mem tmp : ESNObj α) :
    newDefault libm mem tmp = Except.ok mem
    ∧ ∃ t, ESNObj.new libm tmp 2 2 10 (4 / 5) = Except.ok t
        ∧ t.d_inputSize = 2 ∧ t.d_outputSize = 2 ∧ t.d_reservoirSize = 10
        ∧ t.d_connectivity = 4 / 5 := by
  obtain ⟨t, ht, h1, h2, h3, h4, _⟩ := (new_assertion libm tmp 2 2 10 (4 / 5)).2 (by decide)
  refine ⟨?_, t, ht, h1, h2, h3, h4⟩
  unfold newDefault
  rw [ht]

end construction

section initialisation

variable {α : Type} [LinearOrderedField α] [FloorRing α]

/-- What `init` has done when it returns: the three calls of `generateConnections` and the
reservoir generation returned, and the object differs from the one before the call in its
arrays and in the member `reservoir` only. -/
theorem init_returned (lib : Lib α) (srand : Nat → Nat → Nat) (time : Nat → Nat)
    (mem : InitMem α)
    (createBalancedNetwork : aNetwork.Network α → (Nat → Nat) →
      Option (aNetwork.Network α × (Nat → Nat) × Bool))
    (fuel : Nat) (net net1 : ESNObj α) (rand rand1 : Nat → Nat)
    (h : init lib srand time mem createBalancedNetwork fuel net rand
      = Outcome.returned (net1, rand1)) :
    ∃ (s1 s2 s3 : (Nat → α) × (Nat → Nat)) (r : aNetwork.Network α),
      initInputWeights lib srand (time 0) fuel mem.inputWeights net rand = Outcome.returned s1
      ∧ initFeedbackWeights lib srand (time 1) fuel mem.feedbackWeights net s1.2
          = Outcome.returned s2
      ∧ initOutputWeights lib srand (time 2) fuel mem.outputWeights net s2.2
          = Outcome.returned s3
      ∧ ESN.generateReservoirConnections lib mem.a createBalancedNetwork mem.reservoirWeights
          mem.indices net.d_reservoirSize net.d_connectivity net.d_spectralRadius
          net.d_excitatory net.reservoir fuel s3.2 = Generation.returned r rand1
      ∧ net1 = { net with
          d_inputWeights := some s1.1, d_feedbackWeights := some s2.1,
          d_outputWeights := some s3.1,
          d_thresholds :=
            some (forLoop net.d_reservoirSize (fun i th => Function.update th i (0 : α))
              mem.thresholds),
          d_reservoirWeights := some r.weights, reservoir := r,
          d_output :=
            some (forLoop net.d_outputSize (fun x o => Function.update o x (0 : α))
              mem.output) } := by
  unfold init at h
  simp only [] at h
  obtain ⟨s1, h1, h⟩ := Outcome.bind_eq_returned _ _ _ h
  obtain ⟨s2, h2, h⟩ := Outcome.bind_eq_returned _ _ _ h
  obtain ⟨s3, h3, h⟩ := Outcome.bind_eq_returned _ _ _ h
  obtain ⟨s5, h5, h⟩ := Outcome.bind_eq_returned _ _ _ h
  refine ⟨s1, s2, s3, ?_⟩
  unfold generateReservoirConnections at h5
  simp only [] at h5
  split at h5
  · rename_i r rand2 hgen
    refine ⟨r, h1, h2, h3, ?_, ?_⟩
    · simp only [Outcome.returned.injEq] at h5 h
      rw [← h5] at h
      simp only [Prod.mk.injEq] at h
      rw [← h.2]
      exact hgen
    · simp only [Outcome.returned.injEq] at h5 h
      rw [← h5] at h
      simp only [Prod.mk.injEq] at h
      rw [← h.1]
      rfl
  · exact absurd h5 (by simp)
  · exact absurd h5 (by simp)

/-- C25 (the code at a failing input): `setParameter` with `RESERVOIR_ACTIVATION` or
`OUTPUT_ACTIVATION` stores the kind only, and `init` does not look at it: when `init`
returns, the object records the configured kinds, but the functions `resActFunc` and
`outActFunc` that `Run` applies are the ones the object had before `setParameter`. -/
theorem setParameter_activation_not_applied (lib : Lib α) (srand : Nat → Nat → Nat)
    (time : Nat → Nat) (mem : InitMem α)
    (createBalancedNetwork : aNetwork.Network α → (Nat → Nat) →
      Option (aNetwork.Network α × (Nat → Nat) × Bool))
    (fuel : Nat) (net net1 : ESNObj α) (rand rand1 : Nat → Nat)
    (k kout : ActivationFunction) (i1 i2 : Nat) (x1 x2 : α)
    (h : init lib srand time mem createBalancedNetwork fuel
        ((net.setParameter ESNParameter.RESERVOIR_ACTIVATION i1 x1 k).setParameter
          ESNParameter.OUTPUT_ACTIVATION i2 x2 kout) rand
      = Outcome.returned (net1, rand1)) :
    net1.d_reservoirActivation = k ∧ net1.d_outputActivation = kout
    ∧ net1.resActFunc = net.resActFunc ∧ net1.outActFunc = net.outActFunc := by
  obtain ⟨s1, s2, s3, r, _, _, _, _, hnet⟩ := init_returned lib srand time mem
    createBalancedNetwork fuel _ net1 rand rand1 h
  rw [hnet]
  exact ⟨rfl, rfl, rfl, rfl⟩

end initialisation

/-- Witness of C25's failing input: on the object `ESN(1, 1, 2, 0.5)`, whose constructor
bound the reservoir activation to tanh and the output activation to the identity, the
reservoir activation is configured to the identity and the output activation to tanh; after
`init` the reservoir function still maps 1 to `tanh 1` (1/2 with the stand-in) and the output
function still maps 1 to 1. -/
theorem setParameter_activation_not_applied_witness :
    ESNObj.new exampleLibmQ exampleObjMem 1 1 2 (1 / 2) = Except.ok exampleObj
    ∧ exampleObj.resActFunc = act_tanh exampleLibmQ
    ∧ exampleObj.outActFunc = act_identity
    ∧ ∃ net1 rand1,
        init exampleLibQ exampleSrand (fun k => 100 * k) exampleInitMem (fun _ _ => none) 50
            ((exampleObj.setParameter ESNParameter.RESERVOIR_ACTIVATION 0 0
              ActivationFunction.IDENTITY_ACTIVATION).setParameter
              ESNParameter.OUTPUT_ACTIVATION 0 0 ActivationFunction.TANH_ACTIVATION)
            (fun k => k)
          = Outcome.returned (net1, rand1)
        ∧ net1.d_reservoirActivation = ActivationFunction.IDENTITY_ACTIVATION
        ∧ net1.d_outputActivation = ActivationFunction.TANH_ACTIVATION
        ∧ net1.resActFunc 1 = 1 / 2 ∧ act_identity (1 : ℚ) = 1
        ∧ net1.outActFunc 1 = 1 ∧ act_tanh exampleLibmQ 1 = 1 / 2 := by
  refine ⟨rfl, rfl, rfl, ?_⟩
  have hret : (init exampleLibQ exampleSrand (fun k => 100 * k) exampleInitMem
      (fun _ _ => none) 50
      ((exampleObj.setParameter ESNParameter.RESERVOIR_ACTIVATION 0 0
        ActivationFunction.IDENTITY_ACTIVATION).setParameter
        ESNParameter.OUTPUT_ACTIVATION 0 0 ActivationFunction.TANH_ACTIVATION)
      (fun k => k)).map (fun _ => 0) = Outcome.returned 0 := by decide!
  cases hinit : init exampleLibQ exampleSrand (fun k => 100 * k) exampleInitMem
      (fun _ _ => none) 50
      ((exampleObj.setParameter ESNParameter.RESERVOIR_ACTIVATION 0 0
        ActivationFunction.IDENTITY_ACTIVATION).setParameter
        ESNParameter.OUTPUT_ACTIVATION 0 0 ActivationFunction.TANH_ACTIVATION)
      (fun k => k) with
  | returned s =>
    have h := setParameter_activation_not_applied exampleLibQ exampleSrand (fun k => 100 * k)
      exampleInitMem (fun _ _ => none) 50 exampleObj s.1 (fun k => k) s.2
      ActivationFunction.IDENTITY_ACTIVATION ActivationFunction.TANH_ACTIVATION 0 0 0 0 hinit
    refine ⟨s.1, s.2, rfl, h.1, h.2.1, ?_, rfl, ?_, ?_⟩
    · rw [h.2.2.1]
      show act_tanh exampleLibmQ 1 = 1 / 2
      decide!
    · rw [h.2.2.2]
      rfl
    · decide!
  | running =>
    rw [hinit] at hret
    exact absurd hret (by simp [Outcome.map, Outcome.bind])
  | aborted =>
    rw [hinit] at hret
    exact absurd hret (by simp [Outcome.map, Outcome.bind])

/-- C22 (the code at a failing input): the constructor accepts reservoir size 2, the setters
`setReservoirSize` and `setParameter(RESERVOIR_SIZE)` then store 1 without a check, and
`init` has no check either: it runs through the reservoir generation and returns with a
1 by 1 reservoir. -/
theorem init_runs_with_reservoirSize_one :
    (ESNObj.new exampleLibmQ exampleObjMem 1 1 2 1).toOption.map
        (fun net =>
          ((net.setReservoirSize 1).d_reservoirSize,
            (init exampleLibQ exampleSrand (fun k => 100 * k) exampleInitMem (fun _ _ => none)
              50 (net.setReservoirSize 1) (fun k => k)).map
                (fun s => (s.1.d_reservoirSize, s.1.reservoir.width, s.1.reservoir.size)),
            (init exampleLibQ exampleSrand (fun k => 100 * k) exampleInitMem (fun _ _ => none)
              50 (net.setParameter ESNParameter.RESERVOIR_SIZE 1 0
                ActivationFunction.IDENTITY_ACTIVATION) (fun k => k)).map
                (fun s => (s.1.d_reservoirSize, s.1.reservoir.width, s.1.reservoir.size))))
      = some (1, Outcome.returned (1, 1, 1), Outcome.returned (1, 1, 1)) := by
  decide!

end ESNObj

/-! ## The matrices `init` generates -/

namespace ESNObj

section matrices

variable {α : Type} [LinearOrderedField α]

/-- The loop of `generateConnections` for connectivity 1: cell `y` holds the draw made with
the `(y - x)`-th random number, from the cell `x` the loop starts at up to `connectionSize`. -/
theorem generateConnectionsLoop_full (lib : Lib α) (weightSize connectionSize : Nat)
    (min max : α) (fuel : Nat) :
    ∀ (x : Nat) (w : Nat → α) (r : Nat → Nat) (w1 : Nat → α) (r1 : Nat → Nat),
      generateConnectionsLoop lib 1 weightSize connectionSize min max fuel (x, w, r)
        = Outcome.returned (w1, r1) →
      (∀ y, x ≤ y → y < connectionSize →
        w1 y = (r (y - x) : α) / ((lib.RAND_MAX : α) + 1) * (max - min) + min)
      ∧ (∀ y, (y < x ∨ connectionSize ≤ y) → w1 y = w y)
      ∧ r1 = (fun i => r (i + (connectionSize - x))) := by
  induction fuel with
  | zero =>
    intro x w r w1 r1 h
    unfold generateConnectionsLoop at h
    by_cases hx : x < connectionSize
    · simp [hx] at h
    · simp only [hx, if_false, Outcome.returned.injEq, Prod.mk.injEq] at h
      obtain ⟨h1, h2⟩ := h
      subst h1
      subst h2
      refine ⟨fun y hy1 hy2 => absurd (Nat.lt_of_le_of_lt hy1 hy2) hx, fun _ _ => rfl, ?_⟩
      have : connectionSize - x = 0 := by omega
      rw [this]
      rfl
  | succ k ih =>
    intro x w r w1 r1 h
    unfold generateConnectionsLoop at h
    by_cases hx : x < connectionSize
    · simp only [hx, if_true, ne_eq, not_true_eq_false, if_false] at h
      obtain ⟨h1, h2, h3⟩ := ih (x + 1) _ _ w1 r1 h
      refine ⟨?_, ?_, ?_⟩
      · intro y hy1 hy2
        rcases Nat.eq_or_lt_of_le hy1 with heq | hlt
        · subst heq
          rw [h2 x (Or.inl (Nat.lt_succ_self x)), Function.update_same]
          simp [uniform]
        · rw [h1 y hlt hy2]
          have : y - x = (y - (x + 1)) + 1 := by omega
          rw [this]
          rfl
      · intro y hy
        have hne : y ≠ x := by omega
        rw [h2 y (by omega), Function.update_noteq hne]
      · rw [h3]
        funext i
        show r (i + (connectionSize - (x + 1)) + 1) = r (i + (connectionSize - x))
        congr 1
        omega
    · simp only [hx, if_false, Outcome.returned.injEq, Prod.mk.injEq] at h
      obtain ⟨h1, h2⟩ := h
      subst h1
      subst h2
      refine ⟨fun y hy1 hy2 => absurd (Nat.lt_of_le_of_lt hy1 hy2) hx, fun _ _ => rfl, ?_⟩
      have : connectionSize - x = 0 := by omega
      rw [this]
      rfl

/-- The loop of lines 245-248 of `init`: each of the first `n` cells is kept or becomes
`0.14` or `-0.14`; the other cells are kept. -/
theorem jaegerLoop_spec (n : Nat) (w : Nat → α) (r : Nat → Nat) :
    (∀ x, x < n →
      (forLoop n jaegerStep (w, r)).1 x = w x ∨ (forLoop n jaegerStep (w, r)).1 x = 7 / 50
        ∨ (forLoop n jaegerStep (w, r)).1 x = -(7 / 50))
    ∧ (∀ x, n ≤ x → (forLoop n jaegerStep (w, r)).1 x = w x) := by
  induction n with
  | zero => exact ⟨fun x hx => absurd hx (Nat.not_lt_zero x), fun _ _ => rfl⟩
  | succ k ih =>
    obtain ⟨h1, h2⟩ := ih
    have hstep : forLoop (k + 1) jaegerStep (w, r)
        = jaegerStep k (forLoop k jaegerStep (w, r)) := rfl
    have hs : ∀ s : (Nat → α) × (Nat → Nat), jaegerStep k s
        = if s.2 0 % 2 ≠ 0 then (s.1, fun i => s.2 (i + 1))
          else (Function.update s.1 k ((7 / 50) * (((s.2 1 % 2 : Nat) : α) * 2 - 1)),
            fun i => s.2 (i + 2)) := fun _ => rfl
    rw [hstep, hs]
    by_cases hodd : (forLoop k jaegerStep (w, r)).2 0 % 2 ≠ 0
    · rw [if_pos hodd]
      refine ⟨?_, fun x hx => h2 x (by omega)⟩
      intro x hx
      rcases Nat.lt_succ_iff_lt_or_eq.mp hx with hlt | heq
      · exact h1 x hlt
      · exact Or.inl (heq ▸ h2 k (Nat.le_refl k))
    · rw [if_neg hodd]
      refine ⟨?_, ?_⟩
      · intro x hx
        rcases Nat.lt_succ_iff_lt_or_eq.mp hx with hlt | heq
        · have hne : x ≠ k := by omega
          show Function.update _ _ _ _ = _ ∨ Function.update _ _ _ _ = _
            ∨ Function.update _ _ _ _ = _
          rw [Function.update_noteq hne]
          exact h1 x hlt
        · subst heq
          show Function.update _ _ _ _ = _ ∨ Function.update _ _ _ _ = _
            ∨ Function.update _ _ _ _ = _
          rw [Function.update_same]
          right
          rcases Nat.mod_two_eq_zero_or_one ((forLoop x jaegerStep (w, r)).2 1) with h | h
          · right
            rw [h]
            norm_num
          · left
            rw [h]
            norm_num
      · intro x hx
        have hne : x ≠ k := by omega
        show Function.update _ _ _ _ = _
        rw [Function.update_noteq hne]
        exact h2 x (by omega)

end matrices

end ESNObj

theorem Outcome.map_bind_of_map {σ τ : Type} (o : Outcome σ) (f : σ → Outcome σ) (p : σ → τ)
    (h : ∀ x, (f x).map p = Outcome.returned (p x)) : (o.bind f).map p = o.map p := by
  cases o with
  | returned x => exact h x
  | running => rfl
  | aborted => rfl

theorem Outcome.map_bind_congr {σ τ υ : Type} (o : Outcome σ) (f f2 : σ → Outcome τ)
    (g : τ → υ) (h : ∀ x, (f x).map g = (f2 x).map g) :
    (o.bind f).map g = (o.bind f2).map g := by
  cases o with
  | returned x => exact h x
  | running => rfl
  | aborted => rfl

namespace ESNObj

section matricesFloor

variable {α : Type} [LinearOrderedField α] [FloorRing α]

/-- The reservoir generation does not depend on what the member `reservoir` held. -/
theorem generateReservoirConnections_reservoir (lib : Lib α) (mem : InitMem α)
    (createBalancedNetwork : aNetwork.Network α → (Nat → Nat) →
      Option (aNetwork.Network α × (Nat → Nat) × Bool))
    (fuel : Nat) (a b : ESNObj α) (rand : Nat → Nat)
    (h1 : a.d_reservoirSize = b.d_reservoirSize) (h2 : a.d_connectivity = b.d_connectivity)
    (h3 : a.d_spectralRadius = b.d_spectralRadius) (h4 : a.d_excitatory = b.d_excitatory)
    (hin : a.d_inputWeights = b.d_inputWeights) (hfb : a.d_feedbackWeights = b.d_feedbackWeights)
    (hout : a.d_outputWeights = b.d_outputWeights) :
    (generateReservoirConnections lib mem createBalancedNetwork fuel a rand).map
        (fun s => (weightArrays s.1, s.2))
      = (generateReservoirConnections lib mem createBalancedNetwork fuel b rand).map
        (fun s => (weightArrays s.1, s.2)) := by
  unfold generateReservoirConnections
  rw [h1, h2, h3, h4]
  cases fuel with
  | zero => rfl
  | succ k =>
    have hgen : ESN.generateReservoirConnections lib mem.a createBalancedNetwork
        mem.reservoirWeights mem.indices b.d_reservoirSize b.d_connectivity b.d_spectralRadius
        b.d_excitatory a.reservoir (k + 1) rand
      = ESN.generateReservoirConnections lib mem.a createBalancedNetwork
        mem.reservoirWeights mem.indices b.d_reservoirSize b.d_connectivity b.d_spectralRadius
        b.d_excitatory b.reservoir (k + 1) rand := rfl
    rw [hgen]
    cases ESN.generateReservoirConnections lib mem.a createBalancedNetwork
        mem.reservoirWeights mem.indices b.d_reservoirSize b.d_connectivity b.d_spectralRadius
        b.d_excitatory b.reservoir (k + 1) rand with
    | returned r rand1 =>
      simp only [Outcome.map, Outcome.bind, weightArrays, hin, hfb, hout]
    | running r rand1 => rfl
    | aborted => rfl

theorem initInputWeights_congr (lib : Lib α) (srand : Nat → Nat → Nat) (now fuel : Nat)
    (m : Nat → α) (a b : ESNObj α) (rand rand2 : Nat → Nat)
    (h1 : a.d_inputSize = b.d_inputSize) (h3 : a.d_reservoirSize = b.d_reservoirSize)
    (h5 : a.d_inConnectivity = b.d_inConnectivity) :
    initInputWeights lib srand now fuel m a rand
      = initInputWeights lib srand now fuel m b rand2 := by
  cases a
  cases b
  simp only [] at h1 h3 h5
  subst h1 h3 h5
  rfl

theorem initFeedbackWeights_congr (lib : Lib α) (srand : Nat → Nat → Nat) (now fuel : Nat)
    (m : Nat → α) (a b : ESNObj α) (rand rand2 : Nat → Nat)
    (h2 : a.d_outputSize = b.d_outputSize) (h3 : a.d_reservoirSize = b.d_reservoirSize)
    (h6 : a.d_fbConnectivity = b.d_fbConnectivity)
    (h8 : a.d_feedbackScale = b.d_feedbackScale) (h9 : a.d_feedbackShift = b.d_feedbackShift) :
    initFeedbackWeights lib srand now fuel m a rand
      = initFeedbackWeights lib srand now fuel m b rand2 := by
  cases a
  cases b
  simp only [] at h2 h3 h6 h8 h9
  subst h2 h3 h6 h8 h9
  rfl

theorem initOutputWeights_congr (lib : Lib α) (srand : Nat → Nat → Nat) (now fuel : Nat)
    (m : Nat → α) (a b : ESNObj α) (rand rand2 : Nat → Nat)
    (h1 : a.d_inputSize = b.d_inputSize) (h2 : a.d_outputSize = b.d_outputSize)
    (h3 : a.d_reservoirSize = b.d_reservoirSize) :
    initOutputWeights lib srand now fuel m a rand
      = initOutputWeights lib srand now fuel m b rand2 := by
  cases a
  cases b
  simp only [] at h1 h2 h3
  subst h1 h2 h3
  rfl

/-- C29 (amended): the weight matrices `init` generates are determined by the members it
reads (`sameConfiguration`), the values `time(NULL)` returns in the three calls of
`generateConnections`, the memory it allocates and the library; they depend neither on the
random stream at the time of the call (the seed the caller has set: `generateConnections`
reseeds the generator with the time before the first draw) nor on the arrays and the
reservoir the object held before. -/
theorem init_weights_determined (lib : Lib α) (srand : Nat → Nat → Nat) (time : Nat → Nat)
    (mem : InitMem α)
    (createBalancedNetwork : aNetwork.Network α → (Nat → Nat) →
      Option (aNetwork.Network α × (Nat → Nat) × Bool))
    (fuel : Nat) (net net2 : ESNObj α) (rand rand2 : Nat → Nat)
    (h : sameConfiguration net net2) :
    (init lib srand time mem createBalancedNetwork fuel net rand).map
        (fun s => (weightArrays s.1, s.2))
      = (init lib srand time mem createBalancedNetwork fuel net2 rand2).map
        (fun s => (weightArrays s.1, s.2)) := by
  obtain ⟨h1, h2, h3, h4, h5, h6, h7, h8, h9, h10⟩ := h
  unfold init
  simp only []
  rw [initInputWeights_congr lib srand (time 0) fuel mem.inputWeights (destroy net)
    (destroy net2) rand rand2 h1 h3 h5]
  apply Outcome.map_bind_congr
  intro s1
  rw [initFeedbackWeights_congr lib srand (time 1) fuel mem.feedbackWeights
    { destroy net with d_inputWeights := some s1.1 }
    { destroy net2 with d_inputWeights := some s1.1 } s1.2 s1.2 h2 h3 h6 h8 h9]
  apply Outcome.map_bind_congr
  intro s2
  rw [initOutputWeights_congr lib srand (time 2) fuel mem.outputWeights
    { ({ destroy net with d_inputWeights := some s1.1 } : ESNObj α) with
      d_feedbackWeights := some s2.1 }
    { ({ destroy net2 with d_inputWeights := some s1.1 } : ESNObj α) with
      d_feedbackWeights := some s2.1 } s2.2 s2.2 h1 h2 h3]
  apply Outcome.map_bind_congr
  intro s3
  have hgen := generateReservoirConnections_reservoir lib mem createBalancedNetwork fuel
    { ({ ({ ({ destroy net with d_inputWeights := some s1.1 } : ESNObj α) with
              d_feedbackWeights := some s2.1 } : ESNObj α) with
            d_outputWeights := some s3.1 } : ESNObj α) with
        d_thresholds :=
          some (forLoop net.d_reservoirSize (fun i th => Function.update th i (0 : α))
            mem.thresholds) }
    { ({ ({ ({ destroy net2 with d_inputWeights := some s1.1 } : ESNObj α) with
              d_feedbackWeights := some s2.1 } : ESNObj α) with
            d_outputWeights := some s3.1 } : ESNObj α) with
        d_thresholds :=
          some (forLoop net2.d_reservoirSize (fun i th => Function.update th i (0 : α))
            mem.thresholds) }
    s3.2 h3 h4 h7 h10 rfl rfl rfl
  rw [Outcome.map_bind_of_map, Outcome.map_bind_of_map]
  · exact hgen
  · intro x
    rfl
  · intro x
    rfl

/-- C28 (amended): when `init` returns, (1) every cell `x` of the output matrix holds the
uniform draw made with the `x`-th random number after the generator was seeded with the time;
(2) the input matrix is what `generateConnections` with the input connectivity leaves on a
zeroed array, after which each cell is either kept or replaced by `0.14` or `-0.14` (the loop
of lines 245-248; input scale and shift are not used); (3) the feedback matrix is what
`generateConnections` with the feedback connectivity leaves on a zeroed array, scaled and
shifted when the feedback scale is not 1 or the feedback shift is not 0. -/
theorem init_matrices (lib : Lib α) (srand : Nat → Nat → Nat) (time : Nat → Nat)
    (mem : InitMem α)
    (createBalancedNetwork : aNetwork.Network α → (Nat → Nat) →
      Option (aNetwork.Network α × (Nat → Nat) × Bool))
    (fuel : Nat) (net net1 : ESNObj α) (rand rand1 : Nat → Nat)
    (h : init lib srand time mem createBalancedNetwork fuel net rand
      = Outcome.returned (net1, rand1)) :
    (∃ wout, net1.d_outputWeights = some wout
      ∧ ∀ x, x < net.d_outputSize * net.d_reservoirSize + net.d_outputSize * net.d_inputSize →
          wout x = (srand (time 2) x : α) / ((lib.RAND_MAX : α) + 1) * (1 - -1) + -1)
    ∧ (∃ g win,
        generateConnections lib srand (time 0) fuel net.d_inConnectivity
            (net.d_inputSize * net.d_reservoirSize)
            (forLoop (net.d_inputSize * net.d_reservoirSize)
              (fun x w => Function.update w x (0 : α)) mem.inputWeights) (-1) 1 rand
          = Outcome.returned g
        ∧ net1.d_inputWeights = some win
        ∧ (∀ x, x < net.d_inputSize * net.d_reservoirSize →
            win x = g.1 x ∨ win x = 7 / 50 ∨ win x = -(7 / 50))
        ∧ (∀ x, net.d_inputSize * net.d_reservoirSize ≤ x → win x = g.1 x))
    ∧ (∃ g rand0,
        generateConnections lib srand (time 1) fuel net.d_fbConnectivity
            (net.d_outputSize * net.d_reservoirSize)
            (forLoop (net.d_outputSize * net.d_reservoirSize)
              (fun x w => Function.update w x (0 : α)) mem.feedbackWeights) (-1) 1 rand0
          = Outcome.returned g
        ∧ net1.d_feedbackWeights
          = some (if net.d_feedbackScale ≠ 1 ∨ net.d_feedbackShift ≠ 0
              then scaleAndShift g.1 (net.d_outputSize * net.d_reservoirSize)
                net.d_feedbackScale net.d_feedbackShift
              else g.1)) := by
  obtain ⟨s1, s2, s3, r, h1, h2, h3, _, hnet⟩ := init_returned lib srand time mem
    createBalancedNetwork fuel net net1 rand rand1 h
  refine ⟨⟨s3.1, by rw [hnet], ?_⟩, ?_, ?_⟩
  · intro x hx
    unfold initOutputWeights generateConnections at h3
    simp only [mul_one, Nat.floor_natCast] at h3
    obtain ⟨hd, _, _⟩ := generateConnectionsLoop_full lib _ _ (-1) 1 fuel 0 _ _ s3.1 s3.2 h3
    have := hd x (Nat.zero_le x) hx
    rw [this]
    simp
  · unfold initInputWeights at h1
    obtain ⟨g, hg, hs⟩ := Outcome.bind_eq_returned _ _ _ h1
    simp only [Outcome.returned.injEq] at hs
    obtain ⟨hj1, hj2⟩ := jaegerLoop_spec (net.d_inputSize * net.d_reservoirSize) g.1 g.2
    refine ⟨g, s1.1, hg, by rw [hnet], ?_, ?_⟩
    · intro x hx
      rw [← hs]
      exact hj1 x hx
    · intro x hx
      rw [← hs]
      exact hj2 x hx
  · unfold initFeedbackWeights at h2
    obtain ⟨g, hg, hs⟩ := Outcome.bind_eq_returned _ _ _ h2
    refine ⟨g, s1.2, hg, ?_⟩
    rw [hnet]
    show some s2.1 = _
    by_cases hsc : net.d_feedbackScale ≠ 1 ∨ net.d_feedbackShift ≠ 0
    · rw [if_pos hsc] at hs
      rw [if_pos hsc]
      simp only [Outcome.returned.injEq] at hs
      rw [← hs]
    · rw [if_neg hsc] at hs
      rw [if_neg hsc]
      simp only [Outcome.returned.injEq] at hs
      rw [← hs]

end matricesFloor

/-- Witness of C28 on the object `ESN(1, 1, 2, 0.5)`: `init` returns, and the first output
weight is the draw made with the first random number. -/
theorem init_matrices_witness :
    ∃ net1 rand1,
      init exampleLibQ exampleSrand (fun k => 100 * k) exampleInitMem (fun _ _ => none) 50
          exampleObj (fun k => k) = Outcome.returned (net1, rand1)
      ∧ ∃ wout, net1.d_outputWeights = some wout ∧ wout 0 = -(16183 / 16384) := by
  have hret : (init exampleLibQ exampleSrand (fun k => 100 * k) exampleInitMem
      (fun _ _ => none) 50 exampleObj (fun k => k)).map (fun _ => 0)
      = Outcome.returned 0 := by decide!
  cases hinit : init exampleLibQ exampleSrand (fun k => 100 * k) exampleInitMem
      (fun _ _ => none) 50 exampleObj (fun k => k) with
  | returned s =>
    obtain ⟨⟨wout, hw, hx⟩, _⟩ := init_matrices exampleLibQ exampleSrand (fun k => 100 * k)
      exampleInitMem (fun _ _ => none) 50 exampleObj s.1 (fun k => k) s.2 hinit
    refine ⟨s.1, s.2, rfl, wout, hw, ?_⟩
    rw [hx 0 (by decide)]
    decide!
  | running =>
    rw [hinit] at hret
    exact absurd hret (by simp [Outcome.map, Outcome.bind])
  | aborted =>
    rw [hinit] at hret
    exact absurd hret (by simp [Outcome.map, Outcome.bind])

/-- C28 (counterexample): with input connectivity 0 the random-subset rule draws
`int(2 * 0) = 0` cells, yet after `init` the input weight of cell 1 is `0.14`: the loop of
lines 245-248 has replaced it. -/
theorem init_input_weights_replaced :
    (exampleObj.setInConnectivity 0).d_inConnectivity = 0
    ∧ (exampleObj.setInConnectivity 0).d_inputShift = 0
    ∧ Nat.floor ((((exampleObj.setInConnectivity 0).d_inputSize
          * (exampleObj.setInConnectivity 0).d_reservoirSize : Nat) : ℚ)
        * (exampleObj.setInConnectivity 0).d_inConnectivity) = 0
    ∧ (init exampleLibQ exampleSrand (fun k => 100 * k) exampleInitMem (fun _ _ => none) 50
          (exampleObj.setInConnectivity 0) (fun k => k)).map
        (fun s => s.1.d_inputWeights.map (fun w => (w 0, w 1)))
      = Outcome.returned (some (0, 7 / 50)) := by
  refine ⟨rfl, rfl, by decide!, by decide!⟩

/-- Witness of C29 on the object `ESN(1, 1, 2, 0.5)` and the same object with another decay
rate, with different random streams at the time of the call. -/
theorem init_weights_determined_witness :
    sameConfiguration exampleObj (exampleObj.setDecayRate 3)
    ∧ (init exampleLibQ exampleSrand (fun k => 100 * k) exampleInitMem (fun _ _ => none) 50
          exampleObj (fun k => k)).map (fun s => (weightArrays s.1, s.2))
        = (init exampleLibQ exampleSrand (fun k => 100 * k) exampleInitMem (fun _ _ => none)
            50 (exampleObj.setDecayRate 3) (fun k => 2 * k + 5)).map
          (fun s => (weightArrays s.1, s.2)) :=
  ⟨⟨rfl, rfl, rfl, rfl, rfl, rfl, rfl, rfl, rfl, rfl⟩,
    init_weights_determined exampleLibQ exampleSrand (fun k => 100 * k) exampleInitMem
      (fun _ _ => none) 50 exampleObj (exampleObj.setDecayRate 3) (fun k => k)
      (fun k => 2 * k + 5) ⟨rfl, rfl, rfl, rfl, rfl, rfl, rfl, rfl, rfl, rfl⟩⟩

/-- C29 (counterexample): two calls of `init` on the same object, with the same random
stream at the time of the call (the same seed), in which `time(NULL)` returns `0, 100, 200`
and `1, 101, 201`: both return, and the first output weight is `-16183/16384` in one and
`-8091/8192` in the other. -/
theorem init_depends_on_time :
    (init exampleLibQ exampleSrand (fun k => 100 * k) exampleInitMem (fun _ _ => none) 50
          exampleObj (fun k => k)).map (fun s => s.1.d_outputWeights.map (fun w => w 0))
      = Outcome.returned (some (-(16183 / 16384)))
    ∧ (init exampleLibQ exampleSrand (fun k => 100 * k + 1) exampleInitMem (fun _ _ => none)
          50 exampleObj (fun k => k)).map (fun s => s.1.d_outputWeights.map (fun w => w 0))
      = Outcome.returned (some (-(8091 / 8192)))
    ∧ (-(16183 / 16384) : ℚ) ≠ -(8091 / 8192) := by
  refine ⟨by decide!, by decide!, by decide!⟩

end ESNObj

/-! ## Saving and loading -/

namespace ESNObj

section persistence

variable {α ω : Type}

theorem saveWeights_some (c : Codec α ω) (file : List ω) (n : Nat) (a : Nat → α) :
    saveWeights c file n (some a)
      = Except.ok (file ++ (List.range n).map (fun x => c.ofReal (a x))) := by
  unfold saveWeights
  induction n with
  | zero => simp [forLoopM]
  | succ k ih =>
    rw [forLoopM, ih]
    simp [Ptr.read, List.range_succ, pure, Except.pure, bind, Except.bind]

theorem loadWeights_nil (c : Codec α ω) (n : Nat) (m : Nat → α) :
    loadWeights c [] n m = (m, []) := by
  unfold loadWeights
  induction n with
  | zero => rfl
  | succ k ih =>
    rw [forLoop, ih]
    simp [readWord]

/-- Loading `n` weights from a stream that starts with the `n` words of the array `a`. -/
theorem loadWeights_saved (c : Codec α ω) (hc : c.Faithful) (a : Nat → α) (n : Nat)
    (rest : List ω) (m : Nat → α) :
    (loadWeights c ((List.range n).map (fun x => c.ofReal (a x)) ++ rest) n m).2 = rest
    ∧ (∀ x, x < n →
        (loadWeights c ((List.range n).map (fun x => c.ofReal (a x)) ++ rest) n m).1 x = a x)
    ∧ (∀ x, n ≤ x →
        (loadWeights c ((List.range n).map (fun x => c.ofReal (a x)) ++ rest) n m).1 x
          = m x) := by
  have key : ∀ k, k ≤ n →
      (forLoop k
        (fun x (s : (Nat → α) × List ω) =>
          ((Function.update s.1 x (readWord c.toReal (s.1 x) s.2).1),
            (readWord c.toReal (s.1 x) s.2).2))
        (m, (List.range n).map (fun x => c.ofReal (a x)) ++ rest)).2
        = ((List.range n).map (fun x => c.ofReal (a x))).drop k ++ rest
      ∧ (∀ x, x < k →
          (forLoop k
            (fun x (s : (Nat → α) × List ω) =>
              ((Function.update s.1 x (readWord c.toReal (s.1 x) s.2).1),
                (readWord c.toReal (s.1 x) s.2).2))
            (m, (List.range n).map (fun x => c.ofReal (a x)) ++ rest)).1 x = a x)
      ∧ (∀ x, k ≤ x →
          (forLoop k
            (fun x (s : (Nat → α) × List ω) =>
              ((Function.update s.1 x (readWord c.toReal (s.1 x) s.2).1),
                (readWord c.toReal (s.1 x) s.2).2))
            (m, (List.range n).map (fun x => c.ofReal (a x)) ++ rest)).1 x = m x) := by
    intro k
    induction k with
    | zero =>
      intro _
      exact ⟨rfl, fun x hx => absurd hx (Nat.not_lt_zero x), fun _ _ => rfl⟩
    | succ k ih =>
      intro hk
      obtain ⟨h1, h2, h3⟩ := ih (Nat.le_of_succ_le hk)
      have hlen : k < ((List.range n).map (fun x => c.ofReal (a x))).length := by
        simp
        omega
      have hdrop : ((List.range n).map (fun x => c.ofReal (a x))).drop k
          = c.ofReal (a k) :: ((List.range n).map (fun x => c.ofReal (a x))).drop (k + 1) := by
        rw [List.drop_eq_getElem_cons hlen]
        simp
      simp only [forLoop]
      rw [h1, hdrop]
      simp only [List.cons_append, readWord]
      refine ⟨trivial, ?_, ?_⟩
      · intro x hx
        rcases Nat.lt_succ_iff_lt_or_eq.mp hx with hlt | heq
        · have hne : x ≠ k := by omega
          rw [Function.update_noteq hne]
          exact h2 x hlt
        · subst heq
          rw [Function.update_same]
          exact hc.2.2 _
      · intro x hx
        have hne : x ≠ k := by omega
        rw [Function.update_noteq hne]
        exact h3 x (by omega)
  obtain ⟨h1, h2, h3⟩ := key n (Nat.le_refl n)
  refine ⟨?_, h2, h3⟩
  have hd : ((List.range n).map (fun x => c.ofReal (a x))).drop n = [] := by
    apply List.drop_eq_nil_of_le
    simp
  rw [hd] at h1
  exact h1

/-- The file `saveESN` writes for an object whose four weight arrays are allocated. -/
theorem saveESN_file (c : Codec α ω) (N : ESNObj α) (a1 a2 a3 a4 : Nat → α)
    (h1 : N.d_inputWeights = some a1) (h2 : N.d_feedbackWeights = some a2)
    (h3 : N.d_outputWeights = some a3) (h4 : N.d_reservoirWeights = some a4) :
    saveESN c N
      = Except.ok
        (c.ofInt N.d_inputSize :: c.ofInt N.d_outputSize :: c.ofInt N.d_reservoirSize
          :: c.ofAct N.d_reservoirActivation :: c.ofAct N.d_outputActivation
          :: c.ofReal N.d_connectivity :: c.ofReal N.d_inConnectivity
          :: c.ofReal N.d_fbConnectivity :: c.ofReal N.d_spectralRadius
          :: c.ofReal N.d_inputScale :: c.ofReal N.d_feedbackScale
          :: c.ofReal N.d_inputShift :: c.ofReal N.d_feedbackShift
          :: c.ofReal N.d_timeConstant :: c.ofReal N.d_feedbackScale
          :: ((List.range (N.d_inputSize * N.d_reservoirSize)).map (fun x => c.ofReal (a1 x))
            ++ ((List.range (N.d_outputSize * N.d_reservoirSize)).map
                (fun x => c.ofReal (a2 x))
              ++ ((List.range (N.d_outputSize * N.d_reservoirSize
                    + N.d_outputSize * N.d_inputSize)).map (fun x => c.ofReal (a3 x))
                ++ (List.range (N.d_reservoirSize * N.d_reservoirSize)).map
                    (fun x => c.ofReal (a4 x)))))) := by
  unfold saveESN
  rw [h1, h2, h3, h4]
  simp only [saveWeights_some, bind, Except.bind, List.cons_append, List.nil_append,
    List.append_assoc]

/-- C26 (amended): for a faithful representation of values in the file and a network `N`
whose four weight arrays are allocated, `saveESN` on `N` followed by `loadESN` of the file on
any object `M` gives `M` the three sizes, both activation kinds, the three connectivities,
the spectral radius, the input and feedback scale and shift and the time constant of `N`,
and every element of the input, feedback, output and reservoir matrices of `N`.  The decay
rate and the excitatory ratio are not in the file: they are those `M` had. -/
theorem saveESN_loadESN (c : Codec α ω) (hc : c.Faithful) (mem : InitMem α) (N M : ESNObj α)
    (a1 a2 a3 a4 : Nat → α)
    (h1 : N.d_inputWeights = some a1) (h2 : N.d_feedbackWeights = some a2)
    (h3 : N.d_outputWeights = some a3) (h4 : N.d_reservoirWeights = some a4) :
    ∃ file, saveESN c N = Except.ok file
      ∧ (loadESN c mem (some file) M).d_inputSize = N.d_inputSize
      ∧ (loadESN c mem (some file) M).d_outputSize = N.d_outputSize
      ∧ (loadESN c mem (some file) M).d_reservoirSize = N.d_reservoirSize
      ∧ (loadESN c mem (some file) M).d_reservoirActivation = N.d_reservoirActivation
      ∧ (loadESN c mem (some file) M).d_outputActivation = N.d_outputActivation
      ∧ (loadESN c mem (some file) M).d_connectivity = N.d_connectivity
      ∧ (loadESN c mem (some file) M).d_inConnectivity = N.d_inConnectivity
      ∧ (loadESN c mem (some file) M).d_fbConnectivity = N.d_fbConnectivity
      ∧ (loadESN c mem (some file) M).d_spectralRadius = N.d_spectralRadius
      ∧ (loadESN c mem (some file) M).d_inputScale = N.d_inputScale
      ∧ (loadESN c mem (some file) M).d_feedbackScale = N.d_feedbackScale
      ∧ (loadESN c mem (some file) M).d_inputShift = N.d_inputShift
      ∧ (loadESN c mem (some file) M).d_feedbackShift = N.d_feedbackShift
      ∧ (loadESN c mem (some file) M).d_timeConstant = N.d_timeConstant
      ∧ (loadESN c mem (some file) M).d_decayRate = M.d_decayRate
      ∧ (loadESN c mem (some file) M).d_excitatory = M.d_excitatory
      ∧ (∃ w, (loadESN c mem (some file) M).d_inputWeights = some w
          ∧ ∀ x, x < N.d_inputSize * N.d_reservoirSize → w x = a1 x)
      ∧ (∃ w, (loadESN c mem (some file) M).d_feedbackWeights = some w
          ∧ ∀ x, x < N.d_outputSize * N.d_reservoirSize → w x = a2 x)
      ∧ (∃ w, (loadESN c mem (some file) M).d_outputWeights = some w
          ∧ ∀ x, x < N.d_outputSize * N.d_reservoirSize + N.d_outputSize * N.d_inputSize →
              w x = a3 x)
      ∧ (∃ w, (loadESN c mem (some file) M).d_reservoirWeights = some w
          ∧ ∀ x, x < N.d_reservoirSize * N.d_reservoirSize → w x = a4 x) := by
  refine ⟨_, saveESN_file c N a1 a2 a3 a4 h1 h2 h3 h4, ?_⟩
  obtain ⟨hi, ha, hr⟩ := hc
  have l1 := loadWeights_saved c ⟨hi, ha, hr⟩ a1 (N.d_inputSize * N.d_reservoirSize)
    ((List.range (N.d_outputSize * N.d_reservoirSize)).map (fun x => c.ofReal (a2 x))
      ++ ((List.range (N.d_outputSize * N.d_reservoirSize
            + N.d_outputSize * N.d_inputSize)).map (fun x => c.ofReal (a3 x))
        ++ (List.range (N.d_reservoirSize * N.d_reservoirSize)).map
            (fun x => c.ofReal (a4 x)))) mem.inputWeights
  have l2 := loadWeights_saved c ⟨hi, ha, hr⟩ a2 (N.d_outputSize * N.d_reservoirSize)
    ((List.range (N.d_outputSize * N.d_reservoirSize
          + N.d_outputSize * N.d_inputSize)).map (fun x => c.ofReal (a3 x))
      ++ (List.range (N.d_reservoirSize * N.d_reservoirSize)).map
          (fun x => c.ofReal (a4 x))) mem.feedbackWeights
  have l3 := loadWeights_saved c ⟨hi, ha, hr⟩ a3
    (N.d_outputSize * N.d_reservoirSize + N.d_outputSize * N.d_inputSize)
    ((List.range (N.d_reservoirSize * N.d_reservoirSize)).map (fun x => c.ofReal (a4 x)))
    mem.outputWeights
  have l4 := loadWeights_saved c ⟨hi, ha, hr⟩ a4 (N.d_reservoirSize * N.d_reservoirSize) []
    mem.reservoirWeights
  rw [List.append_nil] at l4
  unfold loadESN
  simp only [readWord, hi, ha, hr]
  refine ⟨trivial, trivial, trivial, trivial, trivial, trivial, trivial, trivial, trivial,
    trivial, trivial, trivial, trivial, trivial, rfl, rfl, ⟨_, rfl, l1.2.1⟩, ⟨_, rfl, ?_⟩,
    ⟨_, rfl, ?_⟩, ⟨_, rfl, ?_⟩⟩
  · rw [l1.1]
    exact l2.2.1
  · rw [l1.1, l2.1]
    exact l3.2.1
  · rw [l1.1, l2.1, l3.1]
    exact l4.2.1

/-- C27 (amended): `loadESN` destroys the weight arrays before it opens the file.  When the
file cannot be opened the object is left as `destroy` leaves it: the scalar parameters are
unchanged, but the input, output, feedback and reservoir weight arrays and `d_output` are
null.  A truncated stream is not detected: on an empty stream the scalar parameters keep
their values and the four weight arrays are new arrays that hold what the allocated memory
held. -/
theorem loadESN_failure (c : Codec α ω) (mem : InitMem α) (net : ESNObj α) :
    loadESN c mem none net = destroy net
    ∧ (loadESN c mem none net).d_inputWeights = none
    ∧ (loadESN c mem none net).d_outputWeights = none
    ∧ (loadESN c mem none net).d_feedbackWeights = none
    ∧ (loadESN c mem none net).d_reservoirWeights = none
    ∧ (loadESN c mem none net).d_output = none
    ∧ (loadESN c mem none net)
        = { net with
            d_inputWeights := none, d_outputWeights := none, d_feedbackWeights := none,
            d_reservoirWeights := none, d_output := none }
    ∧ loadESN c mem (some []) net
        = { net with
            d_inputWeights := some mem.inputWeights,
            d_feedbackWeights := some mem.feedbackWeights,
            d_outputWeights := some mem.outputWeights,
            d_reservoirWeights := some mem.reservoirWeights, d_output := none } := by
  refine ⟨rfl, rfl, rfl, rfl, rfl, rfl, rfl, ?_⟩
  unfold loadESN
  simp only [readWord, loadWeights_nil]
  rfl

end persistence

/-- Witness of C26: the tagged words are a faithful representation, and the object
`exampleObjMem`, whose arrays are allocated, is saved and loaded into `exampleObj`. -/
theorem saveESN_loadESN_witness :
    exampleCodec.Faithful
    ∧ ∃ file, saveESN exampleCodec exampleObjMem = Except.ok file
      ∧ (loadESN exampleCodec exampleInitMem (some file) exampleObj).d_reservoirSize = 7
      ∧ (loadESN exampleCodec exampleInitMem (some file) exampleObj).d_decayRate = 1 := by
  obtain ⟨file, hf, h⟩ := saveESN_loadESN exampleCodec
    ⟨fun _ => rfl, fun _ => rfl, fun _ => rfl⟩ exampleInitMem exampleObjMem exampleObj
    (fun _ => 7) (fun _ => 7) (fun _ => 7) (fun _ => 7) rfl rfl rfl rfl
  exact ⟨⟨fun _ => rfl, fun _ => rfl, fun _ => rfl⟩, file, hf, h.2.2.1,
    h.2.2.2.2.2.2.2.2.2.2.2.2.2.2.1.trans (by decide!)⟩

/-- C26 (counterexample): the network `N` is `ESN(1, 1, 2, 0.5)` after `init` (decay rate
1), the object `M` the same constructed object with decay rate 3.  After `N.saveESN` and
`M.loadESN` the decay rate of `M` is 3, not 1. -/
theorem loadESN_keeps_decayRate :
    (init exampleLibQ exampleSrand (fun k => 100 * k) exampleInitMem (fun _ _ => none) 50
        exampleObj (fun k => k)).map
      (fun s =>
        (s.1.d_decayRate,
          (saveESN exampleCodec s.1).toOption.map
            (fun file =>
              (loadESN exampleCodec exampleInitMem (some file)
                (exampleObj.setDecayRate 3)).d_decayRate)))
      = Outcome.returned (1, some 3)
    ∧ (1 : ℚ) ≠ 3 := by
  refine ⟨by decide!, by decide!⟩

/-- C27 (counterexample): the network is `ESN(1, 1, 2, 0.5)` after `init`, so its weight
arrays are allocated; after `loadESN` of a file that cannot be opened the input and the
reservoir weight arrays are null. -/
theorem loadESN_destroys_weights :
    (init exampleLibQ exampleSrand (fun k => 100 * k) exampleInitMem (fun _ _ => none) 50
        exampleObj (fun k => k)).map
      (fun s =>
        (s.1.d_inputWeights.isSome, s.1.d_reservoirWeights.isSome,
          (loadESN exampleCodec exampleInitMem none s.1).d_inputWeights.isSome,
          (loadESN exampleCodec exampleInitMem none s.1).d_reservoirWeights.isSome))
      = Outcome.returned (true, true, false, false) := by
  decide!

end ESNObj

/-! ## Teacher forcing and the readout -/

namespace ESN

section readout

variable {α : Type} [LinearOrderedField α]

/-- Under teacher forcing a time step is its neuron loop: no output is computed. -/
theorem timeStep_teacher_forcing (net : ESN α) (I R t : Nat) (tr : Trial α) :
    timeStep net SimulationType.TEACHER_FORCING I R t tr = neuronLoop net I R t tr := by
  rw [timeStep_eq]
  simp [setOutput]

/-- Under teacher forcing `Run` is the iteration of the neuron loop. -/
theorem Run_teacher_forcing_eq (net : ESN α) (trial : Trial α) :
    Run net trial SimulationType.TEACHER_FORCING
      = forLoop trial.sampleSize (neuronLoop net trial.inputSize trial.stateSize) trial := by
  show forLoop _ _ _ = _
  exact forLoop_congr _ _ _ _ (fun t _ s => timeStep_teacher_forcing net _ _ t s)

/-- C32: for every network, every replacement `w` of its output weights and `f` of its
output activation, and every trial, `Run(trial, TEACHER_FORCING)` leaves the same trial
(reservoir states, debug values and outputs) with the replaced readout as with the original
one; hence the training runs of `RunTrials` leave the same trials, and the design matrix
`A` that `RidgeRegression` builds from them is the same. -/
theorem Run_teacher_forcing_readout (net : ESN α) (w : Nat → α) (f : α → α) (trial : Trial α)
    (trainSet : List Nat) (all_trials : List (Trial α)) (memA : Nat → Nat → α)
    (trial_len skip_samples : Nat) :
    Run { net with d_outputWeights := w, outActFunc := f } trial SimulationType.TEACHER_FORCING
      = Run net trial SimulationType.TEACHER_FORCING
    ∧ ESNPrediction.runTraining { net with d_outputWeights := w, outActFunc := f } trainSet
          all_trials
        = ESNPrediction.runTraining net trainSet all_trials
    ∧ ESNPrediction.designA { net with d_outputWeights := w, outActFunc := f } memA
          (ESNPrediction.deref
            (ESNPrediction.runTraining { net with d_outputWeights := w, outActFunc := f }
              trainSet all_trials) trainSet)
          trial_len skip_samples
        = ESNPrediction.designA net memA
            (ESNPrediction.deref (ESNPrediction.runTraining net trainSet all_trials) trainSet)
            trial_len skip_samples := by
  have hrun : ∀ tr : Trial α,
      Run { net with d_outputWeights := w, outActFunc := f } tr SimulationType.TEACHER_FORCING
        = Run net tr SimulationType.TEACHER_FORCING := by
    intro tr
    rw [Run_teacher_forcing_eq, Run_teacher_forcing_eq]
    rfl
  have htrain : ESNPrediction.runTraining { net with d_outputWeights := w, outActFunc := f }
      trainSet all_trials = ESNPrediction.runTraining net trainSet all_trials := by
    unfold ESNPrediction.runTraining
    have hstep : ∀ ptr (trials : List (Trial α)),
        ESNPrediction.trainStep { net with d_outputWeights := w, outActFunc := f } ptr trials
          = ESNPrediction.trainStep net ptr trials := by
      intro ptr trials
      unfold ESNPrediction.trainStep
      cases trials[ptr]? with
      | none => rfl
      | some tr => simp only [hrun]
    simp only [hstep]
  refine ⟨hrun trial, htrain, ?_⟩
  rw [htrain]
  rfl

end readout

end ESN

/-! ## The delay buffer of the Mackey-Glass generator -/

namespace Mackey

section generatorLoop

variable {α : Type} [LinearOrderedField α]

/-- The index and the accesses of `x_history` after `n` passes of the loop of `mackey`. -/
theorem mackeyLoop_index (deltat a b : α) (n : Nat) (s : MackeyState α) (hs : s.index = 1) :
    (forLoop n (mackeyStep 17 170 deltat a b) s).index = n % 170 + 1
    ∧ (forLoop n (mackeyStep 17 170 deltat a b) s).x_history.accesses
        = s.x_history.accesses
          ++ (List.range n).flatMap (fun i => [i % 170 + 1, i % 170 + 1]) := by
  induction n with
  | zero => simp [forLoop, hs]
  | succ k ih =>
    obtain ⟨h1, h2⟩ := ih
    rw [forLoop_succ]
    refine ⟨?_, ?_⟩
    · show (forLoop k (mackeyStep 17 170 deltat a b) s).index % 170 + 1 = (k + 1) % 170 + 1
      rw [h1]
      omega
    · show ((forLoop k (mackeyStep 17 170 deltat a b) s).x_history.accesses
          ++ [(forLoop k (mackeyStep 17 170 deltat a b) s).index])
          ++ [(forLoop k (mackeyStep 17 170 deltat a b) s).index] = _
      rw [h1, h2, List.range_succ, List.flatMap_append]
      simp

end generatorLoop

section generatorProps

variable {α : Type} [LinearOrderedField α] [FloorRing α]

/-- The constant `history_length` of `mackey` is `floor(17 / 0.1) = 170`. -/
theorem history_length_eq : Nat.floor (((17 : Nat) : α) / 0.1) = 170 := by
  have h : ((17 : Nat) : α) / 0.1 = ((170 : Nat) : α) := by norm_num
  rw [h, Nat.floor_natCast]

/-- C39 (the code at a failing input): `history_length` is `floor(17 / 0.1) = 170`, and
when `mackey` returns, pass `i` of its loop has read and then written `x_history` at the index
`i % 170 + 1` (the accesses before them are those of the loop of line 61).  The index runs
through `1, ..., 170`: for `sample_n >= 170` the array is read and written at index
`170 = history_length`, one past its last element. -/
theorem mackey_history_index (mem : Nat → α) (fuel : Nat) (X T : Nat → α) (sample_n : Nat)
    (s : MackeyState α) (h : mackey mem fuel X T sample_n = Outcome.returned s) :
    Nat.floor (((17 : Nat) : α) / 0.1) = 170
    ∧ (∃ z, zeroHistory fuel 0 { cells := mem, accesses := [] } = Outcome.returned z
        ∧ s.x_history.accesses
          = z.accesses ++ (List.range sample_n).flatMap (fun i => [i % 170 + 1, i % 170 + 1]))
    ∧ (170 ≤ sample_n → Nat.floor (((17 : Nat) : α) / 0.1) ∈ s.x_history.accesses) := by
  unfold mackey at h
  simp only [history_length_eq] at h
  obtain ⟨z, hz, hs⟩ := Outcome.bind_eq_returned _ _ _ h
  simp only [Outcome.returned.injEq] at hs
  have hacc := (mackeyLoop_index (0.1 : α) 0.2 0.1 sample_n
    { X := X, T := T, time := 0, index := 1, x_history := z, x_t := 1.2 } rfl).2
  rw [hs] at hacc
  refine ⟨history_length_eq, ⟨z, hz, hacc⟩, ?_⟩
  intro hn
  rw [history_length_eq, hacc]
  refine List.mem_append_right _ ?_
  rw [List.mem_flatMap]
  exact ⟨169, List.mem_range.mpr (by omega), by simp⟩

end generatorProps

/-- Witness of C39's failing input: `mackey` on zeroed memory with `sample_n = 170` returns,
and it has used `x_history` at index 170. -/
theorem mackey_history_index_witness :
    ∃ s, mackey (fun _ => (0 : ℚ)) 0 (fun _ => 0) (fun _ => 0) 170 = Outcome.returned s
      ∧ Nat.floor (((17 : Nat) : ℚ) / 0.1) = 170
      ∧ 170 ∈ s.x_history.accesses := by
  have hret : (mackey (fun _ => (0 : ℚ)) 0 (fun _ => 0) (fun _ => 0) 170).map (fun _ => 0)
      = Outcome.returned 0 := by decide!
  cases hrun : mackey (fun _ => (0 : ℚ)) 0 (fun _ => 0) (fun _ => 0) 170 with
  | returned s =>
    have h := mackey_history_index (fun _ => (0 : ℚ)) 0 (fun _ => 0) (fun _ => 0) 170 s hrun
    refine ⟨s, rfl, h.1, ?_⟩
    have h3 := h.2.2 (Nat.le_refl 170)
    rw [h.1] at h3
    exact h3
  | running =>
    rw [hrun] at hret
    exact absurd hret (by simp [Outcome.map, Outcome.bind])
  | aborted =>
    rw [hrun] at hret
    exact absurd hret (by simp [Outcome.map, Outcome.bind])

end Mackey

/-! ## The array accesses of `ESN::Run` -/

/-- A property of the state that every pass of a loop preserves holds after the loop. -/
theorem forLoop_invariant {σ : Type} (P : σ → Prop) (n : Nat) (body : Nat → σ → σ) (s : σ)
    (h0 : P s) (hstep : ∀ i, i < n → ∀ x, P x → P (body i x)) : P (forLoop n body s) := by
  induction n with
  | zero => exact h0
  | succ k ih =>
    rw [forLoop_succ]
    exact hstep k (Nat.lt_succ_self k) _ (ih (fun i hi x hx => hstep i (Nat.lt_succ_of_lt hi) x hx))

namespace ESN

section accessesProps

variable {α : Type} [LinearOrderedCommRing α]

/-- Element `n` of row `t` lies inside a buffer of `T` rows of `R` elements. -/
theorem row_index_lt (R T t n : Nat) (ht : t < T) (hn : n < R) : t * R + n < R * T := by
  calc t * R + n < t * R + R := by omega
    _ = (t + 1) * R := by ring
    _ ≤ T * R := Nat.mul_le_mul_right R ht
    _ = R * T := Nat.mul_comm T R

theorem InBounds.append {I O R T : Nat} {log new : List (RunBuffer × Nat)}
    (h : InBounds I O R T log) (hnew : InBounds I O R T new) :
    InBounds I O R T (log ++ new) := by
  intro acc hacc
  rcases List.mem_append.mp hacc with h1 | h1
  · exact h acc h1
  · exact hnew acc h1

end accessesProps

section accessesPlain

variable {α : Type}

theorem outputAccesses_inBounds (net : ESN α) (T t o : Nat) (ht : t < T)
    (ho : o < net.d_outputSize) (log : List (RunBuffer × Nat))
    (h : InBounds net.d_inputSize net.d_outputSize net.d_reservoirSize T log) :
    InBounds net.d_inputSize net.d_outputSize net.d_reservoirSize T
      (outputAccesses net net.d_inputSize t o log) := by
  unfold outputAccesses
  simp only []
  have hrow : ∀ k, k < net.d_reservoirSize + net.d_inputSize →
      o * (net.d_reservoirSize + net.d_inputSize) + k
        < net.d_outputSize * net.d_reservoirSize + net.d_outputSize * net.d_inputSize := by
    intro k hk
    have := row_index_lt (net.d_reservoirSize + net.d_inputSize) net.d_outputSize o k ho hk
    calc o * (net.d_reservoirSize + net.d_inputSize) + k
        < (net.d_reservoirSize + net.d_inputSize) * net.d_outputSize := this
      _ = net.d_outputSize * net.d_reservoirSize + net.d_outputSize * net.d_inputSize := by ring
  have h1 : InBounds net.d_inputSize net.d_outputSize net.d_reservoirSize T
      (forLoop net.d_reservoirSize
        (fun resNNr log =>
          log ++ [(RunBuffer.states, t * net.d_reservoirSize + resNNr),
            (RunBuffer.d_outputWeights,
              o * (net.d_reservoirSize + net.d_inputSize) + resNNr)])
        log) := by
    refine forLoop_invariant _ _ _ _ h (fun i hi x hx => hx.append ?_)
    intro acc hacc
    simp only [List.mem_cons, List.mem_singleton, List.not_mem_nil, or_false] at hacc
    rcases hacc with rfl | rfl
    · exact row_index_lt _ _ _ _ ht hi
    · exact hrow i (by omega)
  refine InBounds.append (forLoop_invariant _ _ _ _ h1 (fun i hi x hx => hx.append ?_)) ?_
  · intro acc hacc
    simp only [List.mem_cons, List.mem_singleton, List.not_mem_nil, or_false] at hacc
    rcases hacc with rfl | rfl
    · exact row_index_lt _ _ _ _ ht hi
    · have := hrow (net.d_reservoirSize + i) (by omega)
      rw [← Nat.add_assoc] at this
      exact this
  · intro acc hacc
    simp only [List.mem_singleton] at hacc
    subst hacc
    exact row_index_lt _ _ _ _ ht ho

end accessesPlain

section accessesRing

variable {α : Type} [LinearOrderedCommRing α]

theorem neuronAccesses_inBounds (net : ESN α) (T t n : Nat) (ht : t < T)
    (hn : n < net.d_reservoirSize) (log : List (RunBuffer × Nat))
    (h : InBounds net.d_inputSize net.d_outputSize net.d_reservoirSize T log) :
    InBounds net.d_inputSize net.d_outputSize net.d_reservoirSize T
      (neuronAccesses net net.d_inputSize t n log) := by
  unfold neuronAccesses
  simp only []
  have h1 : InBounds net.d_inputSize net.d_outputSize net.d_reservoirSize T
      (forLoop net.d_inputSize
        (fun inputNr log =>
          log ++ [(RunBuffer.input, t * net.d_inputSize + inputNr),
            (RunBuffer.d_inputWeights, n * net.d_inputSize + inputNr)])
        log) := by
    refine forLoop_invariant _ _ _ _ h (fun i hi x hx => hx.append ?_)
    intro acc hacc
    simp only [List.mem_cons, List.mem_singleton, List.not_mem_nil, or_false] at hacc
    rcases hacc with rfl | rfl
    · exact row_index_lt _ _ _ _ ht hi
    · exact row_index_lt _ _ _ _ hn hi
  have h2 : InBounds net.d_inputSize net.d_outputSize net.d_reservoirSize T
      (forLoop net.d_reservoirSize
        (fun innerResNr log =>
          if 0 < t then
            log ++ [(RunBuffer.states, (t - 1) * net.d_reservoirSize + innerResNr),
              (RunBuffer.d_reservoirWeights, n * net.d_reservoirSize + innerResNr)]
          else log)
        (forLoop net.d_inputSize
          (fun inputNr log =>
            log ++ [(RunBuffer.input, t * net.d_inputSize + inputNr),
              (RunBuffer.d_inputWeights, n * net.d_inputSize + inputNr)])
          log)) := by
    refine forLoop_invariant _ _ _ _ h1 (fun i hi x hx => ?_)
    by_cases h0 : 0 < t
    · rw [if_pos h0]
      refine hx.append ?_
      intro acc hacc
      simp only [List.mem_cons, List.mem_singleton, List.not_mem_nil, or_false] at hacc
      rcases hacc with rfl | rfl
      · exact row_index_lt _ _ _ _ (by omega) hi
      · exact row_index_lt _ _ _ _ hn hi
    · rw [if_neg h0]
      exact hx
  have h3 : InBounds net.d_inputSize net.d_outputSize net.d_reservoirSize T
      (if 0 < net.d_fbConnectivity then
        forLoop net.d_outputSize
          (fun outputNNr log =>
            if 0 < t then
              log ++ [(RunBuffer.output, (t - 1) * net.d_outputSize + outputNNr),
                (RunBuffer.d_feedbackWeights, n * net.d_outputSize + outputNNr)]
            else log)
          (forLoop net.d_reservoirSize
            (fun innerResNr log =>
              if 0 < t then
                log ++ [(RunBuffer.states, (t - 1) * net.d_reservoirSize + innerResNr),
                  (RunBuffer.d_reservoirWeights, n * net.d_reservoirSize + innerResNr)]
              else log)
            (forLoop net.d_inputSize
              (fun inputNr log =>
                log ++ [(RunBuffer.input, t * net.d_inputSize + inputNr),
                  (RunBuffer.d_inputWeights, n * net.d_inputSize + inputNr)])
              log))
      else
        forLoop net.d_reservoirSize
          (fun innerResNr log =>
            if 0 < t then
              log ++ [(RunBuffer.states, (t - 1) * net.d_reservoirSize + innerResNr),
                (RunBuffer.d_reservoirWeights, n * net.d_reservoirSize + innerResNr)]
            else log)
          (forLoop net.d_inputSize
            (fun inputNr log =>
              log ++ [(RunBuffer.input, t * net.d_inputSize + inputNr),
                (RunBuffer.d_inputWeights, n * net.d_inputSize + inputNr)])
            log)) := by
    by_cases hfb : 0 < net.d_fbConnectivity
    · rw [if_pos hfb]
      refine forLoop_invariant _ _ _ _ h2 (fun i hi x hx => ?_)
      by_cases h0 : 0 < t
      · rw [if_pos h0]
        refine hx.append ?_
        intro acc hacc
        simp only [List.mem_cons, List.mem_singleton, List.not_mem_nil, or_false] at hacc
        rcases hacc with rfl | rfl
        · exact row_index_lt _ _ _ _ (by omega) hi
        · have := row_index_lt net.d_outputSize net.d_reservoirSize n i hn hi
          show n * net.d_outputSize + i < net.d_outputSize * net.d_reservoirSize
          exact this
      · rw [if_neg h0]
        exact hx
    · rw [if_neg hfb]
      exact h2
  refine InBounds.append ?_ ?_
  · by_cases h0 : 0 < t
    · rw [if_pos h0]
      refine h3.append ?_
      intro acc hacc
      simp only [List.mem_singleton] at hacc
      subst hacc
      exact row_index_lt _ _ _ _ (by omega) hn
    · rw [if_neg h0]
      exact h3
  · intro acc hacc
    simp only [List.mem_cons, List.mem_singleton, List.not_mem_nil, or_false] at hacc
    rcases hacc with rfl | rfl | rfl
    · exact hn
    · exact row_index_lt _ _ _ _ ht hn
    · exact row_index_lt _ _ _ _ ht hn

/-- C36: for every network with sizes `I`, `O`, `R` whose weight arrays and thresholds have
the lengths `init` allocates, every trial with `stateSize = R`, `inputSize = I` and
`T = sampleSize` samples whose input buffer has `I * T`, output buffer `O * T` and state and
debug buffers `R * T` elements, and every simulation type, each index `ESN::Run` uses to read
or write an array is smaller than the length of that array. -/
theorem Run_accesses_in_bounds (net : ESN α) (trial : Trial α) (simType : SimulationType)
    (hstate : trial.stateSize = net.d_reservoirSize)
    (hinput : trial.inputSize = net.d_inputSize) :
    ∀ acc, acc ∈ RunAccesses net trial simType →
      acc.2 < RunBuffer.length net.d_inputSize net.d_outputSize net.d_reservoirSize
        trial.sampleSize acc.1 := by
  unfold RunAccesses
  simp only [hstate, hinput]
  refine forLoop_invariant (InBounds net.d_inputSize net.d_outputSize net.d_reservoirSize
    trial.sampleSize) _ _ _ (fun acc hacc => absurd hacc (List.not_mem_nil acc))
    (fun t ht log hlog => ?_)
  unfold timeStepAccesses
  simp only []
  have h1 : InBounds net.d_inputSize net.d_outputSize net.d_reservoirSize trial.sampleSize
      (forLoop net.d_reservoirSize (neuronAccesses net net.d_inputSize t) log) :=
    forLoop_invariant _ _ _ _ hlog
      (fun n hn x hx => neuronAccesses_inBounds net _ t n ht hn x hx)
  by_cases hs : setOutput net simType trial.teacherTestSize t = true
  · rw [if_pos hs]
    exact forLoop_invariant _ _ _ _ h1
      (fun o ho x hx => outputAccesses_inBounds net _ t o ht ho x hx)
  · rw [if_neg hs]
    exact h1

end accessesRing

/-- Witness of C36: `exampleTrial` has the sizes of `exampleNet`; `Run` on it in
`TEACHER_TESTING` mode reads `d_thresholds[1]`, and all its accesses are in bounds. -/
theorem Run_accesses_in_bounds_witness :
    (exampleTrial.stateSize = exampleNet.d_reservoirSize
      ∧ exampleTrial.inputSize = exampleNet.d_inputSize)
    ∧ (RunBuffer.d_thresholds, 1)
        ∈ RunAccesses exampleNet exampleTrial SimulationType.TEACHER_TESTING
    ∧ ∀ acc, acc ∈ RunAccesses exampleNet exampleTrial SimulationType.TEACHER_TESTING →
        acc.2 < RunBuffer.length 1 1 2 5 acc.1 :=
  ⟨⟨rfl, rfl⟩, by decide,
    Run_accesses_in_bounds exampleNet exampleTrial SimulationType.TEACHER_TESTING rfl rfl⟩

end ESN

/-! ## Bounded states under the `tanh` activation -/

namespace ESN

section bound

variable {α : Type} [LinearOrderedField α]

theorem abs_tanh_lt_one (x : ℝ) : |Real.tanh x| < 1 := by
  rw [Real.tanh_eq_sinh_div_cosh, abs_div, abs_of_pos (Real.cosh_pos x),
    div_lt_one (Real.cosh_pos x), abs_lt]
  refine ⟨?_, Real.sinh_lt_cosh x⟩
  have h := Real.sinh_lt_cosh (-x)
  rw [Real.sinh_neg, Real.cosh_neg] at h
  linarith

/-- One state update keeps the bound `1 / (1 - a)`. -/
theorem leak_bound_le (a x y : α) (ha0 : 0 ≤ a) (ha1 : a < 1) (hx : |x| ≤ 1 / (1 - a))
    (hy : |y| ≤ 1) : |a * x + y| ≤ 1 / (1 - a) := by
  have h1 : 0 < 1 - a := by linarith
  have hB : a * (1 / (1 - a)) + 1 = 1 / (1 - a) := by
    field_simp
  calc |a * x + y| ≤ |a * x| + |y| := abs_add _ _
    _ = a * |x| + |y| := by rw [abs_mul, abs_of_nonneg ha0]
    _ ≤ a * (1 / (1 - a)) + 1 := add_le_add (mul_le_mul_of_nonneg_left hx ha0) hy
    _ = 1 / (1 - a) := hB

/-- One state update keeps the bound `1 / (1 - a)` strictly, when the new activation lies
strictly below 1. -/
theorem leak_bound_lt (a x y : α) (ha0 : 0 ≤ a) (ha1 : a < 1) (hx : |x| < 1 / (1 - a))
    (hy : |y| < 1) : |a * x + y| < 1 / (1 - a) := by
  have h1 : 0 < 1 - a := by linarith
  have hB : a * (1 / (1 - a)) + 1 = 1 / (1 - a) := by
    field_simp
  calc |a * x + y| ≤ |a * x| + |y| := abs_add _ _
    _ = a * |x| + |y| := by rw [abs_mul, abs_of_nonneg ha0]
    _ < a * (1 / (1 - a)) + 1 :=
      add_lt_add_of_le_of_lt (mul_le_mul_of_nonneg_left hx.le ha0) hy
    _ = 1 / (1 - a) := hB

theorem one_le_leak_bound (a : α) (ha0 : 0 ≤ a) (ha1 : a < 1) : 1 ≤ 1 / (1 - a) := by
  rw [le_div_iff₀ (by linarith)]
  linarith

/-- The states written so far satisfy a bound `R |state| (1 / (1 - a))`, with `R` the
relation `≤` or `<`: those of the rows before `t` and those of the neurons before `m` in
row `t`. -/
theorem neuronLoop_bound (R : α → α → Prop) (net : ESN α) (libm : Libm α)
    (hact : net.resActFunc = ESNObj.act_tanh libm)
    (hti : ∀ x, R |libm.tanh x| 1)
    (hfirst : ∀ y, R |y| 1 → R |y| (1 / (1 - (1 - net.d_timeConstant * net.d_decayRate))))
    (hleak : ∀ x y, R |x| (1 / (1 - (1 - net.d_timeConstant * net.d_decayRate))) → R |y| 1 →
      R |(1 - net.d_timeConstant * net.d_decayRate) * x + y|
        (1 / (1 - (1 - net.d_timeConstant * net.d_decayRate))))
    (I S t m : Nat) (hm : m ≤ S) (tr : Trial α)
    (h : ∀ t1 n1, n1 < S → t1 < t →
      R |tr.neuronVal (t1 * net.d_reservoirSize + n1)|
        (1 / (1 - (1 - net.d_timeConstant * net.d_decayRate)))) :
    ∀ t1 n1, n1 < S → (t1 < t ∨ (t1 = t ∧ n1 < m)) →
      R |(neuronLoop net I m t tr).neuronVal (t1 * net.d_reservoirSize + n1)|
        (1 / (1 - (1 - net.d_timeConstant * net.d_decayRate))) := by
  induction m with
  | zero =>
    intro t1 n1 hn1 ht1
    rcases ht1 with ht1 | ⟨_, hlt⟩
    · exact h t1 n1 hn1 ht1
    · exact absurd hlt (Nat.not_lt_zero n1)
  | succ k ih =>
    have ihk := ih (by omega)
    intro t1 n1 hn1 ht1
    have hstep : (neuronLoop net I (k + 1) t tr).neuronVal
        = Function.update (neuronLoop net I k t tr).neuronVal (t * net.d_reservoirSize + k)
            (leftOver net (neuronLoop net I k t tr).neuronVal t k
              + total_input net (neuronLoop net I k t tr).inputVal
                  (neuronLoop net I k t tr).neuronVal (neuronLoop net I k t tr).outputVal I t k) :=
      rfl
    rw [hstep]
    by_cases hidx : t1 * net.d_reservoirSize + n1 = t * net.d_reservoirSize + k
    · rw [hidx, Function.update_same]
      have hti2 : R |total_input net (neuronLoop net I k t tr).inputVal
          (neuronLoop net I k t tr).neuronVal (neuronLoop net I k t tr).outputVal I t k| 1 := by
        unfold total_input
        simp only [hact, ESNObj.act_tanh]
        exact hti _
      unfold leftOver
      by_cases h0 : 0 < t
      · rw [if_pos h0]
        exact hleak _ _ (ihk (t - 1) k (by omega) (Or.inl (by omega))) hti2
      · rw [if_neg h0, zero_add]
        exact hfirst _ hti2
    · rw [Function.update_noteq hidx]
      rcases ht1 with ht1 | ⟨ht1, hlt⟩
      · exact ihk t1 n1 hn1 (Or.inl ht1)
      · rcases Nat.lt_succ_iff_lt_or_eq.mp hlt with hlt | heq
        · exact ihk t1 n1 hn1 (Or.inr ⟨ht1, hlt⟩)
        · exact absurd (by rw [ht1, heq]) hidx

/-- The states of the rows before `k` satisfy the bound after `k` time steps. -/
theorem runUpTo_bound (R : α → α → Prop) (net : ESN α) (libm : Libm α)
    (hact : net.resActFunc = ESNObj.act_tanh libm)
    (hti : ∀ x, R |libm.tanh x| 1)
    (hfirst : ∀ y, R |y| 1 → R |y| (1 / (1 - (1 - net.d_timeConstant * net.d_decayRate))))
    (hleak : ∀ x y, R |x| (1 / (1 - (1 - net.d_timeConstant * net.d_decayRate))) → R |y| 1 →
      R |(1 - net.d_timeConstant * net.d_decayRate) * x + y|
        (1 / (1 - (1 - net.d_timeConstant * net.d_decayRate))))
    (trial : Trial α) (simType : SimulationType) (k : Nat) :
    ∀ t1 n1, n1 < trial.stateSize → t1 < k →
      R |(runUpTo net trial simType k).neuronVal (t1 * net.d_reservoirSize + n1)|
        (1 / (1 - (1 - net.d_timeConstant * net.d_decayRate))) := by
  induction k with
  | zero =>
    intro t1 n1 _ ht1
    exact absurd ht1 (Nat.not_lt_zero t1)
  | succ k ih =>
    intro t1 n1 hn1 ht1
    rw [runUpTo_succ, timeStep_neuronVal]
    refine neuronLoop_bound R net libm hact hti hfirst hleak _ trial.stateSize k
      trial.stateSize (Nat.le_refl _) _ ih t1 n1 hn1 ?_
    rcases Nat.lt_succ_iff_lt_or_eq.mp ht1 with hlt | heq
    · exact Or.inl hlt
    · exact Or.inr ⟨heq, hn1⟩

/-- The states `ESN::Run` writes lie in `[-1 / (1 - a), 1 / (1 - a)]` when the values of
`tanh` lie in `[-1, 1]`. -/
theorem Run_states_le (net : ESN α) (libm : Libm α)
    (hact : net.resActFunc = ESNObj.act_tanh libm) (htanh : ∀ x, |libm.tanh x| ≤ 1)
    (ha0 : 0 ≤ 1 - net.d_timeConstant * net.d_decayRate)
    (ha1 : 1 - net.d_timeConstant * net.d_decayRate < 1) (trial : Trial α)
    (simType : SimulationType) (t n : Nat) (ht : t < trial.sampleSize)
    (hn : n < trial.stateSize) :
    |(Run net trial simType).neuronVal (t * net.d_reservoirSize + n)|
      ≤ 1 / (1 - (1 - net.d_timeConstant * net.d_decayRate)) :=
  runUpTo_bound (fun x y => x ≤ y) net libm hact htanh
    (fun _ hy => le_trans hy (one_le_leak_bound _ ha0 ha1))
    (fun x y hx hy => leak_bound_le _ x y ha0 ha1 hx hy) trial simType trial.sampleSize t n hn ht

/-- The states `ESN::Run` writes lie strictly inside the bound when the values of `tanh`
lie strictly between -1 and 1. -/
theorem Run_states_lt (net : ESN α) (libm : Libm α)
    (hact : net.resActFunc = ESNObj.act_tanh libm) (htanh : ∀ x, |libm.tanh x| < 1)
    (ha0 : 0 ≤ 1 - net.d_timeConstant * net.d_decayRate)
    (ha1 : 1 - net.d_timeConstant * net.d_decayRate < 1) (trial : Trial α)
    (simType : SimulationType) (t n : Nat) (ht : t < trial.sampleSize)
    (hn : n < trial.stateSize) :
    |(Run net trial simType).neuronVal (t * net.d_reservoirSize + n)|
      < 1 / (1 - (1 - net.d_timeConstant * net.d_decayRate)) :=
  runUpTo_bound (fun x y => x < y) net libm hact htanh
    (fun _ hy => lt_of_lt_of_le hy (one_le_leak_bound _ ha0 ha1))
    (fun x y hx hy => leak_bound_lt _ x y ha0 ha1 hx hy) trial simType trial.sampleSize t n hn ht

/-- With the real hyperbolic tangent the bound is strict: in exact real arithmetic every
state lies strictly inside `(-1 / (1 - a), 1 / (1 - a))`. -/
theorem Run_states_lt_real (net : ESN ℝ) (libm : Libm ℝ) (hlib : libm.tanh = Real.tanh)
    (hact : net.resActFunc = ESNObj.act_tanh libm)
    (ha0 : 0 ≤ 1 - net.d_timeConstant * net.d_decayRate)
    (ha1 : 1 - net.d_timeConstant * net.d_decayRate < 1) (trial : Trial ℝ)
    (simType : SimulationType) (t n : Nat) (ht : t < trial.sampleSize)
    (hn : n < trial.stateSize) :
    |(Run net trial simType).neuronVal (t * net.d_reservoirSize + n)|
      < 1 / (1 - (1 - net.d_timeConstant * net.d_decayRate)) :=
  Run_states_lt net libm hact (fun x => by rw [hlib]; exact abs_tanh_lt_one x) ha0 ha1 trial
    simType t n ht hn

theorem exampleLibmFloat_tanh_le (x : ℚ) : |exampleLibmFloat.tanh x| ≤ 1 := by
  show |if 10 ≤ x then (1 : ℚ) else if x ≤ -10 then -1 else x / (1 + |x|)| ≤ 1
  split_ifs
  · simp
  · simp
  · have hpos : (0 : ℚ) < 1 + |x| := by
      have := abs_nonneg x
      linarith
    rw [abs_div, abs_of_pos hpos, div_le_one hpos]
    linarith

/-- C35 (counterexample): the network `exampleNetTanh` has the `tanh` activation and the
leak coefficient `a = 1 - 1 * 1 = 0`.  With the input 100 and the input weight 0.14 the
argument of `tanh` for neuron 0 at time 0 is 14, where the `float` `tanh` returns exactly
1, so the state `ESN::Run` writes is 1, which is not below `1 / (1 - a) = 1`. -/
theorem Run_state_reaches_bound :
    input2ResVal exampleNetTanh exampleTrialLarge.inputVal 1 0 0 = 14
    ∧ exampleNetTanh.resActFunc 14 = 1
    ∧ 1 - exampleNetTanh.d_timeConstant * exampleNetTanh.d_decayRate = 0
    ∧ 0 < exampleTrialLarge.sampleSize ∧ 0 < exampleTrialLarge.stateSize
    ∧ (Run exampleNetTanh exampleTrialLarge SimulationType.TEACHER_FORCING).neuronVal
        (0 * exampleNetTanh.d_reservoirSize + 0) = 1
    ∧ ¬ |(Run exampleNetTanh exampleTrialLarge SimulationType.TEACHER_FORCING).neuronVal
          (0 * exampleNetTanh.d_reservoirSize + 0)|
        < 1 / (1 - (1 - exampleNetTanh.d_timeConstant * exampleNetTanh.d_decayRate)) := by
  decide!

/-- C35 (amended): for every network whose reservoir activation is `act_tanh` and whose
leak coefficient `a = 1 - timeConstant * decayRate` satisfies `0 <= a < 1`, every trial,
all weights and thresholds and every simulation type, in exact arithmetic for the sums and
products of `ESN::Run`: when the values of `tanh` lie in `[-1, 1]`, as those of the `float`
`tanh` do, each state `ESN::Run` writes satisfies `|state(t)[n]| <= 1 / (1 - a)`, and
`|state(t)[n]| <= 1` when `a = 0`; the bounds are strict when `|tanh x| < 1` for every `x`,
as for the real hyperbolic tangent. -/
theorem Run_states_within_bound (net : ESN α) (libm : Libm α)
    (hact : net.resActFunc = ESNObj.act_tanh libm)
    (ha0 : 0 ≤ 1 - net.d_timeConstant * net.d_decayRate)
    (ha1 : 1 - net.d_timeConstant * net.d_decayRate < 1) (trial : Trial α)
    (simType : SimulationType) (t n : Nat) (ht : t < trial.sampleSize)
    (hn : n < trial.stateSize) :
    ((∀ x, |libm.tanh x| ≤ 1) →
      |(Run net trial simType).neuronVal (t * net.d_reservoirSize + n)|
          ≤ 1 / (1 - (1 - net.d_timeConstant * net.d_decayRate))
      ∧ (1 - net.d_timeConstant * net.d_decayRate = 0 →
          |(Run net trial simType).neuronVal (t * net.d_reservoirSize + n)| ≤ 1))
    ∧ ((∀ x, |libm.tanh x| < 1) →
      |(Run net trial simType).neuronVal (t * net.d_reservoirSize + n)|
          < 1 / (1 - (1 - net.d_timeConstant * net.d_decayRate))
      ∧ (1 - net.d_timeConstant * net.d_decayRate = 0 →
          |(Run net trial simType).neuronVal (t * net.d_reservoirSize + n)| < 1)) := by
  constructor
  · intro htanh
    have h := Run_states_le net libm hact htanh ha0 ha1 trial simType t n ht hn
    refine ⟨h, fun h0 => ?_⟩
    rw [h0] at h
    simpa using h
  · intro htanh
    have h := Run_states_lt net libm hact htanh ha0 ha1 trial simType t n ht hn
    refine ⟨h, fun h0 => ?_⟩
    rw [h0] at h
    simpa using h

end bound

/-- Witness of C35 (amended) on `exampleNetTanh`, whose `tanh` takes the value 1: the leak
coefficient is 0 and the state of neuron 1 at time 2 of `exampleTrialLarge` has absolute
value at most 1. -/
theorem Run_states_within_bound_witness :
    (exampleNetTanh.resActFunc = ESNObj.act_tanh exampleLibmFloat
      ∧ 0 ≤ 1 - exampleNetTanh.d_timeConstant * exampleNetTanh.d_decayRate
      ∧ 1 - exampleNetTanh.d_timeConstant * exampleNetTanh.d_decayRate < 1
      ∧ 2 < exampleTrialLarge.sampleSize ∧ 1 < exampleTrialLarge.stateSize
      ∧ ∀ x, |exampleLibmFloat.tanh x| ≤ 1)
    ∧ |(Run exampleNetTanh exampleTrialLarge SimulationType.TEACHER_TESTING).neuronVal
          (2 * exampleNetTanh.d_reservoirSize + 1)| ≤ 1 :=
  ⟨⟨rfl, by decide!, by decide!, by decide, by decide, exampleLibmFloat_tanh_le⟩,
    ((Run_states_within_bound exampleNetTanh exampleLibmFloat rfl (by decide!) (by decide!)
      exampleTrialLarge SimulationType.TEACHER_TESTING 2 1 (by decide) (by decide)).1
        exampleLibmFloat_tanh_le).2 (by decide!)⟩

end ESN

/-! ## A second run of a trial -/

namespace ESN

section replay

variable {α : Type} [LinearOrderedCommRing α]

theorem Written_row (R S k c : Nat) : Written R S k S c ↔ Written R S (k + 1) 0 c := by
  constructor
  · rintro ⟨t, n, hn, ht, hc⟩
    refine ⟨t, n, hn, Or.inl ?_, hc⟩
    rcases ht with ht | ⟨ht, _⟩
    · omega
    · omega
  · rintro ⟨t, n, hn, ht, hc⟩
    refine ⟨t, n, hn, ?_, hc⟩
    rcases ht with ht | ⟨_, h0⟩
    · rcases Nat.lt_succ_iff_lt_or_eq.mp ht with h | h
      · exact Or.inl h
      · exact Or.inr ⟨h, hn⟩
    · exact absurd h0 (Nat.not_lt_zero n)

theorem fb2ResVal_congr (net : ESN α) (o1 o2 : Nat → α) (t n : Nat)
    (h : ∀ idx, idx < t * net.d_outputSize → o1 idx = o2 idx) :
    fb2ResVal net o1 t n = fb2ResVal net o2 t n := by
  unfold fb2ResVal
  by_cases hfb : 0 < net.d_fbConnectivity
  · rw [if_pos hfb, if_pos hfb]
    apply forLoop_congr
    intro i hi x
    by_cases ht : 0 < t
    · have hlt : (t - 1) * net.d_outputSize + i < t * net.d_outputSize := by
        obtain ⟨u, rfl⟩ : ∃ u, t = u + 1 := ⟨t - 1, by omega⟩
        simp only [Nat.add_sub_cancel, Nat.succ_mul]
        omega
      simp only [ht, if_true, h _ hlt]
    · simp only [ht, if_false]
  · rw [if_neg hfb, if_neg hfb]

theorem outputValue_congr (net : ESN α) (input s1 s2 : Nat → α) (I t o : Nat)
    (h : ∀ idx, idx < (t + 1) * net.d_reservoirSize → s1 idx = s2 idx) :
    outputValue net input s1 I t o = outputValue net input s2 I t o := by
  unfold outputValue
  simp only []
  congr 2
  apply forLoop_congr
  intro i hi x
  have hlt : t * net.d_reservoirSize + i < (t + 1) * net.d_reservoirSize := by
    rw [Nat.succ_mul]
    omega
  rw [h _ hlt]

theorem neuronLoop_debug_step (net : ESN α) (I t m : Nat) (tr : Trial α) :
    (neuronLoop net I (m + 1) t tr).debug
      = Function.update (neuronLoop net I m t tr).debug (t * net.d_reservoirSize + m)
          (total_input net (neuronLoop net I m t tr).inputVal
            (neuronLoop net I m t tr).neuronVal (neuronLoop net I m t tr).outputVal I t m) :=
  rfl

theorem neuronLoop_neuronVal_step (net : ESN α) (I t m : Nat) (tr : Trial α) :
    (neuronLoop net I (m + 1) t tr).neuronVal
      = Function.update (neuronLoop net I m t tr).neuronVal (t * net.d_reservoirSize + m)
          (leftOver net (neuronLoop net I m t tr).neuronVal t m
            + total_input net (neuronLoop net I m t tr).inputVal
              (neuronLoop net I m t tr).neuronVal (neuronLoop net I m t tr).outputVal I t m) :=
  rfl

/-- The neuron loop of time step `k` on two trials `X` and `Y` that agree on what the step
reads: the loops write the same values, and leave the other cells as they are. -/
theorem neuronLoop_replay (net : ESN α) (I S k : Nat) (T1 X Y : Trial α)
    (hin : X.inputVal = Y.inputVal)
    (hout : ∀ c, c < k * net.d_outputSize → X.outputVal c = Y.outputVal c)
    (hlow : ∀ c, c < k * net.d_reservoirSize → X.neuronVal c = Y.neuronVal c)
    (hW : ∀ c, Written net.d_reservoirSize S k 0 c →
      X.neuronVal c = Y.neuronVal c ∧ X.debug c = Y.debug c)
    (hN : ∀ c, ¬ Written net.d_reservoirSize S k 0 c →
      X.neuronVal c = T1.neuronVal c ∧ X.debug c = T1.debug c)
    (m : Nat) (hm : m ≤ S) :
    (∀ c, Written net.d_reservoirSize S k m c →
      (neuronLoop net I m k X).neuronVal c = (neuronLoop net I m k Y).neuronVal c
      ∧ (neuronLoop net I m k X).debug c = (neuronLoop net I m k Y).debug c)
    ∧ (∀ c, ¬ Written net.d_reservoirSize S k m c →
      (neuronLoop net I m k X).neuronVal c = T1.neuronVal c
      ∧ (neuronLoop net I m k X).debug c = T1.debug c) := by
  induction m with
  | zero => exact ⟨hW, hN⟩
  | succ j ih =>
    obtain ⟨ihW, ihN⟩ := ih (by omega)
    have hinj : (neuronLoop net I j k X).inputVal = (neuronLoop net I j k Y).inputVal := by
      rw [(neuronLoop_sameFrame net I k j X).1, (neuronLoop_sameFrame net I k j Y).1, hin]
    have hlowj : ∀ c, c < k * net.d_reservoirSize →
        (neuronLoop net I j k X).neuronVal c = (neuronLoop net I j k Y).neuronVal c := by
      intro c hc
      rw [neuronLoop_neuronVal_below net I k j X c hc, neuronLoop_neuronVal_below net I k j Y c hc]
      exact hlow c hc
    have houtj : ∀ c, c < k * net.d_outputSize →
        (neuronLoop net I j k X).outputVal c = (neuronLoop net I j k Y).outputVal c := by
      intro c hc
      rw [neuronLoop_outputVal, neuronLoop_outputVal]
      exact hout c hc
    have hti : total_input net (neuronLoop net I j k X).inputVal
        (neuronLoop net I j k X).neuronVal (neuronLoop net I j k X).outputVal I k j
        = total_input net (neuronLoop net I j k Y).inputVal
          (neuronLoop net I j k Y).neuronVal (neuronLoop net I j k Y).outputVal I k j := by
      unfold total_input
      simp only []
      rw [hinj, res2ResVal_congr net _ _ k j hlowj, fb2ResVal_congr net _ _ k j houtj]
    have hlo : leftOver net (neuronLoop net I j k X).neuronVal k j
        = leftOver net (neuronLoop net I j k Y).neuronVal k j := by
      unfold leftOver
      by_cases h0 : 0 < k
      · rw [if_pos h0, if_pos h0]
        have hw : Written net.d_reservoirSize S k j ((k - 1) * net.d_reservoirSize + j) :=
          ⟨k - 1, j, by omega, Or.inl (by omega), rfl⟩
        rw [(ihW _ hw).1]
      · rw [if_neg h0, if_neg h0]
    refine ⟨?_, ?_⟩
    · intro c hc
      rw [neuronLoop_neuronVal_step, neuronLoop_neuronVal_step, neuronLoop_debug_step,
        neuronLoop_debug_step, hti, hlo]
      by_cases hck : c = k * net.d_reservoirSize + j
      · rw [hck, Function.update_same, Function.update_same, Function.update_same,
          Function.update_same]
        exact ⟨rfl, rfl⟩
      · rw [Function.update_noteq hck, Function.update_noteq hck, Function.update_noteq hck,
          Function.update_noteq hck]
        refine ihW c ?_
        obtain ⟨t, n, hn, ht, hcn⟩ := hc
        refine ⟨t, n, hn, ?_, hcn⟩
        rcases ht with ht | ⟨ht, hlt⟩
        · exact Or.inl ht
        · rcases Nat.lt_succ_iff_lt_or_eq.mp hlt with hlt | heq
          · exact Or.inr ⟨ht, hlt⟩
          · exact absurd (by rw [hcn, ht, heq]) hck
    · intro c hc
      have hck : c ≠ k * net.d_reservoirSize + j := by
        intro heq
        exact hc ⟨k, j, by omega, Or.inr ⟨rfl, Nat.lt_succ_self j⟩, heq⟩
      rw [neuronLoop_neuronVal_step, neuronLoop_debug_step, Function.update_noteq hck,
        Function.update_noteq hck]
      refine ihN c ?_
      rintro ⟨t, n, hn, ht, hcn⟩
      refine hc ⟨t, n, hn, ?_, hcn⟩
      rcases ht with ht | ⟨ht, hlt⟩
      · exact Or.inl ht
      · exact Or.inr ⟨ht, Nat.lt_succ_of_lt hlt⟩

theorem timeStep_debug (net : ESN α) (sim : SimulationType) (I R t : Nat) (tr : Trial α) :
    (timeStep net sim I R t tr).debug = (neuronLoop net I R t tr).debug := by
  have hout : ∀ m (x : Trial α), (forLoop m (outputStep net I t) x).debug = x.debug := by
    intro m x
    induction m with
    | zero => rfl
    | succ k ih => exact ih
  unfold timeStep
  by_cases h : setOutput net sim (neuronLoop net I R t tr).teacherTestSize t = true
  · simp only [h, if_true]
    exact hout _ _
  · simp only [h]
    rfl

/-- Two trials with the same frame and the same three buffers are equal. -/
theorem Trial.eq_of_sameFrame {β : Type} (a b : Trial β) (h : a.sameFrame b)
    (h1 : a.neuronVal = b.neuronVal) (h2 : a.outputVal = b.outputVal)
    (h3 : a.debug = b.debug) : a = b := by
  obtain ⟨f1, f2, f3, f4, f5, f6⟩ := h
  cases a
  cases b
  simp only [] at f1 f2 f3 f4 f5 f6 h1 h2 h3
  subst f1 f2 f3 f4 f5 f6 h1 h2 h3
  rfl

/-- The first `k` time steps of a second call of `Run` on the trial the first call left:
the cells written so far hold what the first call wrote in its first `k` steps, and all other
cells, and the output buffer, are as the first call left them. -/
theorem runUpTo_replay (net : ESN α) (T0 : Trial α) (sim : SimulationType) (k : Nat)
    (hk : k ≤ T0.sampleSize) :
    (runUpTo net (Run net T0 sim) sim k).outputVal = (Run net T0 sim).outputVal
    ∧ (∀ c, Written net.d_reservoirSize T0.stateSize k 0 c →
        (runUpTo net (Run net T0 sim) sim k).neuronVal c = (runUpTo net T0 sim k).neuronVal c
        ∧ (runUpTo net (Run net T0 sim) sim k).debug c = (runUpTo net T0 sim k).debug c)
    ∧ (∀ c, ¬ Written net.d_reservoirSize T0.stateSize k 0 c →
        (runUpTo net (Run net T0 sim) sim k).neuronVal c = (Run net T0 sim).neuronVal c
        ∧ (runUpTo net (Run net T0 sim) sim k).debug c = (Run net T0 sim).debug c) := by
  have hT1 : (Run net T0 sim).sameFrame T0 := runUpTo_sameFrame net T0 sim T0.sampleSize
  induction k with
  | zero =>
    refine ⟨rfl, ?_, fun c _ => ⟨rfl, rfl⟩⟩
    rintro c ⟨t, n, _, ht, _⟩
    rcases ht with ht | ⟨_, ht⟩
    · exact absurd ht (Nat.not_lt_zero t)
    · exact absurd ht (Nat.not_lt_zero n)
  | succ k ih =>
    obtain ⟨ihO, ihW, ihN⟩ := ih (by omega)
    have hX : (runUpTo net (Run net T0 sim) sim k).sameFrame T0 :=
      Trial.sameFrame_trans (runUpTo_sameFrame net (Run net T0 sim) sim k) hT1
    have hY : (runUpTo net T0 sim k).sameFrame T0 := runUpTo_sameFrame net T0 sim k
    have hin : (runUpTo net (Run net T0 sim) sim k).inputVal = (runUpTo net T0 sim k).inputVal := by
      rw [hX.1, hY.1]
    have hout : ∀ c, c < k * net.d_outputSize →
        (runUpTo net (Run net T0 sim) sim k).outputVal c = (runUpTo net T0 sim k).outputVal c := by
      intro c hc
      rw [ihO]
      exact runUpTo_outputVal_frozen net T0 sim k T0.sampleSize c (by omega) hc
    have hlow : ∀ c, c < k * net.d_reservoirSize →
        (runUpTo net (Run net T0 sim) sim k).neuronVal c = (runUpTo net T0 sim k).neuronVal c := by
      intro c hc
      by_cases hw : Written net.d_reservoirSize T0.stateSize k 0 c
      · exact (ihW c hw).1
      · rw [(ihN c hw).1]
        exact runUpTo_neuronVal_frozen net T0 sim k T0.sampleSize c (by omega) hc
    obtain ⟨hA1, hA2⟩ := neuronLoop_replay net T0.inputSize T0.stateSize k (Run net T0 sim)
      (runUpTo net (Run net T0 sim) sim k) (runUpTo net T0 sim k) hin hout hlow ihW ihN
      T0.stateSize (Nat.le_refl _)
    have hstepX : runUpTo net (Run net T0 sim) sim (k + 1)
        = timeStep net sim T0.inputSize T0.stateSize k (runUpTo net (Run net T0 sim) sim k) := by
      rw [runUpTo_succ, hT1.2.2.2.2.2, hT1.2.1]
    have hstepY : runUpTo net T0 sim (k + 1)
        = timeStep net sim T0.inputSize T0.stateSize k (runUpTo net T0 sim k) := runUpTo_succ _ _ _ _
    have hrow : ∀ c, c < (k + 1) * net.d_reservoirSize →
        (neuronLoop net T0.inputSize T0.stateSize k (runUpTo net (Run net T0 sim) sim k)).neuronVal c
          = (neuronLoop net T0.inputSize T0.stateSize k (runUpTo net T0 sim k)).neuronVal c := by
      intro c hc
      by_cases hw : Written net.d_reservoirSize T0.stateSize k T0.stateSize c
      · exact (hA1 c hw).1
      · rw [(hA2 c hw).1, ← timeStep_neuronVal net sim, ← hstepY]
        exact runUpTo_neuronVal_frozen net T0 sim (k + 1) T0.sampleSize c hk hc
    refine ⟨?_, ?_, ?_⟩
    · rw [hstepX]
      funext c
      by_cases hs : setOutput net sim (runUpTo net (Run net T0 sim) sim k).teacherTestSize k = true
      · by_cases hc : ∃ o, o < net.d_outputSize ∧ c = k * net.d_outputSize + o
        · obtain ⟨o, ho, rfl⟩ := hc
          rw [timeStep_outputVal_at net sim _ _ k _ o hs ho]
          have hsY : setOutput net sim (runUpTo net T0 sim k).teacherTestSize k = true := by
            rw [hY.2.2.2.2.1, ← hX.2.2.2.2.1]
            exact hs
          have hfro : (Run net T0 sim).outputVal (k * net.d_outputSize + o)
              = (runUpTo net T0 sim (k + 1)).outputVal (k * net.d_outputSize + o) := by
            refine runUpTo_outputVal_frozen net T0 sim (k + 1) T0.sampleSize _ hk ?_
            rw [Nat.succ_mul]
            omega
          rw [hfro, hstepY, timeStep_outputVal_at net sim _ _ k _ o hsY ho, hin]
          exact outputValue_congr net _ _ _ _ k o hrow
        · rw [timeStep_outputVal_other net sim _ _ k _ c
            (fun o ho heq => hc ⟨o, ho, heq⟩), ihO]
      · have hs2 : setOutput net sim (runUpTo net (Run net T0 sim) sim k).teacherTestSize k
            = false := by
          cases h : setOutput net sim (runUpTo net (Run net T0 sim) sim k).teacherTestSize k
          · rfl
          · exact absurd h hs
        rw [timeStep_outputVal_noset net sim _ _ k _ hs2, ihO]
    · intro c hc
      rw [hstepX, hstepY, timeStep_neuronVal, timeStep_neuronVal, timeStep_debug, timeStep_debug]
      exact hA1 c ((Written_row _ _ _ _).mpr hc)
    · intro c hc
      rw [hstepX, timeStep_neuronVal, timeStep_debug]
      exact hA2 c (fun hw => hc ((Written_row _ _ _ _).mp hw))

/-- A second call of `Run` on the trial the first call left changes nothing. -/
theorem Run_Run (net : ESN α) (trial : Trial α) (simType : SimulationType) :
    Run net (Run net trial simType) simType = Run net trial simType := by
  have hT1 : (Run net trial simType).sameFrame trial :=
    runUpTo_sameFrame net trial simType trial.sampleSize
  obtain ⟨hO, hW, hN⟩ := runUpTo_replay net trial simType trial.sampleSize (Nat.le_refl _)
  have hrun : Run net (Run net trial simType) simType
      = runUpTo net (Run net trial simType) simType trial.sampleSize := by
    show runUpTo net (Run net trial simType) simType (Run net trial simType).sampleSize = _
    rw [hT1.2.2.1]
  rw [hrun]
  refine Trial.eq_of_sameFrame _ _ (runUpTo_sameFrame net (Run net trial simType) simType _) ?_ hO ?_
  · funext c
    by_cases hw : Written net.d_reservoirSize trial.stateSize trial.sampleSize 0 c
    · exact (hW c hw).1
    · exact (hN c hw).1
  · funext c
    by_cases hw : Written net.d_reservoirSize trial.stateSize trial.sampleSize 0 c
    · exact (hW c hw).2
    · exact (hN c hw).2

/-- C33: for every network, trial and simulation type, a second call of `Run` on the trial the
first call left changes nothing: the trial after `Run(trial, simType); Run(trial, simType)`
equals the trial after one call (reservoir states, debug values, output buffer and all other
fields).  Hence, whenever `RunTest` returns, a second `RunTest` with the same index leaves the
predictor as the first left it and returns the same `result`. -/
theorem Run_idempotent (net : ESN α) (trial : Trial α) (simType : SimulationType)
    (p : ESNPrediction α) (index : Nat) (input result input2 : Nat → α) :
    Run net (Run net trial simType) simType = Run net trial simType
    ∧ match ESNPrediction.RunTest p index input result with
      | none => True
      | some r =>
        ∃ input3, ESNPrediction.RunTest r.1 index input2 result = some (r.1, input3, r.2.2) := by
  refine ⟨Run_Run net trial simType, ?_⟩
  cases h1 : ESNPrediction.GetTestSet p with
  | none => simp only [ESNPrediction.RunTest, h1]
  | some testSet =>
    cases h2 : testSet[index]? with
    | none => simp only [ESNPrediction.RunTest, h1, h2]
    | some ptr =>
      cases h3 : p.all_trials[ptr]? with
      | none => simp only [ESNPrediction.RunTest, h1, h2, h3]
      | some tr =>
        have hlt : ptr < p.all_trials.length := by
          by_contra hge
          rw [List.getElem?_eq_none (by omega)] at h3
          exact absurd h3 (by simp)
        have hset : ESNPrediction.GetTestSet
            { p with all_trials := p.all_trials.set ptr (Run p.esn tr SimulationType.TEACHER_TESTING) }
            = some testSet := by
          rw [← h1]
          unfold ESNPrediction.GetTestSet
          simp only [List.length_set]
        have hget : (p.all_trials.set ptr (Run p.esn tr SimulationType.TEACHER_TESTING))[ptr]?
            = some (Run p.esn tr SimulationType.TEACHER_TESTING) := by
          rw [List.getElem?_set]
          simp [hlt]
        have hlen : (Run p.esn tr SimulationType.TEACHER_TESTING).sampleSize = tr.sampleSize :=
          (runUpTo_sameFrame p.esn tr SimulationType.TEACHER_TESTING tr.sampleSize).2.2.1
        simp only [ESNPrediction.RunTest, h1, h2, h3, hset, hget, Run_Run, hlen, List.set_set]
        exact ⟨_, rfl⟩

end replay

end ESN

/-! ## Running a loaded network -/

namespace ESNObj

/-- C37 (the code at a failing input): the network `N` is `ESN(1, 1, 2, 0.5)` with decay rate
`0.5` after `init`; on a trial of two samples `Run` on `N` gives neuron 1 the states `7/57`
and `7/38`.  `N` is saved and the file loaded into a freshly constructed `ESN(1, 1, 2, 0.5)`.
When the memory of that object holds a pointer to zeros in `d_thresholds` (the thresholds of
`N`), `Run` on it gives neuron 1 the states `7/57` and `7/57`: the decay rate is still the 1
of the constructor.  When that memory holds a null `d_thresholds`, `Run` stops at its
assertion `d_thresholds != NULL`. -/
theorem loadESN_run_differs :
    (init exampleLibQ exampleSrand (fun k => 100 * k) exampleInitMem (fun _ _ => none) 50
        (exampleObj.setDecayRate (1 / 2)) (fun k => k)).map
      (fun s => exampleStates (Run s.1 (some exampleTrialObj2) SimulationType.TEACHER_TESTING))
      = Outcome.returned (some (7 / 57, 7 / 38))
    ∧ (init exampleLibQ exampleSrand (fun k => 100 * k) exampleInitMem (fun _ _ => none) 50
        (exampleObj.setDecayRate (1 / 2)) (fun k => k)).map
      (fun s =>
        (saveESN exampleCodec s.1).toOption.bind
          (fun file =>
            (ESNObj.new exampleLibmQ { exampleObjMem with d_thresholds := some (fun _ => 0) }
                1 1 2 (1 / 2)).toOption.bind
              (fun M =>
                exampleStates
                  (Run (loadESN exampleCodec exampleInitMem (some file) M)
                    (some exampleTrialObj2) SimulationType.TEACHER_TESTING))))
      = Outcome.returned (some (7 / 57, 7 / 57))
    ∧ (init exampleLibQ exampleSrand (fun k => 100 * k) exampleInitMem (fun _ _ => none) 50
        (exampleObj.setDecayRate (1 / 2)) (fun k => k)).map
      (fun s =>
        (saveESN exampleCodec s.1).toOption.bind
          (fun file =>
            (ESNObj.new exampleLibmQ { exampleObjMem with d_thresholds := none }
                1 1 2 (1 / 2)).toOption.bind
              (fun M =>
                exampleFault
                  (Run (loadESN exampleCodec exampleInitMem (some file) M)
                    (some exampleTrialObj2) SimulationType.TEACHER_TESTING))))
      = Outcome.returned (some Fault.assertion) := by
  refine ⟨by decide!, by decide!, by decide!⟩

end ESNObj

/-! ## The input scale and the input shift -/

theorem Outcome.bind_eq_map_bind {σ τ υ : Type} (o : Outcome σ) (f : σ → Outcome υ)
    (f2 : σ → Outcome τ) (g : τ → υ) (h : ∀ x, f x = (f2 x).map g) :
    o.bind f = (o.bind f2).map g := by
  cases o with
  | returned x => exact h x
  | running => rfl
  | aborted => rfl

theorem Outcome.map_bind_eq_bind_map {σ ρ τ υ : Type} (o : Outcome σ) (g : σ → ρ)
    (f : ρ → Outcome υ) (f2 : σ → Outcome τ) (g2 : τ → υ)
    (h : ∀ x, f (g x) = (f2 x).map g2) : (o.map g).bind f = (o.bind f2).map g2 := by
  cases o with
  | returned x => exact h x
  | running => rfl
  | aborted => rfl

namespace ESNObj

section inputScale

variable {α : Type} [LinearOrderedField α]

/-- The loop of `generateConnections`: every cell of the array it returns holds what it held
before the loop or the uniform draw made with one of the random numbers. -/
theorem generateConnectionsLoop_cells (lib : Lib α) (connectivity : α)
    (weightSize connectionSize : Nat) (min max : α) (fuel : Nat) :
    ∀ (x : Nat) (w : Nat → α) (r : Nat → Nat) (w1 : Nat → α) (r1 : Nat → Nat),
      generateConnectionsLoop lib connectivity weightSize connectionSize min max fuel (x, w, r)
        = Outcome.returned (w1, r1) →
      ∀ y, w1 y = w y
        ∨ ∃ k, w1 y = (r k : α) / ((lib.RAND_MAX : α) + 1) * (max - min) + min := by
  induction fuel with
  | zero =>
    intro x w r w1 r1 h y
    unfold generateConnectionsLoop at h
    by_cases hx : x < connectionSize
    · simp [hx] at h
    · simp only [hx, if_false, Outcome.returned.injEq, Prod.mk.injEq] at h
      exact Or.inl (by rw [← h.1])
  | succ n ih =>
    intro x w r w1 r1 h y
    unfold generateConnectionsLoop at h
    by_cases hx : x < connectionSize
    · simp only [hx, if_true] at h
      by_cases hc : connectivity ≠ 1
      · rw [if_pos hc] at h
        by_cases hocc : w (r 0 % weightSize) ≠ 0
        · rw [if_pos hocc] at h
          rcases ih _ _ _ w1 r1 h y with h1 | ⟨k, hk⟩
          · exact Or.inl h1
          · exact Or.inr ⟨k + 1, hk⟩
        · rw [if_neg hocc] at h
          rcases ih _ _ _ w1 r1 h y with h1 | ⟨k, hk⟩
          · by_cases hy : y = r 0 % weightSize
            · right
              refine ⟨1, ?_⟩
              rw [h1, hy, Function.update_same]
              rfl
            · left
              rw [h1, Function.update_noteq hy]
          · exact Or.inr ⟨k + 2, hk⟩
      · rw [if_neg hc] at h
        rcases ih _ _ _ w1 r1 h y with h1 | ⟨k, hk⟩
        · by_cases hy : y = x
          · right
            refine ⟨0, ?_⟩
            rw [h1, hy, Function.update_same]
            rfl
          · left
            rw [h1, Function.update_noteq hy]
        · exact Or.inr ⟨k + 1, hk⟩
    · simp only [hx, if_false, Outcome.returned.injEq, Prod.mk.injEq] at h
      exact Or.inl (by rw [← h.1])

/-- The function `scaleAndShift` cell by cell. -/
theorem scaleAndShift_apply (w : Nat → α) (n : Nat) (scale shift : α) (x : Nat) :
    scaleAndShift w n scale shift x = if x < n then w x * scale + shift else w x := by
  unfold scaleAndShift
  induction n with
  | zero => simp [forLoop]
  | succ k ih =>
    rw [forLoop_succ]
    by_cases hx : x = k
    · subst hx
      rw [Function.update_same, ih]
      simp
    · rw [Function.update_noteq hx, ih]
      by_cases hlt : x < k
      · simp [hlt, Nat.lt_succ_of_lt hlt]
      · have : ¬ x < k + 1 := by omega
        simp [hlt, this]

end inputScale

section inputScaleFloor

variable {α : Type} [LinearOrderedField α] [FloorRing α]

/-- The reservoir generation does not read the input scale and the input shift. -/
theorem generateReservoirConnections_inputScale (lib : Lib α) (mem : InitMem α)
    (createBalancedNetwork : aNetwork.Network α → (Nat → Nat) →
      Option (aNetwork.Network α × (Nat → Nat) × Bool))
    (fuel : Nat) (net : ESNObj α) (rand : Nat → Nat) (scale shift : α) :
    generateReservoirConnections lib mem createBalancedNetwork fuel
        { net with d_inputScale := scale, d_inputShift := shift } rand
      = (generateReservoirConnections lib mem createBalancedNetwork fuel net rand).map
          (fun r => ({ r.1 with d_inputScale := scale, d_inputShift := shift }, r.2)) := by
  unfold generateReservoirConnections
  simp only []
  cases ESN.generateReservoirConnections lib mem.a createBalancedNetwork mem.reservoirWeights
      mem.indices net.d_reservoirSize net.d_connectivity net.d_spectralRadius net.d_excitatory
      net.reservoir fuel rand with
  | returned r rand1 => rfl
  | running r rand1 => rfl
  | aborted => rfl

/-- The function `init` does not read the input scale and the input shift: with other values
of these two members it does the same, and returns the same object up to these members. -/
theorem init_inputScale (lib : Lib α) (srand : Nat → Nat → Nat) (time : Nat → Nat)
    (mem : InitMem α)
    (createBalancedNetwork : aNetwork.Network α → (Nat → Nat) →
      Option (aNetwork.Network α × (Nat → Nat) × Bool))
    (fuel : Nat) (net : ESNObj α) (rand : Nat → Nat) (scale shift : α) :
    init lib srand time mem createBalancedNetwork fuel
        { net with d_inputScale := scale, d_inputShift := shift } rand
      = (init lib srand time mem createBalancedNetwork fuel net rand).map
          (fun r => ({ r.1 with d_inputScale := scale, d_inputShift := shift }, r.2)) := by
  unfold init
  simp only []
  refine Outcome.bind_eq_map_bind _ _ _ _ (fun s1 => ?_)
  refine Outcome.bind_eq_map_bind _ _ _ _ (fun s2 => ?_)
  refine Outcome.bind_eq_map_bind _ _ _ _ (fun s3 => ?_)
  have e := generateReservoirConnections_inputScale lib mem createBalancedNetwork fuel
    { destroy net with
      d_inputWeights := some s1.1, d_feedbackWeights := some s2.1,
      d_outputWeights := some s3.1,
      d_thresholds :=
        some (forLoop net.d_reservoirSize (fun i th => Function.update th i (0 : α))
          mem.thresholds) } s3.2 scale shift
  refine Eq.trans (congrArg (fun o => Outcome.bind o _) e) ?_
  exact Outcome.map_bind_eq_bind_map _ _ _ _ _ (fun r => rfl)

/-- C38 (amended): in the compiled configuration `init` does not read the input scale and
the input shift: with any other values `scale` and `shift` of these two members (and the same
clock readings and random stream) it returns the same object up to these two members, so the
input weights are identical.  When `init` returns, each input weight is 0 (a cell that was not
selected), a uniform draw from `[-1, 1)` made with one of the random numbers after the seeding,
or `0.14` or `-0.14`; and each feedback weight is what `generateConnections` left in the cell,
multiplied by the feedback scale and shifted by the feedback shift. -/
theorem init_input_scale_unused (lib : Lib α) (srand : Nat → Nat → Nat) (time : Nat → Nat)
    (mem : InitMem α)
    (createBalancedNetwork : aNetwork.Network α → (Nat → Nat) →
      Option (aNetwork.Network α × (Nat → Nat) × Bool))
    (fuel : Nat) (net net1 : ESNObj α) (rand rand1 : Nat → Nat) (scale shift : α)
    (h : init lib srand time mem createBalancedNetwork fuel net rand
      = Outcome.returned (net1, rand1)) :
    init lib srand time mem createBalancedNetwork fuel
        { net with d_inputScale := scale, d_inputShift := shift } rand
      = Outcome.returned ({ net1 with d_inputScale := scale, d_inputShift := shift }, rand1)
    ∧ (∃ win, net1.d_inputWeights = some win
      ∧ ∀ x, x < net.d_inputSize * net.d_reservoirSize →
          win x = 0
          ∨ (∃ k, win x = (srand (time 0) k : α) / ((lib.RAND_MAX : α) + 1) * (1 - -1) + -1)
          ∨ win x = 7 / 50 ∨ win x = -(7 / 50))
    ∧ (∃ g wfb,
        generateConnections lib srand (time 1) fuel net.d_fbConnectivity
            (net.d_outputSize * net.d_reservoirSize)
            (forLoop (net.d_outputSize * net.d_reservoirSize)
              (fun x w => Function.update w x (0 : α)) mem.feedbackWeights) (-1) 1 rand
          = Outcome.returned g
        ∧ net1.d_feedbackWeights = some wfb
        ∧ ∀ x, x < net.d_outputSize * net.d_reservoirSize →
            wfb x = g.1 x * net.d_feedbackScale + net.d_feedbackShift) := by
  obtain ⟨s1, s2, s3, r, h1, h2, h3, _, hnet⟩ := init_returned lib srand time mem
    createBalancedNetwork fuel net net1 rand rand1 h
  refine ⟨?_, ⟨s1.1, by rw [hnet], ?_⟩, ?_⟩
  · rw [init_inputScale, h]
    rfl
  · intro x hx
    unfold initInputWeights at h1
    obtain ⟨g, hg, hs⟩ := Outcome.bind_eq_returned _ _ _ h1
    simp only [Outcome.returned.injEq] at hs
    obtain ⟨hj1, _⟩ := jaegerLoop_spec (net.d_inputSize * net.d_reservoirSize) g.1 g.2
    have hj := hj1 x hx
    rw [hs] at hj
    rcases hj with hj | hj | hj
    · unfold generateConnections at hg
      rcases generateConnectionsLoop_cells lib _ _ _ (-1) 1 fuel 0 _ _ g.1 g.2 hg x with hc | hc
      · left
        rw [hj, hc, aNetwork.Network.zeroLoop_apply, if_pos hx]
      · right
        left
        obtain ⟨k, hk⟩ := hc
        exact ⟨k, by rw [hj, hk]⟩
    · exact Or.inr (Or.inr (Or.inl hj))
    · exact Or.inr (Or.inr (Or.inr hj))
  · unfold initFeedbackWeights at h2
    obtain ⟨g, hg, hs⟩ := Outcome.bind_eq_returned _ _ _ h2
    refine ⟨g, s2.1, hg, by rw [hnet], ?_⟩
    intro x hx
    by_cases hsc : net.d_feedbackScale ≠ 1 ∨ net.d_feedbackShift ≠ 0
    · rw [if_pos hsc] at hs
      simp only [Outcome.returned.injEq] at hs
      rw [← hs]
      show scaleAndShift _ _ _ _ x = _
      rw [scaleAndShift_apply, if_pos hx]
    · rw [if_neg hsc] at hs
      simp only [Outcome.returned.injEq] at hs
      rw [← hs]
      have h1 : net.d_feedbackScale = 1 := by
        by_contra hne
        exact hsc (Or.inl hne)
      have h0 : net.d_feedbackShift = 0 := by
        by_contra hne
        exact hsc (Or.inr hne)
      rw [h1, h0, mul_one, add_zero]

end inputScaleFloor

/-- Witness of C38 on the object `ESN(1, 1, 2, 0.5)`: `init` returns, and with input scale 3
and input shift 5 it returns the same object up to these two members. -/
theorem init_input_scale_unused_witness :
    ∃ net1 rand1,
      init exampleLibQ exampleSrand (fun k => 100 * k) exampleInitMem (fun _ _ => none) 50
          exampleObj (fun k => k) = Outcome.returned (net1, rand1)
      ∧ init exampleLibQ exampleSrand (fun k => 100 * k) exampleInitMem (fun _ _ => none) 50
          { exampleObj with d_inputScale := 3, d_inputShift := 5 } (fun k => k)
        = Outcome.returned ({ net1 with d_inputScale := 3, d_inputShift := 5 }, rand1) := by
  have hret : (init exampleLibQ exampleSrand (fun k => 100 * k) exampleInitMem
      (fun _ _ => none) 50 exampleObj (fun k => k)).map (fun _ => 0)
      = Outcome.returned 0 := by decide!
  cases hinit : init exampleLibQ exampleSrand (fun k => 100 * k) exampleInitMem
      (fun _ _ => none) 50 exampleObj (fun k => k) with
  | returned s =>
    exact ⟨s.1, s.2, rfl,
      (init_input_scale_unused exampleLibQ exampleSrand (fun k => 100 * k) exampleInitMem
        (fun _ _ => none) 50 exampleObj s.1 (fun k => k) s.2 3 5 hinit).1⟩
  | running =>
    rw [hinit] at hret
    exact absurd hret (by simp [Outcome.map, Outcome.bind])
  | aborted =>
    rw [hinit] at hret
    exact absurd hret (by simp [Outcome.map, Outcome.bind])

/-- C38 (counterexample): with input connectivity 0 `generateConnections` selects
`int(2 * 0) = 0` cells of the input matrix and makes no draw (the array is still zero and the
first random number after the seeding is unread), and after `init` the input weight of cell 0
is 0: it is neither a uniform draw nor `0.14` nor `-0.14`. -/
theorem init_input_weight_unconnected :
    Nat.floor ((((exampleObj.setInConnectivity 0).d_inputSize
          * (exampleObj.setInConnectivity 0).d_reservoirSize : Nat) : ℚ)
        * (exampleObj.setInConnectivity 0).d_inConnectivity) = 0
    ∧ (generateConnections exampleLibQ exampleSrand 0 50
          (exampleObj.setInConnectivity 0).d_inConnectivity
          ((exampleObj.setInConnectivity 0).d_inputSize
            * (exampleObj.setInConnectivity 0).d_reservoirSize)
          (fun _ => 0) (-1) 1 (fun k => k)).map (fun g => (g.1 0, g.1 1, g.2 0))
      = Outcome.returned (0, 0, exampleSrand 0 0)
    ∧ (init exampleLibQ exampleSrand (fun k => 100 * k) exampleInitMem (fun _ _ => none) 50
          (exampleObj.setInConnectivity 0) (fun k => k)).map
        (fun s => s.1.d_inputWeights.map (fun w => w 0))
      = Outcome.returned (some 0)
    ∧ (0 : ℚ) ≠ 7 / 50 ∧ (0 : ℚ) ≠ -(7 / 50) := by
  refine ⟨by decide!, by decide!, by decide!, by decide!, by decide!⟩

end ESNObj

/-! ## The matrix inverse of `src/thd/inv` -/

section luLoops

theorem forRange_of_le {σ : Type} (a b : Nat) (body : Nat → σ → σ) (s : σ) (h : b ≤ a) :
    forRange a b body s = s := by
  unfold forRange
  have : b - a = 0 := by omega
  rw [this]
  rfl

theorem forRange_succ {σ : Type} (a b : Nat) (body : Nat → σ → σ) (s : σ) (h : a ≤ b) :
    forRange a (b + 1) body s = body b (forRange a b body s) := by
  unfold forRange
  have h1 : b + 1 - a = (b - a) + 1 := by omega
  rw [h1, forLoop_succ]
  have h2 : a + (b - a) = b := by omega
  rw [h2]

/-- A property of the state that every pass of a loop over a range preserves holds after the
loop. -/
theorem forRange_induct {σ : Type} (P : Nat → σ → Prop) (a b : Nat) (body : Nat → σ → σ)
    (s : σ) (hab : a ≤ b) (h0 : P a s)
    (hstep : ∀ i, a ≤ i → i < b → ∀ x, P i x → P (i + 1) (body i x)) :
    P b (forRange a b body s) := by
  induction b with
  | zero =>
    have : a = 0 := by omega
    subst this
    exact h0
  | succ k ih =>
    by_cases hk : a ≤ k
    · rw [forRange_succ a k body s hk]
      exact hstep k hk (Nat.lt_succ_self k) _
        (ih hk (fun i hi hik x hx => hstep i hi (Nat.lt_succ_of_lt hik) x hx))
    · have : a = k + 1 := by omega
      subst this
      rw [forRange_of_le _ _ _ _ (Nat.le_refl _)]
      exact h0

theorem forLoop_induct {σ : Type} (P : Nat → σ → Prop) (n : Nat) (body : Nat → σ → σ) (s : σ)
    (h0 : P 0 s) (hstep : ∀ i, i < n → ∀ x, P i x → P (i + 1) (body i x)) :
    P n (forLoop n body s) := by
  induction n with
  | zero => exact h0
  | succ k ih =>
    rw [forLoop_succ]
    exact hstep k (Nat.lt_succ_self k) _
      (ih (fun i hi x hx => hstep i (Nat.lt_succ_of_lt hi) x hx))

end luLoops

section lu2

variable {α : Type} [LinearOrderedField α]

/-- The pivot row of column `j`: a row from `j` on with the largest absolute value, which is
`j` itself unless a larger entry was found. -/
theorem rmatrixlu2_pivot_spec (a : Nat → Nat → α) (m j : Nat) (hj : j < m) :
    j ≤ rmatrixlu2_pivot a m j ∧ rmatrixlu2_pivot a m j < m
    ∧ (∀ i, j ≤ i → i < m → |a i j| ≤ |a (rmatrixlu2_pivot a m j) j|)
    ∧ (rmatrixlu2_pivot a m j = j ∨ |a j j| < |a (rmatrixlu2_pivot a m j) j|) := by
  unfold rmatrixlu2_pivot
  have h := forRange_induct
    (fun b jp => j ≤ jp ∧ jp < b ∧ (∀ i, j ≤ i → i < b → |a i j| ≤ |a jp j|)
      ∧ (jp = j ∨ |a j j| < |a jp j|))
    (j + 1) m (fun i jp => if |a i j| > |a jp j| then i else jp) j (by omega)
    ⟨Nat.le_refl j, Nat.lt_succ_self j, fun i h1 h2 => by
      have : i = j := by omega
      rw [this], Or.inl rfl⟩
    (fun i hi him jp ⟨h1, h2, h3, h4⟩ => by
      by_cases hgt : |a i j| > |a jp j|
      · simp only [hgt, if_true]
        refine ⟨by omega, Nat.lt_succ_self i, ?_, Or.inr ?_⟩
        · intro i2 hi2 hi2b
          rcases Nat.lt_succ_iff_lt_or_eq.mp hi2b with hlt | heq
          · exact le_trans (h3 i2 hi2 hlt) (le_of_lt hgt)
          · rw [heq]
        · exact lt_of_le_of_lt (h3 j (Nat.le_refl j) (by omega)) hgt
      · simp only [hgt, if_false]
        refine ⟨h1, by omega, ?_, h4⟩
        intro i2 hi2 hi2b
        rcases Nat.lt_succ_iff_lt_or_eq.mp hi2b with hlt | heq
        · exact h3 i2 hi2 hlt
        · rw [heq]
          exact not_lt.mp hgt)
  exact h

/-- The update of the trailing submatrix, element by element. -/
theorem rmatrixlu2_trailing_apply (a : Nat → Nat → α) (m n j : Nat) (hn : 0 < n)
    (r c : Nat) :
    rmatrixlu2_trailing a m n j r c
      = if j < r ∧ r < m ∧ j < c ∧ c < n then a r c - a r j * a j c else a r c := by
  unfold rmatrixlu2_trailing
  simp only []
  by_cases hm : j + 1 ≤ m
  · have h := forRange_induct
      (fun b (x : Nat → Nat → α) => ∀ r c,
        x r c = if j < r ∧ r < b ∧ j < c ∧ c < n then a r c - a r j * a j c else a r c)
      (j + 1) m
      (fun i a =>
        ap.setRowFrom a i (j + 1)
          (ap.vsub (ap.rowFrom a i (j + 1)) (ap.rowFrom a j (j + 1)) (ap.vlen (j + 1) (n - 1))
            (a i j)))
      a hm
      (fun r c => by
        have : ¬ (j < r ∧ r < j + 1 ∧ j < c ∧ c < n) := by omega
        rw [if_neg this])
      (fun i hi him x hx r c => by
        simp only [ap.setRowFrom, ap.vsub, ap.rowFrom, ap.vlen]
        by_cases hr : r = i
        · subst hr
          by_cases hc : j + 1 ≤ c
          · have e1 : j + 1 + (c - (j + 1)) = c := by omega
            by_cases hcn : c < n
            · have h1 : c - (j + 1) < n - 1 + 1 - (j + 1) := by omega
              have h2 : j < r ∧ r < r + 1 ∧ j < c ∧ c < n := ⟨by omega, by omega, by omega, hcn⟩
              simp only [hc, and_self, if_true, h1, e1, h2]
              rw [hx r c, hx r j, hx j c]
              have n1 : ¬ (j < r ∧ r < r ∧ j < c ∧ c < n) := by omega
              have n2 : ¬ (j < r ∧ r < r ∧ j < j ∧ j < n) := by omega
              have n3 : ¬ (j < j ∧ j < r ∧ j < c ∧ c < n) := by omega
              rw [if_neg n1, if_neg n2, if_neg n3]
            · have h1 : ¬ c - (j + 1) < n - 1 + 1 - (j + 1) := by omega
              have h2 : ¬ (j < r ∧ r < r + 1 ∧ j < c ∧ c < n) := by omega
              simp only [hc, and_self, if_true, h1, if_false, e1, h2]
              rw [hx r c]
              have n1 : ¬ (j < r ∧ r < r ∧ j < c ∧ c < n) := by omega
              rw [if_neg n1]
          · have h2 : ¬ (j < r ∧ r < r + 1 ∧ j < c ∧ c < n) := by omega
            simp only [hc, and_false, if_false, h2]
            rw [hx r c]
            have n1 : ¬ (j < r ∧ r < r ∧ j < c ∧ c < n) := by omega
            rw [if_neg n1]
        · simp only [hr, false_and, if_false]
          rw [hx r c]
          by_cases hcond : j < r ∧ r < i ∧ j < c ∧ c < n
          · have : j < r ∧ r < i + 1 ∧ j < c ∧ c < n := ⟨hcond.1, by omega, hcond.2.2⟩
            rw [if_pos hcond, if_pos this]
          · have : ¬ (j < r ∧ r < i + 1 ∧ j < c ∧ c < n) := by
              intro h
              exact hcond ⟨h.1, by omega, h.2.2⟩
            rw [if_neg hcond, if_neg this])
    exact h r c
  · rw [forRange_of_le _ _ _ _ (by omega)]
    have : ¬ (j < r ∧ r < m ∧ j < c ∧ c < n) := by omega
    rw [if_neg this]

omit [LinearOrderedField α] in
theorem luSwapped_self (a : Nat → Nat → α) (n j : Nat) : luSwapped a n j j = a := by
  funext r c
  simp [luSwapped]

omit [LinearOrderedField α] in
/-- The interchange of two rows as `rmatrixlu2` performs it with `vmove`. -/
theorem rmatrixlu2_swap_apply (a : Nat → Nat → α) (t1 : Nat → α) (n j jp : Nat) (hn : 0 < n)
    (hne : jp ≠ j) (r c : Nat) :
    ap.setRowFrom
        (ap.setRowFrom a j 0
          (ap.vmove (ap.rowFrom a j 0) (ap.rowFrom a jp 0) (ap.vlen 0 (n - 1))))
        jp 0
        (ap.vmove
          (ap.rowFrom
            (ap.setRowFrom a j 0
              (ap.vmove (ap.rowFrom a j 0) (ap.rowFrom a jp 0) (ap.vlen 0 (n - 1))))
            jp 0)
          (ap.vmove t1 (ap.rowFrom a j 0) (ap.vlen 0 (n - 1))) (ap.vlen 0 (n - 1))) r c
      = luSwapped a n j jp r c := by
  have hn1 : n - 1 + 1 - 0 = n := by omega
  simp only [ap.setRowFrom, ap.vmove, ap.rowFrom, ap.vlen, luSwapped, hn1, Nat.zero_le,
    and_true, Nat.sub_zero, Nat.zero_add]
  by_cases hc : c < n
  · simp only [hc, if_true]
    by_cases h1 : r = jp
    · subst h1
      simp [Equiv.swap_apply_right]
    · by_cases h2 : r = j
      · subst h2
        simp [h1, Equiv.swap_apply_left]
      · simp [h1, h2, Equiv.swap_apply_of_ne_of_ne h2 h1]
  · simp only [hc, if_false]
    by_cases h1 : r = jp
    · subst h1
      simp [hne]
    · by_cases h2 : r = j
      · subst h2
        simp [h1]
      · simp [h1, h2]

/-- What one pass of the loop of `rmatrixlu2` does to the matrix, in terms of the matrix
`x` with the pivot row interchanged: the rows up to `j` and the columns before `j` stay,
column `j` below the diagonal holds the multipliers, and the trailing submatrix is
updated with them. -/
theorem rmatrixlu2_step_spec (m n j : Nat) (s : LuState α) (hjm : j < m) (hjn : j < n) :
    (rmatrixlu2_step m n j s).pivots = Function.update s.pivots j (rmatrixlu2_pivot s.a m j)
    ∧ (∀ r c, r ≤ j →
        (rmatrixlu2_step m n j s).a r c = luSwapped s.a n j (rmatrixlu2_pivot s.a m j) r c)
    ∧ (∀ r c, c < j →
        (rmatrixlu2_step m n j s).a r c = luSwapped s.a n j (rmatrixlu2_pivot s.a m j) r c)
    ∧ (∀ r, j < r → r < m →
        (rmatrixlu2_step m n j s).a r j * luSwapped s.a n j (rmatrixlu2_pivot s.a m j) j j
          = luSwapped s.a n j (rmatrixlu2_pivot s.a m j) r j)
    ∧ (∀ r c, j < r → r < m → j < c → c < n →
        (rmatrixlu2_step m n j s).a r c
          = luSwapped s.a n j (rmatrixlu2_pivot s.a m j) r c
            - (rmatrixlu2_step m n j s).a r j
              * luSwapped s.a n j (rmatrixlu2_pivot s.a m j) j c)
    ∧ (∀ r c, m ≤ r ∨ n ≤ c → (rmatrixlu2_step m n j s).a r c = s.a r c) := by
  obtain ⟨hp1, hp2, hp3, hp4⟩ := rmatrixlu2_pivot_spec s.a m j hjm
  have hn : 0 < n := by omega
  generalize hjp : rmatrixlu2_pivot s.a m j = jp at hp1 hp2 hp3 hp4 ⊢
  -- the matrix before the trailing update
  have key : ∃ y : Nat → Nat → α,
      (rmatrixlu2_step m n j s).pivots = Function.update s.pivots j jp
      ∧ (rmatrixlu2_step m n j s).a
          = (if j + 1 < min m n then rmatrixlu2_trailing y m n j else y)
      ∧ (∀ r c, ¬ (c = j ∧ j < r ∧ r < m) → y r c = luSwapped s.a n j jp r c)
      ∧ (∀ r, j < r → r < m → y r j * luSwapped s.a n j jp j j = luSwapped s.a n j jp r j)
      ∧ (∀ r c, m ≤ r ∨ n ≤ c → y r c = s.a r c) := by
    by_cases hz : s.a jp j ≠ 0
    · refine ⟨fun r c => if c = j ∧ j < r ∧ r < m
          then luSwapped s.a n j jp r j * (1 / luSwapped s.a n j jp j j)
          else luSwapped s.a n j jp r c, ?_, ?_, ?_, ?_, ?_⟩
      · unfold rmatrixlu2_step
        simp only [hjp, hz]
        by_cases hne : jp ≠ j
        · simp only [hne, hjm, if_true, ne_eq, not_false_eq_true]
          split_ifs <;> rfl
        · simp only [hne, hjm, if_true, if_false, ne_eq, not_false_eq_true]
          split_ifs <;> rfl
      · unfold rmatrixlu2_step
        simp only [hjp, hz]
        have hsc : ∀ x : Nat → Nat → α, x = luSwapped s.a n j jp →
            ap.setColFrom x j (j + 1)
              (ap.vmul (ap.colFrom x j (j + 1)) (ap.vlen (j + 1) (m - 1)) (1 / x j j))
            = fun r c => if c = j ∧ j < r ∧ r < m
                then luSwapped s.a n j jp r j * (1 / luSwapped s.a n j jp j j)
                else luSwapped s.a n j jp r c := by
          intro x hx
          subst hx
          funext r c
          simp only [ap.setColFrom, ap.vmul, ap.colFrom, ap.vlen]
          by_cases hc : c = j
          · by_cases hr : j + 1 ≤ r
            · have e1 : j + 1 + (r - (j + 1)) = r := by omega
              by_cases hrm : r < m
              · have h1 : r - (j + 1) < m - 1 + 1 - (j + 1) := by omega
                have h2 : c = j ∧ j < r ∧ r < m := ⟨hc, by omega, hrm⟩
                simp only [hc, hr, and_self, if_true, h1, e1]
                rw [if_pos ⟨trivial, h2.2⟩]
              · have h1 : ¬ r - (j + 1) < m - 1 + 1 - (j + 1) := by omega
                have h2 : ¬ (True ∧ j < r ∧ r < m) := by omega
                simp only [hc, hr, and_self, if_true, h1, if_false, e1]
                rw [if_neg h2]
            · have h2 : ¬ (c = j ∧ j < r ∧ r < m) := by omega
              simp only [hr, and_false, if_false]
              rw [if_neg h2]
          · simp only [hc, false_and, if_false]
        by_cases hne : jp ≠ j
        · simp only [hne, hjm, if_true, ne_eq, not_false_eq_true]
          have hx : ap.setRowFrom
              (ap.setRowFrom s.a j 0
                (ap.vmove (ap.rowFrom s.a j 0) (ap.rowFrom s.a jp 0) (ap.vlen 0 (n - 1))))
              jp 0
              (ap.vmove
                (ap.rowFrom
                  (ap.setRowFrom s.a j 0
                    (ap.vmove (ap.rowFrom s.a j 0) (ap.rowFrom s.a jp 0) (ap.vlen 0 (n - 1))))
                  jp 0)
                (ap.vmove s.t1 (ap.rowFrom s.a j 0) (ap.vlen 0 (n - 1))) (ap.vlen 0 (n - 1)))
              = luSwapped s.a n j jp := by
            funext r c
            exact rmatrixlu2_swap_apply s.a s.t1 n j jp hn hne r c
          rw [hx, hsc _ rfl]
          split_ifs <;> rfl
        · have hjj : jp = j := not_not.mp hne
          simp only [hne, hjm, if_true, if_false, ne_eq, not_false_eq_true]
          have hx : s.a = luSwapped s.a n j jp := by rw [hjj, luSwapped_self]
          rw [hsc s.a hx]
          split_ifs <;> rfl
      · intro r c hrc
        simp only [hrc, if_false]
      · intro r hr hrm
        have hsw : luSwapped s.a n j jp j j = s.a jp j := by
          simp [luSwapped, hjn, Equiv.swap_apply_left]
        have hne0 : luSwapped s.a n j jp j j ≠ 0 := by rw [hsw]; exact hz
        have : (True ∧ j < r ∧ r < m) := ⟨trivial, hr, hrm⟩
        simp only [hr, hrm, and_self, if_true]
        field_simp
      · intro r c hrc
        have h1 : ¬ (c = j ∧ j < r ∧ r < m) := by omega
        simp only [h1, if_false, luSwapped]
        rcases hrc with h | h
        · have hr1 : r ≠ j := by omega
          have hr2 : r ≠ jp := by omega
          rw [Equiv.swap_apply_of_ne_of_ne hr1 hr2]
          simp
        · have : ¬ c < n := by omega
          simp [this]
    · have hz0 : s.a jp j = 0 := not_not.mp hz
      have hjj : jp = j := by
        rcases hp4 with h | h
        · exact h
        · rw [hz0, abs_zero] at h
          exact absurd h (not_lt.mpr (abs_nonneg _))
      have hcol : ∀ i, j ≤ i → i < m → s.a i j = 0 := by
        intro i h1 h2
        have := hp3 i h1 h2
        rw [hz0, abs_zero] at this
        exact abs_eq_zero.mp (le_antisymm this (abs_nonneg _))
      refine ⟨s.a, ?_, ?_, ?_, ?_, ?_⟩
      · unfold rmatrixlu2_step
        simp only [hjp, hz, if_false]
        split_ifs <;> rfl
      · unfold rmatrixlu2_step
        simp only [hjp, hz, if_false]
        split_ifs <;> rfl
      · intro r c _
        rw [hjj, luSwapped_self]
      · intro r hr hrm
        rw [hjj, luSwapped_self, hcol r (by omega) hrm, hcol j (Nat.le_refl j) hjm]
        simp
      · intro r c _
        rfl
  obtain ⟨y, hpiv, hya, hy1, hy2, hy3⟩ := key
  have hfin : ∀ r c, (rmatrixlu2_step m n j s).a r c
      = if j < r ∧ r < m ∧ j < c ∧ c < n then y r c - y r j * y j c else y r c := by
    intro r c
    rw [hya]
    by_cases ht : j + 1 < min m n
    · rw [if_pos ht, rmatrixlu2_trailing_apply y m n j hn r c]
    · rw [if_neg ht]
      have : ¬ (j < r ∧ r < m ∧ j < c ∧ c < n) := by
        intro h
        apply ht
        have := h.1
        have := h.2.1
        have := h.2.2.1
        have := h.2.2.2
        simp only [lt_min_iff]
        omega
      rw [if_neg this]
  refine ⟨hpiv, ?_, ?_, ?_, ?_, ?_⟩
  · intro r c hr
    rw [hfin]
    have h1 : ¬ (j < r ∧ r < m ∧ j < c ∧ c < n) := by omega
    rw [if_neg h1]
    exact hy1 r c (by omega)
  · intro r c hc
    rw [hfin]
    have h1 : ¬ (j < r ∧ r < m ∧ j < c ∧ c < n) := by omega
    rw [if_neg h1]
    exact hy1 r c (by omega)
  · intro r hr hrm
    rw [hfin]
    have h1 : ¬ (j < r ∧ r < m ∧ j < j ∧ j < n) := by omega
    rw [if_neg h1]
    exact hy2 r hr hrm
  · intro r c hr hrm hc hcn
    rw [hfin r c, hfin r j]
    have h1 : ¬ (j < r ∧ r < m ∧ j < j ∧ j < n) := by omega
    rw [if_pos ⟨hr, hrm, hc, hcn⟩, if_neg h1, hy1 r c (by omega), hy1 j c (by omega)]
  · intro r c hrc
    rw [hfin]
    have h1 : ¬ (j < r ∧ r < m ∧ j < c ∧ c < n) := by omega
    rw [if_neg h1]
    exact hy3 r c hrc

/-- The interchange of the pivot row keeps the state of the decomposition, with the
interchange added to the permutation. -/
theorem LuInv.swap {m n J : Nat} {A0 a : Nat → Nat → α} {σ : Equiv.Perm Nat}
    (h : LuInv m n J A0 a σ) (jp : Nat) (hJ : J < m) (h1 : J ≤ jp) (h2 : jp < m) :
    LuInv m n J A0 (luSwapped a n J jp) (σ * Equiv.swap J jp) := by
  intro i hi k hk
  have hrow : ∀ l, l < J → ∀ c, luSwapped a n J jp l c = a l c := by
    intro l hl c
    have e : Equiv.swap J jp l = l := Equiv.swap_apply_of_ne_of_ne (by omega) (by omega)
    simp [luSwapped, e]
  have hsw : ∀ c, c < n → luSwapped a n J jp i c = a (Equiv.swap J jp i) c := by
    intro c hc
    simp [luSwapped, hc]
  have hi2 : Equiv.swap J jp i < m := by
    by_cases e1 : i = J
    · rw [e1, Equiv.swap_apply_left]; exact h2
    · by_cases e2 : i = jp
      · rw [e2, Equiv.swap_apply_right]; exact hJ
      · rw [Equiv.swap_apply_of_ne_of_ne e1 e2]; exact hi
  have hcond : ∀ l, l < J → (l < Equiv.swap J jp i ↔ l < i) := by
    intro l hl
    by_cases e1 : i = J
    · rw [e1, Equiv.swap_apply_left]; omega
    · by_cases e2 : i = jp
      · rw [e2, Equiv.swap_apply_right]; omega
      · rw [Equiv.swap_apply_of_ne_of_ne e1 e2]
  have hmin : min (Equiv.swap J jp i) J = min i J := by
    by_cases e1 : i = J
    · rw [e1, Equiv.swap_apply_left]; omega
    · by_cases e2 : i = jp
      · rw [e2, Equiv.swap_apply_right]; omega
      · rw [Equiv.swap_apply_of_ne_of_ne e1 e2]
  rw [Equiv.Perm.mul_apply, h (Equiv.swap J jp i) hi2 k hk, hmin, hsw k hk]
  congr 1
  apply Finset.sum_congr rfl
  intro l hl
  have hlJ : l < J := Finset.mem_range.mp hl
  by_cases hc : l < i ∧ l ≤ k
  · have hc2 : l < Equiv.swap J jp i ∧ l ≤ k := ⟨(hcond l hlJ).mpr hc.1, hc.2⟩
    rw [if_pos hc, if_pos hc2, hrow l hlJ k, hsw l (by omega)]
  · have hc2 : ¬ (l < Equiv.swap J jp i ∧ l ≤ k) := fun hh => hc ⟨(hcond l hlJ).mp hh.1, hh.2⟩
    rw [if_neg hc, if_neg hc2]

/-- The elimination of column `J` takes the state of the decomposition one column
further. -/
theorem LuInv.step {m n J : Nat} {A0 x y : Nat → Nat → α} {σ : Equiv.Perm Nat}
    (h : LuInv m n J A0 x σ) (hJn : J < n)
    (hrow : ∀ r c, r ≤ J → y r c = x r c) (hcol : ∀ r c, c < J → y r c = x r c)
    (hmul : ∀ r, J < r → r < m → y r J * x J J = x r J)
    (htr : ∀ r c, J < r → r < m → J < c → c < n → y r c = x r c - y r J * x J c) :
    LuInv m n (J + 1) A0 y σ := by
  intro i hi k hk
  rw [h i hi k hk, Finset.sum_range_succ, add_assoc]
  congr 1
  · apply Finset.sum_congr rfl
    intro l hl
    have hlJ : l < J := Finset.mem_range.mp hl
    rw [hcol i l hlJ, hrow l k (by omega)]
  · by_cases hiJ : i ≤ J
    · have c1 : ¬ (J < i ∧ J ≤ k) := by omega
      have e1 : min i J = i := by omega
      have e2 : min i (J + 1) = i := by omega
      rw [if_neg c1, zero_add, e1, e2, hrow i k hiJ]
    · have hJi : J < i := by omega
      have e1 : min i J = J := by omega
      have e2 : min i (J + 1) = J + 1 := by omega
      rw [e1, e2]
      rcases Nat.lt_trichotomy k J with hkJ | hkJ | hkJ
      · have c1 : ¬ (J < i ∧ J ≤ k) := by omega
        have c2 : ¬ J ≤ k := by omega
        have c3 : ¬ J + 1 ≤ k := by omega
        rw [if_neg c1, if_neg c2, if_neg c3, add_zero]
      · subst hkJ
        have c1 : k < i ∧ k ≤ k := ⟨hJi, Nat.le_refl k⟩
        have c3 : ¬ k + 1 ≤ k := by omega
        rw [if_pos c1, if_pos (Nat.le_refl k), if_neg c3, add_zero, hrow k k (Nat.le_refl k),
          hmul i hJi hi]
      · have c1 : J < i ∧ J ≤ k := ⟨hJi, by omega⟩
        have c2 : J ≤ k := by omega
        have c3 : J + 1 ≤ k := by omega
        rw [if_pos c1, if_pos c2, if_pos c3, htr i k hJi hi hkJ hk, hrow J k (Nat.le_refl J)]
        ring

theorem luPerm_congr (p q : Nat → Nat) (J : Nat) (h : ∀ j, j < J → p j = q j) :
    luPerm p J = luPerm q J := by
  induction J with
  | zero => rfl
  | succ k ih =>
    simp only [luPerm]
    rw [ih (fun j hj => h j (Nat.lt_succ_of_lt hj)), h k (Nat.lt_succ_self k)]

theorem LuInv.zero (m n : Nat) (A0 : Nat → Nat → α) (p : Nat → Nat) :
    LuInv m n 0 A0 A0 (luPerm p 0) := by
  intro i _ k _
  simp [luPerm]

/-- The loop of `rmatrixlu2` after `J` columns: the pivots recorded lie between the
diagonal and the last row, the rows and columns outside the matrix are as they were, and
the decomposition holds for the first `J` columns. -/
theorem rmatrixlu2_loop_spec (m n : Nat) (s0 : LuState α) (J : Nat) (hJ : J ≤ min m n) :
    (∀ j, j < J → j ≤ (forLoop J (rmatrixlu2_step m n) s0).pivots j
        ∧ (forLoop J (rmatrixlu2_step m n) s0).pivots j < m)
    ∧ (∀ j, J ≤ j → (forLoop J (rmatrixlu2_step m n) s0).pivots j = s0.pivots j)
    ∧ (∀ r c, m ≤ r ∨ n ≤ c → (forLoop J (rmatrixlu2_step m n) s0).a r c = s0.a r c)
    ∧ LuInv m n J s0.a (forLoop J (rmatrixlu2_step m n) s0).a
        (luPerm (forLoop J (rmatrixlu2_step m n) s0).pivots J) := by
  induction J with
  | zero =>
    refine ⟨fun j hj => absurd hj (Nat.not_lt_zero j), fun j _ => rfl, fun r c _ => rfl, ?_⟩
    exact LuInv.zero m n s0.a _
  | succ J ih =>
    have hJm : J < m := by
      have := Nat.le_trans hJ (Nat.min_le_left m n)
      omega
    have hJn : J < n := by
      have := Nat.le_trans hJ (Nat.min_le_right m n)
      omega
    obtain ⟨ih1, ih2, ih3, ih4⟩ := ih (by omega)
    rw [forLoop_succ]
    generalize forLoop J (rmatrixlu2_step m n) s0 = s at ih1 ih2 ih3 ih4 ⊢
    obtain ⟨hpiv, hrow, hcol, hmul, htr, hframe⟩ := rmatrixlu2_step_spec m n J s hJm hJn
    obtain ⟨hp1, hp2, _, _⟩ := rmatrixlu2_pivot_spec s.a m J hJm
    refine ⟨?_, ?_, ?_, ?_⟩
    · intro j hj
      rw [hpiv]
      by_cases e : j = J
      · subst e
        rw [Function.update_same]
        exact ⟨hp1, hp2⟩
      · rw [Function.update_noteq e]
        exact ih1 j (by omega)
    · intro j hj
      rw [hpiv, Function.update_noteq (by omega)]
      exact ih2 j (by omega)
    · intro r c hrc
      rw [hframe r c hrc]
      exact ih3 r c hrc
    · have hperm : luPerm (rmatrixlu2_step m n J s).pivots (J + 1)
          = luPerm s.pivots J * Equiv.swap J (rmatrixlu2_pivot s.a m J) := by
        simp only [luPerm]
        rw [hpiv, Function.update_same]
        congr 1
        apply luPerm_congr
        intro j hj
        rw [Function.update_noteq (by omega)]
      rw [hperm]
      exact LuInv.step (ih4.swap _ hJm hp1 hp2) hJn hrow hcol hmul htr

theorem luPerm_lt (p : Nat → Nat) (M J : Nat) (hJ : J ≤ M) (hp : ∀ j, j < J → p j < M)
    (r : Nat) : (r < M → luPerm p J r < M) ∧ (M ≤ r → luPerm p J r = r) := by
  induction J generalizing r with
  | zero => simp [luPerm]
  | succ k ih =>
    have hk : k < M := by omega
    have hpk : p k < M := hp k (Nat.lt_succ_self k)
    have ih2 := fun r => ih (by omega) (fun j hj => hp j (Nat.lt_succ_of_lt hj)) r
    simp only [luPerm, Equiv.Perm.mul_apply]
    constructor
    · intro hr
      apply (ih2 _).1
      by_cases e1 : r = k
      · rw [e1, Equiv.swap_apply_left]; exact hpk
      · by_cases e2 : r = p k
        · rw [e2, Equiv.swap_apply_right]; exact hk
        · rw [Equiv.swap_apply_of_ne_of_ne e1 e2]; exact hr
    · intro hr
      rw [Equiv.swap_apply_of_ne_of_ne (by omega) (by omega)]
      exact (ih2 r).2 hr

/-- The function `rmatrixlu2`: the pivots lie between the diagonal and the last row, and
in the rows permuted by them the matrix is the product of the unit lower triangular and
the upper triangular factor stored in the result. -/
theorem rmatrixlu2_spec (a : Nat → Nat → α) (m n : Nat) (pivots : Nat → Nat) (t1 : Nat → α) :
    (∀ j, j < min m n → j ≤ (rmatrixlu2 a m n pivots t1).pivots j
        ∧ (rmatrixlu2 a m n pivots t1).pivots j < m)
    ∧ (∀ j, min m n ≤ j → (rmatrixlu2 a m n pivots t1).pivots j = pivots j)
    ∧ (∀ r c, m ≤ r ∨ n ≤ c → (rmatrixlu2 a m n pivots t1).a r c = a r c)
    ∧ LuInv m n (min m n) a (rmatrixlu2 a m n pivots t1).a
        (luPerm (rmatrixlu2 a m n pivots t1).pivots (min m n)) := by
  unfold rmatrixlu2
  by_cases h0 : m = 0 ∨ n = 0
  · rw [if_pos h0]
    have hmin : min m n = 0 := by
      rcases h0 with h | h
      · rw [h]; exact Nat.zero_min n
      · rw [h]; exact Nat.min_zero m
    rw [hmin]
    exact ⟨fun j hj => absurd hj (Nat.not_lt_zero j), fun j _ => rfl, fun r c _ => rfl,
      LuInv.zero m n a _⟩
  · rw [if_neg h0]
    have hmin : min (m - 1) (n - 1) + 1 = min m n := by
      have h1 : m ≠ 0 := fun h => h0 (Or.inl h)
      have h2 : n ≠ 0 := fun h => h0 (Or.inr h)
      omega
    rw [hmin]
    exact rmatrixlu2_loop_spec m n { a := a, pivots := pivots, t1 := t1 } (min m n)
      (Nat.le_refl _)

end lu2

section sums

variable {α : Type} [LinearOrderedField α]

theorem sum_range_ite_lt (F : Nat → α) (J N : Nat) (h : J ≤ N) :
    (∑ l ∈ Finset.range N, if l < J then F l else 0) = ∑ l ∈ Finset.range J, F l := by
  have e : ∑ l ∈ Finset.range J, F l = ∑ l ∈ Finset.range J, if l < J then F l else 0 := by
    apply Finset.sum_congr rfl
    intro l hl
    rw [if_pos (Finset.mem_range.mp hl)]
  rw [e]
  symm
  apply Finset.sum_subset
  · intro l hl
    exact Finset.mem_range.mpr (lt_of_lt_of_le (Finset.mem_range.mp hl) h)
  · intro l _ hl
    rw [if_neg (fun hh => hl (Finset.mem_range.mpr hh))]

theorem sum_range_shift (G : Nat → α) (J C : Nat) :
    (∑ l ∈ Finset.range (J + C), if J ≤ l then G (l - J) else 0)
      = ∑ l ∈ Finset.range C, G l := by
  induction C with
  | zero =>
    rw [Finset.sum_range_zero]
    apply Finset.sum_eq_zero
    intro l hl
    have : l < J := by simpa using hl
    rw [if_neg (by omega)]
  | succ k ih =>
    rw [← Nat.add_assoc, Finset.sum_range_succ, Finset.sum_range_succ, ih,
      if_pos (Nat.le_add_right J k), Nat.add_sub_cancel_left]

end sums

section block

variable {α : Type} [LinearOrderedField α]

/-- One block of the blocked LU decomposition takes the state of the decomposition from
column `j1` to column `j2 + 1`: the rows from `j1` on are permuted as the decomposition
of the panel permutes them, the panel holds its own decomposition, and the columns to the
right of the panel are eliminated with the multipliers of the panel. -/
theorem LuInv.block {m n j1 j2 : Nat} {A0 a y b : Nat → Nat → α} {σ σ2 β : Equiv.Perm Nat}
    (h : LuInv m n j1 A0 a σ) (h12 : j1 ≤ j2) (hj2m : j2 < m)
    (hβ : ∀ r, r < m - j1 → β r < m - j1)
    (hσ : ∀ i, σ2 i = σ (if i < j1 then i else j1 + β (i - j1)))
    (hb : LuInv (m - j1) (j2 + 1 - j1) (j2 + 1 - j1) (fun r c => a (j1 + r) (j1 + c)) b β)
    (hlow : ∀ r c, r < j1 → y r c = a r c)
    (hleft : ∀ r c, j1 ≤ r → r < m → c < j1 → y r c = a (j1 + β (r - j1)) c)
    (hmid : ∀ r c, j1 ≤ r → r < m → j1 ≤ c → c ≤ j2 → y r c = b (r - j1) (c - j1))
    (hright : ∀ r c, j1 ≤ r → r < m → j2 < c → c < n →
      y r c = a (j1 + β (r - j1)) c
        - ∑ l ∈ Finset.range (j2 + 1), if j1 ≤ l ∧ l < r then y r l * y l c else 0) :
    LuInv m n (j2 + 1) A0 y σ2 := by
  intro i hi k hk
  rw [hσ]
  by_cases hij : i < j1
  · rw [if_pos hij, h i hi k hk, ← sum_range_ite_lt _ j1 (j2 + 1) (by omega)]
    have e1 : min i j1 = i := by omega
    have e2 : min i (j2 + 1) = i := by omega
    rw [e1, e2, hlow i k hij]
    congr 1
    apply Finset.sum_congr rfl
    intro l _
    by_cases hc : l < i ∧ l ≤ k
    · rw [if_pos (by omega), if_pos hc, if_pos hc, hlow i l hij, hlow l k (by omega)]
    · rw [if_neg hc]
      simp only [hc, if_false, ite_self]
  · rw [if_neg hij]
    have hi1 : j1 ≤ i := by omega
    have hr : i - j1 < m - j1 := by omega
    have hi2 : j1 + β (i - j1) < m := by
      have := hβ (i - j1) hr
      omega
    rw [h _ hi2 k hk, ← sum_range_ite_lt _ j1 (j2 + 1) (by omega)]
    have e1 : min (j1 + β (i - j1)) j1 = j1 := by omega
    rw [e1]
    rcases Nat.lt_or_ge k j1 with hk1 | hk1
    · -- a column to the left of the panel
      have c1 : ¬ j1 ≤ k := by omega
      have c2 : ¬ min i (j2 + 1) ≤ k := by omega
      rw [if_neg c1, if_neg c2]
      congr 1
      apply Finset.sum_congr rfl
      intro l _
      by_cases hc : l < i ∧ l ≤ k
      · have hl1 : l < j1 := by omega
        rw [if_pos hl1, if_pos (by omega), if_pos hc, hleft i l hi1 hi hl1, hlow l k hl1]
      · rw [if_neg hc]
        by_cases hl1 : l < j1
        · rw [if_pos hl1, if_neg (by omega)]
        · rw [if_neg hl1]
    · rcases Nat.lt_or_ge j2 k with hk2 | hk2
      · -- a column to the right of the panel
        have c2 : min i (j2 + 1) ≤ k := by omega
        rw [if_pos hk1, if_pos c2, hright i k hi1 hi hk2 hk]
        have hS : (∑ l ∈ Finset.range (j2 + 1), if l < i ∧ l ≤ k then y i l * y l k else 0)
            = (∑ l ∈ Finset.range (j2 + 1),
                if l < j1 then
                  if l < j1 + β (i - j1) ∧ l ≤ k then a (j1 + β (i - j1)) l * a l k else 0
                else 0)
              + ∑ l ∈ Finset.range (j2 + 1), if j1 ≤ l ∧ l < i then y i l * y l k else 0 := by
          rw [← Finset.sum_add_distrib]
          apply Finset.sum_congr rfl
          intro l hl
          have hl2 : l < j2 + 1 := Finset.mem_range.mp hl
          by_cases hl1 : l < j1
          · rw [if_pos hl1, if_pos (by omega), if_pos (by omega), if_neg (by omega), add_zero,
              hleft i l hi1 hi hl1, hlow l k hl1]
          · rw [if_neg hl1, zero_add]
            by_cases hli : l < i
            · rw [if_pos (by omega), if_pos (by omega)]
            · rw [if_neg (by omega), if_neg (by omega)]
        rw [hS]
        ring
      · -- a column of the panel
        have hc : k - j1 < j2 + 1 - j1 := by omega
        have hpanel := hb (i - j1) hr (k - j1) hc
        simp only [] at hpanel
        have ek : j1 + (k - j1) = k := by omega
        have ecb : j1 + (j2 + 1 - j1) = j2 + 1 := by omega
        rw [ek, ← sum_range_shift _ j1 (j2 + 1 - j1), ecb] at hpanel
        rw [if_pos hk1, hpanel, ← add_assoc, ← Finset.sum_add_distrib]
        congr 1
        · apply Finset.sum_congr rfl
          intro l hl
          have hl2 : l < j2 + 1 := Finset.mem_range.mp hl
          by_cases hl1 : l < j1
          · rw [if_pos hl1, if_pos (by omega), if_neg (by omega), add_zero, if_pos (by omega),
              hleft i l hi1 hi hl1, hlow l k hl1]
          · rw [if_neg hl1, zero_add, if_pos (by omega)]
            by_cases hli : l < i ∧ l ≤ k
            · rw [if_pos (by omega), if_pos hli, hmid i l hi1 hi (by omega) (by omega),
                hmid l k (by omega) (by omega) hk1 hk2]
            · rw [if_neg (by omega), if_neg hli]
        · by_cases hmin : min i (j2 + 1) ≤ k
          · rw [if_pos (by omega), if_pos hmin, hmid i k hi1 hi hk1 hk2]
          · rw [if_neg (by omega), if_neg hmin]

end block

section blockProgram

variable {α : Type} [LinearOrderedField α]

omit [LinearOrderedField α] in
/-- The interchange of the rows `p` and `q` in `len` columns from `c0` on, as `rmatrixlu`
performs it with `vmove` through the work vector `t`. -/
theorem rowSwapRange_apply (a : Nat → Nat → α) (t : Nat → α) (p q c0 len : Nat) (hne : q ≠ p)
    (r c : Nat) :
    ap.setRowFrom
        (ap.setRowFrom a p c0 (ap.vmove (ap.rowFrom a p c0) (ap.rowFrom a q c0) len))
        q c0
        (ap.vmove
          (ap.rowFrom
            (ap.setRowFrom a p c0 (ap.vmove (ap.rowFrom a p c0) (ap.rowFrom a q c0) len))
            q c0)
          (ap.vecFrom
            (ap.setVecFrom t c0 (ap.vmove (ap.vecFrom t c0) (ap.rowFrom a p c0) len)) c0)
          len) r c
      = if c0 ≤ c ∧ c < c0 + len then a (Equiv.swap p q r) c else a r c := by
  simp only [ap.setRowFrom, ap.vmove, ap.rowFrom, ap.vecFrom, ap.setVecFrom]
  by_cases hc0 : c0 ≤ c
  · have e1 : c0 + (c - c0) = c := by omega
    by_cases hc : c < c0 + len
    · have hl : c - c0 < len := by omega
      simp only [hc0, hc, hl, e1, and_true, and_self, if_true, Nat.le_add_right,
        Nat.add_sub_cancel_left]
      by_cases h1 : r = q
      · subst h1
        simp [Equiv.swap_apply_right]
      · by_cases h2 : r = p
        · subst h2
          simp [h1, Equiv.swap_apply_left]
        · simp [h1, h2, Equiv.swap_apply_of_ne_of_ne h2 h1]
    · have hl : ¬ c - c0 < len := by omega
      simp only [hc0, hc, hl, e1, and_true, and_false, if_true, if_false]
      by_cases h1 : r = q
      · subst h1
        simp [hne]
      · by_cases h2 : r = p
        · subst h2
          simp [h1]
        · simp [h1, h2]
  · simp only [hc0, false_and, and_false, if_false]

omit [LinearOrderedField α] in
/-- One interchange of `rmatrixlu`: the pivot of the panel is recorded, and the two rows
are interchanged in the columns outside the panel. -/
theorem rmatrixlu_interchange_spec (n i : Nat) (s : LuBlockState α) (h12 : s.j1 ≤ s.j2) :
    (rmatrixlu_interchange n i s).pivots
        = Function.update s.pivots (s.j1 + i) (s.j1 + s.bp i)
    ∧ (rmatrixlu_interchange n i s).bp = s.bp
    ∧ (rmatrixlu_interchange n i s).b = s.b
    ∧ (rmatrixlu_interchange n i s).j1 = s.j1
    ∧ (rmatrixlu_interchange n i s).j2 = s.j2
    ∧ ∀ r c, (rmatrixlu_interchange n i s).a r c
        = if c < s.j1 ∨ (s.j2 < c ∧ c < n)
          then s.a (Equiv.swap (s.j1 + i) (s.j1 + s.bp i) r) c else s.a r c := by
  unfold rmatrixlu_interchange
  by_cases hbp : s.bp i = i
  · simp only [hbp, ne_eq, not_true_eq_false, if_false, Equiv.swap_self, Equiv.refl_apply,
      ite_self, implies_true, and_self]
  · have hne : s.j1 + s.bp i ≠ s.j1 + i := by omega
    simp only [ne_eq, hbp, not_false_eq_true, if_true]
    by_cases h1 : s.j1 = 0
    · by_cases h2 : s.j2 + 1 < n
      · simp only [h1, not_true_eq_false, if_false, h2, if_true, true_and]
        intro r c
        have e := rowSwapRange_apply s.a s.t (0 + i) (0 + s.bp i) (s.j2 + 1)
          (ap.vlen (s.j2 + 1) (n - 1)) (by omega) r c
        rw [h1] at hne
        simp only [Nat.zero_add] at e ⊢
        rw [e]
        simp only [ap.vlen, Nat.not_lt_zero, false_or]
        have : (s.j2 + 1 ≤ c ∧ c < s.j2 + 1 + (n - 1 + 1 - (s.j2 + 1))) ↔ (s.j2 < c ∧ c < n) := by
          omega
        simp only [this]
      · simp only [h1, not_true_eq_false, if_false, h2, true_and]
        intro r c
        have : ¬ (c < 0 ∨ (s.j2 < c ∧ c < n)) := by omega
        rw [if_neg this]
    · have hlen : ap.vlen 0 (s.j1 - 1) = s.j1 := by
        simp only [ap.vlen]
        omega
      have eL : ∀ r c, ap.setRowFrom
          (ap.setRowFrom s.a (s.j1 + i) 0
            (ap.vmove (ap.rowFrom s.a (s.j1 + i) 0) (ap.rowFrom s.a (s.j1 + s.bp i) 0)
              (ap.vlen 0 (s.j1 - 1))))
          (s.j1 + s.bp i) 0
          (ap.vmove
            (ap.rowFrom
              (ap.setRowFrom s.a (s.j1 + i) 0
                (ap.vmove (ap.rowFrom s.a (s.j1 + i) 0) (ap.rowFrom s.a (s.j1 + s.bp i) 0)
                  (ap.vlen 0 (s.j1 - 1))))
              (s.j1 + s.bp i) 0)
            (ap.vecFrom
              (ap.setVecFrom s.t 0
                (ap.vmove (ap.vecFrom s.t 0) (ap.rowFrom s.a (s.j1 + i) 0)
                  (ap.vlen 0 (s.j1 - 1)))) 0)
            (ap.vlen 0 (s.j1 - 1))) r c
          = if c < s.j1 then s.a (Equiv.swap (s.j1 + i) (s.j1 + s.bp i) r) c else s.a r c := by
        intro r c
        rw [rowSwapRange_apply s.a s.t (s.j1 + i) (s.j1 + s.bp i) 0 _ hne r c, hlen]
        simp only [Nat.zero_le, true_and, Nat.zero_add]
      by_cases h2 : s.j2 + 1 < n
      · simp only [h1, not_false_eq_true, if_true, h2, true_and]
        intro r c
        rw [rowSwapRange_apply _ _ (s.j1 + i) (s.j1 + s.bp i) (s.j2 + 1) _ hne r c]
        rw [eL, eL]
        have hlen2 : ap.vlen (s.j2 + 1) (n - 1) = n - (s.j2 + 1) := by
          simp only [ap.vlen]
          omega
        rw [hlen2]
        by_cases hc1 : c < s.j1
        · by_cases hc2 : s.j2 + 1 ≤ c ∧ c < s.j2 + 1 + (n - (s.j2 + 1))
          · exfalso
            omega
          · rw [if_neg hc2, if_pos hc1, if_pos (Or.inl hc1)]
        · by_cases hc2 : s.j2 + 1 ≤ c ∧ c < s.j2 + 1 + (n - (s.j2 + 1))
          · rw [if_pos hc2, if_neg hc1, if_pos (Or.inr (by omega))]
          · rw [if_neg hc2, if_neg hc1, if_neg (by omega)]
      · simp only [h1, not_false_eq_true, if_true, h2, if_false, true_and]
        intro r c
        rw [eL]
        by_cases hc1 : c < s.j1
        · rw [if_pos hc1, if_pos (Or.inl hc1)]
        · rw [if_neg hc1, if_neg (by omega)]

/-- The permutation of the rows from `j1` on that the pivots of the panel stand for. -/
theorem swap_shift (j1 x y r : Nat) (hr : j1 ≤ r) :
    Equiv.swap (j1 + x) (j1 + y) r = j1 + Equiv.swap x y (r - j1) := by
  by_cases e1 : r = j1 + x
  · have : r - j1 = x := by omega
    rw [e1, Equiv.swap_apply_left, Nat.add_sub_cancel_left, Equiv.swap_apply_left]
  · by_cases e2 : r = j1 + y
    · rw [e2, Equiv.swap_apply_right, Nat.add_sub_cancel_left, Equiv.swap_apply_right]
    · rw [Equiv.swap_apply_of_ne_of_ne e1 e2,
        Equiv.swap_apply_of_ne_of_ne (by omega) (by omega)]
      omega

omit [LinearOrderedField α] in
/-- The interchanges of `rmatrixlu` after the decomposition of a panel: the pivots of the
panel are recorded from `j1` on, and outside the panel the rows from `j1` on are permuted
as the panel was. -/
theorem rmatrixlu_interchange_loop (n : Nat) (s1 : LuBlockState α) (h12 : s1.j1 ≤ s1.j2)
    (C : Nat) :
    (forLoop C (rmatrixlu_interchange n) s1).bp = s1.bp
    ∧ (forLoop C (rmatrixlu_interchange n) s1).b = s1.b
    ∧ (forLoop C (rmatrixlu_interchange n) s1).j1 = s1.j1
    ∧ (forLoop C (rmatrixlu_interchange n) s1).j2 = s1.j2
    ∧ (∀ j, (forLoop C (rmatrixlu_interchange n) s1).pivots j
        = if s1.j1 ≤ j ∧ j < s1.j1 + C then s1.j1 + s1.bp (j - s1.j1) else s1.pivots j)
    ∧ ∃ τ : Equiv.Perm Nat,
        (∀ r, τ r = if r < s1.j1 then r else s1.j1 + luPerm s1.bp C (r - s1.j1))
        ∧ luPerm (forLoop C (rmatrixlu_interchange n) s1).pivots (s1.j1 + C)
            = luPerm s1.pivots s1.j1 * τ
        ∧ ∀ r c, (forLoop C (rmatrixlu_interchange n) s1).a r c
            = if c < s1.j1 ∨ (s1.j2 < c ∧ c < n) then s1.a (τ r) c else s1.a r c := by
  induction C with
  | zero =>
    refine ⟨rfl, rfl, rfl, rfl, ?_, 1, ?_, ?_, ?_⟩
    · intro j
      rw [if_neg (by omega)]
      rfl
    · intro r
      by_cases hr : r < s1.j1
      · rw [if_pos hr]; rfl
      · rw [if_neg hr]
        simp only [luPerm, Equiv.Perm.coe_one, id_eq]
        omega
    · simp only [Nat.add_zero, mul_one]
      rfl
    · intro r c
      simp only [Equiv.Perm.coe_one, id_eq, ite_self]
      rfl
  | succ C ih =>
    obtain ⟨ih1, ih2, ih3, ih4, ih5, τ, hτ, hperm, ha⟩ := ih
    rw [forLoop_succ]
    generalize forLoop C (rmatrixlu_interchange n) s1 = s at ih1 ih2 ih3 ih4 ih5 hperm ha ⊢
    obtain ⟨hp, hbp, hb, hj1, hj2, hsa⟩ :=
      rmatrixlu_interchange_spec n C s (by rw [ih3, ih4]; exact h12)
    rw [ih3, ih1] at hp
    rw [ih3, ih4, ih1] at hsa
    refine ⟨hbp.trans ih1, hb.trans ih2, hj1.trans ih3, hj2.trans ih4, ?_,
      τ * Equiv.swap (s1.j1 + C) (s1.j1 + s1.bp C), ?_, ?_, ?_⟩
    · intro j
      rw [hp]
      by_cases e : j = s1.j1 + C
      · rw [e, Function.update_same, if_pos (by omega), Nat.add_sub_cancel_left]
      · rw [Function.update_noteq e, ih5 j]
        by_cases hc : s1.j1 ≤ j ∧ j < s1.j1 + C
        · rw [if_pos hc, if_pos (by omega)]
        · rw [if_neg hc, if_neg (by omega)]
    · intro r
      rw [Equiv.Perm.mul_apply, hτ]
      by_cases hr : r < s1.j1
      · rw [Equiv.swap_apply_of_ne_of_ne (by omega) (by omega), if_pos hr, if_pos hr]
      · rw [swap_shift s1.j1 C (s1.bp C) r (by omega), if_neg (by omega), if_neg hr,
          Nat.add_sub_cancel_left]
        simp only [luPerm, Equiv.Perm.mul_apply]
    · have e1 : luPerm (rmatrixlu_interchange n C s).pivots (s1.j1 + (C + 1))
          = luPerm s.pivots (s1.j1 + C) * Equiv.swap (s1.j1 + C) (s1.j1 + s1.bp C) := by
        rw [← Nat.add_assoc]
        simp only [luPerm]
        rw [hp, Function.update_same]
        congr 1
        apply luPerm_congr
        intro j hj
        rw [Function.update_noteq (by omega)]
      rw [e1, hperm, mul_assoc]
    · intro r c
      rw [hsa r c]
      by_cases hc : c < s1.j1 ∨ (s1.j2 < c ∧ c < n)
      · rw [if_pos hc, if_pos hc, ha, if_pos hc, Equiv.Perm.mul_apply]
      · rw [if_neg hc, if_neg hc, ha, if_neg hc]

omit [LinearOrderedField α] in
/-- The copy of the panel to `b` (lu.cpp lines 152-155). -/
theorem rmatrixlu_copy_panel (a b : Nat → Nat → α) (m j1 cb : Nat) (hcb : 0 < cb)
    (r c : Nat) :
    forRange j1 m
        (fun i b =>
          ap.setRowFrom b (i - j1) 0
            (ap.vmove (ap.rowFrom b (i - j1) 0) (ap.rowFrom a i j1) (ap.vlen 0 (cb - 1))))
        b r c
      = if r < m - j1 ∧ c < cb then a (j1 + r) (j1 + c) else b r c := by
  by_cases hm : j1 ≤ m
  · have h := forRange_induct
      (fun bnd (x : Nat → Nat → α) => ∀ r c,
        x r c = if r < bnd - j1 ∧ c < cb then a (j1 + r) (j1 + c) else b r c)
      j1 m
      (fun i b =>
        ap.setRowFrom b (i - j1) 0
          (ap.vmove (ap.rowFrom b (i - j1) 0) (ap.rowFrom a i j1) (ap.vlen 0 (cb - 1))))
      b hm
      (fun r c => by rw [if_neg (by omega)])
      (fun i hi him x hx r c => by
        have hlen : cb - 1 + 1 - 0 = cb := by omega
        simp only [ap.setRowFrom, ap.vmove, ap.rowFrom, ap.vlen, hlen, Nat.zero_le, and_true,
          Nat.sub_zero, Nat.zero_add]
        by_cases hr : r = i - j1
        · have e : j1 + r = i := by omega
          by_cases hc : c < cb
          · rw [if_pos hr, if_pos hc, if_pos ⟨by omega, hc⟩, e]
          · rw [if_pos hr, if_neg hc, if_neg (by omega), ← hr, hx r c, if_neg (by omega)]
        · rw [if_neg hr, hx r c]
          by_cases hc : r < i - j1 ∧ c < cb
          · rw [if_pos hc, if_pos ⟨by omega, hc.2⟩]
          · rw [if_neg hc, if_neg (by omega)])
    exact h r c
  · rw [forRange_of_le _ _ _ _ (by omega), if_neg (by omega)]

omit [LinearOrderedField α] in
/-- The copy of the decomposed panel back to `a` (lu.cpp lines 157-160). -/
theorem rmatrixlu_copy_back (a b : Nat → Nat → α) (m j1 j2 : Nat) (r c : Nat) :
    forRange j1 m
        (fun i a =>
          ap.setRowFrom a i j1
            (ap.vmove (ap.rowFrom a i j1) (ap.rowFrom b (i - j1) 0) (ap.vlen j1 j2)))
        a r c
      = if j1 ≤ r ∧ r < m ∧ j1 ≤ c ∧ c ≤ j2 then b (r - j1) (c - j1) else a r c := by
  by_cases hm : j1 ≤ m
  · have h := forRange_induct
      (fun bnd (x : Nat → Nat → α) => ∀ r c,
        x r c = if j1 ≤ r ∧ r < bnd ∧ j1 ≤ c ∧ c ≤ j2 then b (r - j1) (c - j1) else a r c)
      j1 m
      (fun i a =>
        ap.setRowFrom a i j1
          (ap.vmove (ap.rowFrom a i j1) (ap.rowFrom b (i - j1) 0) (ap.vlen j1 j2)))
      a hm
      (fun r c => by rw [if_neg (by omega)])
      (fun i hi him x hx r c => by
        simp only [ap.setRowFrom, ap.vmove, ap.rowFrom, ap.vlen, Nat.zero_add]
        by_cases hr : r = i ∧ j1 ≤ c
        · have e : j1 + (c - j1) = c := by omega
          by_cases hc : c - j1 < j2 + 1 - j1
          · rw [if_pos hr, if_pos hc, if_pos (by omega), hr.1]
          · rw [if_pos hr, if_neg hc, if_neg (by omega), e, ← hr.1, hx r c, if_neg (by omega)]
        · rw [if_neg hr, hx r c]
          by_cases hc : j1 ≤ r ∧ r < i ∧ j1 ≤ c ∧ c ≤ j2
          · rw [if_pos hc, if_pos (by omega)]
          · rw [if_neg hc, if_neg (by omega)])
    exact h r c
  · rw [forRange_of_le _ _ _ _ (by omega), if_neg (by omega)]

theorem rmatrixlu_eliminate_apply (n j2 i j : Nat) (a : Nat → Nat → α) (r c : Nat) :
    rmatrixlu_eliminate n j2 i j a r c
      = if r = i ∧ j2 < c ∧ c < n then a i c - a i j * a j c else a r c := by
  simp only [rmatrixlu_eliminate, ap.setRowFrom, ap.vsub, ap.rowFrom, ap.vlen]
  by_cases hr : r = i ∧ j2 + 1 ≤ c
  · have e : j2 + 1 + (c - (j2 + 1)) = c := by omega
    rw [if_pos hr, e]
    by_cases hc : c < n
    · rw [if_pos (by omega), if_pos (by omega)]
    · rw [if_neg (by omega), if_neg (by omega), hr.1]
  · rw [if_neg hr, if_neg (by omega)]

/-- The elimination of row `i` with the rows `j1, ..., e - 1` of the panel. -/
theorem rmatrixlu_eliminate_row (n j1 j2 i e : Nat) (a : Nat → Nat → α) (hei : e ≤ i)
    (he2 : e ≤ j2 + 1) (r c : Nat) :
    forRange j1 e (fun j a => rmatrixlu_eliminate n j2 i j a) a r c
      = if r = i ∧ j2 < c ∧ c < n then
          a i c - ∑ l ∈ Finset.range (j2 + 1), if j1 ≤ l ∧ l < e then a i l * a l c else 0
        else a r c := by
  by_cases hm : j1 ≤ e
  · have h := forRange_induct
      (fun bnd (x : Nat → Nat → α) => ∀ r c,
        x r c = if r = i ∧ j2 < c ∧ c < n then
            a i c - ∑ l ∈ Finset.range bnd, if j1 ≤ l then a i l * a l c else 0
          else a r c)
      j1 e (fun j a => rmatrixlu_eliminate n j2 i j a) a hm
      (fun r c => by
        have : (∑ l ∈ Finset.range j1, if j1 ≤ l then a i l * a l c else 0) = 0 := by
          apply Finset.sum_eq_zero
          intro l hl
          have := Finset.mem_range.mp hl
          rw [if_neg (by omega)]
        rw [this, sub_zero]
        by_cases hc : r = i ∧ j2 < c ∧ c < n
        · rw [if_pos hc, hc.1]
        · rw [if_neg hc])
      (fun j hj hje x hx r c => by
        show rmatrixlu_eliminate n j2 i j x r c = _
        rw [rmatrixlu_eliminate_apply, hx i c, hx i j, hx j c, hx r c]
        by_cases hc : r = i ∧ j2 < c ∧ c < n
        · rw [if_pos hc, if_pos ⟨rfl, hc.2⟩, if_neg (by omega), if_neg (by omega),
            if_pos hc, Finset.sum_range_succ, if_pos hj]
          ring
        · rw [if_neg hc, if_neg hc, if_neg hc])
    rw [h r c]
    have es : (∑ l ∈ Finset.range (j2 + 1), if j1 ≤ l ∧ l < e then a i l * a l c else 0)
        = ∑ l ∈ Finset.range e, if j1 ≤ l then a i l * a l c else 0 := by
      rw [← sum_range_ite_lt _ e (j2 + 1) he2]
      apply Finset.sum_congr rfl
      intro l _
      by_cases h1 : l < e
      · by_cases h2 : j1 ≤ l
        · rw [if_pos ⟨h2, h1⟩, if_pos h1, if_pos h2]
        · rw [if_neg (by omega), if_pos h1, if_neg h2]
      · rw [if_neg (by omega), if_neg h1]
    rw [es]
  · rw [forRange_of_le _ _ _ _ (by omega)]
    have : (∑ l ∈ Finset.range (j2 + 1), if j1 ≤ l ∧ l < e then a i l * a l c else 0) = 0 := by
      apply Finset.sum_eq_zero
      intro l _
      rw [if_neg (by omega)]
    rw [this, sub_zero]
    by_cases hc : r = i ∧ j2 < c ∧ c < n
    · rw [if_pos hc, hc.1]
    · rw [if_neg hc]

/-- The elimination of one more row keeps the description of the rows eliminated so far:
each is the row it was minus the multiples of the rows of the panel above it. -/
theorem rmatrixlu_eliminate_next (n j1 j2 i e : Nat) (a2 x : Nat → Nat → α) (hi : j1 < i)
    (hei : e ≤ i) (he2 : e ≤ j2 + 1) (hle : ∀ l, l < j2 + 1 → (l < e ↔ l < i))
    (hx : ∀ r c, x r c
      = if j1 < r ∧ r < i ∧ j2 < c ∧ c < n then
          a2 r c - ∑ l ∈ Finset.range (j2 + 1), if j1 ≤ l ∧ l < r then a2 r l * x l c else 0
        else a2 r c)
    (r c : Nat) :
    forRange j1 e (fun j a => rmatrixlu_eliminate n j2 i j a) x r c
      = if j1 < r ∧ r < i + 1 ∧ j2 < c ∧ c < n then
          a2 r c - ∑ l ∈ Finset.range (j2 + 1),
            if j1 ≤ l ∧ l < r then
              a2 r l * forRange j1 e (fun j a => rmatrixlu_eliminate n j2 i j a) x l c
            else 0
        else a2 r c := by
  have hother : ∀ l c, l ≠ i →
      forRange j1 e (fun j a => rmatrixlu_eliminate n j2 i j a) x l c = x l c := by
    intro l c hl
    rw [rmatrixlu_eliminate_row n j1 j2 i e x hei he2 l c, if_neg (fun h => hl h.1)]
  have hleft : ∀ r l, l < j2 + 1 → x r l = a2 r l := by
    intro r l hl
    rw [hx r l, if_neg (by omega)]
  by_cases hr : r = i
  · subst hr
    rw [rmatrixlu_eliminate_row n j1 j2 r e x hei he2 r c]
    by_cases hc : j2 < c ∧ c < n
    · rw [if_pos ⟨rfl, hc⟩, if_pos ⟨hi, Nat.lt_succ_self r, hc⟩, hx r c, if_neg (by omega)]
      congr 1
      apply Finset.sum_congr rfl
      intro l hl
      have hl2 : l < j2 + 1 := Finset.mem_range.mp hl
      by_cases hcond : j1 ≤ l ∧ l < e
      · have hlr : l < r := (hle l hl2).mp hcond.2
        rw [if_pos hcond, if_pos ⟨hcond.1, hlr⟩, hleft r l hl2, hother l c (by omega)]
      · have : ¬ (j1 ≤ l ∧ l < r) := fun h => hcond ⟨h.1, (hle l hl2).mpr h.2⟩
        rw [if_neg hcond, if_neg this]
    · rw [if_neg (fun h => hc h.2), if_neg (fun h => hc h.2.2), hx r c, if_neg (by omega)]
  · rw [hother r c hr, hx r c]
    by_cases hc : j1 < r ∧ r < i ∧ j2 < c ∧ c < n
    · rw [if_pos hc, if_pos ⟨hc.1, by omega, hc.2.2⟩]
      congr 1
      apply Finset.sum_congr rfl
      intro l _
      by_cases hcond : j1 ≤ l ∧ l < r
      · rw [if_pos hcond, if_pos hcond, hother l c (by omega)]
      · rw [if_neg hcond, if_neg hcond]
    · rw [if_neg hc, if_neg (by omega)]

/-- The two elimination loops of `rmatrixlu` (lu.cpp lines 197-221) together: to the right
of the panel every row below `j1` is the row it was minus the multiples of the rows of the
panel above it. -/
theorem rmatrixlu_eliminate_loops (m n j1 j2 : Nat) (a2 : Nat → Nat → α) (h12 : j1 ≤ j2)
    (hj2m : j2 < m) :
    ∀ r c,
      forRange (j2 + 1) m
          (fun i a => forRange j1 (j2 + 1) (fun j a => rmatrixlu_eliminate n j2 i j a) a)
          (forRange (j1 + 1) (j2 + 1)
            (fun i a => forRange j1 i (fun j a => rmatrixlu_eliminate n j2 i j a) a) a2) r c
        = if j1 < r ∧ r < m ∧ j2 < c ∧ c < n then
            a2 r c - ∑ l ∈ Finset.range (j2 + 1),
              if j1 ≤ l ∧ l < r then
                a2 r l *
                  forRange (j2 + 1) m
                    (fun i a =>
                      forRange j1 (j2 + 1) (fun j a => rmatrixlu_eliminate n j2 i j a) a)
                    (forRange (j1 + 1) (j2 + 1)
                      (fun i a => forRange j1 i (fun j a => rmatrixlu_eliminate n j2 i j a) a)
                      a2) l c
              else 0
          else a2 r c := by
  have h1 := forRange_induct
    (fun bnd (x : Nat → Nat → α) => ∀ r c, x r c
      = if j1 < r ∧ r < bnd ∧ j2 < c ∧ c < n then
          a2 r c - ∑ l ∈ Finset.range (j2 + 1), if j1 ≤ l ∧ l < r then a2 r l * x l c else 0
        else a2 r c)
    (j1 + 1) (j2 + 1)
    (fun i a => forRange j1 i (fun j a => rmatrixlu_eliminate n j2 i j a) a) a2 (by omega)
    (fun r c => by rw [if_neg (by omega)])
    (fun i hi hi2 x hx r c =>
      rmatrixlu_eliminate_next n j1 j2 i i a2 x (by omega) (Nat.le_refl i) (by omega)
        (fun l _ => Iff.rfl) hx r c)
  exact forRange_induct
    (fun bnd (x : Nat → Nat → α) => ∀ r c, x r c
      = if j1 < r ∧ r < bnd ∧ j2 < c ∧ c < n then
          a2 r c - ∑ l ∈ Finset.range (j2 + 1), if j1 ≤ l ∧ l < r then a2 r l * x l c else 0
        else a2 r c)
    (j2 + 1) m
    (fun i a => forRange j1 (j2 + 1) (fun j a => rmatrixlu_eliminate n j2 i j a) a) _
    (by omega) h1
    (fun i hi hi2 x hx r c =>
      rmatrixlu_eliminate_next n j1 j2 i (j2 + 1) a2 x (by omega) (by omega) (Nat.le_refl _)
        (fun l hl => ⟨fun _ => by omega, fun _ => hl⟩) hx r c)

theorem LuInv.congr_left {m n J : Nat} {A0 A1 a : Nat → Nat → α} {σ : Equiv.Perm Nat}
    (h : LuInv m n J A0 a σ) (hσ : ∀ i, i < m → σ i < m)
    (hA : ∀ r c, r < m → c < n → A1 r c = A0 r c) : LuInv m n J A1 a σ := by
  intro i hi k hk
  rw [hA (σ i) k (hσ i hi) hk]
  exact h i hi k hk

/-- One pass of the main cycle of `rmatrixlu`, given its intermediate results. -/
theorem rmatrixlu_block_aux (m n : Nat) (mem : InvMem α) (s : LuBlockState α)
    (A0 : Nat → Nat → α) (h12 : s.j1 ≤ s.j2) (hj2 : s.j2 < min m n)
    (hinv : LuInv m n s.j1 A0 s.a (luPerm s.pivots s.j1))
    (b1 : Nat → Nat → α)
    (hb1 : b1 = forRange s.j1 m
      (fun i b =>
        ap.setRowFrom b (i - s.j1) 0
          (ap.vmove (ap.rowFrom b (i - s.j1) 0) (ap.rowFrom s.a i s.j1)
            (ap.vlen 0 (s.j2 - s.j1 + 1 - 1))))
      s.b)
    (lu : LuState α) (hlu : lu = rmatrixlu2 b1 (m - s.j1) (s.j2 - s.j1 + 1) mem.bp mem.t1)
    (a1 : Nat → Nat → α)
    (ha1 : a1 = forRange s.j1 m
      (fun i a =>
        ap.setRowFrom a i s.j1
          (ap.vmove (ap.rowFrom a i s.j1) (ap.rowFrom lu.a (i - s.j1) 0) (ap.vlen s.j1 s.j2)))
      s.a)
    (s2 : LuBlockState α)
    (hs2 : s2 = forLoop (s.j2 - s.j1 + 1) (rmatrixlu_interchange n)
      { s with a := a1, b := lu.a, bp := lu.pivots })
    (a4 : Nat → Nat → α)
    (ha4 : a4 =
      if s2.j2 + 1 < n then
        forRange (s2.j2 + 1) m
          (fun i a =>
            forRange s2.j1 (s2.j2 + 1) (fun j a => rmatrixlu_eliminate n s2.j2 i j a) a)
          (if s2.j2 + 1 < n then
            forRange (s2.j1 + 1) (s2.j2 + 1)
              (fun i a => forRange s2.j1 i (fun j a => rmatrixlu_eliminate n s2.j2 i j a) a)
              s2.a
          else s2.a)
      else if s2.j2 + 1 < n then
        forRange (s2.j1 + 1) (s2.j2 + 1)
          (fun i a => forRange s2.j1 i (fun j a => rmatrixlu_eliminate n s2.j2 i j a) a) s2.a
      else s2.a) :
    s2.j2 = s.j2
    ∧ (∀ j, j < s.j1 ∨ s.j2 < j → s2.pivots j = s.pivots j)
    ∧ (∀ j, s.j1 ≤ j → j ≤ s.j2 → j ≤ s2.pivots j ∧ s2.pivots j < m)
    ∧ LuInv m n (s.j2 + 1) A0 a4 (luPerm s2.pivots (s.j2 + 1)) := by
  have hj2m : s.j2 < m := lt_of_lt_of_le hj2 (Nat.min_le_left m n)
  have hj2n : s.j2 < n := lt_of_lt_of_le hj2 (Nat.min_le_right m n)
  have hcb : s.j2 - s.j1 + 1 = s.j2 + 1 - s.j1 := by omega
  have hmin : min (m - s.j1) (s.j2 + 1 - s.j1) = s.j2 + 1 - s.j1 := by omega
  -- the panel
  obtain ⟨hp1, _, _, hpanel⟩ := rmatrixlu2_spec b1 (m - s.j1) (s.j2 - s.j1 + 1) mem.bp mem.t1
  rw [← hlu, hcb, hmin] at hp1 hpanel
  have hβ : ∀ r, r < m - s.j1 → luPerm lu.pivots (s.j2 + 1 - s.j1) r < m - s.j1 := fun r hr =>
    (luPerm_lt lu.pivots (m - s.j1) (s.j2 + 1 - s.j1) (by omega) (fun j hj => (hp1 j hj).2) r).1
      hr
  have hb1v : ∀ r c, r < m - s.j1 → c < s.j2 + 1 - s.j1 → b1 r c = s.a (s.j1 + r) (s.j1 + c) := by
    intro r c hr hc
    rw [hb1, rmatrixlu_copy_panel s.a s.b m s.j1 (s.j2 - s.j1 + 1) (by omega) r c,
      if_pos ⟨hr, by omega⟩]
  have hpanel2 : LuInv (m - s.j1) (s.j2 + 1 - s.j1) (s.j2 + 1 - s.j1)
      (fun r c => s.a (s.j1 + r) (s.j1 + c)) lu.a (luPerm lu.pivots (s.j2 + 1 - s.j1)) :=
    hpanel.congr_left hβ (fun r c hr hc => (hb1v r c hr hc).symm)
  -- the interchanges
  obtain ⟨_, _, hj1, hj2e, hpiv, τ, hτ, hperm, hsa⟩ :=
    rmatrixlu_interchange_loop n { s with a := a1, b := lu.a, bp := lu.pivots } h12
      (s.j2 - s.j1 + 1)
  rw [← hs2] at hj1 hj2e hpiv hperm hsa
  simp only [] at hj1 hj2e hpiv hτ hperm hsa
  have ha1v : ∀ r c, a1 r c
      = if s.j1 ≤ r ∧ r < m ∧ s.j1 ≤ c ∧ c ≤ s.j2 then lu.a (r - s.j1) (c - s.j1)
        else s.a r c := by
    intro r c
    rw [ha1, rmatrixlu_copy_back]
  -- the eliminations
  have ha4v : ∀ r c, a4 r c
      = if s.j1 < r ∧ r < m ∧ s.j2 < c ∧ c < n then
          s2.a r c - ∑ l ∈ Finset.range (s.j2 + 1),
            if s.j1 ≤ l ∧ l < r then s2.a r l * a4 l c else 0
        else s2.a r c := by
    intro r c
    by_cases hn : s.j2 + 1 < n
    · have e : a4 = forRange (s.j2 + 1) m
          (fun i a =>
            forRange s.j1 (s.j2 + 1) (fun j a => rmatrixlu_eliminate n s.j2 i j a) a)
          (forRange (s.j1 + 1) (s.j2 + 1)
            (fun i a => forRange s.j1 i (fun j a => rmatrixlu_eliminate n s.j2 i j a) a)
            s2.a) := by
        rw [ha4, hj1, hj2e, if_pos hn, if_pos hn]
      rw [e]
      exact rmatrixlu_eliminate_loops m n s.j1 s.j2 s2.a h12 hj2m r c
    · have e : a4 = s2.a := by
        rw [ha4, hj2e, if_neg hn, if_neg hn]
      rw [e, if_neg (by omega)]
  have hperm2 : luPerm s2.pivots (s.j2 + 1) = luPerm s.pivots s.j1 * τ := by
    have : s.j1 + (s.j2 - s.j1 + 1) = s.j2 + 1 := by omega
    rw [← this]
    exact hperm
  refine ⟨hj2e, ?_, ?_, ?_⟩
  · intro j hj
    rw [hpiv j, if_neg (by omega)]
  · intro j hj1 hj2
    rw [hpiv j, if_pos (by omega)]
    have := hp1 (j - s.j1) (by omega)
    omega
  · refine LuInv.block hinv h12 hj2m hβ ?_ hpanel2 ?_ ?_ ?_ ?_
    · intro i
      rw [hperm2, Equiv.Perm.mul_apply, hτ, hcb]
    · intro r c hr
      rw [ha4v, if_neg (by omega), hsa, hτ, if_pos hr, ite_self, ha1v, if_neg (by omega)]
    · intro r c hr hrm hc
      rw [ha4v, if_neg (by omega), hsa, if_pos (Or.inl hc), hτ, if_neg (by omega), ha1v,
        if_neg (by omega), hcb]
    · intro r c hr hrm hc1 hc2
      rw [ha4v, if_neg (by omega), hsa, if_neg (by omega), ha1v, if_pos ⟨hr, hrm, hc1, hc2⟩]
    · intro r c hr hrm hc hcn
      have hs2v : s2.a r c = s.a (s.j1 + luPerm lu.pivots (s.j2 + 1 - s.j1) (r - s.j1)) c := by
        rw [hsa, if_pos (Or.inr ⟨hc, hcn⟩), hτ, if_neg (by omega), ha1v, if_neg (by omega), hcb]
      have hsum : ∀ l, l < s.j2 + 1 → s2.a r l = a4 r l := by
        intro l hl
        rw [ha4v r l, if_neg (by omega)]
      rw [ha4v r c]
      by_cases hr1 : s.j1 < r
      · rw [if_pos ⟨hr1, hrm, hc, hcn⟩, hs2v]
        congr 1
        apply Finset.sum_congr rfl
        intro l hl
        rw [hsum l (Finset.mem_range.mp hl)]
      · rw [if_neg (by omega), hs2v]
        have : (∑ l ∈ Finset.range (s.j2 + 1),
            if s.j1 ≤ l ∧ l < r then a4 r l * a4 l c else 0) = 0 := by
          apply Finset.sum_eq_zero
          intro l _
          rw [if_neg (by omega)]
        rw [this, sub_zero]

/-- One pass of the main cycle of `rmatrixlu` takes the decomposition from column `j1` to
column `j2 + 1`. -/
theorem rmatrixlu_block_spec (m n nb : Nat) (mem : InvMem α) (s : LuBlockState α)
    (A0 : Nat → Nat → α) (h12 : s.j1 ≤ s.j2) (hj2 : s.j2 < min m n)
    (hinv : LuInv m n s.j1 A0 s.a (luPerm s.pivots s.j1)) :
    (rmatrixlu_block m n nb mem s).j1 = s.j2 + 1
    ∧ (rmatrixlu_block m n nb mem s).j2 = min (min m n) (s.j2 + 1 + nb) - 1
    ∧ (∀ j, j < s.j1 ∨ s.j2 < j → (rmatrixlu_block m n nb mem s).pivots j = s.pivots j)
    ∧ (∀ j, s.j1 ≤ j → j ≤ s.j2 →
        j ≤ (rmatrixlu_block m n nb mem s).pivots j
        ∧ (rmatrixlu_block m n nb mem s).pivots j < m)
    ∧ LuInv m n (s.j2 + 1) A0 (rmatrixlu_block m n nb mem s).a
        (luPerm (rmatrixlu_block m n nb mem s).pivots (s.j2 + 1)) := by
  obtain ⟨he, hp1, hp2, h⟩ :=
    rmatrixlu_block_aux m n mem s A0 h12 hj2 hinv _ rfl _ rfl _ rfl _ rfl _ rfl
  refine ⟨?_, ?_, hp1, hp2, h⟩
  · show _ + 1 = s.j2 + 1
    rw [he]
  · show min (min m n) (_ + 1 + nb) - 1 = min (min m n) (s.j2 + 1 + nb) - 1
    rw [he]

/-- The main cycle of `rmatrixlu`, followed for as many passes as columns are left, has
ended (its condition `j1 < minmn` is false) with the decomposition of all `min m n`
columns. -/
theorem rmatrixlu_cycle_spec (m n nb : Nat) (mem : InvMem α) (A0 : Nat → Nat → α)
    (hnb : 0 < nb) (fuel : Nat) (s : LuBlockState α) (hfuel : min m n - s.j1 ≤ fuel)
    (hj1 : s.j1 ≤ min m n) (hj2 : s.j2 = min (min m n) (s.j1 + nb) - 1)
    (hpiv : ∀ j, j < s.j1 → j ≤ s.pivots j ∧ s.pivots j < m)
    (hinv : LuInv m n s.j1 A0 s.a (luPerm s.pivots s.j1)) :
    ¬ (rmatrixlu_cycle m n nb mem fuel s).j1 < min m n
    ∧ (∀ j, j < min m n → j ≤ (rmatrixlu_cycle m n nb mem fuel s).pivots j
        ∧ (rmatrixlu_cycle m n nb mem fuel s).pivots j < m)
    ∧ LuInv m n (min m n) A0 (rmatrixlu_cycle m n nb mem fuel s).a
        (luPerm (rmatrixlu_cycle m n nb mem fuel s).pivots (min m n)) := by
  induction fuel generalizing s with
  | zero =>
    have e : s.j1 = min m n := by omega
    simp only [rmatrixlu_cycle]
    refine ⟨by omega, ?_⟩
    rw [← e]
    exact ⟨hpiv, hinv⟩
  | succ k ih =>
    simp only [rmatrixlu_cycle]
    by_cases hlt : s.j1 < min m n
    · rw [if_pos hlt]
      have h12 : s.j1 ≤ s.j2 := by omega
      have h2 : s.j2 < min m n := by omega
      obtain ⟨b1, b2, b3, b4, b5⟩ := rmatrixlu_block_spec m n nb mem s A0 h12 h2 hinv
      apply ih
      · rw [b1]; omega
      · rw [b1]; omega
      · rw [b1, b2]
      · intro j hj
        rw [b1] at hj
        by_cases hjj : j < s.j1
        · rw [b3 j (Or.inl hjj)]
          exact hpiv j hjj
        · exact b4 j (by omega) (by omega)
      · rw [b1]
        exact b5
    · rw [if_neg hlt]
      have e : s.j1 = min m n := by omega
      refine ⟨hlt, ?_⟩
      rw [← e]
      exact ⟨hpiv, hinv⟩

/-- The function `rmatrixlu`: the pivots lie between the diagonal and the last row, and in
the rows permuted by them the matrix is the product of the unit lower triangular and the
upper triangular factor stored in the result, whether the plain or the blocked code
runs. -/
theorem rmatrixlu_spec (mem : InvMem α) (a : Nat → Nat → α) (m n : Nat) :
    (∀ j, j < min m n → j ≤ (rmatrixlu mem a m n).2 j ∧ (rmatrixlu mem a m n).2 j < m)
    ∧ LuInv m n (min m n) a (rmatrixlu mem a m n).1
        (luPerm (rmatrixlu mem a m n).2 (min m n)) := by
  unfold rmatrixlu
  simp only []
  by_cases h : n ≤ 1 ∨ min m n ≤ lunb ∨ lunb = 1
  · rw [if_pos h]
    obtain ⟨h1, _, _, h4⟩ := rmatrixlu2_spec a m n mem.pivots mem.t1
    exact ⟨h1, h4⟩
  · rw [if_neg h]
    exact (rmatrixlu_cycle_spec m n lunb mem a (by decide) (min m n) _ (by simp)
      (Nat.zero_le _) (by simp) (fun j hj => absurd hj (Nat.not_lt_zero j))
      (LuInv.zero m n a _)).2

end blockProgram

section trinverse

variable {α : Type} [LinearOrderedField α]

theorem vdotproduct_eq_sum (v1 v2 : Nat → α) (N : Nat) :
    ap.vdotproduct v1 v2 N = ∑ k ∈ Finset.range N, v1 k * v2 k := by
  unfold ap.vdotproduct
  induction N with
  | zero => rfl
  | succ k ih => rw [forLoop_succ, ih, Finset.sum_range_succ]

/-- The dot product of the elements `j0, ..., n - 1` of a row and of a vector. -/
theorem vdotproduct_from (x : Nat → Nat → α) (t : Nat → α) (i j0 last : Nat)
    (h : j0 ≤ last + 1) :
    ap.vdotproduct (ap.rowFrom x i j0) (ap.vecFrom t j0) (ap.vlen j0 last)
      = ∑ l ∈ Finset.range (last + 1), if j0 ≤ l then x i l * t l else 0 := by
  rw [vdotproduct_eq_sum]
  have e : last + 1 = j0 + (last + 1 - j0) := by omega
  have e2 : ap.vlen j0 last = last + 1 - j0 := rfl
  rw [e2]
  conv_rhs => rw [e]
  rw [← sum_range_shift (fun k => ap.rowFrom x i j0 k * ap.vecFrom t j0 k) j0
    (last + 1 - j0)]
  apply Finset.sum_congr rfl
  intro l _
  by_cases hl : j0 ≤ l
  · have : j0 + (l - j0) = l := by omega
    rw [if_pos hl, if_pos hl]
    simp only [ap.rowFrom, ap.vecFrom, this]
  · rw [if_neg hl, if_neg hl]

theorem sum_range_ite_le_split (F : Nat → α) (i n : Nat) (h : i < n) :
    (∑ l ∈ Finset.range n, if i ≤ l then F l else 0)
      = (∑ l ∈ Finset.range n, if i + 1 ≤ l then F l else 0) + F i := by
  have e : ∀ l, (if i ≤ l then F l else 0)
      = (if i + 1 ≤ l then F l else 0) + (if l = i then F i else 0) := by
    intro l
    by_cases h1 : i + 1 ≤ l
    · rw [if_pos h1, if_pos (by omega), if_neg (by omega), add_zero]
    · by_cases h2 : l = i
      · rw [if_neg h1, if_pos (by omega), if_pos h2, zero_add, h2]
      · rw [if_neg h1, if_neg (by omega), if_neg h2, zero_add]
  simp only [e]
  rw [Finset.sum_add_distrib, Finset.sum_ite_eq', if_pos (Finset.mem_range.mpr h)]

/-- The loop over the rows of column `j` in `rmatrixtrinverse` (lines 121-137): every row
above the diagonal receives the product of its row of the inverse found so far with the
column `t` of the matrix. -/
theorem rmatrixtrinverse_upper_inner (a1 : Nat → Nat → α) (t : Nat → α) (j b : Nat)
    (hb : b ≤ j) (r c : Nat) :
    forLoop b
        (fun i a =>
          ap.set a i j
            ((if i + 1 < j then
                ap.vdotproduct (ap.rowFrom a i (i + 1)) (ap.vecFrom t (i + 1))
                  (ap.vlen (i + 1) (j - 1))
              else 0) + a i i * t i))
        a1 r c
      = if c = j ∧ r < b then ∑ l ∈ Finset.range j, (if r ≤ l then a1 r l * t l else 0)
        else a1 r c := by
  induction b generalizing r c with
  | zero =>
    rw [if_neg (by omega)]
    rfl
  | succ i ih =>
    have ih2 := fun r c => ih (by omega) r c
    rw [forLoop_succ]
    generalize forLoop i _ a1 = x at ih2 ⊢
    have hrow : ∀ l, l < j → x i l = a1 i l := by
      intro l hl
      rw [ih2 i l, if_neg (by omega)]
    simp only [ap.set]
    by_cases hrc : r = i ∧ c = j
    · rw [if_pos hrc, if_pos (show c = j ∧ r < i + 1 from ⟨hrc.2, by omega⟩), hrc.1,
        sum_range_ite_le_split _ i j (by omega), hrow i (by omega)]
      congr 1
      by_cases hi : i + 1 < j
      · have ej : j - 1 + 1 = j := by omega
        rw [if_pos hi, vdotproduct_from x t i (i + 1) (j - 1) (by omega), ej]
        apply Finset.sum_congr rfl
        intro l hl
        have := Finset.mem_range.mp hl
        by_cases hl2 : i + 1 ≤ l
        · rw [if_pos hl2, if_pos hl2, hrow l this]
        · rw [if_neg hl2, if_neg hl2]
      · rw [if_neg hi]
        symm
        apply Finset.sum_eq_zero
        intro l hl
        have := Finset.mem_range.mp hl
        rw [if_neg (by omega)]
    · rw [if_neg hrc, ih2 r c]
      by_cases h1 : c = j ∧ r < i
      · rw [if_pos h1, if_pos ⟨h1.1, by omega⟩]
      · rw [if_neg h1, if_neg (by omega)]

theorem rmatrixtrinverse_upper_apply (j : Nat) (s : TrState α) (hret : s.returned = false)
    (hjj : s.a j j ≠ 0) :
    (rmatrixtrinverse_upper true j s).returned = false
    ∧ (rmatrixtrinverse_upper true j s).result = s.result
    ∧ ∀ r c, (rmatrixtrinverse_upper true j s).a r c
        = if c = j then
            (if r = j then 1 / s.a j j
             else if r < j then
              (∑ l ∈ Finset.range j, if r ≤ l then s.a r l * s.a l j else 0) * (-(1 / s.a j j))
             else s.a r c)
          else s.a r c := by
  unfold rmatrixtrinverse_upper
  simp only [hret, Bool.false_eq_true, if_false, true_and, hjj, if_true]
  by_cases hj : j > 0
  · simp only [hj, if_true, true_and]
    intro r c
    have hlen : ap.vlen 0 (j - 1) = j := by
      simp only [ap.vlen]
      omega
    have ht : ∀ l, l < j →
        ap.setVecFrom s.t 0
          (ap.vmove (ap.vecFrom s.t 0) (ap.colFrom (ap.set s.a j j (1 / s.a j j)) j 0)
            j) l = s.a l j := by
      intro l hl
      simp [ap.setVecFrom, ap.vmove, ap.colFrom, ap.set, hl, Nat.ne_of_lt hl]
    have ha1 : ∀ r l, l < j → ap.set s.a j j (1 / s.a j j) r l = s.a r l := by
      intro r l hl
      simp only [ap.set]
      rw [if_neg (by omega)]
    simp only [ap.setColFrom, ap.vmul, ap.colFrom, Nat.zero_le, and_true, Nat.sub_zero,
      Nat.zero_add, hlen]
    rw [rmatrixtrinverse_upper_inner _ _ j j (Nat.le_refl j) r c,
      rmatrixtrinverse_upper_inner _ _ j j (Nat.le_refl j) r j]
    have hsum : ∀ r, (∑ l ∈ Finset.range j,
        if r ≤ l then ap.set s.a j j (1 / s.a j j) r l *
          ap.setVecFrom s.t 0
            (ap.vmove (ap.vecFrom s.t 0) (ap.colFrom (ap.set s.a j j (1 / s.a j j)) j 0)
              j) l
        else 0) = ∑ l ∈ Finset.range j, if r ≤ l then s.a r l * s.a l j else 0 := by
      intro r
      apply Finset.sum_congr rfl
      intro l hl
      have := Finset.mem_range.mp hl
      rw [ha1 r l this, ht l this]
    have hjj2 : ap.set s.a j j (1 / s.a j j) j j = 1 / s.a j j := by
      simp [ap.set]
    rw [hsum, hjj2]
    by_cases hc : c = j
    · subst hc
      by_cases hr : r < c
      · have hne : r ≠ c := by omega
        simp only [hr, hne, if_true, if_false, and_self]
      · by_cases hr2 : r = c
        · subst hr2
          simp only [Nat.lt_irrefl, and_false, if_true, if_false, hjj2]
        · simp only [hr, hr2, and_false, if_true, if_false, ap.set, false_and]
    · simp only [hc, false_and, if_false, ap.set, and_false]
  · have hj0 : j = 0 := by omega
    subst hj0
    simp only [gt_iff_lt, Nat.lt_irrefl, if_false, true_and]
    intro r c
    simp only [ap.set]
    by_cases hc : c = 0
    · by_cases hr : r = 0
      · rw [if_pos ⟨hr, hc⟩, if_pos hc, if_pos hr]
      · rw [if_neg (by omega), if_pos hc, if_neg hr, if_neg (by omega)]
    · rw [if_neg (by omega), if_neg hc]

/-- The loop of `rmatrixtrinverse` on an upper triangular matrix with a general diagonal,
after `J` columns: the loop has returned exactly when one of the first `J` diagonal
elements is zero; otherwise the part of the matrix on and above the diagonal of the first
`J` columns holds the inverse of that part of the matrix, and the rest is as it was. -/
theorem rmatrixtrinverse_upper_loop (s0 : TrState α) (h0 : s0.returned = false)
    (h1 : s0.result = true) (J : Nat) :
    ((forLoop J (rmatrixtrinverse_upper true) s0).returned = true
        ↔ ∃ j, j < J ∧ s0.a j j = 0)
    ∧ ((forLoop J (rmatrixtrinverse_upper true) s0).result
        = !(forLoop J (rmatrixtrinverse_upper true) s0).returned)
    ∧ ((forLoop J (rmatrixtrinverse_upper true) s0).returned = false →
        (∀ r c, J ≤ c ∨ c < r →
          (forLoop J (rmatrixtrinverse_upper true) s0).a r c = s0.a r c)
        ∧ ∀ i k, i ≤ k → k < J →
          (∑ l ∈ Finset.range J,
            if i ≤ l ∧ l ≤ k
            then (forLoop J (rmatrixtrinverse_upper true) s0).a i l * s0.a l k else 0)
            = if i = k then 1 else 0) := by
  induction J with
  | zero =>
    refine ⟨?_, ?_, ?_⟩
    · show s0.returned = true ↔ _
      rw [h0]
      constructor
      · intro h
        exact absurd h (by decide)
      · rintro ⟨j, hj, _⟩
        exact absurd hj (Nat.not_lt_zero j)
    · show s0.result = !s0.returned
      rw [h0, h1]
      rfl
    · intro _
      exact ⟨fun r c _ => rfl, fun i k _ hk => absurd hk (Nat.not_lt_zero k)⟩
  | succ J ih =>
    obtain ⟨ih1, ih2, ih3⟩ := ih
    rw [forLoop_succ]
    generalize forLoop J (rmatrixtrinverse_upper true) s0 = s at ih1 ih2 ih3 ⊢
    by_cases hret : s.returned = true
    · have e : rmatrixtrinverse_upper true J s = s := by
        unfold rmatrixtrinverse_upper
        rw [if_pos hret]
      rw [e]
      refine ⟨?_, ih2, ?_⟩
      · constructor
        · intro _
          obtain ⟨j, hj, hz⟩ := ih1.mp hret
          exact ⟨j, Nat.lt_succ_of_lt hj, hz⟩
        · intro _
          exact hret
      · intro h
        rw [hret] at h
        exact absurd h (by decide)
    · have hret2 : s.returned = false := by
        cases hh : s.returned
        · rfl
        · exact absurd hh hret
      obtain ⟨hframe, hinv⟩ := ih3 hret2
      have hnone : ∀ j, j < J → s0.a j j ≠ 0 := by
        intro j hj hz
        exact hret (ih1.mpr ⟨j, hj, hz⟩)
      have hJJ : s.a J J = s0.a J J := hframe J J (Or.inl (Nat.le_refl J))
      by_cases hz : s0.a J J = 0
      · have e : rmatrixtrinverse_upper true J s = { s with result := false, returned := true } := by
          unfold rmatrixtrinverse_upper
          rw [if_neg hret, if_pos ⟨rfl, by rw [hJJ]; exact hz⟩]
        rw [e]
        refine ⟨?_, rfl, ?_⟩
        · constructor
          · intro _
            exact ⟨J, Nat.lt_succ_self J, hz⟩
          · intro _
            rfl
        · intro h
          exact Bool.noConfusion h
      · have hz2 : s.a J J ≠ 0 := by rw [hJJ]; exact hz
        obtain ⟨hr', hres', ha'⟩ := rmatrixtrinverse_upper_apply J s hret2 hz2
        refine ⟨?_, ?_, ?_⟩
        · constructor
          · intro h
            rw [hr'] at h
            exact absurd h (by decide)
          · rintro ⟨j, hj, hjz⟩
            rcases Nat.lt_succ_iff_lt_or_eq.mp hj with h | h
            · exact absurd hjz (hnone j h)
            · rw [h] at hjz
              exact absurd hjz hz
        · rw [hr', hres', ih2, hret2]
        · intro _
          constructor
          · intro r c hrc
            rw [ha' r c]
            by_cases hc : c = J
            · rw [if_pos hc, if_neg (by omega), if_neg (by omega)]
              exact hframe r c (by omega)
            · rw [if_neg hc]
              exact hframe r c (by omega)
          · intro i k hik hk
            rw [Finset.sum_range_succ]
            have hold : ∀ l, l < J → (rmatrixtrinverse_upper true J s).a i l = s.a i l := by
              intro l hl
              rw [ha' i l, if_neg (by omega)]
            rcases Nat.lt_succ_iff_lt_or_eq.mp hk with hkJ | hkJ
            · rw [if_neg (by omega), add_zero, ← hinv i k hik hkJ]
              apply Finset.sum_congr rfl
              intro l hl
              rw [hold l (Finset.mem_range.mp hl)]
            · subst hkJ
              by_cases hik2 : i = k
              · subst hik2
                rw [if_pos rfl, if_pos ⟨Nat.le_refl i, Nat.le_refl i⟩, ha' i i, if_pos rfl,
                  if_pos rfl, hJJ]
                have : (∑ l ∈ Finset.range i,
                    if i ≤ l ∧ l ≤ i then (rmatrixtrinverse_upper true i s).a i l * s0.a l i
                    else 0) = 0 := by
                  apply Finset.sum_eq_zero
                  intro l hl
                  have := Finset.mem_range.mp hl
                  rw [if_neg (by omega)]
                rw [this, zero_add]
                field_simp
              · have hlt : i < k := by omega
                rw [if_neg hik2, if_pos ⟨hik, Nat.le_refl k⟩, ha' i k, if_pos rfl,
                  if_neg hik2, if_pos hlt, hJJ]
                have : (∑ l ∈ Finset.range k,
                    if i ≤ l ∧ l ≤ k then (rmatrixtrinverse_upper true k s).a i l * s0.a l k
                    else 0)
                    = ∑ l ∈ Finset.range k, if i ≤ l then s.a i l * s.a l k else 0 := by
                  apply Finset.sum_congr rfl
                  intro l hl
                  have hlk := Finset.mem_range.mp hl
                  by_cases hil : i ≤ l
                  · rw [if_pos ⟨hil, by omega⟩, if_pos hil, hold l hlk,
                      hframe l k (Or.inl (Nat.le_refl k))]
                  · rw [if_neg (by omega), if_neg hil]
                rw [this]
                field_simp

/-- The function `rmatrixtrinverse` on an upper triangular matrix with a general diagonal:
it reports a singular matrix exactly when a diagonal element is zero, and otherwise leaves
the inverse of the upper triangle in its place, and the part below the diagonal as it
was. -/
theorem rmatrixtrinverse_upper_spec (t : Nat → α) (a : Nat → Nat → α) (n : Nat) :
    ((rmatrixtrinverse t a n true false).2 = false ↔ ∃ j, j < n ∧ a j j = 0)
    ∧ ((rmatrixtrinverse t a n true false).2 = true →
        (∀ r c, n ≤ c ∨ c < r → (rmatrixtrinverse t a n true false).1 r c = a r c)
        ∧ ∀ i k, i ≤ k → k < n →
          (∑ l ∈ Finset.range n,
            if i ≤ l ∧ l ≤ k then (rmatrixtrinverse t a n true false).1 i l * a l k else 0)
            = if i = k then 1 else 0) := by
  obtain ⟨h1, h2, h3⟩ := rmatrixtrinverse_upper_loop
    { a := a, t := t, result := true, returned := false } rfl rfl n
  have e : rmatrixtrinverse t a n true false
      = ((forLoop n (rmatrixtrinverse_upper true)
            { a := a, t := t, result := true, returned := false }).a,
          (forLoop n (rmatrixtrinverse_upper true)
            { a := a, t := t, result := true, returned := false }).result) := rfl
  rw [e]
  simp only []
  generalize forLoop n (rmatrixtrinverse_upper true)
    { a := a, t := t, result := true, returned := false } = s at h1 h2 h3 ⊢
  constructor
  · rw [← h1, h2]
    cases s.returned <;> simp
  · intro hres
    apply h3
    rw [h2] at hres
    cases hh : s.returned
    · rfl
    · rw [hh] at hres
      exact absurd hres (by decide)

end trinverse

section luinverse

variable {α : Type} [LinearOrderedField α]

/-- Lines 109-113 of `rmatrixluinverse`: the part of column `j` below the diagonal is
moved to `work` and replaced by zeros. -/
theorem rmatrixluinverse_clear (j b : Nat) (s : (Nat → Nat → α) × (Nat → α)) :
    (∀ r c, (forRange (j + 1) b
        (fun i (s : (Nat → Nat → α) × (Nat → α)) =>
          (ap.set s.1 i j 0, Function.update s.2 i (s.1 i j))) s).1 r c
      = if c = j ∧ j < r ∧ r < b then 0 else s.1 r c)
    ∧ (∀ i, (forRange (j + 1) b
        (fun i (s : (Nat → Nat → α) × (Nat → α)) =>
          (ap.set s.1 i j 0, Function.update s.2 i (s.1 i j))) s).2 i
      = if j < i ∧ i < b then s.1 i j else s.2 i) := by
  by_cases hb : j + 1 ≤ b
  · exact forRange_induct
      (fun bnd (x : (Nat → Nat → α) × (Nat → α)) =>
        (∀ r c, x.1 r c = if c = j ∧ j < r ∧ r < bnd then 0 else s.1 r c)
        ∧ (∀ i, x.2 i = if j < i ∧ i < bnd then s.1 i j else s.2 i))
      (j + 1) b
      (fun i (s : (Nat → Nat → α) × (Nat → α)) =>
        (ap.set s.1 i j 0, Function.update s.2 i (s.1 i j))) s hb
      ⟨fun r c => by rw [if_neg (by omega)], fun i => by rw [if_neg (by omega)]⟩
      (fun i hi hib x ⟨hx1, hx2⟩ => by
        constructor
        · intro r c
          simp only [ap.set]
          by_cases hrc : r = i ∧ c = j
          · rw [if_pos hrc, if_pos (by omega)]
          · rw [if_neg hrc, hx1 r c]
            by_cases h : c = j ∧ j < r ∧ r < i
            · rw [if_pos h, if_pos (by omega)]
            · rw [if_neg h, if_neg (by omega)]
        · intro k
          simp only []
          by_cases hk : k = i
          · rw [hk, Function.update_same, hx1 i j, if_neg (by omega), if_pos (by omega)]
          · rw [Function.update_noteq hk, hx2 k]
            by_cases h : j < k ∧ k < i
            · rw [if_pos h, if_pos (by omega)]
            · rw [if_neg h, if_neg (by omega)])
  · rw [forRange_of_le _ _ _ _ (by omega)]
    exact ⟨fun r c => by rw [if_neg (by omega)], fun i => by rw [if_neg (by omega)]⟩

/-- The loop over the rows in `rmatrixluinverse` (lines 118-122): the element of column `j`
of every row loses the product of the row, from column `j + 1` on, with `work`. -/
theorem rmatrixluinverse_rows (n j b : Nat) (hn : 0 < n) (hb : b ≤ n) (hj : j < n)
    (a1 : Nat → Nat → α) (work : Nat → α) (r c : Nat) :
    forLoop b
        (fun i a =>
          ap.set a i j
            (a i j - ap.vdotproduct (ap.rowFrom a i (j + 1)) (ap.vecFrom work (j + 1))
              (ap.vlen (j + 1) (n - 1))))
        a1 r c
      = if c = j ∧ r < b then
          a1 r j - ∑ l ∈ Finset.range n, (if j + 1 ≤ l then a1 r l * work l else 0)
        else a1 r c := by
  induction b generalizing r c with
  | zero =>
    rw [if_neg (by omega)]
    rfl
  | succ i ih =>
    have ih2 := fun r c => ih (by omega) r c
    rw [forLoop_succ]
    generalize forLoop i _ a1 = x at ih2 ⊢
    have hrow : ∀ l, x i l = a1 i l := by
      intro l
      rw [ih2 i l, if_neg (by omega)]
    simp only [ap.set]
    by_cases hrc : r = i ∧ c = j
    · have en : n - 1 + 1 = n := by omega
      rw [if_pos hrc, if_pos (show c = j ∧ r < i + 1 from ⟨hrc.2, by omega⟩), hrc.1,
        vdotproduct_from x work i (j + 1) (n - 1) (by omega), en, hrow j]
      congr 1
      apply Finset.sum_congr rfl
      intro l _
      rw [hrow l]
    · rw [if_neg hrc, ih2 r c]
      by_cases h1 : c = j ∧ r < i
      · rw [if_pos h1, if_pos (show c = j ∧ r < i + 1 from ⟨h1.1, by omega⟩)]
      · rw [if_neg h1, if_neg (show ¬ (c = j ∧ r < i + 1) by omega)]

/-- Column `j` of `inv(A)` as `rmatrixluinverse` computes it: the element of the inverse
of `U` (zero below the diagonal) minus the product of the columns of `inv(A)` found so far
with column `j` of `L`. -/
theorem rmatrixluinverse_column_apply (n j : Nat) (hj : j < n)
    (s : (Nat → Nat → α) × (Nat → α)) (r c : Nat) :
    (rmatrixluinverse_column n j s).1 r c
      = if c = j ∧ r < n then
          (if j < r then 0 else s.1 r j)
            - ∑ l ∈ Finset.range n, (if j < l then s.1 r l * s.1 l j else 0)
        else s.1 r c := by
  obtain ⟨h1, h2⟩ := rmatrixluinverse_clear j n s
  unfold rmatrixluinverse_column
  simp only []
  generalize forRange (j + 1) n
    (fun i (s : (Nat → Nat → α) × (Nat → α)) =>
      (ap.set s.1 i j 0, Function.update s.2 i (s.1 i j))) s = s1 at h1 h2 ⊢
  have hsum : (∑ l ∈ Finset.range n, if j + 1 ≤ l then s1.1 r l * s1.2 l else 0)
      = ∑ l ∈ Finset.range n, if j < l then s.1 r l * s.1 l j else 0 := by
    apply Finset.sum_congr rfl
    intro l hl
    have hln := Finset.mem_range.mp hl
    by_cases hjl : j < l
    · rw [if_pos (show j + 1 ≤ l from hjl), if_pos hjl, h1 r l, if_neg (by omega), h2 l,
        if_pos ⟨hjl, hln⟩]
    · rw [if_neg (show ¬ j + 1 ≤ l from hjl), if_neg hjl]
  by_cases hjn : j + 1 < n
  · rw [if_pos hjn]
    simp only []
    rw [rmatrixluinverse_rows n j n (by omega) (Nat.le_refl n) hj s1.1 s1.2 r c, hsum]
    by_cases hc : c = j ∧ r < n
    · rw [if_pos hc, if_pos hc, h1 r j]
      by_cases hr : j < r
      · rw [if_pos ⟨rfl, hr, hc.2⟩, if_pos hr]
      · rw [if_neg (by omega), if_neg hr]
    · rw [if_neg hc, if_neg hc, h1 r c, if_neg (by omega)]
  · rw [if_neg hjn]
    have hz : (∑ l ∈ Finset.range n, if j < l then s.1 r l * s.1 l j else 0) = 0 := by
      apply Finset.sum_eq_zero
      intro l hl
      have hln := Finset.mem_range.mp hl
      rw [if_neg (by omega)]
    rw [hz, sub_zero, h1 r c]
    by_cases hc : c = j ∧ r < n
    · rw [if_pos hc, if_neg (by omega), if_neg (by omega), hc.1]
    · rw [if_neg hc, if_neg (by omega)]

/-- The solution of `inv(A) * L = inv(U)` column by column from the last one: after the
columns from `n - d` on, these columns hold the solution, and the others are as they
were. -/
theorem rmatrixluinverse_column_loop (n : Nat) (s0 : (Nat → Nat → α) × (Nat → α)) (d : Nat)
    (hd : d ≤ n) :
    (∀ r c, c < n - d ∨ n ≤ c ∨ n ≤ r →
      (forLoop d (fun d => rmatrixluinverse_column n (n - 1 - d)) s0).1 r c = s0.1 r c)
    ∧ ∀ i c, i < n → n - d ≤ c → c < n →
      (forLoop d (fun d => rmatrixluinverse_column n (n - 1 - d)) s0).1 i c
        + (∑ l ∈ Finset.range n,
            if c < l
            then (forLoop d (fun d => rmatrixluinverse_column n (n - 1 - d)) s0).1 i l
              * s0.1 l c
            else 0)
        = if i ≤ c then s0.1 i c else 0 := by
  induction d with
  | zero =>
    exact ⟨fun r c _ => rfl, fun i c _ h1 h2 => absurd h2 (by omega)⟩
  | succ d ih =>
    obtain ⟨ih1, ih2⟩ := ih (by omega)
    rw [forLoop_succ]
    generalize forLoop d (fun d => rmatrixluinverse_column n (n - 1 - d)) s0 = s at ih1 ih2 ⊢
    have hj : n - 1 - d < n := by omega
    have hcol := rmatrixluinverse_column_apply n (n - 1 - d) hj s
    constructor
    · intro r c hrc
      rw [hcol r c, if_neg (by omega)]
      exact ih1 r c (by omega)
    · intro i c hi hc hcn
      have hsum : (∑ l ∈ Finset.range n,
          if c < l then (rmatrixluinverse_column n (n - 1 - d) s).1 i l * s0.1 l c else 0)
          = ∑ l ∈ Finset.range n, if c < l then s.1 i l * s0.1 l c else 0 := by
        apply Finset.sum_congr rfl
        intro l _
        by_cases hl : c < l
        · rw [if_pos hl, if_pos hl, hcol i l, if_neg (by omega)]
        · rw [if_neg hl, if_neg hl]
      rw [hsum, hcol i c]
      by_cases hcj : c = n - 1 - d
      · rw [if_pos ⟨hcj, hi⟩, ← hcj, ih1 i c (by omega)]
        have hsum2 : (∑ l ∈ Finset.range n, if c < l then s.1 i l * s.1 l c else 0)
            = ∑ l ∈ Finset.range n, if c < l then s.1 i l * s0.1 l c else 0 := by
          apply Finset.sum_congr rfl
          intro l _
          by_cases hl : c < l
          · rw [if_pos hl, if_pos hl, ih1 l c (by omega)]
          · rw [if_neg hl, if_neg hl]
        rw [hsum2, sub_add_cancel]
        by_cases hic : i ≤ c
        · rw [if_neg (by omega), if_pos hic]
        · rw [if_pos (by omega), if_neg hic]
      · rw [if_neg (fun h => hcj h.1)]
        exact ih2 i c hi (by omega) hcn

omit [LinearOrderedField α] in
/-- The interchange of the columns `p` and `q` in the first `n` rows, as `rmatrixluinverse`
performs it with `vmove` through `work`. -/
theorem rmatrixluinverse_interchange_apply (pivots : Nat → Nat) (n j : Nat)
    (s : (Nat → Nat → α) × (Nat → α)) (r c : Nat) :
    (rmatrixluinverse_interchange pivots n j s).1 r c
      = if r < n then s.1 r (Equiv.swap j (pivots j) c) else s.1 r c := by
  unfold rmatrixluinverse_interchange
  by_cases hp : pivots j = j
  · simp only [hp, ne_eq, not_true_eq_false, if_false, Equiv.swap_self, Equiv.refl_apply,
      ite_self]
  · simp only [ne_eq, hp, not_false_eq_true, if_true, ap.setColFrom, ap.vmove, ap.colFrom,
      ap.vecFrom, ap.setVecFrom, Nat.zero_le, and_true, Nat.sub_zero, Nat.zero_add]
    by_cases hr : r < n
    · simp only [hr, if_true]
      by_cases h1 : c = pivots j
      · subst h1
        simp [Equiv.swap_apply_right]
      · by_cases h2 : c = j
        · subst h2
          simp [h1, Equiv.swap_apply_left]
        · simp [h1, h2, Equiv.swap_apply_of_ne_of_ne h2 h1]
    · simp only [hr, if_false]
      by_cases h1 : c = pivots j
      · subst h1
        simp [hp]
      · by_cases h2 : c = j
        · subst h2
          simp [h1]
        · simp [h1, h2]

omit [LinearOrderedField α] in
/-- The interchanges of the columns in `rmatrixluinverse` from the last but one column
down: the columns are permuted by the inverse of the permutation of the rows the pivots
from column `m - d` to column `m - 1` stand for. -/
theorem rmatrixluinverse_interchange_loop (pivots : Nat → Nat) (n m : Nat)
    (s0 : (Nat → Nat → α) × (Nat → α)) (d : Nat) (hd : d ≤ m) :
    ∃ ρ : Equiv.Perm Nat,
      luPerm pivots m * ρ = luPerm pivots (m - d)
      ∧ ∀ r c,
        (forLoop d (fun d => rmatrixluinverse_interchange pivots n (m - 1 - d)) s0).1 r c
          = if r < n then s0.1 r (ρ c) else s0.1 r c := by
  induction d with
  | zero =>
    refine ⟨1, by simp, fun r c => ?_⟩
    simp only [Equiv.Perm.coe_one, id_eq, ite_self]
    rfl
  | succ d ih =>
    obtain ⟨ρ, h1, h2⟩ := ih (by omega)
    rw [forLoop_succ]
    generalize forLoop d (fun d => rmatrixluinverse_interchange pivots n (m - 1 - d)) s0 = s
      at h2 ⊢
    refine ⟨ρ * Equiv.swap (m - 1 - d) (pivots (m - 1 - d)), ?_, ?_⟩
    · have e : m - d = (m - 1 - d) + 1 := by omega
      have e2 : m - (d + 1) = m - 1 - d := by omega
      rw [← mul_assoc, h1, e, e2]
      simp only [luPerm]
      rw [mul_assoc, Equiv.swap_mul_self, mul_one]
    · intro r c
      rw [rmatrixluinverse_interchange_apply, h2, h2]
      by_cases hr : r < n
      · rw [if_pos hr, if_pos hr, if_pos hr, Equiv.Perm.mul_apply]
      · rw [if_neg hr, if_neg hr, if_neg hr]

end luinverse

section assembly

variable {α : Type} [LinearOrderedField α]

omit [LinearOrderedField α] in
theorem ap.toMatrix_apply (n : Nat) (f : Nat → Nat → α) (i j : Fin n) :
    ap.toMatrix n f i j = f i j := rfl

theorem ap.toMatrix_mul_apply (n : Nat) (f g : Nat → Nat → α) (i k : Fin n) :
    (ap.toMatrix n f * ap.toMatrix n g) i k = ∑ l ∈ Finset.range n, f i l * g l k := by
  rw [Matrix.mul_apply, ← Fin.sum_univ_eq_sum_range (fun l => f i l * g l k) n]
  rfl

theorem luPerm_inv_lt (p : Nat → Nat) (n : Nat) (hp : ∀ j, j < n → p j < n) (c : Nat)
    (hc : c < n) : (luPerm p n)⁻¹ c < n := by
  by_contra h
  have h2 := (luPerm_lt p n n (Nat.le_refl n) hp ((luPerm p n)⁻¹ c)).2 (by omega)
  rw [Equiv.Perm.apply_inv_self] at h2
  omega

/-- The decomposition `rmatrixlu` leaves in the array, as a product of matrices: in the
rows permuted by the pivots the matrix is `L * U`, with `L` the unit lower triangle and `U`
the upper triangle of the array. -/
theorem LuInv.product {n : Nat} {A0 a : Nat → Nat → α} {σ : Equiv.Perm Nat}
    (h : LuInv n n n A0 a σ) (i k : Nat) (hi : i < n) (hk : k < n) :
    A0 (σ i) k
      = ∑ l ∈ Finset.range n,
          (if l < i then a i l else if l = i then 1 else 0) * (if l ≤ k then a l k else 0) := by
  rw [h i hi k hk]
  have e : ∀ l, (if l < i then a i l else if l = i then 1 else 0) * (if l ≤ k then a l k else 0)
      = (if l < i ∧ l ≤ k then a i l * a l k else 0)
        + (if l = i then (if i ≤ k then a i k else 0) else 0) := by
    intro l
    by_cases h1 : l < i
    · by_cases h2 : l ≤ k
      · rw [if_pos h1, if_pos h2, if_pos ⟨h1, h2⟩, if_neg (by omega), add_zero]
      · rw [if_pos h1, if_neg h2, if_neg (by omega), if_neg (by omega), add_zero, mul_zero]
    · by_cases h3 : l = i
      · subst h3
        by_cases h2 : l ≤ k
        · rw [if_neg h1, if_pos rfl, if_pos h2, if_neg (by omega), if_pos rfl,
            one_mul, zero_add]
        · rw [if_neg h1, if_pos rfl, if_neg h2, if_neg (by omega), if_pos rfl,
            mul_zero, zero_add]
      · rw [if_neg h1, if_neg h3, zero_mul, if_neg (by omega), if_neg h3, add_zero]
  simp only [e]
  rw [Finset.sum_add_distrib, Finset.sum_ite_eq', if_pos (Finset.mem_range.mpr hi)]
  have : min i n = i := by omega
  rw [this]

/-- A matrix whose LU decomposition has a zero on the diagonal of `U` is singular. -/
theorem LuInv.det_eq_zero {n : Nat} {A0 a : Nat → Nat → α} {p : Nat → Nat}
    (h : LuInv n n n A0 a (luPerm p n)) (hp : ∀ j, j < n → p j < n)
    (hz : ∃ j, j < n ∧ a j j = 0) : (ap.toMatrix n A0).det = 0 := by
  have hprod : ap.toMatrix n A0
      = ap.toMatrix n (fun c l => if l = (luPerm p n)⁻¹ c then 1 else 0)
        * (ap.toMatrix n (fun i l => if l < i then a i l else if l = i then 1 else 0)
          * ap.toMatrix n (fun l k => if l ≤ k then a l k else 0)) := by
    ext c k
    have hlt := luPerm_inv_lt p n hp c.val c.isLt
    rw [Matrix.mul_apply, Finset.sum_eq_single (⟨(luPerm p n)⁻¹ c.val, hlt⟩ : Fin n)]
    · rw [ap.toMatrix_apply, ap.toMatrix_apply, if_pos rfl, one_mul, ap.toMatrix_mul_apply,
        ← h.product _ _ hlt k.isLt, Equiv.Perm.apply_inv_self]
    · intro j _ hj
      have hne : (j : Nat) ≠ (luPerm p n)⁻¹ c.val := fun e => hj (Fin.ext e)
      rw [ap.toMatrix_apply, if_neg hne, zero_mul]
    · intro hh
      exact absurd (Finset.mem_univ _) hh
  obtain ⟨j, hj, hjz⟩ := hz
  have hU : (ap.toMatrix n (fun l k => if l ≤ k then a l k else 0)).det = 0 := by
    rw [Matrix.det_of_upperTriangular]
    · apply Finset.prod_eq_zero (Finset.mem_univ (⟨j, hj⟩ : Fin n))
      rw [ap.toMatrix_apply, if_pos (Nat.le_refl j)]
      exact hjz
    · intro r c hrc
      rw [ap.toMatrix_apply, if_neg (by
        have : (c : Nat) < (r : Nat) := hrc
        omega)]
  rw [hprod, Matrix.det_mul, Matrix.det_mul, hU, mul_zero, mul_zero]

/-- The matrix `rmatrixluinverse` builds from an LU decomposition is a left inverse: with
`V` the inverse of the upper triangle, `X` the solution of `X * L = V`, and the columns of
`X` permuted back by the pivots, the product with the matrix is the identity. -/
theorem LuInv.left_inverse {n : Nat} {A0 a aT X R : Nat → Nat → α} {σ : Equiv.Perm Nat}
    (h : LuInv n n n A0 a σ) (hσ : ∀ r, n ≤ r → σ r = r)
    (hV : ∀ i k, i ≤ k → k < n →
      (∑ l ∈ Finset.range n, if i ≤ l ∧ l ≤ k then aT i l * a l k else 0)
        = if i = k then 1 else 0)
    (hframe : ∀ r c, c < r → aT r c = a r c)
    (hX : ∀ i c, i < n → c < n →
      X i c + (∑ l ∈ Finset.range n, if c < l then X i l * aT l c else 0)
        = if i ≤ c then aT i c else 0)
    (hR : ∀ r c, r < n → R r c = X r (σ⁻¹ c)) :
    ap.toMatrix n R * ap.toMatrix n A0 = 1 := by
  ext i k
  rw [ap.toMatrix_mul_apply, Matrix.one_apply]
  have hsupp : {x | σ x ≠ x} ⊆ ((Finset.range n : Finset Nat) : Set Nat) := by
    intro x hx
    by_contra hh
    have : n ≤ x := by simpa using hh
    exact hx (hσ x this)
  have e1 : (∑ c ∈ Finset.range n, R i c * A0 c k)
      = ∑ c ∈ Finset.range n, X i c * A0 (σ c) k := by
    rw [← Equiv.Perm.sum_comp σ (Finset.range n) (fun c => R i c * A0 c k) hsupp]
    apply Finset.sum_congr rfl
    intro c _
    rw [hR i (σ c) i.isLt, Equiv.Perm.inv_apply_self]
  have e2 : (∑ c ∈ Finset.range n, X i c * A0 (σ c) k)
      = ∑ l ∈ Finset.range n,
          (∑ c ∈ Finset.range n,
            X i c * (if l < c then a c l else if l = c then 1 else 0))
          * (if l ≤ k then a l k else 0) := by
    have : ∀ c ∈ Finset.range n, X i c * A0 (σ c) k
        = ∑ l ∈ Finset.range n,
          X i c * (if l < c then a c l else if l = c then 1 else 0)
            * (if l ≤ k then a l k else 0) := by
      intro c hc
      rw [h.product c k (Finset.mem_range.mp hc) k.isLt, Finset.mul_sum]
      apply Finset.sum_congr rfl
      intro l _
      rw [mul_assoc]
    rw [Finset.sum_congr rfl this, Finset.sum_comm]
    apply Finset.sum_congr rfl
    intro l _
    rw [Finset.sum_mul]
  have e3 : ∀ l, l < n →
      (∑ c ∈ Finset.range n, X i c * (if l < c then a c l else if l = c then 1 else 0))
        = if (i : Nat) ≤ l then aT i l else 0 := by
    intro l hl
    rw [← hX i l i.isLt hl]
    have : ∀ c, X i c * (if l < c then a c l else if l = c then 1 else 0)
        = (if c = l then X i l else 0) + (if l < c then X i c * aT c l else 0) := by
      intro c
      by_cases h1 : l < c
      · rw [if_pos h1, if_pos h1, if_neg (by omega), zero_add, hframe c l h1]
      · by_cases h2 : l = c
        · rw [if_neg h1, if_pos h2, if_neg h1, if_pos h2.symm, mul_one, add_zero, h2]
        · rw [if_neg h1, if_neg h2, if_neg h1, if_neg (fun e => h2 e.symm), mul_zero, add_zero]
    simp only [this]
    rw [Finset.sum_add_distrib, Finset.sum_ite_eq', if_pos (Finset.mem_range.mpr hl)]
  rw [e1, e2]
  have e4 : (∑ l ∈ Finset.range n,
      (∑ c ∈ Finset.range n, X i c * (if l < c then a c l else if l = c then 1 else 0))
        * (if l ≤ k then a l k else 0))
      = ∑ l ∈ Finset.range n, if (i : Nat) ≤ l ∧ l ≤ k then aT i l * a l k else 0 := by
    apply Finset.sum_congr rfl
    intro l hl
    rw [e3 l (Finset.mem_range.mp hl)]
    by_cases h1 : (i : Nat) ≤ l
    · by_cases h2 : l ≤ (k : Nat)
      · simp only [h1, h2, and_self, if_true]
      · simp only [h1, h2, and_false, if_true, if_false, mul_zero]
    · simp only [h1, false_and, if_false, zero_mul]
  rw [e4]
  by_cases hik : (i : Nat) ≤ k
  · rw [hV i k hik k.isLt]
    by_cases e : i = k
    · rw [if_pos e, if_pos (by rw [e])]
    · rw [if_neg e, if_neg (fun e2 => e (Fin.ext e2))]
  · have : i ≠ k := by
      intro e
      rw [e] at hik
      exact hik (Nat.le_refl _)
    rw [if_neg this]
    apply Finset.sum_eq_zero
    intro l _
    rw [if_neg (by omega)]

/-- The function `rmatrixluinverse` on an LU decomposition of `A0`: when it returns true
the array holds a left inverse of `A0`, and when it returns false `A0` is singular. -/
theorem rmatrixluinverse_spec (mem : InvMem α) (A0 a : Nat → Nat → α) (pivots : Nat → Nat)
    (n : Nat) (hp : ∀ j, j < n → j ≤ pivots j ∧ pivots j < n)
    (h : LuInv n n n A0 a (luPerm pivots n)) :
    ((rmatrixluinverse mem a pivots n).2 = true →
        ap.toMatrix n (rmatrixluinverse mem a pivots n).1 * ap.toMatrix n A0 = 1)
    ∧ ((rmatrixluinverse mem a pivots n).2 = false → (ap.toMatrix n A0).det = 0) := by
  unfold rmatrixluinverse
  by_cases hn : n = 0
  · subst hn
    rw [if_pos rfl]
    refine ⟨fun _ => ?_, fun hh => Bool.noConfusion hh⟩
    ext i
    exact Fin.elim0 i
  · rw [if_neg hn]
    simp only []
    obtain ⟨ht1, ht2⟩ := rmatrixtrinverse_upper_spec mem.t a n
    by_cases hres : (rmatrixtrinverse mem.t a n true false).2 = true
    · rw [if_neg (not_not.mpr hres)]
      refine ⟨fun _ => ?_, fun hh => Bool.noConfusion hh⟩
      obtain ⟨hframe, hV⟩ := ht2 hres
      obtain ⟨_, hX⟩ := rmatrixluinverse_column_loop n
        ((rmatrixtrinverse mem.t a n true false).1, mem.work) n (Nat.le_refl n)
      obtain ⟨ρ, hρ, hR⟩ := rmatrixluinverse_interchange_loop pivots n (n - 1)
        (forDown n (rmatrixluinverse_column n)
          ((rmatrixtrinverse mem.t a n true false).1, mem.work)) (n - 1) (Nat.le_refl _)
      have hlast : pivots (n - 1) = n - 1 := by
        have := hp (n - 1) (by omega)
        omega
      have hperm : luPerm pivots n = luPerm pivots (n - 1) := by
        have e : n = (n - 1) + 1 := by omega
        conv_lhs => rw [e]
        simp only [luPerm]
        rw [hlast, Equiv.swap_self]
        rfl
      have hρ2 : ρ = (luPerm pivots n)⁻¹ := by
        rw [Nat.sub_self] at hρ
        rw [hperm]
        exact eq_inv_of_mul_eq_one_right hρ
      refine LuInv.left_inverse h
        (fun r hr => (luPerm_lt pivots n n (Nat.le_refl n) (fun j hj => (hp j hj).2) r).2 hr)
        hV (fun r c hrc => hframe r c (Or.inr hrc))
        (fun i c hi hc => hX i c hi (by omega) hc) ?_
      intro r c hr
      show (forLoop (n - 1) (fun d => rmatrixluinverse_interchange pivots n (n - 1 - 1 - d))
        (forDown n (rmatrixluinverse_column n)
          ((rmatrixtrinverse mem.t a n true false).1, mem.work))).1 r c = _
      rw [hR r c, if_pos hr, hρ2]
      rfl
    · have hres2 : (rmatrixtrinverse mem.t a n true false).2 = false := by
        cases hh : (rmatrixtrinverse mem.t a n true false).2
        · rfl
        · exact absurd hh hres
      rw [if_pos hres]
      refine ⟨fun hh => Bool.noConfusion hh, fun _ => ?_⟩
      exact h.det_eq_zero (fun j hj => (hp j hj).2) (ht1.mp hres2)

/-- The function `rmatrixinverse` on the elements of the array: when it returns true the
array holds a left inverse of the matrix it held, and when it returns false that matrix is
singular. -/
theorem rmatrixinverse_elem_spec (mem : InvMem α) (a : Nat → Nat → α) (n : Nat) :
    ((rmatrixinverse_elem mem a n).2 = true →
        ap.toMatrix n (rmatrixinverse_elem mem a n).1 * ap.toMatrix n a = 1)
    ∧ ((rmatrixinverse_elem mem a n).2 = false → (ap.toMatrix n a).det = 0) := by
  obtain ⟨h1, h2⟩ := rmatrixlu_spec mem a n n
  rw [Nat.min_self] at h1 h2
  exact rmatrixluinverse_spec mem a (rmatrixlu mem a n n).1 (rmatrixlu mem a n n).2 n h1 h2

end assembly

namespace ESNPrediction

section ridge

variable {α : Type} [LinearOrderedField α]

/-- The regularised correlation matrix as a product of matrices: `A' * A + 0.2 * I`. -/
theorem regularised_toMatrix (n rowsA : Nat) (mem : Nat → Nat → α) (A : real_2d_array α) :
    (regularised n rowsA mem A).toMatrix n
      = (Matrix.of fun (r : Fin rowsA) (i : Fin n) => A.elem r i).transpose
          * (Matrix.of fun (r : Fin rowsA) (i : Fin n) => A.elem r i)
        + (0.2 : α) • (1 : Matrix (Fin n) (Fin n) α) := by
  ext i j
  rw [real_2d_array.toMatrix, ap.toMatrix_apply, regularised_elem n rowsA mem A i j i.isLt j.isLt,
    Matrix.add_apply, Matrix.mul_apply, Matrix.smul_apply, Matrix.one_apply,
    ← Fin.sum_univ_eq_sum_range (fun r => A.elem r i * A.elem r j) rowsA]
  congr 1
  by_cases h : i = j
  · rw [if_pos h, if_pos (by rw [h])]
    simp
  · rw [if_neg h, if_neg (fun e => h (Fin.ext e))]
    simp

/-- The regularised correlation matrix is positive definite. -/
theorem regularised_posDef (n rowsA : Nat) (mem : Nat → Nat → α) (A : real_2d_array α)
    (x : Fin n → α) (hx : x ≠ 0) :
    0 < Matrix.dotProduct x (Matrix.mulVec ((regularised n rowsA mem A).toMatrix n) x) := by
  rw [regularised_toMatrix, Matrix.add_mulVec, Matrix.dotProduct_add, ← Matrix.mulVec_mulVec,
    Matrix.dotProduct_mulVec, Matrix.vecMul_transpose, Matrix.smul_mulVec_assoc,
    Matrix.one_mulVec, Matrix.dotProduct_smul]
  have h1 : 0 ≤ Matrix.dotProduct
      (Matrix.mulVec (Matrix.of fun (r : Fin rowsA) (i : Fin n) => A.elem r i) x)
      (Matrix.mulVec (Matrix.of fun (r : Fin rowsA) (i : Fin n) => A.elem r i) x) :=
    Finset.sum_nonneg (fun i _ => mul_self_nonneg _)
  have h2 : 0 < Matrix.dotProduct x x := by
    have h3 : 0 ≤ Matrix.dotProduct x x := Finset.sum_nonneg (fun i _ => mul_self_nonneg _)
    rcases h3.lt_or_eq with h | h
    · exact h
    · exact absurd (Matrix.dotProduct_self_eq_zero.mp h.symm) hx
  have h4 : (0 : α) < 0.2 := by norm_num
  have h5 : 0 < (0.2 : α) • Matrix.dotProduct x x := by
    rw [smul_eq_mul]
    exact mul_pos h4 h2
  exact add_pos_of_nonneg_of_pos h1 h5

/-- The regularised correlation matrix is not singular. -/
theorem regularised_det_ne_zero (n rowsA : Nat) (mem : Nat → Nat → α) (A : real_2d_array α) :
    ((regularised n rowsA mem A).toMatrix n).det ≠ 0 := by
  intro hdet
  obtain ⟨v, hv, hv0⟩ := Matrix.exists_mulVec_eq_zero_iff.mpr hdet
  have := regularised_posDef n rowsA mem A v hv
  rw [hv0, Matrix.dotProduct_zero] at this
  exact lt_irrefl _ this

end ridge

end ESNPrediction

section claims

variable {α : Type} [LinearOrderedField α]

/-- C31: for every `n` and every `n` by `n` matrix over exact arithmetic, `rmatrixinverse`
returns true exactly when the matrix is not singular, so for a singular matrix it returns
false; and when it returns true, the array holds the inverse of the matrix it held:
the original times the result is the identity. -/
theorem rmatrixinverse_correct (mem : InvMem α) (a : real_2d_array α) (n : Nat) :
    ((rmatrixinverse mem a n).2 = true ↔ (a.toMatrix n).det ≠ 0)
    ∧ ((a.toMatrix n).det = 0 → (rmatrixinverse mem a n).2 = false)
    ∧ ((rmatrixinverse mem a n).2 = true →
        a.toMatrix n * (rmatrixinverse mem a n).1.toMatrix n = 1) := by
  obtain ⟨h1, h2⟩ := rmatrixinverse_elem_spec mem a.elem n
  have hleft : (rmatrixinverse mem a n).2 = true →
      (rmatrixinverse mem a n).1.toMatrix n * a.toMatrix n = 1 := fun hres => h1 hres
  have hdet : (rmatrixinverse mem a n).2 = true → (a.toMatrix n).det ≠ 0 := by
    intro hres hzero
    have := congrArg Matrix.det (hleft hres)
    rw [Matrix.det_mul, hzero, mul_zero, Matrix.det_one] at this
    exact zero_ne_one this
  refine ⟨⟨hdet, fun hne => ?_⟩, fun hzero => ?_, fun hres =>
    Matrix.mul_eq_one_comm.mp (hleft hres)⟩
  · cases hh : (rmatrixinverse mem a n).2
    · exact absurd (h2 hh) hne
    · rfl
  · cases hh : (rmatrixinverse mem a n).2
    · rfl
    · exact absurd hzero (hdet hh)

theorem rmatrixinverse_correct_witness :
    (rmatrixinverse exampleInvMem exampleSquare 2).2 = true
    ∧ exampleSquare.toMatrix 2 * (rmatrixinverse exampleInvMem exampleSquare 2).1.toMatrix 2
        = 1 :=
  ⟨by decide!, (rmatrixinverse_correct exampleInvMem exampleSquare 2).2.2 (by decide!)⟩

end claims

namespace ESNPrediction

section claims

variable {α : Type} [LinearOrderedField α]

/-- C34: the matrix `A' * A + 0.2 * I` that `RidgeRegression` passes to the inverse
collaborator is, for every design matrix `A` with any number of rows and elements of any
magnitude, symmetric and positive definite, hence not singular, and `rmatrixinverse`
returns true on it: the singular outcome cannot occur in exact arithmetic. -/
theorem RidgeRegression_never_singular (mem : InvMem α) (n rowsA : Nat)
    (memAtA : Nat → Nat → α) (A : real_2d_array α) :
    (∀ i, i < n → ∀ j, j < n →
      (regularised n rowsA memAtA A).elem i j = (regularised n rowsA memAtA A).elem j i)
    ∧ (∀ x : Fin n → α, x ≠ 0 →
      0 < Matrix.dotProduct x
        (Matrix.mulVec ((regularised n rowsA memAtA A).toMatrix n) x))
    ∧ ((regularised n rowsA memAtA A).toMatrix n).det ≠ 0
    ∧ (rmatrixinverse mem (regularised n rowsA memAtA A) n).2 = true := by
  refine ⟨?_, regularised_posDef n rowsA memAtA A, regularised_det_ne_zero n rowsA memAtA A, ?_⟩
  swap
  · cases hh : (rmatrixinverse mem (regularised n rowsA memAtA A) n).2
    · exact absurd ((rmatrixinverse_elem_spec mem (regularised n rowsA memAtA A).elem n).2 hh)
        (regularised_det_ne_zero n rowsA memAtA A)
    · rfl
  intro i hi j hj
  rw [regularised_elem n rowsA memAtA A i j hi hj, regularised_elem n rowsA memAtA A j i hj hi]
  congr 1
  · apply Finset.sum_congr rfl
    intro r _
    rw [mul_comm]
  · by_cases h : i = j
    · rw [if_pos h, if_pos h.symm]
    · rw [if_neg h, if_neg (fun e => h e.symm)]

theorem RidgeRegression_never_singular_witness :
    (0 : ℚ) < Matrix.dotProduct (fun _ => (1 : ℚ))
        (Matrix.mulVec ((regularised 1 2 (fun _ _ => 0) exampleDesign).toMatrix 1)
          (fun _ => 1))
    ∧ (rmatrixinverse exampleInvMem (regularised 1 2 (fun _ _ => 0) exampleDesign) 1).2 = true :=
  ⟨(RidgeRegression_never_singular exampleInvMem 1 2 (fun _ _ => 0) exampleDesign).2.1
      (fun _ => 1) (fun h => one_ne_zero (congrFun h 0)),
    (RidgeRegression_never_singular exampleInvMem 1 2 (fun _ _ => 0) exampleDesign).2.2.2⟩

end claims

end ESNPrediction
